import Mathlib

/-!
Shallow embedding of the fastmorph stencil engine (fastmorph.hpp and the
serial helpers in fastmorphops.cpp) together with the specification-side
definitions needed to settle the claims.

Conventions of the embedding:

* Volumes are Fortran-ordered linear buffers modelled as functions
  `Nat → Nat` (`labels` read-only, `output` updated functionally).
  The element type `LABEL` is instantiated with `Nat`; the multilabel
  operators only use equality, `≠ 0` and ascending order of labels, so this
  is faithful for every unsigned instantiation.  The grayscale operators
  additionally use the numeric limits of the type, which are passed
  explicitly (`MINL`, `MAXL`), matching an unsigned instantiation such as
  `uint8_t` (`MINL = 0`, `MAXL = 255`).
* `loc(x,y,z) = x + sx*(y + sy*z)` exactly as in the source.
* The C++ loop indices are `uint64_t`.  The only places where the source
  relies on unsigned wraparound are (a) the argument `x-1` of a column
  fill at `x = 0`, which wraps to `2^64-1` and is rejected by the
  `xi >= sx` bound check — modelled by giving the column index type `Int`
  and rejecting `xi < 0`, which is equivalent for every reachable call —
  and (b) the driver's `s - offset`, modelled by `u64sub` below.
* Every `for` loop with internal index jumps (`x++`, `x += 2` inside the
  body) is modelled by structural recursion on a fuel argument that is an
  upper bound on the remaining iterations; each iteration consumes one
  unit of fuel and advances `x` by at least one, so fuel `xe - xs` makes
  the fuel exit coincide with the `x ≥ xe` exit.
-/

namespace Fastmorph

/-- Functional store update: `upd f i v` is the buffer `f` with index `i`
overwritten by `v`. -/
def upd (f : Nat → Nat) (i v : Nat) : Nat → Nat :=
  fun j => if j = i then v else f j

/-- Ascending sort, the embedding of `std::sort` on a vector of labels
(equal labels are indistinguishable, so stability is irrelevant). -/
def sortL (l : List Nat) : List Nat :=
  List.insertionSort (fun a b => a ≤ b) l

/-- Wrapping `uint64_t` subtraction, used only for the driver's
`s - offset`. -/
def u64sub (a b : Nat) : Nat :=
  if b ≤ a then a - b else 2 ^ 64 - (b - a)

/-! ## The mode scan

Embedding of the run-length scan over the sorted `neighbors` vector in
`multilabel_dilate` (fastmorph.hpp lines 252-274).  It returns the pair
`(mode_label, ct)` where `ct` is the value of the `ct` variable when the
loop stops; the caller's lookahead test reads it.  The early `break` fires
when fewer elements remain than the current maximum run; after a break the
trailing `if (ct > max_ct)` is vacuous because `ct = 1 ≤ max_ct`, so the
branch returns the current best directly. -/
def scanAux : Nat → Nat → Nat → Nat → List Nat → Nat × Nat
  | prev, ct, maxct, mode, [] =>
      (if maxct < ct then prev else mode, ct)
  | prev, ct, maxct, mode, cur :: rest =>
      if cur ≠ prev then
        let mode2 := if maxct < ct then prev else mode
        let maxct2 := if maxct < ct then ct else maxct
        if rest.length + 1 < maxct2 then (mode2, 1)
        else scanAux cur 1 maxct2 mode2 rest
      else scanAux cur (ct + 1) maxct mode rest

/-- `modeScanBreak ns` is `(mode_label, ct)` for a (sorted, nonempty)
neighbor vector `ns`; the `[]` case is unreachable in the engine. -/
def modeScanBreak : List Nat → Nat × Nat
  | [] => (0, 1)
  | n0 :: rest => scanAux n0 1 1 n0 rest

/-! ## Specification-side mode

The spec describes the mode as: sort ascending, scan run lengths, update
the best label only when a run count strictly exceeds the running maximum,
and compare the final run with strict `>`.  `modeRun` is that scan without
the engine's early-exit optimisation. -/
def modeRun : Nat → Nat → Nat → Nat → List Nat → Nat
  | prev, ct, maxct, mode, [] => if maxct < ct then prev else mode
  | prev, ct, maxct, mode, cur :: rest =>
      if cur ≠ prev then
        modeRun cur 1 (if maxct < ct then ct else maxct)
          (if maxct < ct then prev else mode) rest
      else modeRun cur (ct + 1) maxct mode rest

/-- Mode of a multiset of labels: sort ascending and scan; `0` for the
empty multiset. -/
def specMode (l : List Nat) : Nat :=
  match sortL l with
  | [] => 0
  | n0 :: rest => modeRun n0 1 1 n0 rest

/-! ## Specification-side neighborhoods

`colNb lab sx sy sz xi y z` is the list of nonzero labels of the in-bounds
cells of the 3-cell-high, 3-cell-deep column at `x`-position `xi` centered
on `(y,z)` — one `x`-slice of the 3×3×3 stencil.  The enumeration order is
irrelevant (everything is sorted before use). -/
def cellNb (lab : Nat → Nat) (sx sy sz : Nat) (xi yi zi : Int) : List Nat :=
  if 0 ≤ xi ∧ xi < (sx : Int) ∧ 0 ≤ yi ∧ yi < (sy : Int) ∧ 0 ≤ zi ∧ zi < (sz : Int) ∧
      lab (xi.toNat + sx * (yi.toNat + sy * zi.toNat)) ≠ 0 then
    [lab (xi.toNat + sx * (yi.toNat + sy * zi.toNat))]
  else []

def colNb (lab : Nat → Nat) (sx sy sz : Nat) (xi : Int) (y z : Nat) : List Nat :=
  cellNb lab sx sy sz xi y z ++
  cellNb lab sx sy sz xi ((y : Int) - 1) z ++
  cellNb lab sx sy sz xi ((y : Int) + 1) z ++
  cellNb lab sx sy sz xi y ((z : Int) - 1) ++
  cellNb lab sx sy sz xi y ((z : Int) + 1) ++
  cellNb lab sx sy sz xi ((y : Int) - 1) ((z : Int) - 1) ++
  cellNb lab sx sy sz xi ((y : Int) + 1) ((z : Int) - 1) ++
  cellNb lab sx sy sz xi ((y : Int) - 1) ((z : Int) + 1) ++
  cellNb lab sx sy sz xi ((y : Int) + 1) ((z : Int) + 1)

/-- Nonzero labels of the in-bounds 3×3×3 neighborhood of `(x,y,z)`. -/
def nbhd3 (lab : Nat → Nat) (sx sy sz : Nat) (x y z : Nat) : List Nat :=
  colNb lab sx sy sz ((x : Int) - 1) y z ++ colNb lab sx sy sz (x : Int) y z ++
    colNb lab sx sy sz ((x : Int) + 1) y z

/-- The multilabel-dilation contract for one voxel: copy a nonzero voxel
when `background_only`, otherwise the mode of the nonzero labels of the
in-bounds 3×3×3 neighborhood (`0` when there are none). -/
def dilateSpec3 (lab : Nat → Nat) (sx sy sz : Nat) (bg : Bool) (x y z : Nat) : Nat :=
  let loc := x + sx * (y + sy * z)
  if bg ∧ lab loc ≠ 0 then lab loc
  else specMode (nbhd3 lab sx sy sz x y z)

/-- 2D column of the 3×3 stencil: nonzero labels of the in-bounds cells at
`x`-position `xi`, rows `y-1..y+1`. -/
def cellNb2 (lab : Nat → Nat) (sx sy : Nat) (xi yi : Int) : List Nat :=
  if 0 ≤ xi ∧ xi < (sx : Int) ∧ 0 ≤ yi ∧ yi < (sy : Int) ∧
      lab (xi.toNat + sx * yi.toNat) ≠ 0 then
    [lab (xi.toNat + sx * yi.toNat)]
  else []

def colNb2 (lab : Nat → Nat) (sx sy : Nat) (xi : Int) (y : Nat) : List Nat :=
  cellNb2 lab sx sy xi y ++
  cellNb2 lab sx sy xi ((y : Int) - 1) ++
  cellNb2 lab sx sy xi ((y : Int) + 1)

/-- Nonzero labels of the in-bounds 3×3 neighborhood of `(x,y)`. -/
def nbhd2 (lab : Nat → Nat) (sx sy : Nat) (x y : Nat) : List Nat :=
  colNb2 lab sx sy ((x : Int) - 1) y ++ colNb2 lab sx sy (x : Int) y ++
    colNb2 lab sx sy ((x : Int) + 1) y

/-- The 2D multilabel-dilation contract for one voxel. -/
def dilateSpec2 (lab : Nat → Nat) (sx sy : Nat) (bg : Bool) (x y : Nat) : Nat :=
  let loc := x + sx * y
  if bg ∧ lab loc ≠ 0 then lab loc
  else specMode (nbhd2 lab sx sy x y)

/-- Value of one in-bounds cell (empty list when out of bounds). -/
def cellVal (lab : Nat → Nat) (sx sy sz : Nat) (xi yi zi : Int) : List Nat :=
  if 0 ≤ xi ∧ xi < (sx : Int) ∧ 0 ≤ yi ∧ yi < (sy : Int) ∧ 0 ≤ zi ∧ zi < (sz : Int) then
    [lab (xi.toNat + sx * (yi.toNat + sy * zi.toNat))]
  else []

/-- One 9-cell column of in-bounds values. -/
def colVal (lab : Nat → Nat) (sx sy sz : Nat) (xi : Int) (y z : Nat) : List Nat :=
  cellVal lab sx sy sz xi y z ++
  cellVal lab sx sy sz xi ((y : Int) - 1) z ++
  cellVal lab sx sy sz xi ((y : Int) + 1) z ++
  cellVal lab sx sy sz xi y ((z : Int) - 1) ++
  cellVal lab sx sy sz xi y ((z : Int) + 1) ++
  cellVal lab sx sy sz xi ((y : Int) - 1) ((z : Int) - 1) ++
  cellVal lab sx sy sz xi ((y : Int) + 1) ((z : Int) - 1) ++
  cellVal lab sx sy sz xi ((y : Int) - 1) ((z : Int) + 1) ++
  cellVal lab sx sy sz xi ((y : Int) + 1) ((z : Int) + 1)

/-- Values (zero or not) of the in-bounds cells of the full 3×3×3
neighborhood of `(x,y,z)`, the center included. -/
def nbhdVals3 (lab : Nat → Nat) (sx sy sz : Nat) (x y z : Nat) : List Nat :=
  colVal lab sx sy sz ((x : Int) - 1) y z ++ colVal lab sx sy sz (x : Int) y z ++
    colVal lab sx sy sz ((x : Int) + 1) y z

/-- Value of one in-bounds cell of a 2D volume. -/
def cellVal2 (lab : Nat → Nat) (sx sy : Nat) (xi yi : Int) : List Nat :=
  if 0 ≤ xi ∧ xi < (sx : Int) ∧ 0 ≤ yi ∧ yi < (sy : Int) then
    [lab (xi.toNat + sx * yi.toNat)]
  else []

/-- One 3-cell column of in-bounds values of a 2D volume. -/
def colVal2 (lab : Nat → Nat) (sx sy : Nat) (xi : Int) (y : Nat) : List Nat :=
  cellVal2 lab sx sy xi y ++
  cellVal2 lab sx sy xi ((y : Int) - 1) ++
  cellVal2 lab sx sy xi ((y : Int) + 1)

/-- Values of the in-bounds cells of the full 3×3 neighborhood of `(x,y)`. -/
def nbhdVals2 (lab : Nat → Nat) (sx sy : Nat) (x y : Nat) : List Nat :=
  colVal2 lab sx sy ((x : Int) - 1) y ++ colVal2 lab sx sy (x : Int) y ++
    colVal2 lab sx sy ((x : Int) + 1) y

/-- The 3D multilabel-erosion contract for one voxel (border trimmed): the
voxel survives iff it is nonzero, the whole 3×3×3 stencil is in-bounds
(the voxel is strictly interior) and every stencil cell carries the
voxel's label. -/
def erodeSpec3 (lab : Nat → Nat) (sx sy sz : Nat) (x y z : Nat) : Nat :=
  let loc := x + sx * (y + sy * z)
  if lab loc ≠ 0 ∧ 1 ≤ x ∧ x + 1 < sx ∧ 1 ≤ y ∧ y + 1 < sy ∧ 1 ≤ z ∧ z + 1 < sz ∧
      (nbhdVals3 lab sx sy sz x y z).all (fun v => v = lab loc) then
    lab loc
  else 0

/-- The 2D multilabel-erosion contract for one voxel (border trimmed). -/
def erodeSpec2 (lab : Nat → Nat) (sx sy : Nat) (x y : Nat) : Nat :=
  let loc := x + sx * y
  if lab loc ≠ 0 ∧ 1 ≤ x ∧ x + 1 < sx ∧ 1 ≤ y ∧ y + 1 < sy ∧
      (nbhdVals2 lab sx sy x y).all (fun v => v = lab loc) then
    lab loc
  else 0

/-- Values of the in-bounds cells of the 3×3×3 neighborhood, unfiltered —
used to state the grayscale contract (max for dilation, min for erosion). -/
def nbhdMax3 (lab : Nat → Nat) (sx sy sz : Nat) (x y z : Nat) : Nat :=
  (nbhdVals3 lab sx sy sz x y z).foldr max 0

/-! ## 3D multilabel dilation engine (fastmorph.hpp lines 49-298) -/

/-- `fill_partial_stencil_fn`: nonzero labels of the 9-cell column at
`x`-position `xi`, in push order (center, y±1, z±1, four diagonals). -/
def fill_partial_stencil_fn (lab : Nat → Nat) (sx sy sz : Nat)
    (xi : Int) (yi zi : Nat) : List Nat :=
  if xi < 0 ∨ (sx : Int) ≤ xi then []
  else
    let sxy := sx * sy
    let loc := xi.toNat + sx * (yi + sy * zi)
    (if lab loc ≠ 0 then [lab loc] else []) ++
    (if 0 < yi ∧ lab (loc - sx) ≠ 0 then [lab (loc - sx)] else []) ++
    (if yi < sy - 1 ∧ lab (loc + sx) ≠ 0 then [lab (loc + sx)] else []) ++
    (if 0 < zi ∧ lab (loc - sxy) ≠ 0 then [lab (loc - sxy)] else []) ++
    (if zi < sz - 1 ∧ lab (loc + sxy) ≠ 0 then [lab (loc + sxy)] else []) ++
    (if 0 < yi ∧ 0 < zi ∧ lab (loc - sx - sxy) ≠ 0 then [lab (loc - sx - sxy)] else []) ++
    (if yi < sy - 1 ∧ 0 < zi ∧ lab (loc + sx - sxy) ≠ 0 then [lab (loc + sx - sxy)] else []) ++
    (if 0 < yi ∧ zi < sz - 1 ∧ lab (loc - sx + sxy) ≠ 0 then [lab (loc - sx + sxy)] else []) ++
    (if yi < sy - 1 ∧ zi < sz - 1 ∧ lab (loc + sx + sxy) ≠ 0 then [lab (loc + sx + sxy)] else [])

/-- `fill_partial_stencil_fast_fn`: only the `z+1` slab of the column. -/
def fill_partial_stencil_fast_fn (lab : Nat → Nat) (sx sy sz : Nat)
    (xi : Int) (yi zi : Nat) : List Nat :=
  if xi < 0 ∨ (sx : Int) ≤ xi then []
  else
    let sxy := sx * sy
    let loc := xi.toNat + sx * (yi + sy * zi)
    (if zi < sz - 1 ∧ lab (loc + sxy) ≠ 0 then [lab (loc + sxy)] else []) ++
    (if 0 < yi ∧ zi < sz - 1 ∧ lab (loc - sx + sxy) ≠ 0 then [lab (loc - sx + sxy)] else []) ++
    (if yi < sy - 1 ∧ zi < sz - 1 ∧ lab (loc + sx + sxy) ≠ 0 then [lab (loc + sx + sxy)] else [])

/-- One row (`x`-loop at fixed `y`, `z`) of the 3D `multilabel_dilate`
`process_block`.  State: current `x`, the stale counter, the three column
vectors and the output buffer. -/
def mdRow (lab : Nat → Nat) (sx sy sz : Nat) (bg : Bool) (zs xe y z : Nat) :
    Nat → Nat → Nat → List Nat → List Nat → List Nat → (Nat → Nat) →
    (List Nat × List Nat × List Nat) × (Nat → Nat)
  | 0, _, _, L, M, R, out => ((L, M, R), out)
  | fuel + 1, x, stale, L, M, R, out =>
    if x < xe then
      let sxy := sx * sy
      let loc := x + sx * (y + sy * z)
      if bg ∧ lab loc ≠ 0 then
        mdRow lab sx sy sz bg zs xe y z fuel (x + 1) (stale + 1) L M R
          (upd out loc (lab loc))
      else
        let LMR :=
          if zs < z ∧ out (loc - sxy) = 0 then
            if stale = 1 then
              (M, R, fill_partial_stencil_fast_fn lab sx sy sz ((x : Int) + 1) y z)
            else if stale = 2 then
              (R, fill_partial_stencil_fast_fn lab sx sy sz (x : Int) y z,
                fill_partial_stencil_fast_fn lab sx sy sz ((x : Int) + 1) y z)
            else if 3 ≤ stale then
              (fill_partial_stencil_fast_fn lab sx sy sz ((x : Int) - 1) y z,
                fill_partial_stencil_fast_fn lab sx sy sz (x : Int) y z,
                fill_partial_stencil_fast_fn lab sx sy sz ((x : Int) + 1) y z)
            else (L, M, R)
          else
            if stale = 1 then
              (M, R, fill_partial_stencil_fn lab sx sy sz ((x : Int) + 1) y z)
            else if stale = 2 then
              (R, fill_partial_stencil_fn lab sx sy sz (x : Int) y z,
                fill_partial_stencil_fn lab sx sy sz ((x : Int) + 1) y z)
            else if 3 ≤ stale then
              (fill_partial_stencil_fn lab sx sy sz ((x : Int) - 1) y z,
                fill_partial_stencil_fn lab sx sy sz (x : Int) y z,
                fill_partial_stencil_fn lab sx sy sz ((x : Int) + 1) y z)
            else (L, M, R)
        let L1 := LMR.1
        let M1 := LMR.2.1
        let R1 := LMR.2.2
        if L1.length + M1.length + R1.length = 0 then
          mdRow lab sx sy sz bg zs xe y z fuel (x + 1) 1 L1 M1 R1 out
        else
          let M2 := sortL M1
          let R2 := sortL R1
          if 14 ≤ R2.length + M2.length ∧ R2.getD 0 0 = R2.getD (R2.length - 1) 0 ∧
              M2.getD 0 0 = M2.getD (M2.length - 1) 0 ∧ R2.getD 0 0 = M2.getD 0 0 then
            let v := R2.getD 0 0
            if x < sx - 1 then
              mdRow lab sx sy sz bg zs xe y z fuel (x + 2) 2 L1 M2 R2
                (upd (upd out loc v) (loc + 1) v)
            else
              mdRow lab sx sy sz bg zs xe y z fuel (x + 1) 1 L1 M2 R2 (upd out loc v)
          else
            let ns := sortL (L1 ++ M2 ++ R2)
            if ns.getD 0 0 = ns.getD (ns.length - 1) 0 then
              let v := ns.getD 0 0
              if 23 ≤ ns.length ∧ x < sx - 1 then
                mdRow lab sx sy sz bg zs xe y z fuel (x + 2) 2 L1 M2 R2
                  (upd (upd out loc v) (loc + 1) v)
              else
                mdRow lab sx sy sz bg zs xe y z fuel (x + 1) 1 L1 M2 R2 (upd out loc v)
            else
              let mc := modeScanBreak ns
              if 23 ≤ mc.2 ∧ x < sx - 1 then
                mdRow lab sx sy sz bg zs xe y z fuel (x + 2) 2 L1 M2 R2
                  (upd (upd out loc mc.1) (loc + 1) mc.1)
              else
                mdRow lab sx sy sz bg zs xe y z fuel (x + 1) 1 L1 M2 R2
                  (upd out loc mc.1)
    else ((L, M, R), out)

/-- The `y` loop of the 3D dilate `process_block`; `stale_stencil` is reset
to 3 at the start of every row. -/
def mdYLoop (lab : Nat → Nat) (sx sy sz : Nat) (bg : Bool) (zs xs xe z : Nat) :
    Nat → Nat → (List Nat × List Nat × List Nat) × (Nat → Nat) →
    (List Nat × List Nat × List Nat) × (Nat → Nat)
  | 0, _, st => st
  | fy + 1, y, st =>
      mdYLoop lab sx sy sz bg zs xs xe z fy (y + 1)
        (mdRow lab sx sy sz bg zs xe y z (xe - xs) xs 3 st.1.1 st.1.2.1 st.1.2.2 st.2)

/-- The `z` loop of the 3D dilate `process_block`. -/
def mdZLoop (lab : Nat → Nat) (sx sy sz : Nat) (bg : Bool) (zs xs xe ys ye : Nat) :
    Nat → Nat → (List Nat × List Nat × List Nat) × (Nat → Nat) →
    (List Nat × List Nat × List Nat) × (Nat → Nat)
  | 0, _, st => st
  | fz + 1, z, st =>
      mdZLoop lab sx sy sz bg zs xs xe ys ye fz (z + 1)
        (mdYLoop lab sx sy sz bg zs xs xe z (ye - ys) ys st)

/-- `process_block` of the 3D `multilabel_dilate`. -/
def mdBlock (lab : Nat → Nat) (sx sy sz : Nat) (bg : Bool)
    (xs xe ys ye zs ze : Nat) (out : Nat → Nat) : Nat → Nat :=
  (mdZLoop lab sx sy sz bg zs xs xe ys ye (ze - zs) zs (([], [], []), out)).2

/-! ## Block partitioner (`parallelize_blocks`, fastmorph.hpp lines 12-46) -/

/-- Block edge length: 64 for 3D (`sz > 1`), 512 for 2D. -/
def blockSize (sz : Nat) : Nat := if 1 < sz then 64 else 512

/-- Grid dimension along one axis: `⌈s / bs⌉`, at least 1. -/
def gridDim (s bs : Nat) : Nat := max ((s + bs - 1) / bs) 1

/-- Bounds of grid cell `(gx,gy,gz)` exactly as enqueued by
`parallelize_blocks`: start `max(offset, g·bs)`, end
`min((g+1)·bs, s - offset)` with wrapping `uint64_t` subtraction. -/
def blockBounds (sx sy sz offset bs gx gy gz : Nat) :
    Nat × Nat × Nat × Nat × Nat × Nat :=
  (max offset (gx * bs), min ((gx + 1) * bs) (u64sub sx offset),
    max offset (gy * bs), min ((gy + 1) * bs) (u64sub sy offset),
    max offset (gz * bs), min ((gz + 1) * bs) (u64sub sz offset))

/-- The blocks in the order the driver enqueues them (gz outer, gx inner). -/
def blockList (sx sy sz offset : Nat) : List (Nat × Nat × Nat × Nat × Nat × Nat) :=
  let bs := blockSize sz
  (List.range (gridDim sz bs)).flatMap fun gz =>
    (List.range (gridDim sy bs)).flatMap fun gy =>
      (List.range (gridDim sx bs)).map fun gx =>
        blockBounds sx sy sz offset bs gx gy gz

/-- `parallelize_blocks` with a given execution order of the enqueued
blocks (the thread pool executes each block exactly once, in some order;
the canonical order is `blockList` itself). -/
def runBlocks (process : Nat → Nat → Nat → Nat → Nat → Nat → (Nat → Nat) → Nat → Nat)
    (blocks : List (Nat × Nat × Nat × Nat × Nat × Nat)) (out : Nat → Nat) : Nat → Nat :=
  blocks.foldl (fun o b => process b.1 b.2.1 b.2.2.1 b.2.2.2.1 b.2.2.2.2.1 b.2.2.2.2.2 o) out

/-- Entry point `fastmorph::multilabel_dilate` (3D): dilate `lab` into the
caller's pre-zeroed buffer `out`.  The worker count only sizes the thread
pool in the source and does not influence which blocks run. -/
def multilabel_dilate3 (lab : Nat → Nat) (out : Nat → Nat) (sx sy sz : Nat)
    (bg : Bool) : Nat → Nat :=
  runBlocks (fun axs axe ays aye azs aze o => mdBlock lab sx sy sz bg axs axe ays aye azs aze o)
    (blockList sx sy sz 0) out

/-! ## 2D multilabel dilation engine (fastmorph.hpp lines 300-465) -/

/-- 2D `fill_partial_stencil_fn`: nonzero labels of the 3-cell column. -/
def fill_col2 (lab : Nat → Nat) (sx sy : Nat) (xi : Int) (yi : Nat) : List Nat :=
  if xi < 0 ∨ (sx : Int) ≤ xi then []
  else
    let loc := xi.toNat + sx * yi
    (if lab loc ≠ 0 then [lab loc] else []) ++
    (if 0 < yi ∧ lab (loc - sx) ≠ 0 then [lab (loc - sx)] else []) ++
    (if yi < sy - 1 ∧ lab (loc + sx) ≠ 0 then [lab (loc + sx)] else [])

/-- One row of the 2D `multilabel_dilate` `process_block`: no cross-z fast
path, pair threshold 5, no all-uniform branch, lookahead at `ct ≥ 8`. -/
def md2Row (lab : Nat → Nat) (sx sy : Nat) (bg : Bool) (xe y : Nat) :
    Nat → Nat → Nat → List Nat → List Nat → List Nat → (Nat → Nat) →
    (List Nat × List Nat × List Nat) × (Nat → Nat)
  | 0, _, _, L, M, R, out => ((L, M, R), out)
  | fuel + 1, x, stale, L, M, R, out =>
    if x < xe then
      let loc := x + sx * y
      if bg ∧ lab loc ≠ 0 then
        md2Row lab sx sy bg xe y fuel (x + 1) (stale + 1) L M R (upd out loc (lab loc))
      else
        let LMR :=
          if stale = 1 then (M, R, fill_col2 lab sx sy ((x : Int) + 1) y)
          else if stale = 2 then
            (R, fill_col2 lab sx sy (x : Int) y, fill_col2 lab sx sy ((x : Int) + 1) y)
          else if 3 ≤ stale then
            (fill_col2 lab sx sy ((x : Int) - 1) y, fill_col2 lab sx sy (x : Int) y,
              fill_col2 lab sx sy ((x : Int) + 1) y)
          else (L, M, R)
        let L1 := LMR.1
        let M1 := LMR.2.1
        let R1 := LMR.2.2
        if L1.length + M1.length + R1.length = 0 then
          md2Row lab sx sy bg xe y fuel (x + 1) 1 L1 M1 R1 out
        else
          let M2 := sortL M1
          let R2 := sortL R1
          if 5 ≤ R2.length + M2.length ∧ R2.getD 0 0 = R2.getD (R2.length - 1) 0 ∧
              M2.getD 0 0 = M2.getD (M2.length - 1) 0 ∧ R2.getD 0 0 = M2.getD 0 0 then
            let v := R2.getD 0 0
            if x < sx - 1 then
              md2Row lab sx sy bg xe y fuel (x + 2) 2 L1 M2 R2
                (upd (upd out loc v) (loc + 1) v)
            else
              md2Row lab sx sy bg xe y fuel (x + 1) 1 L1 M2 R2 (upd out loc v)
          else
            let ns := sortL (L1 ++ M2 ++ R2)
            let mc := modeScanBreak ns
            if 8 ≤ mc.2 ∧ x < sx - 1 then
              md2Row lab sx sy bg xe y fuel (x + 2) 2 L1 M2 R2
                (upd (upd out loc mc.1) (loc + 1) mc.1)
            else
              md2Row lab sx sy bg xe y fuel (x + 1) 1 L1 M2 R2 (upd out loc mc.1)
    else ((L, M, R), out)

/-- The `y` loop of the 2D dilate `process_block` (the `zs`,`ze` arguments
of the block are unused by the 2D kernels). -/
def md2YLoop (lab : Nat → Nat) (sx sy : Nat) (bg : Bool) (xs xe : Nat) :
    Nat → Nat → (List Nat × List Nat × List Nat) × (Nat → Nat) →
    (List Nat × List Nat × List Nat) × (Nat → Nat)
  | 0, _, st => st
  | fy + 1, y, st =>
      md2YLoop lab sx sy bg xs xe fy (y + 1)
        (md2Row lab sx sy bg xe y (xe - xs) xs 3 st.1.1 st.1.2.1 st.1.2.2 st.2)

/-- `process_block` of the 2D `multilabel_dilate`. -/
def md2Block (lab : Nat → Nat) (sx sy : Nat) (bg : Bool)
    (xs xe ys ye _zs _ze : Nat) (out : Nat → Nat) : Nat → Nat :=
  (md2YLoop lab sx sy bg xs xe (ye - ys) ys (([], [], []), out)).2

/-- Entry point `fastmorph::multilabel_dilate` (2D): the driver is called
with `sz = 1`, `offset = 0`. -/
def multilabel_dilate2 (lab : Nat → Nat) (out : Nat → Nat) (sx sy : Nat)
    (bg : Bool) : Nat → Nat :=
  runBlocks (fun axs axe ays aye azs aze o => md2Block lab sx sy bg axs axe ays aye azs aze o)
    (blockList sx sy 1 0) out

/-! ## 3D multilabel erosion engine (fastmorph.hpp lines 467-619) -/

/-- `is_pure`: the label at `(xi,y,z)` if its 9-cell column is in-bounds
and uniformly that (nonzero) label, else 0.  The source computes
`labels[loc] * (bounds-and-equality conjunction)`. -/
def is_pure (lab : Nat → Nat) (sx sy sz : Nat) (xi : Int) (yi zi : Nat) : Nat :=
  if xi < 0 ∨ (sx : Int) ≤ xi then 0
  else
    let sxy := sx * sy
    let loc := xi.toNat + sx * (yi + sy * zi)
    if lab loc ≠ 0 ∧
        (0 < yi ∧ lab (loc - sx) = lab loc) ∧
        (yi < sy - 1 ∧ lab (loc + sx) = lab loc) ∧
        (0 < zi ∧ lab (loc - sxy) = lab loc) ∧
        (zi < sz - 1 ∧ lab (loc + sxy) = lab loc) ∧
        (0 < yi ∧ 0 < zi ∧ lab (loc - sx - sxy) = lab loc) ∧
        (yi < sy - 1 ∧ 0 < zi ∧ lab (loc + sx - sxy) = lab loc) ∧
        (0 < yi ∧ zi < sz - 1 ∧ lab (loc - sx + sxy) = lab loc) ∧
        (yi < sy - 1 ∧ zi < sz - 1 ∧ lab (loc + sx + sxy) = lab loc) then
      lab loc
    else 0

/-- `is_pure_fast_z`: only the `z+1` slab of the column is rechecked. -/
def is_pure_fast_z (lab : Nat → Nat) (sx sy sz : Nat) (xi : Int) (yi zi : Nat) : Nat :=
  if xi < 0 ∨ (sx : Int) ≤ xi then 0
  else
    let sxy := sx * sy
    let loc := xi.toNat + sx * (yi + sy * zi)
    if (zi < sz - 1 ∧ lab (loc + sxy) = lab loc) ∧
        (0 < yi ∧ zi < sz - 1 ∧ lab (loc - sx + sxy) = lab loc) ∧
        (yi < sy - 1 ∧ zi < sz - 1 ∧ lab (loc + sx + sxy) = lab loc) then
      lab loc
    else 0

/-- `is_pure_fast_y`: only the `y+1` slab of the column is rechecked. -/
def is_pure_fast_y (lab : Nat → Nat) (sx sy sz : Nat) (xi : Int) (yi zi : Nat) : Nat :=
  if xi < 0 ∨ (sx : Int) ≤ xi then 0
  else
    let sxy := sx * sy
    let loc := xi.toNat + sx * (yi + sy * zi)
    if (yi < sy - 1 ∧ lab (loc + sx) = lab loc) ∧
        (yi < sy - 1 ∧ 0 < zi ∧ lab (loc + sx - sxy) = lab loc) ∧
        (yi < sy - 1 ∧ zi < sz - 1 ∧ lab (loc + sx + sxy) = lab loc) then
      lab loc
    else 0

/-- Common tail of one erode iteration after the stencil update: returns
the updated output together with the `x` advance and the next stale value.
Mirrors fastmorph.hpp lines 588-604 (the advance includes the loop's own
`x++`). -/
def meTail (lab : Nat → Nat) (loc : Nat) (pl pm pr : Nat) (out : Nat → Nat) :
    (Nat → Nat) × Nat × Nat :=
  if pr = 0 then (out, 3, 3)
  else if pm = 0 then (out, 2, 2)
  else if pl = pm ∧ pm = pr then (upd out loc (lab loc), 1, 1)
  else (out, 1, 1)

/-- One row of the 3D `multilabel_erode` `process_block`. -/
def meRow (lab : Nat → Nat) (sx sy sz : Nat) (zs ys xe y z : Nat) :
    Nat → Nat → Nat → Nat → Nat → Nat → (Nat → Nat) →
    (Nat × Nat × Nat) × (Nat → Nat)
  | 0, _, _, pl, pm, pr, out => ((pl, pm, pr), out)
  | fuel + 1, x, stale, pl, pm, pr, out =>
    if x < xe then
      let sxy := sx * sy
      let loc := x + sx * (y + sy * z)
      if lab loc = 0 then
        meRow lab sx sy sz zs ys xe y z fuel (x + 2) (stale + 2) pl pm pr out
      else
        let fn : Int → Nat → Nat → Nat :=
          if zs < z ∧ out (loc - sxy) = lab loc then is_pure_fast_z lab sx sy sz
          else if ys < y ∧ out (loc - sx) = lab loc then is_pure_fast_y lab sx sy sz
          else is_pure lab sx sy sz
        if stale = 1 then
          let pr1 := fn ((x : Int) + 1) y z
          let t := meTail lab loc pm pr pr1 out
          meRow lab sx sy sz zs ys xe y z fuel (x + t.2.1) t.2.2 pm pr pr1 t.1
        else if 3 ≤ stale then
          let pr1 := fn ((x : Int) + 1) y z
          if pr1 = 0 then
            meRow lab sx sy sz zs ys xe y z fuel (x + 3) 3 pl pm pr1 out
          else
            let pm1 := fn (x : Int) y z
            if pm1 = 0 then
              meRow lab sx sy sz zs ys xe y z fuel (x + 2) 2 pl pm1 pr1 out
            else
              let pl1 := fn ((x : Int) - 1) y z
              let t := meTail lab loc pl1 pm1 pr1 out
              meRow lab sx sy sz zs ys xe y z fuel (x + t.2.1) t.2.2 pl1 pm1 pr1 t.1
        else if stale = 2 then
          let pl1 := pr
          let pr1 := fn ((x : Int) + 1) y z
          if pr1 = 0 then
            meRow lab sx sy sz zs ys xe y z fuel (x + 3) 3 pl1 pm pr1 out
          else
            let pm1 := fn (x : Int) y z
            let t := meTail lab loc pl1 pm1 pr1 out
            meRow lab sx sy sz zs ys xe y z fuel (x + t.2.1) t.2.2 pl1 pm1 pr1 t.1
        else
          let t := meTail lab loc pl pm pr out
          meRow lab sx sy sz zs ys xe y z fuel (x + t.2.1) t.2.2 pl pm pr t.1
    else ((pl, pm, pr), out)

/-- The `y` loop of the 3D erode `process_block`. -/
def meYLoop (lab : Nat → Nat) (sx sy sz : Nat) (zs ys xs xe z : Nat) :
    Nat → Nat → (Nat × Nat × Nat) × (Nat → Nat) → (Nat × Nat × Nat) × (Nat → Nat)
  | 0, _, st => st
  | fy + 1, y, st =>
      meYLoop lab sx sy sz zs ys xs xe z fy (y + 1)
        (meRow lab sx sy sz zs ys xe y z (xe - xs) xs 3 st.1.1 st.1.2.1 st.1.2.2 st.2)

/-- The `z` loop of the 3D erode `process_block`. -/
def meZLoop (lab : Nat → Nat) (sx sy sz : Nat) (zs ys xs xe ye : Nat) :
    Nat → Nat → (Nat × Nat × Nat) × (Nat → Nat) → (Nat × Nat × Nat) × (Nat → Nat)
  | 0, _, st => st
  | fz + 1, z, st =>
      meZLoop lab sx sy sz zs ys xs xe ye fz (z + 1)
        (meYLoop lab sx sy sz zs ys xs xe z (ye - ys) ys st)

/-- `process_block` of the 3D `multilabel_erode`. -/
def meBlock (lab : Nat → Nat) (sx sy sz : Nat)
    (xs xe ys ye zs ze : Nat) (out : Nat → Nat) : Nat → Nat :=
  (meZLoop lab sx sy sz zs ys xs xe ye (ze - zs) zs ((0, 0, 0), out)).2

/-- Entry point `fastmorph::multilabel_erode` (3D); the driver trims the
border with `offset = 1`. -/
def multilabel_erode3 (lab : Nat → Nat) (out : Nat → Nat) (sx sy sz : Nat) : Nat → Nat :=
  runBlocks (fun axs axe ays aye azs aze o => meBlock lab sx sy sz axs axe ays aye azs aze o)
    (blockList sx sy sz 1) out

/-! ## 2D multilabel erosion engine (fastmorph.hpp lines 621-722) -/

/-- 2D `is_pure`: the label if the 3-cell column is in-bounds and uniform. -/
def is_pure2 (lab : Nat → Nat) (sx sy : Nat) (xi : Int) (yi : Nat) : Nat :=
  if xi < 0 ∨ (sx : Int) ≤ xi then 0
  else
    let loc := xi.toNat + sx * yi
    if lab loc ≠ 0 ∧ (0 < yi ∧ lab (loc - sx) = lab loc) ∧
        (yi < sy - 1 ∧ lab (loc + sx) = lab loc) then
      lab loc
    else 0

/-- One row of the 2D `multilabel_erode` `process_block`. -/
def me2Row (lab : Nat → Nat) (sx sy : Nat) (xe y : Nat) :
    Nat → Nat → Nat → Nat → Nat → Nat → (Nat → Nat) →
    (Nat × Nat × Nat) × (Nat → Nat)
  | 0, _, _, pl, pm, pr, out => ((pl, pm, pr), out)
  | fuel + 1, x, stale, pl, pm, pr, out =>
    if x < xe then
      let loc := x + sx * y
      if lab loc = 0 then
        me2Row lab sx sy xe y fuel (x + 2) (stale + 2) pl pm pr out
      else
        if stale = 1 then
          let pr1 := is_pure2 lab sx sy ((x : Int) + 1) y
          let t := meTail lab loc pm pr pr1 out
          me2Row lab sx sy xe y fuel (x + t.2.1) t.2.2 pm pr pr1 t.1
        else if 3 ≤ stale then
          let pr1 := is_pure2 lab sx sy ((x : Int) + 1) y
          if pr1 = 0 then
            me2Row lab sx sy xe y fuel (x + 3) 3 pl pm pr1 out
          else
            let pm1 := is_pure2 lab sx sy (x : Int) y
            if pm1 = 0 then
              me2Row lab sx sy xe y fuel (x + 2) 2 pl pm1 pr1 out
            else
              let pl1 := is_pure2 lab sx sy ((x : Int) - 1) y
              let t := meTail lab loc pl1 pm1 pr1 out
              me2Row lab sx sy xe y fuel (x + t.2.1) t.2.2 pl1 pm1 pr1 t.1
        else if stale = 2 then
          let pl1 := pr
          let pr1 := is_pure2 lab sx sy ((x : Int) + 1) y
          if pr1 = 0 then
            me2Row lab sx sy xe y fuel (x + 3) 3 pl1 pm pr1 out
          else
            let pm1 := is_pure2 lab sx sy (x : Int) y
            let t := meTail lab loc pl1 pm1 pr1 out
            me2Row lab sx sy xe y fuel (x + t.2.1) t.2.2 pl1 pm1 pr1 t.1
        else
          let t := meTail lab loc pl pm pr out
          me2Row lab sx sy xe y fuel (x + t.2.1) t.2.2 pl pm pr t.1
    else ((pl, pm, pr), out)

/-- The `y` loop of the 2D erode `process_block`. -/
def me2YLoop (lab : Nat → Nat) (sx sy : Nat) (xs xe : Nat) :
    Nat → Nat → (Nat × Nat × Nat) × (Nat → Nat) → (Nat × Nat × Nat) × (Nat → Nat)
  | 0, _, st => st
  | fy + 1, y, st =>
      me2YLoop lab sx sy xs xe fy (y + 1)
        (me2Row lab sx sy xe y (xe - xs) xs 3 st.1.1 st.1.2.1 st.1.2.2 st.2)

/-- `process_block` of the 2D `multilabel_erode`. -/
def me2Block (lab : Nat → Nat) (sx sy : Nat)
    (xs xe ys ye _zs _ze : Nat) (out : Nat → Nat) : Nat → Nat :=
  (me2YLoop lab sx sy xs xe (ye - ys) ys ((0, 0, 0), out)).2

/-- Entry point `fastmorph::multilabel_erode` (2D); `sz = 1`, `offset = 1`. -/
def multilabel_erode2 (lab : Nat → Nat) (out : Nat → Nat) (sx sy : Nat) : Nat → Nat :=
  runBlocks (fun axs axe ays aye azs aze o => me2Block lab sx sy axs axe ays aye azs aze o)
    (blockList sx sy 1 1) out

/-! ## Grayscale engines (fastmorph.hpp lines 724-1231)

`MINL`/`MAXL` are `std::numeric_limits<LABEL>::min()/max()` of the
instantiated element type; for an unsigned type `MINL = 0`. -/

/-- `get_max`: maximum of the in-bounds cells of the 9-cell column,
starting from `MINL` (the numeric minimum), or `MINL` if `xi` is out of
bounds. -/
def get_max3 (lab : Nat → Nat) (sx sy sz MINL : Nat) (xi : Int) (yi zi : Nat) : Nat :=
  if xi < 0 ∨ (sx : Int) ≤ xi then MINL
  else
    let sxy := sx * sy
    let loc := xi.toNat + sx * (yi + sy * zi)
    let m0 := max MINL (lab loc)
    let m1 := if 0 < yi then max m0 (lab (loc - sx)) else m0
    let m2 := if yi < sy - 1 then max m1 (lab (loc + sx)) else m1
    let m3 := if 0 < zi then max m2 (lab (loc - sxy)) else m2
    let m4 := if zi < sz - 1 then max m3 (lab (loc + sxy)) else m3
    let m5 := if 0 < yi ∧ 0 < zi then max m4 (lab (loc - sx - sxy)) else m4
    let m6 := if yi < sy - 1 ∧ 0 < zi then max m5 (lab (loc + sx - sxy)) else m5
    let m7 := if 0 < yi ∧ zi < sz - 1 then max m6 (lab (loc - sx + sxy)) else m6
    if yi < sy - 1 ∧ zi < sz - 1 then max m7 (lab (loc + sx + sxy)) else m7

/-- `get_min`: minimum of the in-bounds cells, starting from `MAXL`. -/
def get_min3 (lab : Nat → Nat) (sx sy sz MAXL : Nat) (xi : Int) (yi zi : Nat) : Nat :=
  if xi < 0 ∨ (sx : Int) ≤ xi then MAXL
  else
    let sxy := sx * sy
    let loc := xi.toNat + sx * (yi + sy * zi)
    let m0 := min MAXL (lab loc)
    let m1 := if 0 < yi then min m0 (lab (loc - sx)) else m0
    let m2 := if yi < sy - 1 then min m1 (lab (loc + sx)) else m1
    let m3 := if 0 < zi then min m2 (lab (loc - sxy)) else m2
    let m4 := if zi < sz - 1 then min m3 (lab (loc + sxy)) else m3
    let m5 := if 0 < yi ∧ 0 < zi then min m4 (lab (loc - sx - sxy)) else m4
    let m6 := if yi < sy - 1 ∧ 0 < zi then min m5 (lab (loc + sx - sxy)) else m5
    let m7 := if 0 < yi ∧ zi < sz - 1 then min m6 (lab (loc - sx + sxy)) else m6
    if yi < sy - 1 ∧ zi < sz - 1 then min m7 (lab (loc + sx + sxy)) else m7

/-- Common tail of one grayscale iteration: sentinel skips, then the
max/min of the three column aggregates is written.  `comb` is the
column-combining operator (`max` for dilate, `min` for erode) and `SENT`
the saturation sentinel.  Returns the updated output, the `x` advance and
the next stale value. -/
def gTail (comb : Nat → Nat → Nat) (SENT loc : Nat) (ml mm mr : Nat) (out : Nat → Nat) :
    (Nat → Nat) × Nat × Nat :=
  if mr = SENT then (out, 3, 3)
  else if mm = SENT then (out, 2, 2)
  else (upd out loc (comb (comb ml mm) mr), 1, 1)

/-- One row of a grayscale 3D `process_block`; `g` is the column aggregate
function (`get_max3`/`get_min3` applied to the volume), `comb` and `SENT`
as in `gTail`. -/
def gRow (lab : Nat → Nat) (sx sy : Nat) (g : Int → Nat → Nat → Nat)
    (comb : Nat → Nat → Nat) (SENT : Nat) (xe y z : Nat) :
    Nat → Nat → Nat → Nat → Nat → Nat → (Nat → Nat) →
    (Nat × Nat × Nat) × (Nat → Nat)
  | 0, _, _, ml, mm, mr, out => ((ml, mm, mr), out)
  | fuel + 1, x, stale, ml, mm, mr, out =>
    if x < xe then
      let loc := x + sx * (y + sy * z)
      if lab loc = SENT then
        gRow lab sx sy g comb SENT xe y z fuel (x + 2) (stale + 2) ml mm mr out
      else
        if stale = 1 then
          let mr1 := g ((x : Int) + 1) y z
          let t := gTail comb SENT loc mm mr mr1 out
          gRow lab sx sy g comb SENT xe y z fuel (x + t.2.1) t.2.2 mm mr mr1 t.1
        else if 3 ≤ stale then
          let mr1 := g ((x : Int) + 1) y z
          if mr1 = SENT then
            gRow lab sx sy g comb SENT xe y z fuel (x + 3) 3 ml mm mr1 out
          else
            let mm1 := g (x : Int) y z
            if mm1 = SENT then
              gRow lab sx sy g comb SENT xe y z fuel (x + 2) 2 ml mm1 mr1 out
            else
              let ml1 := g ((x : Int) - 1) y z
              let t := gTail comb SENT loc ml1 mm1 mr1 out
              gRow lab sx sy g comb SENT xe y z fuel (x + t.2.1) t.2.2 ml1 mm1 mr1 t.1
        else if stale = 2 then
          let ml1 := mr
          let mr1 := g ((x : Int) + 1) y z
          if mr1 = SENT then
            gRow lab sx sy g comb SENT xe y z fuel (x + 3) 3 ml1 mm mr1 out
          else
            let mm1 := g (x : Int) y z
            let t := gTail comb SENT loc ml1 mm1 mr1 out
            gRow lab sx sy g comb SENT xe y z fuel (x + t.2.1) t.2.2 ml1 mm1 mr1 t.1
        else
          let t := gTail comb SENT loc ml mm mr out
          gRow lab sx sy g comb SENT xe y z fuel (x + t.2.1) t.2.2 ml mm mr t.1
    else ((ml, mm, mr), out)

/-- The `y` loop of a grayscale 3D `process_block`; the aggregates are
initialized to the sentinel at block entry and `stale = 3` at each row
start makes them recomputed before every use. -/
def gYLoop (lab : Nat → Nat) (sx sy : Nat) (g : Int → Nat → Nat → Nat)
    (comb : Nat → Nat → Nat) (SENT xs xe z : Nat) :
    Nat → Nat → (Nat × Nat × Nat) × (Nat → Nat) → (Nat × Nat × Nat) × (Nat → Nat)
  | 0, _, st => st
  | fy + 1, y, st =>
      gYLoop lab sx sy g comb SENT xs xe z fy (y + 1)
        (gRow lab sx sy g comb SENT xe y z (xe - xs) xs 3 st.1.1 st.1.2.1 st.1.2.2 st.2)

/-- The `z` loop of a grayscale 3D `process_block`. -/
def gZLoop (lab : Nat → Nat) (sx sy : Nat) (g : Int → Nat → Nat → Nat)
    (comb : Nat → Nat → Nat) (SENT xs xe ys ye : Nat) :
    Nat → Nat → (Nat × Nat × Nat) × (Nat → Nat) → (Nat × Nat × Nat) × (Nat → Nat)
  | 0, _, st => st
  | fz + 1, z, st =>
      gZLoop lab sx sy g comb SENT xs xe ys ye fz (z + 1)
        (gYLoop lab sx sy g comb SENT xs xe z (ye - ys) ys st)

/-- `process_block` of the 3D `grey_dilate`. -/
def gdBlock (lab : Nat → Nat) (sx sy sz MINL MAXL : Nat)
    (xs xe ys ye zs ze : Nat) (out : Nat → Nat) : Nat → Nat :=
  (gZLoop lab sx sy (get_max3 lab sx sy sz MINL) max MAXL xs xe ys ye
    (ze - zs) zs ((MAXL, MAXL, MAXL), out)).2

/-- `process_block` of the 3D `grey_erode`. -/
def geBlock (lab : Nat → Nat) (sx sy sz MINL MAXL : Nat)
    (xs xe ys ye zs ze : Nat) (out : Nat → Nat) : Nat → Nat :=
  (gZLoop lab sx sy (get_min3 lab sx sy sz MAXL) min MINL xs xe ys ye
    (ze - zs) zs ((MINL, MINL, MINL), out)).2

/-- Entry point `fastmorph::grey_dilate` (3D). -/
def grey_dilate3 (lab : Nat → Nat) (out : Nat → Nat) (sx sy sz MINL MAXL : Nat) :
    Nat → Nat :=
  runBlocks (fun axs axe ays aye azs aze o =>
      gdBlock lab sx sy sz MINL MAXL axs axe ays aye azs aze o)
    (blockList sx sy sz 0) out

/-- Entry point `fastmorph::grey_erode` (3D). -/
def grey_erode3 (lab : Nat → Nat) (out : Nat → Nat) (sx sy sz MINL MAXL : Nat) :
    Nat → Nat :=
  runBlocks (fun axs axe ays aye azs aze o =>
      geBlock lab sx sy sz MINL MAXL axs axe ays aye azs aze o)
    (blockList sx sy sz 0) out

/-- 2D `get_max`. -/
def get_max2 (lab : Nat → Nat) (sx sy MINL : Nat) (xi : Int) (yi : Nat) : Nat :=
  if xi < 0 ∨ (sx : Int) ≤ xi then MINL
  else
    let loc := xi.toNat + sx * yi
    let m0 := max MINL (lab loc)
    let m1 := if 0 < yi then max m0 (lab (loc - sx)) else m0
    if yi < sy - 1 then max m1 (lab (loc + sx)) else m1

/-- 2D `get_min`. -/
def get_min2 (lab : Nat → Nat) (sx sy MAXL : Nat) (xi : Int) (yi : Nat) : Nat :=
  if xi < 0 ∨ (sx : Int) ≤ xi then MAXL
  else
    let loc := xi.toNat + sx * yi
    let m0 := min MAXL (lab loc)
    let m1 := if 0 < yi then min m0 (lab (loc - sx)) else m0
    if yi < sy - 1 then min m1 (lab (loc + sx)) else m1

/-- One row of a grayscale 2D `process_block`. -/
def g2Row (lab : Nat → Nat) (sx : Nat) (g : Int → Nat → Nat)
    (comb : Nat → Nat → Nat) (SENT : Nat) (xe y : Nat) :
    Nat → Nat → Nat → Nat → Nat → Nat → (Nat → Nat) →
    (Nat × Nat × Nat) × (Nat → Nat)
  | 0, _, _, ml, mm, mr, out => ((ml, mm, mr), out)
  | fuel + 1, x, stale, ml, mm, mr, out =>
    if x < xe then
      let loc := x + sx * y
      if lab loc = SENT then
        g2Row lab sx g comb SENT xe y fuel (x + 2) (stale + 2) ml mm mr out
      else
        if stale = 1 then
          let mr1 := g ((x : Int) + 1) y
          let t := gTail comb SENT loc mm mr mr1 out
          g2Row lab sx g comb SENT xe y fuel (x + t.2.1) t.2.2 mm mr mr1 t.1
        else if 3 ≤ stale then
          let mr1 := g ((x : Int) + 1) y
          if mr1 = SENT then
            g2Row lab sx g comb SENT xe y fuel (x + 3) 3 ml mm mr1 out
          else
            let mm1 := g (x : Int) y
            if mm1 = SENT then
              g2Row lab sx g comb SENT xe y fuel (x + 2) 2 ml mm1 mr1 out
            else
              let ml1 := g ((x : Int) - 1) y
              let t := gTail comb SENT loc ml1 mm1 mr1 out
              g2Row lab sx g comb SENT xe y fuel (x + t.2.1) t.2.2 ml1 mm1 mr1 t.1
        else if stale = 2 then
          let ml1 := mr
          let mr1 := g ((x : Int) + 1) y
          if mr1 = SENT then
            g2Row lab sx g comb SENT xe y fuel (x + 3) 3 ml1 mm mr1 out
          else
            let mm1 := g (x : Int) y
            let t := gTail comb SENT loc ml1 mm1 mr1 out
            g2Row lab sx g comb SENT xe y fuel (x + t.2.1) t.2.2 ml1 mm1 mr1 t.1
        else
          let t := gTail comb SENT loc ml mm mr out
          g2Row lab sx g comb SENT xe y fuel (x + t.2.1) t.2.2 ml mm mr t.1
    else ((ml, mm, mr), out)

/-- The `y` loop of a grayscale 2D `process_block`. -/
def g2YLoop (lab : Nat → Nat) (sx : Nat) (g : Int → Nat → Nat)
    (comb : Nat → Nat → Nat) (SENT xs xe : Nat) :
    Nat → Nat → (Nat × Nat × Nat) × (Nat → Nat) → (Nat × Nat × Nat) × (Nat → Nat)
  | 0, _, st => st
  | fy + 1, y, st =>
      g2YLoop lab sx g comb SENT xs xe fy (y + 1)
        (g2Row lab sx g comb SENT xe y (xe - xs) xs 3 st.1.1 st.1.2.1 st.1.2.2 st.2)

/-- `process_block` of the 2D `grey_dilate`. -/
def gd2Block (lab : Nat → Nat) (sx sy MINL MAXL : Nat)
    (xs xe ys ye _zs _ze : Nat) (out : Nat → Nat) : Nat → Nat :=
  (g2YLoop lab sx (get_max2 lab sx sy MINL) max MAXL xs xe (ye - ys) ys
    ((MAXL, MAXL, MAXL), out)).2

/-- `process_block` of the 2D `grey_erode`. -/
def ge2Block (lab : Nat → Nat) (sx sy MINL MAXL : Nat)
    (xs xe ys ye _zs _ze : Nat) (out : Nat → Nat) : Nat → Nat :=
  (g2YLoop lab sx (get_min2 lab sx sy MAXL) min MINL xs xe (ye - ys) ys
    ((MINL, MINL, MINL), out)).2

/-- Entry point `fastmorph::grey_dilate` (2D). -/
def grey_dilate2 (lab : Nat → Nat) (out : Nat → Nat) (sx sy MINL MAXL : Nat) :
    Nat → Nat :=
  runBlocks (fun axs axe ays aye azs aze o =>
      gd2Block lab sx sy MINL MAXL axs axe ays aye azs aze o)
    (blockList sx sy 1 0) out

/-- Entry point `fastmorph::grey_erode` (2D). -/
def grey_erode2 (lab : Nat → Nat) (out : Nat → Nat) (sx sy MINL MAXL : Nat) :
    Nat → Nat :=
  runBlocks (fun axs axe ays aye azs aze o =>
      ge2Block lab sx sy MINL MAXL axs axe ays aye azs aze o)
    (blockList sx sy 1 0) out

/-! ## The serial `dilate_helper` (fastmorphops.cpp lines 34-161)

The naive single-threaded dilation the bindings expose as `dilate`.  Its
mode scan has the same run-length loop as the engine but omits the final
`if (ct > max_ct) mode_label = neighbors[size-1]` comparison after the
loop. -/

/-- The helper's mode scan: identical loop (including the early break) but
no final-run comparison at the end. -/
def scanAuxNF : Nat → Nat → Nat → Nat → List Nat → Nat
  | _, _, _, mode, [] => mode
  | prev, ct, maxct, mode, cur :: rest =>
      if cur ≠ prev then
        let mode2 := if maxct < ct then prev else mode
        let maxct2 := if maxct < ct then ct else maxct
        if rest.length + 1 < maxct2 then mode2
        else scanAuxNF cur 1 maxct2 mode2 rest
      else scanAuxNF cur (ct + 1) maxct mode rest

def modeScanNF : List Nat → Nat
  | [] => 0
  | n0 :: rest => scanAuxNF n0 1 1 n0 rest

/-- One row of `dilate_helper`: the stencil is refetched in full whenever
`stale_stencil` is set and advanced by one column after every resolved
voxel. -/
def dhRow (lab : Nat → Nat) (sx sy sz : Nat) (bg : Bool) (y z : Nat) :
    Nat → Nat → Bool → List Nat → List Nat → List Nat → (Nat → Nat) →
    (Bool × List Nat × List Nat × List Nat) × (Nat → Nat)
  | 0, _, stale, L, M, R, out => ((stale, L, M, R), out)
  | fuel + 1, x, stale, L, M, R, out =>
    if x < sx then
      let loc := x + sx * (y + sy * z)
      if bg ∧ lab loc ≠ 0 then
        dhRow lab sx sy sz bg y z fuel (x + 1) true L M R (upd out loc (lab loc))
      else
        let L1 := if stale then fill_partial_stencil_fn lab sx sy sz ((x : Int) - 1) y z else L
        let M1 := if stale then fill_partial_stencil_fn lab sx sy sz (x : Int) y z else M
        let R1 := if stale then fill_partial_stencil_fn lab sx sy sz ((x : Int) + 1) y z else R
        let R2 := fill_partial_stencil_fn lab sx sy sz ((x : Int) + 2) y z
        if L1.length + M1.length + R1.length = 0 then
          dhRow lab sx sy sz bg y z fuel (x + 1) false M1 R1 R2 out
        else
          let ns := sortL (L1 ++ M1 ++ R1)
          dhRow lab sx sy sz bg y z fuel (x + 1) false M1 R1 R2
            (upd out loc (modeScanNF ns))
    else ((stale, L, M, R), out)

/-- The `y` loop of `dilate_helper`. -/
def dhYLoop (lab : Nat → Nat) (sx sy sz : Nat) (bg : Bool) (z : Nat) :
    Nat → Nat → (Bool × List Nat × List Nat × List Nat) × (Nat → Nat) →
    (Bool × List Nat × List Nat × List Nat) × (Nat → Nat)
  | 0, _, st => st
  | fy + 1, y, st =>
      dhYLoop lab sx sy sz bg z fy (y + 1)
        (dhRow lab sx sy sz bg y z sx 0 true st.1.2.1 st.1.2.2.1 st.1.2.2.2 st.2)

/-- The `z` loop of `dilate_helper`. -/
def dhZLoop (lab : Nat → Nat) (sx sy sz : Nat) (bg : Bool) :
    Nat → Nat → (Bool × List Nat × List Nat × List Nat) × (Nat → Nat) →
    (Bool × List Nat × List Nat × List Nat) × (Nat → Nat)
  | 0, _, st => st
  | fz + 1, z, st =>
      dhZLoop lab sx sy sz bg fz (z + 1) (dhYLoop lab sx sy sz bg z (sy) 0 st)

/-- `dilate_helper`: the naive serial multilabel dilation. -/
def dilate_helper (lab : Nat → Nat) (out : Nat → Nat) (sx sy sz : Nat) (bg : Bool) :
    Nat → Nat :=
  (dhZLoop lab sx sy sz bg sz 0 ((true, [], [], []), out)).2

/-- Index `i` lies in the extended write region of a dilate block: the
block's rows, with the `x` range widened by one voxel past `xe` (but never
past `sx`).  All stores of the 3D dilate `process_block` land here. -/
def mdExt (sx sy xs xe ys ye zs ze i : Nat) : Prop :=
  ∃ x y z, xs ≤ x ∧ x < min (xe + 1) sx ∧ ys ≤ y ∧ y < ye ∧ zs ≤ z ∧ z < ze ∧
    i = x + sx * (y + sy * z)

end Fastmorph

namespace FastmorphTests

open Fastmorph

/-- The 3×1×1 tie-break volume of spec scenario S6. -/
def lab120 : Nat → Nat := fun i => [1, 2, 0].getD i 0

/-- The 5×1×1 volume of spec scenario S2. -/
def lab01110 : Nat → Nat := fun i => [0, 1, 1, 1, 0].getD i 0

/-- A pre-zeroed output buffer. -/
def zeros : Nat → Nat := fun _ => 0

/-- A 1×1×1 u8 volume holding the saturation sentinel 255. -/
def lab255 : Nat → Nat := fun i => [255].getD i 0

/-- A 3×1×1 volume whose sorted neighborhood of voxel 1 is `[1,2,2]`, with
the longest run last. -/
def lab122 : Nat → Nat := fun i => [1, 2, 2].getD i 0

/-- A 3×3×3 volume uniformly filled with label 5. -/
def lab5s : Nat → Nat := fun i => if i < 27 then 5 else 0

/-- A 65×3×3 volume: columns `x ≤ 2` are background, columns `x ≥ 3` carry
label 1.  The initial skip realigns the dilate pair-emits to odd `x`, so
the block `[0,64)` pair-emits at `x = 63` and stores at `x = 64 = xe`. -/
def labWide : Nat → Nat := fun i => if i < 585 ∧ 3 ≤ i % 65 then 1 else 0

/-- A 3×3×3 volume of 5s with a background center `(1,1,1)` (index 13) and
label 3 at `(2,1,1)` (index 14): voxel `(1,1,1)` resolves by the mode scan
with final run count 25 ≥ 23, so the lookahead overwrites the nonzero
voxel `(2,1,1)` with the mode 5 even when `background_only = true`. -/
def lab27bg : Nat → Nat :=
  fun i => if i = 13 then 0 else if i = 14 then 3 else if i < 27 then 5 else 0

/-- The 65×3×3 analogue of `lab27bg` placed at the block boundary: the
background voxel is `(63,1,1)` (index 323) and the label-3 voxel is
`(64,1,1)` (index 324), owned by the second block. -/
def labC5bg : Nat → Nat :=
  fun i => if i = 323 then 0 else if i = 324 then 3 else if i < 585 then 5 else 0

end FastmorphTests

namespace Fastmorph

/-- Characterization of the engine's mode with its tie-break: `m` occurs in
`l`, no label occurs more often, and among labels of maximal count `m` is
the smallest (the first seen under ascending sort). -/
def IsModeMin (l : List Nat) (m : Nat) : Prop :=
  m ∈ l ∧ (∀ w ∈ l, l.count w ≤ l.count m) ∧ ∀ w ∈ l, l.count w = l.count m → m ≤ w

theorem isModeMin_unique {l : List Nat} {m₁ m₂ : Nat}
    (h₁ : IsModeMin l m₁) (h₂ : IsModeMin l m₂) : m₁ = m₂ := by
  obtain ⟨hm₁, hmax₁, hmin₁⟩ := h₁
  obtain ⟨hm₂, hmax₂, hmin₂⟩ := h₂
  have hc : l.count m₁ = l.count m₂ :=
    Nat.le_antisymm (hmax₂ m₁ hm₁) (hmax₁ m₂ hm₂)
  exact Nat.le_antisymm (hmin₁ m₂ hm₂ hc.symm) (hmin₂ m₁ hm₁ hc)

theorem isModeMin_perm {l l' : List Nat} {m : Nat} (hp : l.Perm l')
    (h : IsModeMin l m) : IsModeMin l' m := by
  obtain ⟨hm, hmax, hmin⟩ := h
  refine ⟨hp.mem_iff.mp hm, ?_, ?_⟩
  · intro w hw
    rw [← hp.count_eq, ← hp.count_eq]
    exact hmax w (hp.mem_iff.mpr hw)
  · intro w hw hc
    rw [← hp.count_eq, ← hp.count_eq] at hc
    exact hmin w (hp.mem_iff.mpr hw) hc

/-- The scan invariant, shared by the engine's scan and the spec's scan:
the state `(prev, ct, maxct, mode)` summarizes the consumed prefix
`done`. -/
theorem scanAux_spec :
    ∀ (rest done : List Nat) (prev ct maxct mode : Nat),
      List.Sorted (· ≤ ·) (done ++ rest) →
      prev ∈ done →
      (∀ w ∈ done, w ≤ prev) →
      ct = done.count prev →
      1 ≤ maxct →
      (∀ w ∈ done, w ≠ prev → (done ++ rest).count w ≤ maxct) →
      ((mode = prev ∧ maxct = 1 ∧ ∀ w ∈ done, w = prev) ∨
        (mode ∈ done ∧ mode ≠ prev ∧ (done ++ rest).count mode = maxct)) →
      (∀ w ∈ done, w ≠ prev → (done ++ rest).count w = maxct → mode ≤ w) →
      mode ≤ prev →
      IsModeMin (done ++ rest) (scanAux prev ct maxct mode rest).1 ∧
        (scanAux prev ct maxct mode rest).2 ≤
          (done ++ rest).count (scanAux prev ct maxct mode rest).1 := by
  intro rest
  induction rest with
  | nil =>
    intro done prev ct maxct mode hs hprev hle hct hmax1 hE hD hmin hmp
    simp only [List.append_nil] at *
    have hctpos : 1 ≤ ct := by
      rw [hct]; exact List.count_pos_iff.mpr hprev
    by_cases hlt : maxct < ct
    · simp only [scanAux, if_pos hlt]
      refine ⟨⟨hprev, ?_, ?_⟩, by omega⟩
      · intro w hw
        by_cases hwp : w = prev
        · subst hwp; omega
        · have := hE w hw hwp; omega
      · intro w hw hc
        by_cases hwp : w = prev
        · subst hwp; exact le_refl _
        · have := hE w hw hwp; omega
    · simp only [scanAux, if_neg hlt]
      rcases hD with ⟨he, hm1, hall⟩ | ⟨hmm, hmne, hmc⟩
      · subst he
        refine ⟨⟨hprev, ?_, ?_⟩, by omega⟩
        · intro w hw
          have := hall w hw; subst this; exact le_refl _
        · intro w hw _
          have := hall w hw; omega
      · refine ⟨⟨hmm, ?_, ?_⟩, ?_⟩
        · intro w hw
          by_cases hwp : w = prev
          · subst hwp; omega
          · have := hE w hw hwp; omega
        · intro w hw hc
          by_cases hwp : w = prev
          · subst hwp; exact hmp
          · exact hmin w hw hwp (by omega)
        · omega
  | cons cur rest' ih =>
    intro done prev ct maxct mode hs hprev hle hct hmax1 hE hD hmin hmp
    have hs' : List.Sorted (fun a b => a ≤ b) ((done ++ [cur]) ++ rest') := by
      simpa [List.append_assoc] using hs
    have hsApp := List.pairwise_append.mp hs
    have hcurge : ∀ w ∈ done, w ≤ cur :=
      fun w hw => hsApp.2.2 w hw cur (List.mem_cons_self _ _)
    have hrest' : ∀ w ∈ rest', cur ≤ w := by
      intro w hw
      exact (List.sorted_cons.mp hsApp.2.1).1 w hw
    by_cases hcp : cur = prev
    · subst hcp
      simp only [scanAux, ne_eq, not_true_eq_false, if_neg, ite_false]
      have hres := ih (done ++ [cur]) cur (ct + 1) maxct mode hs'
        (by simp) (by
          intro w hw
          rcases List.mem_append.mp hw with h | h
          · exact hcurge w h
          · simp at h; omega)
        (by simp [List.count_append, hct]) hmax1
        (by
          intro w hw hwne
          have hw' : w ∈ done := by
            rcases List.mem_append.mp hw with h | h
            · exact h
            · simp at h; exact absurd h hwne
          have := hE w hw' hwne
          simpa [List.append_assoc] using this)
        (by
          rcases hD with ⟨he, hm1, hall⟩ | ⟨hmm, hmne, hmc⟩
          · exact Or.inl ⟨he, hm1, by
              intro w hw
              rcases List.mem_append.mp hw with h | h
              · exact hall w h
              · simpa using h⟩
          · exact Or.inr ⟨List.mem_append_left _ hmm, hmne, by
              simpa [List.append_assoc] using hmc⟩)
        (by
          intro w hw hwne hwc
          have hw' : w ∈ done := by
            rcases List.mem_append.mp hw with h | h
            · exact h
            · simp at h; exact absurd h hwne
          exact hmin w hw' hwne (by simpa [List.append_assoc] using hwc))
        hmp
      simpa [List.append_assoc] using hres
    · have hplt : prev < cur := by
        have := hcurge prev hprev
        omega
      simp only [scanAux, ne_eq, hcp, not_false_eq_true, if_pos, ite_true]
      have hcount_prev : (done ++ cur :: rest').count prev = done.count prev := by
        have h0 : rest'.count prev = 0 := by
          rw [List.count_eq_zero]
          intro hmem
          have := hrest' prev hmem
          omega
        rw [List.count_append, List.count_cons_of_ne (by omega), h0]
        omega
      have hcount_rest : ∀ w, cur ≤ w →
          (done ++ cur :: rest').count w = (cur :: rest').count w := by
        intro w hw
        rw [List.count_append]
        have h0 : done.count w = 0 := by
          rw [List.count_eq_zero]
          intro hmem
          have := hcurge w hmem
          have hwp : w ≤ prev := hle w hmem
          omega
        omega
      set mode2 := if maxct < ct then prev else mode with hmode2
      set maxct2 := if maxct < ct then ct else maxct with hmaxct2
      have hmax2ge : maxct ≤ maxct2 ∧ 1 ≤ maxct2 := by
        constructor <;> (rw [hmaxct2]; split <;> omega)
      have hE2 : ∀ w ∈ done ++ [cur], w ≠ cur →
          ((done ++ [cur]) ++ rest').count w ≤ maxct2 := by
        intro w hw hwne
        have hw' : w ∈ done := by
          rcases List.mem_append.mp hw with h | h
          · exact h
          · simp at h; exact absurd h hwne
        have hwl : ((done ++ [cur]) ++ rest').count w = (done ++ cur :: rest').count w := by
          simp [List.append_assoc]
        rw [hwl]
        by_cases hwp : w = prev
        · subst hwp
          rw [hcount_prev, ← hct]
          rw [hmaxct2]; split <;> omega
        · have := hE w hw' hwp
          omega
      have hD2 : mode2 ∈ done ++ [cur] ∧ mode2 ≠ cur ∧
          ((done ++ [cur]) ++ rest').count mode2 = maxct2 := by
        rw [hmode2, hmaxct2]
        by_cases hlt : maxct < ct
        · simp only [if_pos hlt]
          refine ⟨List.mem_append_left _ hprev, by omega, ?_⟩
          have : ((done ++ [cur]) ++ rest').count prev =
              (done ++ cur :: rest').count prev := by simp [List.append_assoc]
          rw [this, hcount_prev, ← hct]
        · simp only [if_neg hlt]
          rcases hD with ⟨he, hm1, hall⟩ | ⟨hmm, hmne, hmc⟩
          · have hctpos : 1 ≤ ct := by
              rw [hct]; exact List.count_pos_iff.mpr hprev
            have hmode_mem : mode ∈ done := he ▸ hprev
            refine ⟨List.mem_append_left _ hmode_mem, by omega, ?_⟩
            have hcc : ((done ++ [cur]) ++ rest').count mode =
                (done ++ cur :: rest').count mode := by simp [List.append_assoc]
            rw [hcc, he, hcount_prev, ← hct]
            omega
          · refine ⟨List.mem_append_left _ hmm, by
              have := hle mode hmm; omega, ?_⟩
            have : ((done ++ [cur]) ++ rest').count mode =
                (done ++ cur :: rest').count mode := by simp [List.append_assoc]
            rw [this]
            simpa [List.append_assoc] using hmc
      have hmin2 : ∀ w ∈ done ++ [cur], w ≠ cur →
          ((done ++ [cur]) ++ rest').count w = maxct2 → mode2 ≤ w := by
        intro w hw hwne hwc
        have hw' : w ∈ done := by
          rcases List.mem_append.mp hw with h | h
          · exact h
          · simp at h; exact absurd h hwne
        have hwl : ((done ++ [cur]) ++ rest').count w = (done ++ cur :: rest').count w := by
          simp [List.append_assoc]
        rw [hwl] at hwc
        rw [hmode2]
        by_cases hlt : maxct < ct
        · rw [hmaxct2, if_pos hlt] at hwc
          by_cases hwp : w = prev
          · subst hwp; simp [if_pos hlt]
          · have := hE w hw' hwp
            omega
        · rw [hmaxct2, if_neg hlt] at hwc
          simp only [if_neg hlt]
          by_cases hwp : w = prev
          · subst hwp; exact hmp
          · exact hmin w hw' hwp hwc
      have hmp2 : mode2 ≤ cur := by
        rw [hmode2]; split
        · omega
        · omega
      by_cases hbrk : rest'.length + 1 < maxct2
      · simp only [if_pos hbrk]
        have hmode2c : ((done ++ [cur]) ++ rest').count mode2 = maxct2 := hD2.2.2
        have hmode2l : (done ++ cur :: rest').count mode2 =
            ((done ++ [cur]) ++ rest').count mode2 := by simp [List.append_assoc]
        refine ⟨⟨?_, ?_, ?_⟩, ?_⟩
        · rcases List.mem_append.mp hD2.1 with h | h
          · exact List.mem_append_left _ h
          · simp at h; subst h; exact List.mem_append_right _ (List.mem_cons_self _ _)
        · intro w hw
          rw [hmode2l, hmode2c]
          rcases List.mem_append.mp hw with h | h
          · by_cases hwp : w = prev
            · subst hwp
              rw [hcount_prev, ← hct]
              have := hmax2ge.1
              rw [hmaxct2]; split <;> omega
            · by_cases hwc : w = cur
              · rw [hwc, hcount_rest _ (le_refl _)]
                have : (cur :: rest').count cur ≤ rest'.length + 1 := by
                  have := List.count_le_length cur (cur :: rest')
                  simpa using this
                omega
              · have := hE w h hwp
                omega
          · have hcw : cur ≤ w := by
              rcases List.mem_cons.mp h with h' | h'
              · omega
              · exact hrest' w h'
            rw [hcount_rest _ hcw]
            have : (cur :: rest').count w ≤ rest'.length + 1 := by
              have := List.count_le_length w (cur :: rest')
              simpa using this
            omega
        · intro w hw hwc
          rw [hmode2l, hmode2c] at hwc
          rcases List.mem_append.mp hw with h | h
          · by_cases hwp : w = cur
            · subst hwp; exact hmp2
            · exact hmin2 w (List.mem_append_left _ h) hwp
                (by simpa [List.append_assoc] using hwc)
          · have hcw : cur ≤ w := by
              rcases List.mem_cons.mp h with h' | h'
              · omega
              · exact hrest' w h'
            rw [hcount_rest _ hcw] at hwc
            have : (cur :: rest').count w ≤ rest'.length + 1 := by
              have := List.count_le_length w (cur :: rest')
              simpa using this
            omega
        · rw [hmode2l, hmode2c]
          omega
      · simp only [if_neg hbrk]
        have hres := ih (done ++ [cur]) cur 1 maxct2 mode2 hs'
          (by simp)
          (by
            intro w hw
            rcases List.mem_append.mp hw with h | h
            · exact hcurge w h
            · simp at h; omega)
          (by
            have h0 : (done ++ [cur]).count cur = done.count cur + 1 := by
              simp [List.count_append]
            have h1 : done.count cur = 0 := by
              rw [List.count_eq_zero]
              intro hmem
              have := hle cur hmem
              omega
            omega)
          hmax2ge.2 hE2 (Or.inr hD2) hmin2 hmp2
        simpa [List.append_assoc] using hres

/-- The same invariant for the specification scan (no early break). -/
theorem modeRun_spec :
    ∀ (rest done : List Nat) (prev ct maxct mode : Nat),
      List.Sorted (· ≤ ·) (done ++ rest) →
      prev ∈ done →
      (∀ w ∈ done, w ≤ prev) →
      ct = done.count prev →
      1 ≤ maxct →
      (∀ w ∈ done, w ≠ prev → (done ++ rest).count w ≤ maxct) →
      ((mode = prev ∧ maxct = 1 ∧ ∀ w ∈ done, w = prev) ∨
        (mode ∈ done ∧ mode ≠ prev ∧ (done ++ rest).count mode = maxct)) →
      (∀ w ∈ done, w ≠ prev → (done ++ rest).count w = maxct → mode ≤ w) →
      mode ≤ prev →
      IsModeMin (done ++ rest) (modeRun prev ct maxct mode rest) := by
  intro rest
  induction rest with
  | nil =>
    intro done prev ct maxct mode hs hprev hle hct hmax1 hE hD hmin hmp
    simp only [List.append_nil] at *
    have hctpos : 1 ≤ ct := by
      rw [hct]; exact List.count_pos_iff.mpr hprev
    by_cases hlt : maxct < ct
    · simp only [modeRun, if_pos hlt]
      refine ⟨hprev, ?_, ?_⟩
      · intro w hw
        by_cases hwp : w = prev
        · subst hwp; omega
        · have := hE w hw hwp; omega
      · intro w hw hc
        by_cases hwp : w = prev
        · subst hwp; exact le_refl _
        · have := hE w hw hwp; omega
    · simp only [modeRun, if_neg hlt]
      rcases hD with ⟨he, hm1, hall⟩ | ⟨hmm, hmne, hmc⟩
      · refine ⟨he ▸ hprev, ?_, ?_⟩
        · intro w hw
          have hwp := hall w hw
          rw [hwp, ← he]
        · intro w hw _
          have := hall w hw; omega
      · refine ⟨hmm, ?_, ?_⟩
        · intro w hw
          by_cases hwp : w = prev
          · subst hwp; omega
          · have := hE w hw hwp; omega
        · intro w hw hc
          by_cases hwp : w = prev
          · subst hwp; exact hmp
          · exact hmin w hw hwp (by omega)
  | cons cur rest' ih =>
    intro done prev ct maxct mode hs hprev hle hct hmax1 hE hD hmin hmp
    have hs' : List.Sorted (fun a b => a ≤ b) ((done ++ [cur]) ++ rest') := by
      simpa [List.append_assoc] using hs
    have hsApp := List.pairwise_append.mp hs
    have hcurge : ∀ w ∈ done, w ≤ cur :=
      fun w hw => hsApp.2.2 w hw cur (List.mem_cons_self _ _)
    have hrest' : ∀ w ∈ rest', cur ≤ w := by
      intro w hw
      exact (List.sorted_cons.mp hsApp.2.1).1 w hw
    by_cases hcp : cur = prev
    · subst hcp
      simp only [modeRun, ne_eq, not_true_eq_false, if_neg, ite_false]
      have hres := ih (done ++ [cur]) cur (ct + 1) maxct mode hs'
        (by simp) (by
          intro w hw
          rcases List.mem_append.mp hw with h | h
          · exact hcurge w h
          · simp at h; omega)
        (by simp [List.count_append, hct]) hmax1
        (by
          intro w hw hwne
          have hw' : w ∈ done := by
            rcases List.mem_append.mp hw with h | h
            · exact h
            · simp at h; exact absurd h hwne
          have := hE w hw' hwne
          simpa [List.append_assoc] using this)
        (by
          rcases hD with ⟨he, hm1, hall⟩ | ⟨hmm, hmne, hmc⟩
          · exact Or.inl ⟨he, hm1, by
              intro w hw
              rcases List.mem_append.mp hw with h | h
              · exact hall w h
              · simpa using h⟩
          · exact Or.inr ⟨List.mem_append_left _ hmm, hmne, by
              simpa [List.append_assoc] using hmc⟩)
        (by
          intro w hw hwne hwc
          have hw' : w ∈ done := by
            rcases List.mem_append.mp hw with h | h
            · exact h
            · simp at h; exact absurd h hwne
          exact hmin w hw' hwne (by simpa [List.append_assoc] using hwc))
        hmp
      simpa [List.append_assoc] using hres
    · have hplt : prev < cur := by
        have := hcurge prev hprev
        omega
      simp only [modeRun, ne_eq, hcp, not_false_eq_true, if_pos, ite_true]
      have hcount_prev : (done ++ cur :: rest').count prev = done.count prev := by
        have h0 : rest'.count prev = 0 := by
          rw [List.count_eq_zero]
          intro hmem
          have := hrest' prev hmem
          omega
        rw [List.count_append, List.count_cons_of_ne (by omega), h0]
        omega
      have hE2 : ∀ w ∈ done ++ [cur], w ≠ cur →
          ((done ++ [cur]) ++ rest').count w ≤ if maxct < ct then ct else maxct := by
        intro w hw hwne
        have hw' : w ∈ done := by
          rcases List.mem_append.mp hw with h | h
          · exact h
          · simp at h; exact absurd h hwne
        have hwl : ((done ++ [cur]) ++ rest').count w = (done ++ cur :: rest').count w := by
          simp [List.append_assoc]
        rw [hwl]
        by_cases hwp : w = prev
        · subst hwp
          rw [hcount_prev, ← hct]
          split <;> omega
        · have := hE w hw' hwp
          split <;> omega
      have hD2 : (if maxct < ct then prev else mode) ∈ done ++ [cur] ∧
          (if maxct < ct then prev else mode) ≠ cur ∧
          ((done ++ [cur]) ++ rest').count (if maxct < ct then prev else mode) =
            if maxct < ct then ct else maxct := by
        by_cases hlt : maxct < ct
        · simp only [if_pos hlt]
          refine ⟨List.mem_append_left _ hprev, by omega, ?_⟩
          have hcc : ((done ++ [cur]) ++ rest').count prev =
              (done ++ cur :: rest').count prev := by simp [List.append_assoc]
          rw [hcc, hcount_prev, ← hct]
        · simp only [if_neg hlt]
          rcases hD with ⟨he, hm1, hall⟩ | ⟨hmm, hmne, hmc⟩
          · have hctpos : 1 ≤ ct := by
              rw [hct]; exact List.count_pos_iff.mpr hprev
            have hmode_mem : mode ∈ done := he ▸ hprev
            refine ⟨List.mem_append_left _ hmode_mem, by omega, ?_⟩
            have hcc : ((done ++ [cur]) ++ rest').count mode =
                (done ++ cur :: rest').count mode := by simp [List.append_assoc]
            rw [hcc, he, hcount_prev, ← hct]
            omega
          · refine ⟨List.mem_append_left _ hmm, by
              have := hle mode hmm; omega, ?_⟩
            have hcc : ((done ++ [cur]) ++ rest').count mode =
                (done ++ cur :: rest').count mode := by simp [List.append_assoc]
            rw [hcc]
            simpa [List.append_assoc] using hmc
      have hmin2 : ∀ w ∈ done ++ [cur], w ≠ cur →
          ((done ++ [cur]) ++ rest').count w = (if maxct < ct then ct else maxct) →
          (if maxct < ct then prev else mode) ≤ w := by
        intro w hw hwne hwc
        have hw' : w ∈ done := by
          rcases List.mem_append.mp hw with h | h
          · exact h
          · simp at h; exact absurd h hwne
        have hwl : ((done ++ [cur]) ++ rest').count w = (done ++ cur :: rest').count w := by
          simp [List.append_assoc]
        rw [hwl] at hwc
        by_cases hlt : maxct < ct
        · rw [if_pos hlt] at hwc
          simp only [if_pos hlt]
          by_cases hwp : w = prev
          · omega
          · have := hE w hw' hwp
            omega
        · rw [if_neg hlt] at hwc
          simp only [if_neg hlt]
          by_cases hwp : w = prev
          · subst hwp; exact hmp
          · exact hmin w hw' hwp hwc
      have hres := ih (done ++ [cur]) cur 1 (if maxct < ct then ct else maxct)
        (if maxct < ct then prev else mode) hs'
        (by simp)
        (by
          intro w hw
          rcases List.mem_append.mp hw with h | h
          · exact hcurge w h
          · simp at h; omega)
        (by
          have h1 : done.count cur = 0 := by
            rw [List.count_eq_zero]
            intro hmem
            have := hle cur hmem
            omega
          simp [List.count_append, h1])
        (by split <;> omega)
        hE2 (Or.inr hD2) hmin2
        (by split <;> omega)
      simpa [List.append_assoc] using hres

/-- `specMode` of a nonempty list is its least most-frequent label. -/
theorem specMode_isModeMin {l : List Nat} (h : l ≠ []) : IsModeMin l (specMode l) := by
  have hperm : sortL l |>.Perm l := List.perm_insertionSort _ l
  have hsort : List.Sorted (· ≤ ·) (sortL l) := List.sorted_insertionSort _ l
  unfold specMode
  rcases hx : sortL l with _ | ⟨n0, rest⟩
  · exact absurd ((hx ▸ hperm : ([] : List Nat).Perm l).symm.eq_nil) h
  · rw [hx] at hsort hperm
    have hres := modeRun_spec rest [n0] n0 1 1 n0
      (by simpa using hsort)
      (List.mem_singleton_self _) (by simp) (by simp) (le_refl _)
      (by simp) (Or.inl ⟨rfl, rfl, by simp⟩) (by simp) (le_refl _)
    simp only [List.singleton_append] at hres
    exact isModeMin_perm hperm hres

/-- `specMode` is invariant under permutation of the multiset. -/
theorem specMode_perm {l l' : List Nat} (hp : l.Perm l') : specMode l = specMode l' := by
  by_cases h : l = []
  · subst h
    rw [hp.symm.eq_nil]
  · have h2 : l' ≠ [] := fun hc => h (hc ▸ hp).eq_nil
    exact isModeMin_unique (specMode_isModeMin h)
      (isModeMin_perm hp.symm (specMode_isModeMin h2))

theorem specMode_mem {l : List Nat} (h : l ≠ []) : specMode l ∈ l :=
  (specMode_isModeMin h).1

/-- The mode of a nonempty multiset of nonzero labels is nonzero. -/
theorem specMode_ne_zero {l : List Nat} (h : l ≠ []) (h0 : ∀ w ∈ l, w ≠ 0) :
    specMode l ≠ 0 :=
  h0 _ (specMode_mem h)

/-- A strictly dominant label is the mode. -/
theorem specMode_dominant {l : List Nat} {v : Nat} (hv : v ∈ l)
    (hdom : ∀ w ∈ l, w ≠ v → l.count w < l.count v) : specMode l = v := by
  have h : l ≠ [] := by
    intro hc
    rw [hc] at hv
    exact absurd hv (List.not_mem_nil v)
  refine isModeMin_unique (specMode_isModeMin h) ⟨hv, ?_, ?_⟩
  · intro w hw
    by_cases hwv : w = v
    · subst hwv; exact le_refl _
    · exact le_of_lt (hdom w hw hwv)
  · intro w hw hc
    by_cases hwv : w = v
    · omega
    · have := hdom w hw hwv; omega

/-- A uniform multiset's mode is its common value. -/
theorem specMode_uniform {l : List Nat} {v : Nat} (hne : l ≠ [])
    (hall : ∀ w ∈ l, w = v) : specMode l = v := by
  have hv : v ∈ l := by
    rcases l with _ | ⟨a, t⟩
    · exact absurd rfl hne
    · have := hall a (List.mem_cons_self _ _)
      subst this
      exact List.mem_cons_self _ _
  exact specMode_dominant hv (fun w hw hwv => absurd (hall w hw) hwv)

/-- The engine's scan agrees with the specification scan on sorted input,
and the reported run count never exceeds the mode's multiplicity. -/
theorem modeScanBreak_spec {ns : List Nat} (hs : List.Sorted (· ≤ ·) ns) (hne : ns ≠ []) :
    (modeScanBreak ns).1 = specMode ns ∧
      (modeScanBreak ns).2 ≤ ns.count (modeScanBreak ns).1 := by
  rcases hx : ns with _ | ⟨n0, rest⟩
  · exact absurd hx hne
  · subst hx
    have hres := scanAux_spec rest [n0] n0 1 1 n0
      (by simpa using hs)
      (List.mem_singleton_self _) (by simp) (by simp) (le_refl _)
      (by simp) (Or.inl ⟨rfl, rfl, by simp⟩) (by simp) (le_refl _)
    simp only [List.singleton_append] at hres
    refine ⟨?_, hres.2⟩
    exact isModeMin_unique hres.1 (specMode_isModeMin (by simp))

/-- Sorting a sorted list is the identity. -/
theorem sortL_of_sorted {l : List Nat} (h : List.Sorted (· ≤ ·) l) : sortL l = l :=
  List.eq_of_perm_of_sorted (List.perm_insertionSort _ l)
    (List.sorted_insertionSort _ l) h

theorem sortL_sorted (l : List Nat) : List.Sorted (· ≤ ·) (sortL l) :=
  List.sorted_insertionSort _ l

theorem sortL_perm (l : List Nat) : (sortL l).Perm l :=
  List.perm_insertionSort _ l

/-- Two lists with the same multiset sort identically. -/
theorem sortL_congr {l l' : List Nat} (hp : l.Perm l') : sortL l = sortL l' :=
  List.eq_of_perm_of_sorted ((sortL_perm l).trans (hp.trans (sortL_perm l').symm))
    (sortL_sorted l) (sortL_sorted l')

/-- Every entry of a sorted list is at most its last entry. -/
theorem sorted_le_getLast : ∀ {l : List Nat}, List.Sorted (· ≤ ·) l →
    ∀ (hne : l ≠ []) (w : Nat), w ∈ l → w ≤ l.getLast hne := by
  intro l
  induction l with
  | nil => intro _ hne; exact absurd rfl hne
  | cons a t ih =>
    intro hs hne w hw
    rcases List.sorted_cons.mp hs with ⟨ha, ht⟩
    rcases t with _ | ⟨b, t'⟩
    · simp at hw
      subst hw
      simp [List.getLast]
    · rw [List.getLast_cons (by simp)]
      rcases List.mem_cons.mp hw with h' | h'
      · have hb := ih ht (by simp) b (List.mem_cons_self _ _)
        have hab : a ≤ b := ha b (List.mem_cons_self _ _)
        subst h'
        omega
      · exact ih ht (by simp) w h'

/-- In a sorted list whose first and last entries agree, every entry equals
the first. -/
theorem sorted_head_eq_last {ns : List Nat} (hs : List.Sorted (· ≤ ·) ns)
    (hne : ns ≠ []) (h : ns.getD 0 0 = ns.getD (ns.length - 1) 0) :
    ∀ w ∈ ns, w = ns.getD 0 0 := by
  rcases hx : ns with _ | ⟨a, t⟩
  · exact absurd hx hne
  · subst hx
    intro w hw
    have h1 : a ≤ w := by
      rcases List.mem_cons.mp hw with h' | h'
      · omega
      · exact (List.sorted_cons.mp hs).1 w h'
    have hlast : (a :: t).getD ((a :: t).length - 1) 0 = (a :: t).getLast (by simp) := by
      rw [List.getLast_eq_getElem, List.getD_eq_getElem _ _ (by simp)]
    have h2 : w ≤ (a :: t).getLast (by simp) := sorted_le_getLast hs (by simp) w hw
    have h0 : (a :: t).getD 0 0 = a := rfl
    rw [h0]
    rw [h0, hlast] at h
    omega

/-! ## Address arithmetic for the stencil columns -/

theorem addr_ym (xt sx sy y z : Nat) (hy : 1 ≤ y) :
    xt + sx * (y - 1 + sy * z) = xt + sx * (y + sy * z) - sx := by
  have h3 : y - 1 + sy * z = (y + sy * z) - 1 := by omega
  rw [h3, Nat.mul_sub, Nat.mul_one]
  have h4 : sx * 1 ≤ sx * (y + sy * z) := Nat.mul_le_mul_left sx (by omega)
  rw [Nat.mul_one] at h4
  omega

theorem addr_yp (xt sx sy y z : Nat) :
    xt + sx * (y + 1 + sy * z) = xt + sx * (y + sy * z) + sx := by ring

theorem addr_zm (xt sx sy y z : Nat) (hz : 1 ≤ z) :
    xt + sx * (y + sy * (z - 1)) = xt + sx * (y + sy * z) - sx * sy := by
  have h1 : sy * (z - 1) = sy * z - sy := by
    rw [Nat.mul_sub, Nat.mul_one]
  have h2 : sy * 1 ≤ sy * z := Nat.mul_le_mul_left sy hz
  rw [Nat.mul_one] at h2
  have h3 : y + sy * (z - 1) = (y + sy * z) - sy := by omega
  rw [h3, Nat.mul_sub]
  have h4 : sx * sy ≤ sx * (y + sy * z) := Nat.mul_le_mul_left sx (by omega)
  omega

theorem addr_zp (xt sx sy y z : Nat) :
    xt + sx * (y + sy * (z + 1)) = xt + sx * (y + sy * z) + sx * sy := by ring

theorem addr_ymzm (xt sx sy y z : Nat) (hy : 1 ≤ y) (hz : 1 ≤ z) :
    xt + sx * (y - 1 + sy * (z - 1)) = xt + sx * (y + sy * z) - sx - sx * sy := by
  have h1 : sy * (z - 1) = sy * z - sy := by
    rw [Nat.mul_sub, Nat.mul_one]
  have h2 : sy * 1 ≤ sy * z := Nat.mul_le_mul_left sy hz
  rw [Nat.mul_one] at h2
  have h3 : y - 1 + sy * (z - 1) = (y + sy * z) - (1 + sy) := by omega
  rw [h3, Nat.mul_sub]
  have h4 : sx * (1 + sy) ≤ sx * (y + sy * z) := Nat.mul_le_mul_left sx (by omega)
  have h5 : sx * (1 + sy) = sx + sx * sy := by ring
  omega

theorem addr_ypzm (xt sx sy y z : Nat) (hz : 1 ≤ z) :
    xt + sx * (y + 1 + sy * (z - 1)) = xt + sx * (y + sy * z) + sx - sx * sy := by
  have h1 : sy * (z - 1) = sy * z - sy := by
    rw [Nat.mul_sub, Nat.mul_one]
  have h2 : sy * 1 ≤ sy * z := Nat.mul_le_mul_left sy hz
  rw [Nat.mul_one] at h2
  have h3 : y + 1 + sy * (z - 1) = (y + 1 + sy * z) - sy := by omega
  rw [h3, Nat.mul_sub]
  have h4 : sx * sy ≤ sx * (y + 1 + sy * z) := Nat.mul_le_mul_left sx (by omega)
  have h5 : sx * (y + 1 + sy * z) = sx * (y + sy * z) + sx := by ring
  omega

theorem addr_ymzp (xt sx sy y z : Nat) (hy : 1 ≤ y) :
    xt + sx * (y - 1 + sy * (z + 1)) = xt + sx * (y + sy * z) - sx + sx * sy := by
  have h3 : y - 1 + sy * (z + 1) = (y + sy * z + sy) - 1 := by
    have : sy * (z + 1) = sy * z + sy := by ring
    omega
  rw [h3, Nat.mul_sub, Nat.mul_one]
  have h4 : sx * 1 ≤ sx * (y + sy * z + sy) := Nat.mul_le_mul_left sx (by omega)
  rw [Nat.mul_one] at h4
  have h5 : sx * (y + sy * z + sy) = sx * (y + sy * z) + sx * sy := by ring
  have h6 : sx * 1 ≤ sx * (y + sy * z) := Nat.mul_le_mul_left sx (by omega)
  rw [Nat.mul_one] at h6
  omega

theorem addr_ypzp (xt sx sy y z : Nat) :
    xt + sx * (y + 1 + sy * (z + 1)) = xt + sx * (y + sy * z) + sx + sx * sy := by ring

theorem addr_ym2 (xt sx y : Nat) (hy : 1 ≤ y) :
    xt + sx * (y - 1) = xt + sx * y - sx := by
  rw [Nat.mul_sub, Nat.mul_one]
  have h4 : sx * 1 ≤ sx * y := Nat.mul_le_mul_left sx (by omega)
  rw [Nat.mul_one] at h4
  omega

theorem addr_yp2 (xt sx y : Nat) : xt + sx * (y + 1) = xt + sx * y + sx := by ring

/-- Congruence for singleton-or-empty conditionals. -/
theorem ite_nil_congr {p q : Prop} [Decidable p] [Decidable q] {a b : Nat}
    (hpq : p ↔ q) (hab : p → a = b) :
    (if p then [a] else ([] : List Nat)) = if q then [b] else [] := by
  by_cases h : p
  · rw [if_pos h, if_pos (hpq.mp h), hab h]
  · rw [if_neg h, if_neg (fun hq => h (hpq.mpr hq))]

/-- The source's column fill computes exactly the specification column of
nonzero in-bounds labels. -/
theorem fill_eq_colNb (lab : Nat → Nat) (sx sy sz : Nat) (xi : Int) (y z : Nat)
    (hy : y < sy) (hz : z < sz) :
    fill_partial_stencil_fn lab sx sy sz xi y z = colNb lab sx sy sz xi y z := by
  by_cases hx : xi < 0 ∨ (sx : Int) ≤ xi
  · have hcell : ∀ yi zi : Int, cellNb lab sx sy sz xi yi zi = [] := by
      intro yi zi
      unfold cellNb
      rw [if_neg]
      rintro ⟨h1, h2, -⟩
      omega
    rw [fill_partial_stencil_fn, if_pos hx]
    simp [colNb, hcell]
  · push_neg at hx
    obtain ⟨hx0, hxs⟩ := hx
    rw [fill_partial_stencil_fn, if_neg (by omega)]
    show (_ ++ _ ++ _ ++ _ ++ _ ++ _ ++ _ ++ _ ++ _) = _
    unfold colNb
    have hty : ((y : Int)).toNat = y := by omega
    have htz : ((z : Int)).toNat = z := by omega
    have e1 : (if lab (xi.toNat + sx * (y + sy * z)) ≠ 0 then
        [lab (xi.toNat + sx * (y + sy * z))] else []) =
        cellNb lab sx sy sz xi y z := by
      unfold cellNb
      rw [hty, htz]
      exact (ite_nil_congr
        (Iff.intro (fun h => ⟨hx0, hxs, by omega, by omega, by omega, by omega, h⟩)
          (fun h => h.2.2.2.2.2.2) )
        (fun _ => rfl))
    have addr2 : 1 ≤ y → xi.toNat + sx * (((y : Int) - 1).toNat + sy * ((z : Int)).toNat) =
        xi.toNat + sx * (y + sy * z) - sx := by
      intro hy1
      have h1 : ((y : Int) - 1).toNat = y - 1 := by omega
      rw [h1, htz]
      exact addr_ym _ _ _ _ _ hy1
    have e2 : (if 0 < y ∧ lab (xi.toNat + sx * (y + sy * z) - sx) ≠ 0 then
        [lab (xi.toNat + sx * (y + sy * z) - sx)] else []) =
        cellNb lab sx sy sz xi ((y : Int) - 1) z := by
      unfold cellNb
      refine (ite_nil_congr ?_ ?_)
      · constructor
        · rintro ⟨hy1, hnz⟩
          refine ⟨hx0, hxs, by omega, by omega, by omega, by omega, ?_⟩
          rw [addr2 hy1]
          exact hnz
        · rintro ⟨-, -, hy0, -, -, -, hnz⟩
          have hy1 : 1 ≤ y := by omega
          rw [addr2 hy1] at hnz
          exact ⟨by omega, hnz⟩
      · rintro ⟨hy1, -⟩
        rw [addr2 hy1]
    have addr3 : xi.toNat + sx * (((y : Int) + 1).toNat + sy * ((z : Int)).toNat) =
        xi.toNat + sx * (y + sy * z) + sx := by
      have h1 : ((y : Int) + 1).toNat = y + 1 := by omega
      rw [h1, htz]
      exact addr_yp _ _ _ _ _
    have e3 : (if y < sy - 1 ∧ lab (xi.toNat + sx * (y + sy * z) + sx) ≠ 0 then
        [lab (xi.toNat + sx * (y + sy * z) + sx)] else []) =
        cellNb lab sx sy sz xi ((y : Int) + 1) z := by
      unfold cellNb
      rw [addr3]
      refine (ite_nil_congr ?_ (fun _ => rfl))
      constructor
      · rintro ⟨hy1, hnz⟩
        exact ⟨hx0, hxs, by omega, by omega, by omega, by omega, hnz⟩
      · rintro ⟨-, -, -, hy1, -, -, hnz⟩
        exact ⟨by omega, hnz⟩
    have addr4 : 1 ≤ z → xi.toNat + sx * (((y : Int)).toNat + sy * ((z : Int) - 1).toNat) =
        xi.toNat + sx * (y + sy * z) - sx * sy := by
      intro hz1
      have h1 : ((z : Int) - 1).toNat = z - 1 := by omega
      rw [h1, hty]
      exact addr_zm _ _ _ _ _ hz1
    have e4 : (if 0 < z ∧ lab (xi.toNat + sx * (y + sy * z) - sx * sy) ≠ 0 then
        [lab (xi.toNat + sx * (y + sy * z) - sx * sy)] else []) =
        cellNb lab sx sy sz xi y ((z : Int) - 1) := by
      unfold cellNb
      refine (ite_nil_congr ?_ ?_)
      · constructor
        · rintro ⟨hz1, hnz⟩
          refine ⟨hx0, hxs, by omega, by omega, by omega, by omega, ?_⟩
          rw [addr4 hz1]
          exact hnz
        · rintro ⟨-, -, -, -, hz0, -, hnz⟩
          have hz1 : 1 ≤ z := by omega
          rw [addr4 hz1] at hnz
          exact ⟨by omega, hnz⟩
      · rintro ⟨hz1, -⟩
        rw [addr4 hz1]
    have addr5 : xi.toNat + sx * (((y : Int)).toNat + sy * ((z : Int) + 1).toNat) =
        xi.toNat + sx * (y + sy * z) + sx * sy := by
      have h1 : ((z : Int) + 1).toNat = z + 1 := by omega
      rw [h1, hty]
      exact addr_zp _ _ _ _ _
    have e5 : (if z < sz - 1 ∧ lab (xi.toNat + sx * (y + sy * z) + sx * sy) ≠ 0 then
        [lab (xi.toNat + sx * (y + sy * z) + sx * sy)] else []) =
        cellNb lab sx sy sz xi y ((z : Int) + 1) := by
      unfold cellNb
      rw [addr5]
      refine (ite_nil_congr ?_ (fun _ => rfl))
      constructor
      · rintro ⟨hz1, hnz⟩
        exact ⟨hx0, hxs, by omega, by omega, by omega, by omega, hnz⟩
      · rintro ⟨-, -, -, -, -, hz1, hnz⟩
        exact ⟨by omega, hnz⟩
    have addr6 : 1 ≤ y → 1 ≤ z →
        xi.toNat + sx * (((y : Int) - 1).toNat + sy * ((z : Int) - 1).toNat) =
        xi.toNat + sx * (y + sy * z) - sx - sx * sy := by
      intro hy1 hz1
      have h1 : ((y : Int) - 1).toNat = y - 1 := by omega
      have h2 : ((z : Int) - 1).toNat = z - 1 := by omega
      rw [h1, h2]
      exact addr_ymzm _ _ _ _ _ hy1 hz1
    have e6 : (if 0 < y ∧ 0 < z ∧ lab (xi.toNat + sx * (y + sy * z) - sx - sx * sy) ≠ 0 then
        [lab (xi.toNat + sx * (y + sy * z) - sx - sx * sy)] else []) =
        cellNb lab sx sy sz xi ((y : Int) - 1) ((z : Int) - 1) := by
      unfold cellNb
      refine (ite_nil_congr ?_ ?_)
      · constructor
        · rintro ⟨hy1, hz1, hnz⟩
          refine ⟨hx0, hxs, by omega, by omega, by omega, by omega, ?_⟩
          rw [addr6 hy1 hz1]
          exact hnz
        · rintro ⟨-, -, hy0, -, hz0, -, hnz⟩
          have hy1 : 1 ≤ y := by omega
          have hz1 : 1 ≤ z := by omega
          rw [addr6 hy1 hz1] at hnz
          exact ⟨by omega, by omega, hnz⟩
      · rintro ⟨hy1, hz1, -⟩
        rw [addr6 (by omega) (by omega)]
    have addr7 : 1 ≤ z →
        xi.toNat + sx * (((y : Int) + 1).toNat + sy * ((z : Int) - 1).toNat) =
        xi.toNat + sx * (y + sy * z) + sx - sx * sy := by
      intro hz1
      have h1 : ((y : Int) + 1).toNat = y + 1 := by omega
      have h2 : ((z : Int) - 1).toNat = z - 1 := by omega
      rw [h1, h2]
      exact addr_ypzm _ _ _ _ _ hz1
    have e7 : (if y < sy - 1 ∧ 0 < z ∧
          lab (xi.toNat + sx * (y + sy * z) + sx - sx * sy) ≠ 0 then
        [lab (xi.toNat + sx * (y + sy * z) + sx - sx * sy)] else []) =
        cellNb lab sx sy sz xi ((y : Int) + 1) ((z : Int) - 1) := by
      unfold cellNb
      refine (ite_nil_congr ?_ ?_)
      · constructor
        · rintro ⟨hy1, hz1, hnz⟩
          refine ⟨hx0, hxs, by omega, by omega, by omega, by omega, ?_⟩
          rw [addr7 hz1]
          exact hnz
        · rintro ⟨-, -, -, hy1, hz0, -, hnz⟩
          have hz1 : 1 ≤ z := by omega
          rw [addr7 hz1] at hnz
          exact ⟨by omega, by omega, hnz⟩
      · rintro ⟨-, hz1, -⟩
        rw [addr7 (by omega)]
    have addr8 : 1 ≤ y →
        xi.toNat + sx * (((y : Int) - 1).toNat + sy * ((z : Int) + 1).toNat) =
        xi.toNat + sx * (y + sy * z) - sx + sx * sy := by
      intro hy1
      have h1 : ((y : Int) - 1).toNat = y - 1 := by omega
      have h2 : ((z : Int) + 1).toNat = z + 1 := by omega
      rw [h1, h2]
      exact addr_ymzp _ _ _ _ _ hy1
    have e8 : (if 0 < y ∧ z < sz - 1 ∧
          lab (xi.toNat + sx * (y + sy * z) - sx + sx * sy) ≠ 0 then
        [lab (xi.toNat + sx * (y + sy * z) - sx + sx * sy)] else []) =
        cellNb lab sx sy sz xi ((y : Int) - 1) ((z : Int) + 1) := by
      unfold cellNb
      refine (ite_nil_congr ?_ ?_)
      · constructor
        · rintro ⟨hy1, hz1, hnz⟩
          refine ⟨hx0, hxs, by omega, by omega, by omega, by omega, ?_⟩
          rw [addr8 hy1]
          exact hnz
        · rintro ⟨-, -, hy0, -, -, hz1, hnz⟩
          have hy1 : 1 ≤ y := by omega
          rw [addr8 hy1] at hnz
          exact ⟨by omega, by omega, hnz⟩
      · rintro ⟨hy1, -, -⟩
        rw [addr8 (by omega)]
    have addr9 : xi.toNat + sx * (((y : Int) + 1).toNat + sy * ((z : Int) + 1).toNat) =
        xi.toNat + sx * (y + sy * z) + sx + sx * sy := by
      have h1 : ((y : Int) + 1).toNat = y + 1 := by omega
      have h2 : ((z : Int) + 1).toNat = z + 1 := by omega
      rw [h1, h2]
      exact addr_ypzp _ _ _ _ _
    have e9 : (if y < sy - 1 ∧ z < sz - 1 ∧
          lab (xi.toNat + sx * (y + sy * z) + sx + sx * sy) ≠ 0 then
        [lab (xi.toNat + sx * (y + sy * z) + sx + sx * sy)] else []) =
        cellNb lab sx sy sz xi ((y : Int) + 1) ((z : Int) + 1) := by
      unfold cellNb
      rw [addr9]
      refine (ite_nil_congr ?_ (fun _ => rfl))
      constructor
      · rintro ⟨hy1, hz1, hnz⟩
        exact ⟨hx0, hxs, by omega, by omega, by omega, by omega, hnz⟩
      · rintro ⟨-, -, -, hy1, -, hz1, hnz⟩
        exact ⟨by omega, by omega, hnz⟩
    rw [e1, e2, e3, e4, e5, e6, e7, e8, e9]

/-- The fast column fill computes exactly the three `z+1` cells of the
specification column. -/
theorem fill_fast_eq_cells (lab : Nat → Nat) (sx sy sz : Nat) (xi : Int) (y z : Nat)
    (hy : y < sy) (hz : z < sz) :
    fill_partial_stencil_fast_fn lab sx sy sz xi y z =
      cellNb lab sx sy sz xi y ((z : Int) + 1) ++
      cellNb lab sx sy sz xi ((y : Int) - 1) ((z : Int) + 1) ++
      cellNb lab sx sy sz xi ((y : Int) + 1) ((z : Int) + 1) := by
  by_cases hx : xi < 0 ∨ (sx : Int) ≤ xi
  · have hcell : ∀ yi zi : Int, cellNb lab sx sy sz xi yi zi = [] := by
      intro yi zi
      unfold cellNb
      rw [if_neg]
      rintro ⟨h1, h2, -⟩
      omega
    rw [fill_partial_stencil_fast_fn, if_pos hx]
    simp [hcell]
  · push_neg at hx
    obtain ⟨hx0, hxs⟩ := hx
    rw [fill_partial_stencil_fast_fn, if_neg (by omega)]
    show (_ ++ _ ++ _) = _
    have hty : ((y : Int)).toNat = y := by omega
    have addr5 : xi.toNat + sx * (((y : Int)).toNat + sy * ((z : Int) + 1).toNat) =
        xi.toNat + sx * (y + sy * z) + sx * sy := by
      have h1 : ((z : Int) + 1).toNat = z + 1 := by omega
      rw [h1, hty]
      exact addr_zp _ _ _ _ _
    have e5 : (if z < sz - 1 ∧ lab (xi.toNat + sx * (y + sy * z) + sx * sy) ≠ 0 then
        [lab (xi.toNat + sx * (y + sy * z) + sx * sy)] else []) =
        cellNb lab sx sy sz xi y ((z : Int) + 1) := by
      unfold cellNb
      rw [addr5]
      refine (ite_nil_congr ?_ (fun _ => rfl))
      constructor
      · rintro ⟨hz1, hnz⟩
        exact ⟨hx0, hxs, by omega, by omega, by omega, by omega, hnz⟩
      · rintro ⟨-, -, -, -, -, hz1, hnz⟩
        exact ⟨by omega, hnz⟩
    have addr8 : 1 ≤ y →
        xi.toNat + sx * (((y : Int) - 1).toNat + sy * ((z : Int) + 1).toNat) =
        xi.toNat + sx * (y + sy * z) - sx + sx * sy := by
      intro hy1
      have h1 : ((y : Int) - 1).toNat = y - 1 := by omega
      have h2 : ((z : Int) + 1).toNat = z + 1 := by omega
      rw [h1, h2]
      exact addr_ymzp _ _ _ _ _ hy1
    have e8 : (if 0 < y ∧ z < sz - 1 ∧
          lab (xi.toNat + sx * (y + sy * z) - sx + sx * sy) ≠ 0 then
        [lab (xi.toNat + sx * (y + sy * z) - sx + sx * sy)] else []) =
        cellNb lab sx sy sz xi ((y : Int) - 1) ((z : Int) + 1) := by
      unfold cellNb
      refine (ite_nil_congr ?_ ?_)
      · constructor
        · rintro ⟨hy1, hz1, hnz⟩
          refine ⟨hx0, hxs, by omega, by omega, by omega, by omega, ?_⟩
          rw [addr8 hy1]
          exact hnz
        · rintro ⟨-, -, hy0, -, -, hz1, hnz⟩
          have hy1 : 1 ≤ y := by omega
          rw [addr8 hy1] at hnz
          exact ⟨by omega, by omega, hnz⟩
      · rintro ⟨hy1, -, -⟩
        rw [addr8 (by omega)]
    have addr9 : xi.toNat + sx * (((y : Int) + 1).toNat + sy * ((z : Int) + 1).toNat) =
        xi.toNat + sx * (y + sy * z) + sx + sx * sy := by
      have h1 : ((y : Int) + 1).toNat = y + 1 := by omega
      have h2 : ((z : Int) + 1).toNat = z + 1 := by omega
      rw [h1, h2]
      exact addr_ypzp _ _ _ _ _
    have e9 : (if y < sy - 1 ∧ z < sz - 1 ∧
          lab (xi.toNat + sx * (y + sy * z) + sx + sx * sy) ≠ 0 then
        [lab (xi.toNat + sx * (y + sy * z) + sx + sx * sy)] else []) =
        cellNb lab sx sy sz xi ((y : Int) + 1) ((z : Int) + 1) := by
      unfold cellNb
      rw [addr9]
      refine (ite_nil_congr ?_ (fun _ => rfl))
      constructor
      · rintro ⟨hy1, hz1, hnz⟩
        exact ⟨hx0, hxs, by omega, by omega, by omega, by omega, hnz⟩
      · rintro ⟨-, -, -, hy1, -, hz1, hnz⟩
        exact ⟨by omega, by omega, hnz⟩
    rw [e5, e8, e9]

/-- The 2D column fill computes exactly the specification column. -/
theorem fill_col2_eq_colNb2 (lab : Nat → Nat) (sx sy : Nat) (xi : Int) (y : Nat)
    (hy : y < sy) :
    fill_col2 lab sx sy xi y = colNb2 lab sx sy xi y := by
  by_cases hx : xi < 0 ∨ (sx : Int) ≤ xi
  · have hcell : ∀ yi : Int, cellNb2 lab sx sy xi yi = [] := by
      intro yi
      unfold cellNb2
      rw [if_neg]
      rintro ⟨h1, h2, -⟩
      omega
    rw [fill_col2, if_pos hx]
    simp [colNb2, hcell]
  · push_neg at hx
    obtain ⟨hx0, hxs⟩ := hx
    rw [fill_col2, if_neg (by omega)]
    show (_ ++ _ ++ _) = _
    unfold colNb2
    have hty : ((y : Int)).toNat = y := by omega
    have e1 : (if lab (xi.toNat + sx * y) ≠ 0 then [lab (xi.toNat + sx * y)] else []) =
        cellNb2 lab sx sy xi y := by
      unfold cellNb2
      rw [hty]
      refine (ite_nil_congr ?_ (fun _ => rfl))
      exact Iff.intro (fun h => ⟨hx0, hxs, by omega, by omega, h⟩) (fun h => h.2.2.2.2)
    have addr2 : 1 ≤ y → xi.toNat + sx * ((y : Int) - 1).toNat =
        xi.toNat + sx * y - sx := by
      intro hy1
      have h1 : ((y : Int) - 1).toNat = y - 1 := by omega
      rw [h1]
      exact addr_ym2 _ _ _ hy1
    have e2 : (if 0 < y ∧ lab (xi.toNat + sx * y - sx) ≠ 0 then
        [lab (xi.toNat + sx * y - sx)] else []) = cellNb2 lab sx sy xi ((y : Int) - 1) := by
      unfold cellNb2
      refine (ite_nil_congr ?_ ?_)
      · constructor
        · rintro ⟨hy1, hnz⟩
          refine ⟨hx0, hxs, by omega, by omega, ?_⟩
          rw [addr2 hy1]
          exact hnz
        · rintro ⟨-, -, hy0, -, hnz⟩
          have hy1 : 1 ≤ y := by omega
          rw [addr2 hy1] at hnz
          exact ⟨by omega, hnz⟩
      · rintro ⟨hy1, -⟩
        rw [addr2 hy1]
    have addr3 : xi.toNat + sx * ((y : Int) + 1).toNat = xi.toNat + sx * y + sx := by
      have h1 : ((y : Int) + 1).toNat = y + 1 := by omega
      rw [h1]
      exact addr_yp2 _ _ _
    have e3 : (if y < sy - 1 ∧ lab (xi.toNat + sx * y + sx) ≠ 0 then
        [lab (xi.toNat + sx * y + sx)] else []) = cellNb2 lab sx sy xi ((y : Int) + 1) := by
      unfold cellNb2
      rw [addr3]
      refine (ite_nil_congr ?_ (fun _ => rfl))
      constructor
      · rintro ⟨hy1, hnz⟩
        exact ⟨hx0, hxs, by omega, by omega, hnz⟩
      · rintro ⟨-, -, -, hy1, hnz⟩
        exact ⟨by omega, hnz⟩
    rw [e1, e2, e3]

/-- A `cellNb` entry is at most a singleton. -/
theorem cellNb_length_le (lab : Nat → Nat) (sx sy sz : Nat) (xi yi zi : Int) :
    (cellNb lab sx sy sz xi yi zi).length ≤ 1 := by
  unfold cellNb
  split <;> simp

theorem colNb_length_le (lab : Nat → Nat) (sx sy sz : Nat) (xi : Int) (y z : Nat) :
    (colNb lab sx sy sz xi y z).length ≤ 9 := by
  unfold colNb
  simp only [List.length_append]
  have h1 := cellNb_length_le lab sx sy sz xi y z
  have h2 := cellNb_length_le lab sx sy sz xi ((y : Int) - 1) z
  have h3 := cellNb_length_le lab sx sy sz xi ((y : Int) + 1) z
  have h4 := cellNb_length_le lab sx sy sz xi y ((z : Int) - 1)
  have h5 := cellNb_length_le lab sx sy sz xi y ((z : Int) + 1)
  have h6 := cellNb_length_le lab sx sy sz xi ((y : Int) - 1) ((z : Int) - 1)
  have h7 := cellNb_length_le lab sx sy sz xi ((y : Int) + 1) ((z : Int) - 1)
  have h8 := cellNb_length_le lab sx sy sz xi ((y : Int) - 1) ((z : Int) + 1)
  have h9 := cellNb_length_le lab sx sy sz xi ((y : Int) + 1) ((z : Int) + 1)
  omega

theorem cellNb2_length_le (lab : Nat → Nat) (sx sy : Nat) (xi yi : Int) :
    (cellNb2 lab sx sy xi yi).length ≤ 1 := by
  unfold cellNb2
  split <;> simp

theorem colNb2_length_le (lab : Nat → Nat) (sx sy : Nat) (xi : Int) (y : Nat) :
    (colNb2 lab sx sy xi y).length ≤ 3 := by
  unfold colNb2
  simp only [List.length_append]
  have h1 := cellNb2_length_le lab sx sy xi y
  have h2 := cellNb2_length_le lab sx sy xi ((y : Int) - 1)
  have h3 := cellNb2_length_le lab sx sy xi ((y : Int) + 1)
  omega

/-- Every label collected by `cellNb` is nonzero. -/
theorem cellNb_ne_zero {lab : Nat → Nat} {sx sy sz : Nat} {xi yi zi : Int} {w : Nat}
    (hw : w ∈ cellNb lab sx sy sz xi yi zi) : w ≠ 0 := by
  unfold cellNb at hw
  split at hw
  · rename_i h
    simp at hw
    subst hw
    exact h.2.2.2.2.2.2
  · simp at hw

theorem colNb_ne_zero {lab : Nat → Nat} {sx sy sz : Nat} {xi : Int} {y z : Nat} {w : Nat}
    (hw : w ∈ colNb lab sx sy sz xi y z) : w ≠ 0 := by
  unfold colNb at hw
  simp only [List.mem_append] at hw
  rcases hw with ((((((((h | h) | h) | h) | h) | h) | h) | h) | h) <;>
    exact cellNb_ne_zero h

theorem nbhd3_ne_zero {lab : Nat → Nat} {sx sy sz : Nat} {x y z : Nat} {w : Nat}
    (hw : w ∈ nbhd3 lab sx sy sz x y z) : w ≠ 0 := by
  unfold nbhd3 at hw
  simp only [List.mem_append] at hw
  rcases hw with (h | h) | h <;> exact colNb_ne_zero h

theorem cellNb2_ne_zero {lab : Nat → Nat} {sx sy : Nat} {xi yi : Int} {w : Nat}
    (hw : w ∈ cellNb2 lab sx sy xi yi) : w ≠ 0 := by
  unfold cellNb2 at hw
  split at hw
  · rename_i h
    simp at hw
    subst hw
    exact h.2.2.2.2
  · simp at hw

theorem colNb2_ne_zero {lab : Nat → Nat} {sx sy : Nat} {xi : Int} {y : Nat} {w : Nat}
    (hw : w ∈ colNb2 lab sx sy xi y) : w ≠ 0 := by
  unfold colNb2 at hw
  simp only [List.mem_append] at hw
  rcases hw with (h | h) | h <;> exact cellNb2_ne_zero h

theorem nbhd2_ne_zero {lab : Nat → Nat} {sx sy : Nat} {x y : Nat} {w : Nat}
    (hw : w ∈ nbhd2 lab sx sy x y) : w ≠ 0 := by
  unfold nbhd2 at hw
  simp only [List.mem_append] at hw
  rcases hw with (h | h) | h <;> exact colNb2_ne_zero h

/-- The center's nonzero label belongs to its own neighborhood. -/
theorem center_mem_nbhd3 {lab : Nat → Nat} {sx sy sz : Nat} {x y z : Nat}
    (hx : x < sx) (hy : y < sy) (hz : z < sz)
    (hnz : lab (x + sx * (y + sy * z)) ≠ 0) :
    lab (x + sx * (y + sy * z)) ∈ nbhd3 lab sx sy sz x y z := by
  have hmem : lab (x + sx * (y + sy * z)) ∈ cellNb lab sx sy sz (x : Int) (y : Int) (z : Int) := by
    unfold cellNb
    rw [if_pos]
    · simp only [Int.toNat_natCast, List.mem_singleton]
    · refine ⟨by omega, by omega, by omega, by omega, by omega, by omega, ?_⟩
      simpa [Int.toNat_natCast] using hnz
  unfold nbhd3 colNb
  simp only [List.mem_append]
  exact Or.inl (Or.inr (Or.inl (Or.inl (Or.inl (Or.inl (Or.inl (Or.inl (Or.inl
    (Or.inl hmem)))))))))

theorem center_mem_nbhd2 {lab : Nat → Nat} {sx sy : Nat} {x y : Nat}
    (hx : x < sx) (hy : y < sy) (hnz : lab (x + sx * y) ≠ 0) :
    lab (x + sx * y) ∈ nbhd2 lab sx sy x y := by
  have hmem : lab (x + sx * y) ∈ cellNb2 lab sx sy (x : Int) (y : Int) := by
    unfold cellNb2
    rw [if_pos]
    · simp only [Int.toNat_natCast, List.mem_singleton]
    · refine ⟨by omega, by omega, by omega, by omega, ?_⟩
      simpa [Int.toNat_natCast] using hnz
  unfold nbhd2 colNb2
  simp only [List.mem_append]
  exact Or.inl (Or.inr (Or.inl (Or.inl hmem)))

/-- The neighborhood is the concatenation of the three column fills. -/
theorem nbhd3_eq_fills (lab : Nat → Nat) (sx sy sz : Nat) (x y z : Nat)
    (hy : y < sy) (hz : z < sz) :
    nbhd3 lab sx sy sz x y z =
      fill_partial_stencil_fn lab sx sy sz ((x : Int) - 1) y z ++
      fill_partial_stencil_fn lab sx sy sz (x : Int) y z ++
      fill_partial_stencil_fn lab sx sy sz ((x : Int) + 1) y z := by
  unfold nbhd3
  rw [fill_eq_colNb lab sx sy sz ((x : Int) - 1) y z hy hz,
    fill_eq_colNb lab sx sy sz (x : Int) y z hy hz,
    fill_eq_colNb lab sx sy sz ((x : Int) + 1) y z hy hz]

theorem nbhd2_eq_fills (lab : Nat → Nat) (sx sy : Nat) (x y : Nat) (hy : y < sy) :
    nbhd2 lab sx sy x y =
      fill_col2 lab sx sy ((x : Int) - 1) y ++ fill_col2 lab sx sy (x : Int) y ++
      fill_col2 lab sx sy ((x : Int) + 1) y := by
  unfold nbhd2
  rw [fill_col2_eq_colNb2 lab sx sy ((x : Int) - 1) y hy,
    fill_col2_eq_colNb2 lab sx sy (x : Int) y hy,
    fill_col2_eq_colNb2 lab sx sy ((x : Int) + 1) y hy]

/-- When the column's specification list at the voxel one slice below is
empty, the fast column fill of the source agrees with the full fill: the
`z-1` and `z` slabs of the column are all background, so only the `z+1`
slab can contribute. -/
theorem fast_fill_eq_of_below_col_empty (lab : Nat → Nat) (sx sy sz : Nat) (xi : Int)
    (y z : Nat) (hy : y < sy) (hz : z < sz) (hz1 : 1 ≤ z)
    (hcol : colNb lab sx sy sz xi y (z - 1) = []) :
    fill_partial_stencil_fast_fn lab sx sy sz xi y z =
      fill_partial_stencil_fn lab sx sy sz xi y z := by
  rw [fill_eq_colNb lab sx sy sz xi y z hy hz, fill_fast_eq_cells lab sx sy sz xi y z hy hz]
  unfold colNb at hcol ⊢
  simp only [List.append_eq_nil] at hcol
  obtain ⟨⟨⟨⟨⟨⟨⟨⟨hb1, hb2⟩, hb3⟩, hb4⟩, hb5⟩, hb6⟩, hb7⟩, hb8⟩, hb9⟩ := hcol
  have hzz2 : ((z - 1 : Nat) : Int) + 1 = (z : Int) := by omega
  have hzz : ((z - 1 : Nat) : Int) = (z : Int) - 1 := by omega
  rw [hzz2] at hb5 hb8 hb9
  rw [hzz] at hb1 hb2 hb3
  rw [hb5, hb8, hb9, hb1, hb2, hb3]
  simp

/-- A dilated voxel is zero exactly when its neighborhood has no nonzero
label (3D). -/
theorem dilateSpec3_eq_zero_iff (lab : Nat → Nat) (sx sy sz : Nat) (bg : Bool)
    (x y z : Nat) (hx : x < sx) (hy : y < sy) (hz : z < sz) :
    dilateSpec3 lab sx sy sz bg x y z = 0 ↔ nbhd3 lab sx sy sz x y z = [] := by
  unfold dilateSpec3
  by_cases hbg : bg ∧ lab (x + sx * (y + sy * z)) ≠ 0
  · rw [if_pos hbg]
    constructor
    · intro h
      exact absurd h hbg.2
    · intro h
      have := center_mem_nbhd3 hx hy hz hbg.2
      rw [h] at this
      exact absurd this (List.not_mem_nil _)
  · rw [if_neg hbg]
    constructor
    · intro h
      by_contra hne
      exact specMode_ne_zero hne (fun w hw => nbhd3_ne_zero hw) h
    · intro h
      rw [h]
      rfl

/-- A dilated voxel is zero exactly when its neighborhood has no nonzero
label (2D). -/
theorem dilateSpec2_eq_zero_iff (lab : Nat → Nat) (sx sy : Nat) (bg : Bool)
    (x y : Nat) (hx : x < sx) (hy : y < sy) :
    dilateSpec2 lab sx sy bg x y = 0 ↔ nbhd2 lab sx sy x y = [] := by
  unfold dilateSpec2
  by_cases hbg : bg ∧ lab (x + sx * y) ≠ 0
  · rw [if_pos hbg]
    constructor
    · intro h
      exact absurd h hbg.2
    · intro h
      have := center_mem_nbhd2 hx hy hbg.2
      rw [h] at this
      exact absurd this (List.not_mem_nil _)
  · rw [if_neg hbg]
    constructor
    · intro h
      by_contra hne
      exact specMode_ne_zero hne (fun w hw => nbhd2_ne_zero hw) h
    · intro h
      rw [h]
      rfl

theorem upd_self (f : Nat → Nat) (i v : Nat) : upd f i v i = v := by
  simp [upd]

theorem upd_ne (f : Nat → Nat) (i v j : Nat) (h : j ≠ i) : upd f i v j = f j := by
  simp [upd, h]

set_option maxHeartbeats 2000000 in
/-- Frame property of one dilate row: indices outside the row's extended
write range (`x .. min(xe+1,sx) - 1` at the fixed `y`, `z`) are untouched. -/
theorem mdRow_frame (lab : Nat → Nat) (sx sy sz : Nat) (bg : Bool) (zs xe y z : Nat)
    (hxe : xe ≤ sx) :
    ∀ (fuel x stale : Nat) (L M R : List Nat) (out : Nat → Nat) (i : Nat),
      (∀ t, x ≤ t → t < min (xe + 1) sx → i ≠ t + sx * (y + sy * z)) →
      (mdRow lab sx sy sz bg zs xe y z fuel x stale L M R out).2 i = out i := by
  intro fuel
  induction fuel with
  | zero => intro x stale L M R out i _; rfl
  | succ f ih =>
    intro x stale L M R out i h
    by_cases hx : x < xe
    · have h1 : i ≠ x + sx * (y + sy * z) := h x (le_refl _) (by omega)
      have h2 : x + 1 < sx → i ≠ (x + 1) + sx * (y + sy * z) :=
        fun hs => h (x + 1) (by omega) (by omega)
      rw [mdRow, if_pos hx]
      repeat' split
      all_goals dsimp only []
      all_goals repeat' split
      all_goals
        rw [ih _ _ _ _ _ _ _ (fun t ht hlt => h t (by omega) hlt)]
      all_goals
        first
        | rfl
        | (rw [upd_ne _ _ _ _ h1])
        | (rename_i hc
           rw [upd_ne _ _ _ _ (by have := h2 (by omega); omega), upd_ne _ _ _ _ h1])
    · rw [mdRow, if_neg hx]

/-- Frame property of the dilate `y` loop. -/
theorem mdYLoop_frame (lab : Nat → Nat) (sx sy sz : Nat) (bg : Bool)
    (zs xs xe z : Nat) (hxe : xe ≤ sx) :
    ∀ (fy y : Nat) (st : (List Nat × List Nat × List Nat) × (Nat → Nat)) (i : Nat),
      (∀ t u, xs ≤ t → t < min (xe + 1) sx → y ≤ u → u < y + fy →
        i ≠ t + sx * (u + sy * z)) →
      (mdYLoop lab sx sy sz bg zs xs xe z fy y st).2 i = st.2 i := by
  intro fy
  induction fy with
  | zero => intro y st i _; rfl
  | succ f ih =>
    intro y st i h
    simp only [mdYLoop]
    rw [ih _ _ _ (fun t u ht hlt hu hu2 => h t u ht hlt (by omega) (by omega))]
    exact mdRow_frame lab sx sy sz bg zs xe y z hxe _ _ _ _ _ _ _ _
      (fun t ht hlt => h t y ht hlt (le_refl _) (by omega))

/-- Frame property of the dilate `z` loop. -/
theorem mdZLoop_frame (lab : Nat → Nat) (sx sy sz : Nat) (bg : Bool)
    (zs xs xe ys ye : Nat) (hxe : xe ≤ sx) :
    ∀ (fz z : Nat) (st : (List Nat × List Nat × List Nat) × (Nat → Nat)) (i : Nat),
      (∀ t u w, xs ≤ t → t < min (xe + 1) sx → ys ≤ u → u < ys + (ye - ys) →
        z ≤ w → w < z + fz → i ≠ t + sx * (u + sy * w)) →
      (mdZLoop lab sx sy sz bg zs xs xe ys ye fz z st).2 i = st.2 i := by
  intro fz
  induction fz with
  | zero => intro z st i _; rfl
  | succ f ih =>
    intro z st i h
    simp only [mdZLoop]
    rw [ih _ _ _ (fun t u w ht hlt hu hu2 hw hw2 =>
      h t u w ht hlt hu hu2 (by omega) (by omega))]
    exact mdYLoop_frame lab sx sy sz bg zs xs xe z hxe _ _ _ _
      (fun t u ht hlt hu hu2 => h t u z ht hlt hu (by omega) (le_refl _) (by omega))

/-- Frame property of the whole 3D dilate `process_block`: with a
well-formed `x` range, nothing outside the extended region changes. -/
theorem mdBlock_frame (lab : Nat → Nat) (sx sy sz : Nat) (bg : Bool)
    (xs xe ys ye zs ze : Nat) (out : Nat → Nat) (i : Nat)
    (hxe : xe ≤ sx) (hni : ¬ mdExt sx sy xs xe ys ye zs ze i) :
    mdBlock lab sx sy sz bg xs xe ys ye zs ze out i = out i := by
  unfold mdBlock
  exact mdZLoop_frame lab sx sy sz bg zs xs xe ys ye hxe _ _ _ _
    (fun t u w ht hlt hu hu2 hw hw2 hc =>
      hni ⟨t, u, w, ht, by omega, hu, by omega, hw, by omega, hc⟩)

/-- Two distinct labels cannot together account for more than the length. -/
theorem two_count_le_length (l : List Nat) {v w : Nat} (h : v ≠ w) :
    l.count v + l.count w ≤ l.length := by
  induction l with
  | nil => simp
  | cons a t ih =>
    simp only [List.count_cons, List.length_cons, beq_iff_eq]
    by_cases hv : a = v
    · by_cases hw : a = w
      · exact absurd (hv.symm.trans hw) h
      · rw [if_pos hv, if_neg hw]; omega
    · by_cases hw : a = w
      · rw [if_neg hv, if_pos hw]; omega
      · rw [if_neg hv, if_neg hw]; omega

/-- Fortran-order addresses are injective on in-bounds coordinates. -/
theorem enc3_inj {sx sy x y x2 y2 : Nat} (z z2 : Nat) (hx : x < sx) (hx2 : x2 < sx)
    (hy : y < sy) (hy2 : y2 < sy)
    (he : x + sx * (y + sy * z) = x2 + sx * (y2 + sy * z2)) :
    x = x2 ∧ y = y2 ∧ z = z2 := by
  have h1 : (x + sx * (y + sy * z)) % sx = x := by
    rw [Nat.add_mul_mod_self_left, Nat.mod_eq_of_lt hx]
  have h2 : (x2 + sx * (y2 + sy * z2)) % sx = x2 := by
    rw [Nat.add_mul_mod_self_left, Nat.mod_eq_of_lt hx2]
  have hxx : x = x2 := by rw [← h1, ← h2, he]
  subst hxx
  have hsx : 0 < sx := by omega
  have hsy : 0 < sy := by omega
  have h3 : sx * (y + sy * z) = sx * (y2 + sy * z2) := by omega
  have h4 : y + sy * z = y2 + sy * z2 := Nat.eq_of_mul_eq_mul_left hsx h3
  have h5 : (y + sy * z) % sy = y := by
    rw [Nat.add_mul_mod_self_left, Nat.mod_eq_of_lt hy]
  have h6 : (y2 + sy * z2) % sy = y2 := by
    rw [Nat.add_mul_mod_self_left, Nat.mod_eq_of_lt hy2]
  have hyy : y = y2 := by rw [← h5, ← h6, h4]
  subst hyy
  have h7 : sy * z = sy * z2 := by omega
  exact ⟨rfl, rfl, Nat.eq_of_mul_eq_mul_left hsy h7⟩

/-- `dilateSpec2` with `background_only = false` is the neighborhood mode. -/
theorem dilateSpec2_false (lab : Nat → Nat) (sx sy x y : Nat) :
    dilateSpec2 lab sx sy false x y = specMode (nbhd2 lab sx sy x y) := by
  unfold dilateSpec2
  rw [if_neg (by simp)]

/-- `dilateSpec3` with `background_only = false` is the neighborhood mode. -/
theorem dilateSpec3_false (lab : Nat → Nat) (sx sy sz x y z : Nat) :
    dilateSpec3 lab sx sy sz false x y z = specMode (nbhd3 lab sx sy sz x y z) := by
  unfold dilateSpec3
  rw [if_neg (by simp)]

/-- The 3×3 neighborhood one voxel to the right, written with the current
voxel's column indices. -/
theorem nbhd2_succ (lab : Nat → Nat) (sx sy x y : Nat) :
    nbhd2 lab sx sy (x + 1) y =
      colNb2 lab sx sy (x : Int) y ++ colNb2 lab sx sy ((x : Int) + 1) y ++
      colNb2 lab sx sy ((x : Int) + 2) y := by
  unfold nbhd2
  have h1 : ((x + 1 : Nat) : Int) - 1 = (x : Int) := by push_cast; ring
  have h2 : ((x + 1 : Nat) : Int) = (x : Int) + 1 := by push_cast; ring
  have h3 : ((x + 1 : Nat) : Int) + 1 = (x : Int) + 2 := by push_cast; ring
  rw [h1, h3, h2]

theorem nbhd3_succ (lab : Nat → Nat) (sx sy sz x y z : Nat) :
    nbhd3 lab sx sy sz (x + 1) y z =
      colNb lab sx sy sz (x : Int) y z ++ colNb lab sx sy sz ((x : Int) + 1) y z ++
      colNb lab sx sy sz ((x : Int) + 2) y z := by
  unfold nbhd3
  have h1 : ((x + 1 : Nat) : Int) - 1 = (x : Int) := by push_cast; ring
  have h2 : ((x + 1 : Nat) : Int) = (x : Int) + 1 := by push_cast; ring
  have h3 : ((x + 1 : Nat) : Int) + 1 = (x : Int) + 2 := by push_cast; ring
  rw [h1, h3, h2]

/-- An empty stencil at the current voxel means its dilated value is 0 (2D). -/
theorem md2_empty_spec (lab : Nat → Nat) (sx sy x y : Nat)
    (L1 M1 R1 : List Nat)
    (hL : L1.Perm (colNb2 lab sx sy ((x : Int) - 1) y))
    (hM : M1.Perm (colNb2 lab sx sy (x : Int) y))
    (hR : R1.Perm (colNb2 lab sx sy ((x : Int) + 1) y))
    (hlen : L1.length + M1.length + R1.length = 0) :
    dilateSpec2 lab sx sy false x y = 0 := by
  rw [dilateSpec2_false]
  have hLn : L1 = [] := List.eq_nil_of_length_eq_zero (by omega)
  have hMn : M1 = [] := List.eq_nil_of_length_eq_zero (by omega)
  have hRn : R1 = [] := List.eq_nil_of_length_eq_zero (by omega)
  have h1 : colNb2 lab sx sy ((x : Int) - 1) y = [] := (hLn ▸ hL).symm.eq_nil
  have h2 : colNb2 lab sx sy (x : Int) y = [] := (hMn ▸ hM).symm.eq_nil
  have h3 : colNb2 lab sx sy ((x : Int) + 1) y = [] := (hRn ▸ hR).symm.eq_nil
  unfold nbhd2
  rw [h1, h3, h2]
  rfl

/-- An empty stencil at the current voxel means its dilated value is 0 (3D). -/
theorem md3_empty_spec (lab : Nat → Nat) (sx sy sz x y z : Nat)
    (L1 M1 R1 : List Nat)
    (hL : L1.Perm (colNb lab sx sy sz ((x : Int) - 1) y z))
    (hM : M1.Perm (colNb lab sx sy sz (x : Int) y z))
    (hR : R1.Perm (colNb lab sx sy sz ((x : Int) + 1) y z))
    (hlen : L1.length + M1.length + R1.length = 0) :
    dilateSpec3 lab sx sy sz false x y z = 0 := by
  rw [dilateSpec3_false]
  have hLn : L1 = [] := List.eq_nil_of_length_eq_zero (by omega)
  have hMn : M1 = [] := List.eq_nil_of_length_eq_zero (by omega)
  have hRn : R1 = [] := List.eq_nil_of_length_eq_zero (by omega)
  have h1 : colNb lab sx sy sz ((x : Int) - 1) y z = [] := (hLn ▸ hL).symm.eq_nil
  have h2 : colNb lab sx sy sz (x : Int) y z = [] := (hMn ▸ hM).symm.eq_nil
  have h3 : colNb lab sx sy sz ((x : Int) + 1) y z = [] := (hRn ▸ hR).symm.eq_nil
  unfold nbhd3
  rw [h1, h3, h2]
  rfl

/-- A sorted nonempty list of nonzero labels whose head equals its last is
uniformly its (nonzero) head. -/
theorem sorted_uniform_head {l : List Nat} (hs : List.Sorted (· ≤ ·) l)
    (hne : l ≠ []) (h : l.getD 0 0 = l.getD (l.length - 1) 0)
    (h0 : ∀ w ∈ l, w ≠ 0) :
    l.getD 0 0 ∈ l ∧ l.getD 0 0 ≠ 0 ∧ ∀ w ∈ l, w = l.getD 0 0 := by
  have hall := sorted_head_eq_last hs hne h
  rcases hx : l with _ | ⟨a, t⟩
  · exact absurd hx hne
  · subst hx
    refine ⟨List.mem_cons_self _ _, h0 _ (List.mem_cons_self _ _), hall⟩

/-- Dominance by a uniform block: if `l` is a permutation of `P ++ Q` where
`P` is uniformly `v` and longer than all of `Q`, the mode is `v`. -/
theorem specMode_dom_uniform {l P Q : List Nat} {v : Nat}
    (hperm : l.Perm (P ++ Q)) (hPall : ∀ w ∈ P, w = v) (hPne : P ≠ [])
    (hQlen : Q.length < P.length) :
    specMode l = v := by
  have hvP : v ∈ P := by
    rcases hx : P with _ | ⟨a, t⟩
    · exact absurd hx hPne
    · have := hPall a (hx ▸ List.mem_cons_self a t)
      rw [← this]
      exact hx ▸ List.mem_cons_self a t
  have hPcount : P.count v = P.length :=
    List.count_eq_length.mpr (fun b hb => (hPall b hb).symm)
  rw [specMode_perm hperm]
  refine specMode_dominant (List.mem_append.mpr (Or.inl hvP)) ?_
  intro w hw hwv
  have hw0 : P.count w = 0 := by
    rw [List.count_eq_zero]
    intro hc
    exact hwv (hPall w hc)
  rw [List.count_append, List.count_append, hw0, hPcount]
  have := List.count_le_length (a := w) (l := Q)
  omega

/-- Dominance by count: if `l` is a permutation of `P ++ Q`, `v` occurs at
least `k` times in `P`, and `|P| + |Q| < 2k`, the mode is `v`. -/
theorem specMode_dom_count {l P Q : List Nat} {v : Nat} {k : Nat}
    (hperm : l.Perm (P ++ Q)) (hv : k ≤ P.count v)
    (hbound : P.length + Q.length < 2 * k) :
    specMode l = v := by
  have hk1 : 1 ≤ k := by
    have := List.count_le_length (a := v) (l := P)
    omega
  have hvP : v ∈ P := List.count_pos_iff.mp (by omega)
  rw [specMode_perm hperm]
  refine specMode_dominant (List.mem_append.mpr (Or.inl hvP)) ?_
  intro w hw hwv
  have h2 := two_count_le_length P (Ne.symm hwv)
  have h3 := List.count_le_length (a := w) (l := Q)
  rw [List.count_append, List.count_append]
  omega

/-- The 2D pair-emit branch: when the sorted middle and right columns are
each uniform with a common value and together hold at least 5 labels, that
value is the dilation mode of both the current voxel and the next one. -/
theorem md2_pair_spec (lab : Nat → Nat) (sx sy : Nat) (x y : Nat)
    (L1 M1 R1 : List Nat)
    (hL : L1.Perm (colNb2 lab sx sy ((x : Int) - 1) y))
    (hM : M1.Perm (colNb2 lab sx sy (x : Int) y))
    (hR : R1.Perm (colNb2 lab sx sy ((x : Int) + 1) y))
    (hc : 5 ≤ (sortL R1).length + (sortL M1).length ∧
      (sortL R1).getD 0 0 = (sortL R1).getD ((sortL R1).length - 1) 0 ∧
      (sortL M1).getD 0 0 = (sortL M1).getD ((sortL M1).length - 1) 0 ∧
      (sortL R1).getD 0 0 = (sortL M1).getD 0 0) :
    dilateSpec2 lab sx sy false x y = (sortL R1).getD 0 0 ∧
      dilateSpec2 lab sx sy false (x + 1) y = (sortL R1).getD 0 0 := by
  obtain ⟨hlen, hRu, hMu, hRM⟩ := hc
  have hR0 : ∀ w ∈ sortL R1, w ≠ 0 := fun w hw =>
    colNb2_ne_zero (hR.mem_iff.mp ((sortL_perm R1).mem_iff.mp hw))
  have hM0 : ∀ w ∈ sortL M1, w ≠ 0 := fun w hw =>
    colNb2_ne_zero (hM.mem_iff.mp ((sortL_perm M1).mem_iff.mp hw))
  -- the right column cannot be empty
  have hRne : sortL R1 ≠ [] := by
    intro hnil
    have hv0 : (sortL R1).getD 0 0 = 0 := by rw [hnil]; rfl
    have hMne : sortL M1 ≠ [] := by
      intro hnil2
      rw [List.length_eq_zero.mpr hnil, List.length_eq_zero.mpr hnil2] at hlen
      omega
    rcases hx : sortL M1 with _ | ⟨a, t⟩
    · exact hMne hx
    · have ha : a ≠ 0 := hM0 a (hx ▸ List.mem_cons_self a t)
      have h2 : (sortL M1).getD 0 0 = a := by rw [hx]; rfl
      rw [hv0, h2] at hRM
      exact ha hRM.symm
  obtain ⟨hvR, hv0, hallR⟩ := sorted_uniform_head (sortL_sorted R1) hRne hRu hR0
  have hMne : sortL M1 ≠ [] := by
    intro hnil
    have h2 : (sortL M1).getD 0 0 = 0 := by rw [hnil]; rfl
    rw [h2] at hRM
    exact hv0 hRM
  have hallM : ∀ w ∈ sortL M1, w = (sortL R1).getD 0 0 := by
    intro w hw
    rw [sorted_head_eq_last (sortL_sorted M1) hMne hMu w hw, ← hRM]
  have hallP : ∀ w ∈ sortL M1 ++ sortL R1, w = (sortL R1).getD 0 0 := by
    intro w hw
    rcases List.mem_append.mp hw with h | h
    · exact hallM w h
    · exact hallR w h
  have hPne : sortL M1 ++ sortL R1 ≠ [] := by
    intro hnil
    exact hMne (List.append_eq_nil.mp hnil).1
  have hMB : (colNb2 lab sx sy (x : Int) y).Perm (sortL M1) :=
    ((sortL_perm M1).trans hM).symm
  have hRB : (colNb2 lab sx sy ((x : Int) + 1) y).Perm (sortL R1) :=
    ((sortL_perm R1).trans hR).symm
  constructor
  · rw [dilateSpec2_false]
    refine specMode_dom_uniform (P := sortL M1 ++ sortL R1) (Q := L1) ?_ hallP hPne ?_
    · show (nbhd2 lab sx sy x y).Perm _
      unfold nbhd2
      rw [List.append_assoc]
      exact List.perm_append_comm.trans (List.Perm.append (List.Perm.append hMB hRB) hL.symm)
    · have h1 := hL.length_eq
      have h2 := colNb2_length_le lab sx sy ((x : Int) - 1) y
      rw [List.length_append]
      omega
  · rw [dilateSpec2_false]
    refine specMode_dom_uniform (P := sortL M1 ++ sortL R1)
      (Q := colNb2 lab sx sy ((x : Int) + 2) y) ?_ hallP hPne ?_
    · rw [nbhd2_succ]
      exact List.Perm.append (List.Perm.append hMB hRB) (List.Perm.refl _)
    · have h1 := colNb2_length_le lab sx sy ((x : Int) + 2) y
      rw [List.length_append]
      omega

/-- The 2D mode branch: the scan-with-break over the gathered, sorted
neighborhood computes the dilation mode of the current voxel, and when the
reported count is at least 8 it is also the mode of the next voxel. -/
theorem md2_mode_spec (lab : Nat → Nat) (sx sy : Nat) (x y : Nat)
    (L1 M1 R1 : List Nat)
    (hL : L1.Perm (colNb2 lab sx sy ((x : Int) - 1) y))
    (hM : M1.Perm (colNb2 lab sx sy (x : Int) y))
    (hR : R1.Perm (colNb2 lab sx sy ((x : Int) + 1) y))
    (hlen : L1.length + M1.length + R1.length ≠ 0) :
    (modeScanBreak (sortL (L1 ++ sortL M1 ++ sortL R1))).1 =
      dilateSpec2 lab sx sy false x y ∧
    (8 ≤ (modeScanBreak (sortL (L1 ++ sortL M1 ++ sortL R1))).2 →
      dilateSpec2 lab sx sy false (x + 1) y =
        (modeScanBreak (sortL (L1 ++ sortL M1 ++ sortL R1))).1) := by
  have hnsp : (sortL (L1 ++ sortL M1 ++ sortL R1)).Perm (L1 ++ sortL M1 ++ sortL R1) :=
    sortL_perm _
  have hnsp2 : (sortL (L1 ++ sortL M1 ++ sortL R1)).Perm (L1 ++ M1 ++ R1) := by
    refine hnsp.trans ?_
    exact List.Perm.append (List.Perm.append (List.Perm.refl _) (sortL_perm M1)) (sortL_perm R1)
  have hnbhd : (sortL (L1 ++ sortL M1 ++ sortL R1)).Perm (nbhd2 lab sx sy x y) := by
    refine hnsp2.trans ?_
    unfold nbhd2
    exact List.Perm.append (List.Perm.append hL hM) hR
  have hnsne : sortL (L1 ++ sortL M1 ++ sortL R1) ≠ [] := by
    intro hnil
    have h0 := hnsp2.length_eq
    rw [hnil] at h0
    simp only [List.length_nil, List.length_append] at h0
    omega
  obtain ⟨hm1, hm2⟩ := modeScanBreak_spec (sortL_sorted _) hnsne
  refine ⟨?_, ?_⟩
  · rw [hm1, dilateSpec2_false, specMode_perm hnbhd]
  · intro hct
    have hcount : 8 ≤ (sortL (L1 ++ sortL M1 ++ sortL R1)).count
        (modeScanBreak (sortL (L1 ++ sortL M1 ++ sortL R1))).1 := le_trans hct hm2
    rw [hnsp.count_eq, List.count_append, List.count_append] at hcount
    have hL1len : L1.length ≤ 3 := by
      have h1 := hL.length_eq
      have h2 := colNb2_length_le lab sx sy ((x : Int) - 1) y
      omega
    have hLc : L1.count (modeScanBreak (sortL (L1 ++ sortL M1 ++ sortL R1))).1 ≤ 3 :=
      le_trans (List.count_le_length _ _) hL1len
    have hMlen : (sortL M1).length ≤ 3 := by
      have h0 := (sortL_perm M1).length_eq
      have h1 := hM.length_eq
      have h2 := colNb2_length_le lab sx sy (x : Int) y
      omega
    have hRlen : (sortL R1).length ≤ 3 := by
      have h0 := (sortL_perm R1).length_eq
      have h1 := hR.length_eq
      have h2 := colNb2_length_le lab sx sy ((x : Int) + 1) y
      omega
    have hPc : 5 ≤ (sortL M1 ++ sortL R1).count
        (modeScanBreak (sortL (L1 ++ sortL M1 ++ sortL R1))).1 := by
      rw [List.count_append]
      omega
    rw [dilateSpec2_false]
    refine specMode_dom_count (P := sortL M1 ++ sortL R1)
      (Q := colNb2 lab sx sy ((x : Int) + 2) y) ?_ hPc ?_
    · rw [nbhd2_succ]
      refine List.Perm.append (List.Perm.append ?_ ?_) (List.Perm.refl _)
      · exact ((sortL_perm M1).trans hM).symm
      · exact ((sortL_perm R1).trans hR).symm
    · have h1 := colNb2_length_le lab sx sy ((x : Int) + 2) y
      simp only [List.length_append]
      omega

/-- Behaviour of the 2D dilate row after a single store at the current
voxel with the correct dilated value: assuming the induction hypothesis
for the remaining fuel, the row completes correctly from `x`. -/
theorem md2Row_store1 (lab : Nat → Nat) (sx sy xe y : Nat) (f x : Nat)
    (hx : x < xe) (hxe : xe ≤ sx) (hfuel : xe ≤ x + 1 + f)
    (IH : ∀ (x2 stale2 : Nat) (L2 M2 R2 : List Nat) (out2 : Nat → Nat),
      xe ≤ x2 + f → 1 ≤ stale2 →
      (stale2 = 1 → M2.Perm (colNb2 lab sx sy ((x2 : Int) - 1) y) ∧
        R2.Perm (colNb2 lab sx sy (x2 : Int) y)) →
      (stale2 = 2 → R2.Perm (colNb2 lab sx sy ((x2 : Int) - 1) y)) →
      (∀ t, x2 ≤ t → t < xe → out2 (t + sx * y) = 0 ∨
        out2 (t + sx * y) = dilateSpec2 lab sx sy false t y) →
      (∀ t, x2 ≤ t → t < xe →
        (md2Row lab sx sy false xe y f x2 stale2 L2 M2 R2 out2).2 (t + sx * y) =
          dilateSpec2 lab sx sy false t y) ∧
      (∀ i, (md2Row lab sx sy false xe y f x2 stale2 L2 M2 R2 out2).2 i = out2 i ∨
        ∃ t, x2 ≤ t ∧ t ≤ xe ∧ t < sx ∧ i = t + sx * y ∧
          (md2Row lab sx sy false xe y f x2 stale2 L2 M2 R2 out2).2 i =
            dilateSpec2 lab sx sy false t y))
    (LA MA RA : List Nat) (out : Nat → Nat) (v : Nat)
    (hMA : MA.Perm (colNb2 lab sx sy (x : Int) y))
    (hRA : RA.Perm (colNb2 lab sx sy ((x : Int) + 1) y))
    (hv : v = dilateSpec2 lab sx sy false x y)
    (hpre : ∀ t, x ≤ t → t < xe → out (t + sx * y) = 0 ∨
      out (t + sx * y) = dilateSpec2 lab sx sy false t y) :
    (∀ t, x ≤ t → t < xe →
      (md2Row lab sx sy false xe y f (x + 1) 1 LA MA RA
        (upd out (x + sx * y) v)).2 (t + sx * y) =
        dilateSpec2 lab sx sy false t y) ∧
    (∀ i, (md2Row lab sx sy false xe y f (x + 1) 1 LA MA RA
        (upd out (x + sx * y) v)).2 i = out i ∨
      ∃ t, x ≤ t ∧ t ≤ xe ∧ t < sx ∧ i = t + sx * y ∧
        (md2Row lab sx sy false xe y f (x + 1) 1 LA MA RA
          (upd out (x + sx * y) v)).2 i = dilateSpec2 lab sx sy false t y) := by
  have hc1 : ((x + 1 : Nat) : Int) - 1 = (x : Int) := by push_cast; ring
  have hc2 : ((x + 1 : Nat) : Int) = (x : Int) + 1 := by push_cast; ring
  obtain ⟨ihA, ihB⟩ := IH (x + 1) 1 LA MA RA (upd out (x + sx * y) v)
    (by omega) (by omega)
    (fun _ => ⟨by rw [hc1]; exact hMA, by rw [hc2]; exact hRA⟩)
    (fun h2 => absurd h2 (by omega))
    (fun t ht hlt => by
      rw [upd_ne _ _ _ _ (by omega)]
      exact hpre t (by omega) hlt)
  constructor
  · intro t ht hlt
    by_cases hteq : t = x
    · rw [hteq]
      rcases ihB (x + sx * y) with hB | ⟨t2, ht2, _, _, hteq2, hval⟩
      · rw [hB, upd_self, hv]
      · omega
    · exact ihA t (by omega) hlt
  · intro i
    rcases ihB i with hB | ⟨t2, ht2, h1, h2, h3, h4⟩
    · by_cases hi : i = x + sx * y
      · refine Or.inr ⟨x, le_refl _, by omega, by omega, hi, ?_⟩
        rw [hB, hi, upd_self, hv]
      · rw [hB, upd_ne _ _ _ _ hi]
        exact Or.inl rfl
    · exact Or.inr ⟨t2, by omega, h1, h2, h3, h4⟩

/-- Behaviour of the 2D dilate row after a pair store at the current voxel
and its right neighbor. -/
theorem md2Row_store2 (lab : Nat → Nat) (sx sy xe y : Nat) (f x : Nat)
    (hx : x < xe) (hxe : xe ≤ sx) (hsxm : x < sx - 1) (hfuel : xe ≤ x + 1 + f)
    (IH : ∀ (x2 stale2 : Nat) (L2 M2 R2 : List Nat) (out2 : Nat → Nat),
      xe ≤ x2 + f → 1 ≤ stale2 →
      (stale2 = 1 → M2.Perm (colNb2 lab sx sy ((x2 : Int) - 1) y) ∧
        R2.Perm (colNb2 lab sx sy (x2 : Int) y)) →
      (stale2 = 2 → R2.Perm (colNb2 lab sx sy ((x2 : Int) - 1) y)) →
      (∀ t, x2 ≤ t → t < xe → out2 (t + sx * y) = 0 ∨
        out2 (t + sx * y) = dilateSpec2 lab sx sy false t y) →
      (∀ t, x2 ≤ t → t < xe →
        (md2Row lab sx sy false xe y f x2 stale2 L2 M2 R2 out2).2 (t + sx * y) =
          dilateSpec2 lab sx sy false t y) ∧
      (∀ i, (md2Row lab sx sy false xe y f x2 stale2 L2 M2 R2 out2).2 i = out2 i ∨
        ∃ t, x2 ≤ t ∧ t ≤ xe ∧ t < sx ∧ i = t + sx * y ∧
          (md2Row lab sx sy false xe y f x2 stale2 L2 M2 R2 out2).2 i =
            dilateSpec2 lab sx sy false t y))
    (LA MA RA : List Nat) (out : Nat → Nat) (v : Nat)
    (hRA : RA.Perm (colNb2 lab sx sy ((x : Int) + 1) y))
    (hv : v = dilateSpec2 lab sx sy false x y)
    (hv2 : dilateSpec2 lab sx sy false (x + 1) y = v)
    (hpre : ∀ t, x ≤ t → t < xe → out (t + sx * y) = 0 ∨
      out (t + sx * y) = dilateSpec2 lab sx sy false t y) :
    (∀ t, x ≤ t → t < xe →
      (md2Row lab sx sy false xe y f (x + 2) 2 LA MA RA
        (upd (upd out (x + sx * y) v) (x + sx * y + 1) v)).2 (t + sx * y) =
        dilateSpec2 lab sx sy false t y) ∧
    (∀ i, (md2Row lab sx sy false xe y f (x + 2) 2 LA MA RA
        (upd (upd out (x + sx * y) v) (x + sx * y + 1) v)).2 i = out i ∨
      ∃ t, x ≤ t ∧ t ≤ xe ∧ t < sx ∧ i = t + sx * y ∧
        (md2Row lab sx sy false xe y f (x + 2) 2 LA MA RA
          (upd (upd out (x + sx * y) v) (x + sx * y + 1) v)).2 i =
          dilateSpec2 lab sx sy false t y) := by
  have hc1 : ((x + 2 : Nat) : Int) - 1 = (x : Int) + 1 := by push_cast; ring
  have haddr : (x + 1) + sx * y = x + sx * y + 1 := by omega
  obtain ⟨ihA, ihB⟩ := IH (x + 2) 2 LA MA RA
    (upd (upd out (x + sx * y) v) (x + sx * y + 1) v)
    (by omega) (by omega)
    (fun h1 => absurd h1 (by omega))
    (fun _ => by rw [hc1]; exact hRA)
    (fun t ht hlt => by
      rw [upd_ne _ _ _ _ (by omega), upd_ne _ _ _ _ (by omega)]
      exact hpre t (by omega) hlt)
  have hself1 : (upd (upd out (x + sx * y) v) (x + sx * y + 1) v) (x + sx * y) = v := by
    rw [upd_ne _ _ _ _ (by omega), upd_self]
  have hself2 : (upd (upd out (x + sx * y) v) (x + sx * y + 1) v) ((x + 1) + sx * y) = v := by
    rw [haddr, upd_self]
  constructor
  · intro t ht hlt
    by_cases hteq : t = x
    · rw [hteq]
      rcases ihB (x + sx * y) with hB | ⟨t2, ht2, _, _, hteq2, hval⟩
      · rw [hB, hself1, hv]
      · omega
    · by_cases hteq1 : t = x + 1
      · rw [hteq1]
        rcases ihB ((x + 1) + sx * y) with hB | ⟨t2, ht2, _, _, hteq2, hval⟩
        · rw [hB, hself2, hv2]
        · omega
      · exact ihA t (by omega) hlt
  · intro i
    rcases ihB i with hB | ⟨t2, ht2, h1, h2, h3, h4⟩
    · by_cases hi1 : i = x + sx * y
      · refine Or.inr ⟨x, le_refl _, by omega, by omega, hi1, ?_⟩
        rw [hB, hi1, hself1, hv]
      · by_cases hi2 : i = x + sx * y + 1
        · have hself3 : (upd (upd out (x + sx * y) v) (x + sx * y + 1) v)
              (x + sx * y + 1) = v := upd_self _ _ _
          refine Or.inr ⟨x + 1, by omega, by omega, by omega, by omega, ?_⟩
          rw [hB, hi2, hself3, hv2]
        · rw [hB, upd_ne _ _ _ _ hi2, upd_ne _ _ _ _ hi1]
          exact Or.inl rfl
    · exact Or.inr ⟨t2, by omega, h1, h2, h3, h4⟩

/-- One resolved iteration of the 2D dilate row: once the three stencil
columns are known (up to permutation) to be the specification columns of
the current voxel, the branch taken by the engine stores the correct
dilated values and the recursion completes the row. -/
theorem md2Row_resolve (lab : Nat → Nat) (sx sy xe y : Nat)
    (hy : y < sy) (hxe : xe ≤ sx)
    (f x : Nat) (hx : x < xe) (hfuel : xe ≤ x + 1 + f)
    (IH : ∀ (x2 stale2 : Nat) (L2 M2 R2 : List Nat) (out2 : Nat → Nat),
      xe ≤ x2 + f → 1 ≤ stale2 →
      (stale2 = 1 → M2.Perm (colNb2 lab sx sy ((x2 : Int) - 1) y) ∧
        R2.Perm (colNb2 lab sx sy (x2 : Int) y)) →
      (stale2 = 2 → R2.Perm (colNb2 lab sx sy ((x2 : Int) - 1) y)) →
      (∀ t, x2 ≤ t → t < xe → out2 (t + sx * y) = 0 ∨
        out2 (t + sx * y) = dilateSpec2 lab sx sy false t y) →
      (∀ t, x2 ≤ t → t < xe →
        (md2Row lab sx sy false xe y f x2 stale2 L2 M2 R2 out2).2 (t + sx * y) =
          dilateSpec2 lab sx sy false t y) ∧
      (∀ i, (md2Row lab sx sy false xe y f x2 stale2 L2 M2 R2 out2).2 i = out2 i ∨
        ∃ t, x2 ≤ t ∧ t ≤ xe ∧ t < sx ∧ i = t + sx * y ∧
          (md2Row lab sx sy false xe y f x2 stale2 L2 M2 R2 out2).2 i =
            dilateSpec2 lab sx sy false t y))
    (L1 M1 R1 : List Nat) (out : Nat → Nat)
    (hL1 : L1.Perm (colNb2 lab sx sy ((x : Int) - 1) y))
    (hM1 : M1.Perm (colNb2 lab sx sy (x : Int) y))
    (hR1 : R1.Perm (colNb2 lab sx sy ((x : Int) + 1) y))
    (hpre : ∀ t, x ≤ t → t < xe → out (t + sx * y) = 0 ∨
      out (t + sx * y) = dilateSpec2 lab sx sy false t y)
    (res : (List Nat × List Nat × List Nat) × (Nat → Nat))
    (hres : res =
      if L1.length + M1.length + R1.length = 0 then
        md2Row lab sx sy false xe y f (x + 1) 1 L1 M1 R1 out
      else
        if 5 ≤ (sortL R1).length + (sortL M1).length ∧
            (sortL R1).getD 0 0 = (sortL R1).getD ((sortL R1).length - 1) 0 ∧
            (sortL M1).getD 0 0 = (sortL M1).getD ((sortL M1).length - 1) 0 ∧
            (sortL R1).getD 0 0 = (sortL M1).getD 0 0 then
          if x < sx - 1 then
            md2Row lab sx sy false xe y f (x + 2) 2 L1 (sortL M1) (sortL R1)
              (upd (upd out (x + sx * y) ((sortL R1).getD 0 0)) (x + sx * y + 1)
                ((sortL R1).getD 0 0))
          else
            md2Row lab sx sy false xe y f (x + 1) 1 L1 (sortL M1) (sortL R1)
              (upd out (x + sx * y) ((sortL R1).getD 0 0))
        else
          if 8 ≤ (modeScanBreak (sortL (L1 ++ sortL M1 ++ sortL R1))).2 ∧ x < sx - 1 then
            md2Row lab sx sy false xe y f (x + 2) 2 L1 (sortL M1) (sortL R1)
              (upd (upd out (x + sx * y)
                  (modeScanBreak (sortL (L1 ++ sortL M1 ++ sortL R1))).1)
                (x + sx * y + 1) (modeScanBreak (sortL (L1 ++ sortL M1 ++ sortL R1))).1)
          else
            md2Row lab sx sy false xe y f (x + 1) 1 L1 (sortL M1) (sortL R1)
              (upd out (x + sx * y)
                (modeScanBreak (sortL (L1 ++ sortL M1 ++ sortL R1))).1)) :
    (∀ t, x ≤ t → t < xe →
      res.2 (t + sx * y) = dilateSpec2 lab sx sy false t y) ∧
    (∀ i, res.2 i = out i ∨
      ∃ t, x ≤ t ∧ t ≤ xe ∧ t < sx ∧ i = t + sx * y ∧
        res.2 i = dilateSpec2 lab sx sy false t y) := by
  subst hres
  have hc1 : ((x + 1 : Nat) : Int) - 1 = (x : Int) := by push_cast; ring
  have hc2 : ((x + 1 : Nat) : Int) = (x : Int) + 1 := by push_cast; ring
  by_cases hlen : L1.length + M1.length + R1.length = 0
  · rw [if_pos hlen]
    obtain ⟨ihA, ihB⟩ := IH (x + 1) 1 L1 M1 R1 out (by omega) (by omega)
      (fun _ => ⟨by rw [hc1]; exact hM1, by rw [hc2]; exact hR1⟩)
      (fun h2 => absurd h2 (by omega))
      (fun t ht hlt => hpre t (by omega) hlt)
    have hspec0 : dilateSpec2 lab sx sy false x y = 0 :=
      md2_empty_spec lab sx sy x y L1 M1 R1 hL1 hM1 hR1 hlen
    constructor
    · intro t ht hlt
      by_cases hteq : t = x
      · rw [hteq]
        rcases ihB (x + sx * y) with hB | ⟨t2, ht2, _, _, hteq2, hval⟩
        · rcases hpre x (le_refl _) (by omega) with h0 | hsp
          · rw [hB, h0, hspec0]
          · rw [hB, hsp]
        · omega
      · exact ihA t (by omega) hlt
    · intro i
      rcases ihB i with hB | ⟨t2, ht2, h1, h2, h3, h4⟩
      · exact Or.inl hB
      · exact Or.inr ⟨t2, by omega, h1, h2, h3, h4⟩
  · rw [if_neg hlen]
    by_cases hpair : 5 ≤ (sortL R1).length + (sortL M1).length ∧
        (sortL R1).getD 0 0 = (sortL R1).getD ((sortL R1).length - 1) 0 ∧
        (sortL M1).getD 0 0 = (sortL M1).getD ((sortL M1).length - 1) 0 ∧
        (sortL R1).getD 0 0 = (sortL M1).getD 0 0
    · rw [if_pos hpair]
      obtain ⟨hv1, hv2⟩ := md2_pair_spec lab sx sy x y L1 M1 R1 hL1 hM1 hR1 hpair
      by_cases hsxm : x < sx - 1
      · rw [if_pos hsxm]
        exact md2Row_store2 lab sx sy xe y f x hx hxe hsxm hfuel IH
          L1 (sortL M1) (sortL R1) out ((sortL R1).getD 0 0)
          ((sortL_perm R1).trans hR1) hv1.symm hv2 hpre
      · rw [if_neg hsxm]
        exact md2Row_store1 lab sx sy xe y f x hx hxe hfuel IH
          L1 (sortL M1) (sortL R1) out ((sortL R1).getD 0 0)
          ((sortL_perm M1).trans hM1) ((sortL_perm R1).trans hR1) hv1.symm hpre
    · rw [if_neg hpair]
      obtain ⟨hm1, hm2⟩ := md2_mode_spec lab sx sy x y L1 M1 R1 hL1 hM1 hR1 hlen
      by_cases hctx : 8 ≤ (modeScanBreak (sortL (L1 ++ sortL M1 ++ sortL R1))).2 ∧
          x < sx - 1
      · rw [if_pos hctx]
        exact md2Row_store2 lab sx sy xe y f x hx hxe hctx.2 hfuel IH
          L1 (sortL M1) (sortL R1) out
          (modeScanBreak (sortL (L1 ++ sortL M1 ++ sortL R1))).1
          ((sortL_perm R1).trans hR1) hm1 (hm2 hctx.1) hpre
      · rw [if_neg hctx]
        exact md2Row_store1 lab sx sy xe y f x hx hxe hfuel IH
          L1 (sortL M1) (sortL R1) out
          (modeScanBreak (sortL (L1 ++ sortL M1 ++ sortL R1))).1
          ((sortL_perm M1).trans hM1) ((sortL_perm R1).trans hR1) hm1 hpre

/-- Full correctness of one 2D dilate row (`background_only = false`): the
row writes the dilated value at every voxel of `[x, xe)` and any other
index it touches lies in the extended range and also receives its dilated
value. -/
theorem md2Row_spec (lab : Nat → Nat) (sx sy xe y : Nat)
    (hy : y < sy) (hxe : xe ≤ sx) :
    ∀ (fuel x stale : Nat) (L M R : List Nat) (out : Nat → Nat),
      xe ≤ x + fuel → 1 ≤ stale →
      (stale = 1 → M.Perm (colNb2 lab sx sy ((x : Int) - 1) y) ∧
        R.Perm (colNb2 lab sx sy (x : Int) y)) →
      (stale = 2 → R.Perm (colNb2 lab sx sy ((x : Int) - 1) y)) →
      (∀ t, x ≤ t → t < xe → out (t + sx * y) = 0 ∨
        out (t + sx * y) = dilateSpec2 lab sx sy false t y) →
      (∀ t, x ≤ t → t < xe →
        (md2Row lab sx sy false xe y fuel x stale L M R out).2 (t + sx * y) =
          dilateSpec2 lab sx sy false t y) ∧
      (∀ i, (md2Row lab sx sy false xe y fuel x stale L M R out).2 i = out i ∨
        ∃ t, x ≤ t ∧ t ≤ xe ∧ t < sx ∧ i = t + sx * y ∧
          (md2Row lab sx sy false xe y fuel x stale L M R out).2 i =
            dilateSpec2 lab sx sy false t y) := by
  intro fuel
  induction fuel with
  | zero =>
    intro x stale L M R out hfuel hst hs1 hs2 hpre
    exact ⟨fun t ht hlt => absurd hlt (by omega), fun i => Or.inl rfl⟩
  | succ f ih =>
    intro x stale L M R out hfuel hst hs1 hs2 hpre
    by_cases hx : x < xe
    · rw [md2Row, if_pos hx]
      dsimp only []
      rw [if_neg (show ¬(false = true ∧ lab (x + sx * y) ≠ 0) by simp)]
      rcases (show stale = 1 ∨ stale = 2 ∨ 3 ≤ stale by omega) with hst1 | hst2 | hst3
      · obtain ⟨hsM, hsR⟩ := hs1 hst1
        rw [if_pos hst1]
        dsimp only []
        rw [fill_col2_eq_colNb2 lab sx sy ((x : Int) + 1) y hy]
        exact md2Row_resolve lab sx sy xe y hy hxe f x hx (by omega) ih
          M R (colNb2 lab sx sy ((x : Int) + 1) y) out hsM hsR (List.Perm.refl _)
          hpre _ rfl
      · rw [if_neg (show ¬(stale = 1) by omega), if_pos hst2]
        dsimp only []
        rw [fill_col2_eq_colNb2 lab sx sy ((x : Int) + 1) y hy,
          fill_col2_eq_colNb2 lab sx sy (x : Int) y hy]
        exact md2Row_resolve lab sx sy xe y hy hxe f x hx (by omega) ih
          R (colNb2 lab sx sy (x : Int) y) (colNb2 lab sx sy ((x : Int) + 1) y) out
          (hs2 hst2) (List.Perm.refl _) (List.Perm.refl _) hpre _ rfl
      · rw [if_neg (show ¬(stale = 1) by omega), if_neg (show ¬(stale = 2) by omega),
          if_pos hst3]
        dsimp only []
        rw [fill_col2_eq_colNb2 lab sx sy ((x : Int) + 1) y hy,
          fill_col2_eq_colNb2 lab sx sy (x : Int) y hy,
          fill_col2_eq_colNb2 lab sx sy ((x : Int) - 1) y hy]
        exact md2Row_resolve lab sx sy xe y hy hxe f x hx (by omega) ih
          (colNb2 lab sx sy ((x : Int) - 1) y) (colNb2 lab sx sy (x : Int) y)
          (colNb2 lab sx sy ((x : Int) + 1) y) out
          (List.Perm.refl _) (List.Perm.refl _) (List.Perm.refl _) hpre _ rfl
    · rw [md2Row, if_neg hx]
      exact ⟨fun t ht hlt => absurd hlt (by omega), fun i => Or.inl rfl⟩

/-- 2D Fortran-order addresses are injective on in-bounds coordinates. -/
theorem enc2_inj {sx x y x2 y2 : Nat} (hx : x < sx) (hx2 : x2 < sx)
    (he : x + sx * y = x2 + sx * y2) :
    x = x2 ∧ y = y2 := by
  have h1 : (x + sx * y) % sx = x := by
    rw [Nat.add_mul_mod_self_left, Nat.mod_eq_of_lt hx]
  have h2 : (x2 + sx * y2) % sx = x2 := by
    rw [Nat.add_mul_mod_self_left, Nat.mod_eq_of_lt hx2]
  have hxx : x = x2 := by rw [← h1, ← h2, he]
  subst hxx
  have hsx : 0 < sx := by omega
  have h3 : sx * y = sx * y2 := by omega
  exact ⟨rfl, Nat.eq_of_mul_eq_mul_left hsx h3⟩

/-- Correctness of the 2D dilate `y` loop: every row in `[y, y+fy)` is
dilated, all other indices are untouched or receive their dilated value. -/
theorem md2YLoop_spec (lab : Nat → Nat) (sx sy xs xe : Nat) (hxe : xe ≤ sx) :
    ∀ (fy y : Nat) (st : (List Nat × List Nat × List Nat) × (Nat → Nat)),
      y + fy ≤ sy →
      (∀ t u, t < sx → u < sy → st.2 (t + sx * u) = 0 ∨
        st.2 (t + sx * u) = dilateSpec2 lab sx sy false t u) →
      (∀ t u, xs ≤ t → t < xe → y ≤ u → u < y + fy →
        (md2YLoop lab sx sy false xs xe fy y st).2 (t + sx * u) =
          dilateSpec2 lab sx sy false t u) ∧
      (∀ i, (md2YLoop lab sx sy false xs xe fy y st).2 i = st.2 i ∨
        ∃ t u, xs ≤ t ∧ t ≤ xe ∧ t < sx ∧ y ≤ u ∧ u < y + fy ∧ i = t + sx * u ∧
          (md2YLoop lab sx sy false xs xe fy y st).2 i =
            dilateSpec2 lab sx sy false t u) := by
  intro fy
  induction fy with
  | zero =>
    intro y st hbound hpre
    exact ⟨fun t u _ _ _ h => absurd h (by omega), fun i => Or.inl rfl⟩
  | succ f ih =>
    intro y st hbound hpre
    simp only [md2YLoop]
    obtain ⟨rowA, rowB⟩ := md2Row_spec lab sx sy xe y (by omega) hxe
      (xe - xs) xs 3 st.1.1 st.1.2.1 st.1.2.2 st.2 (by omega) (by omega)
      (fun h1 => absurd h1 (by omega)) (fun h2 => absurd h2 (by omega))
      (fun t ht hlt => hpre t y (by omega) (by omega))
    obtain ⟨ihA, ihB⟩ := ih (y + 1)
      (md2Row lab sx sy false xe y (xe - xs) xs 3 st.1.1 st.1.2.1 st.1.2.2 st.2)
      (by omega)
      (fun t u htx huy => by
        rcases rowB (t + sx * u) with hB | ⟨t2, ht2, h1, h2, h3, h4⟩
        · rw [hB]; exact hpre t u htx huy
        · obtain ⟨he1, he2⟩ := enc2_inj htx h2 h3
          right
          rw [h4, ← he1, ← he2]
        )
    constructor
    · intro t u htx hlt huy hu2
      by_cases hueq : u = y
      · rw [hueq]
        rcases ihB (t + sx * y) with hB | ⟨t2, u2, ht2, h1, h2, hu3, hu4, h3, h4⟩
        · rw [hB]
          exact rowA t htx hlt
        · obtain ⟨he1, he2⟩ := enc2_inj (by omega) h2 h3
          omega
      · exact ihA t u htx hlt (by omega) (by omega)
    · intro i
      rcases ihB i with hB | ⟨t2, u2, ht2, h1, h2, hu3, hu4, h3, h4⟩
      · rcases rowB i with hB2 | ⟨t2, ht2, h1, h2, h3, h4⟩
        · exact Or.inl (hB.trans hB2)
        · exact Or.inr ⟨t2, y, ht2, h1, h2, le_refl _, by omega, h3, hB.trans h4⟩
      · exact Or.inr ⟨t2, u2, ht2, h1, h2, by omega, by omega, h3, h4⟩

/-- Correctness of the 2D dilate `process_block`. -/
theorem md2Block_spec (lab : Nat → Nat) (sx sy : Nat)
    (xs xe ys ye zs ze : Nat) (out : Nat → Nat)
    (hxe : xe ≤ sx) (hye : ye ≤ sy) (hys : ys ≤ sy)
    (hpre : ∀ t u, t < sx → u < sy → out (t + sx * u) = 0 ∨
      out (t + sx * u) = dilateSpec2 lab sx sy false t u) :
    (∀ t u, xs ≤ t → t < xe → ys ≤ u → u < ye →
      md2Block lab sx sy false xs xe ys ye zs ze out (t + sx * u) =
        dilateSpec2 lab sx sy false t u) ∧
    (∀ i, md2Block lab sx sy false xs xe ys ye zs ze out i = out i ∨
      ∃ t u, xs ≤ t ∧ t ≤ xe ∧ t < sx ∧ ys ≤ u ∧ u < ye ∧ i = t + sx * u ∧
        md2Block lab sx sy false xs xe ys ye zs ze out i =
          dilateSpec2 lab sx sy false t u) := by
  obtain ⟨lA, lB⟩ := md2YLoop_spec lab sx sy xs xe hxe (ye - ys) ys (([], [], []), out)
    (by omega) hpre
  constructor
  · intro t u htx hlt huy hu2
    exact lA t u htx hlt huy (by omega)
  · intro i
    rcases lB i with hB | ⟨t2, u2, ht2, h1, h2, hu3, hu4, h3, h4⟩
    · exact Or.inl hB
    · exact Or.inr ⟨t2, u2, ht2, h1, h2, hu3, by omega, h3, h4⟩

/-- Correctness of the block fold for 2D dilation: every block's region is
dilated, everything else is untouched or dilated. -/
theorem runBlocks_md2_spec (lab : Nat → Nat) (sx sy : Nat) :
    ∀ (blocks : List (Nat × Nat × Nat × Nat × Nat × Nat)) (out : Nat → Nat),
      (∀ b ∈ blocks, b.2.1 ≤ sx ∧ b.2.2.2.1 ≤ sy ∧ b.2.2.1 ≤ sy) →
      (∀ t u, t < sx → u < sy → out (t + sx * u) = 0 ∨
        out (t + sx * u) = dilateSpec2 lab sx sy false t u) →
      (∀ t u, t < sx → u < sy →
        runBlocks (fun axs axe ays aye azs aze o =>
          md2Block lab sx sy false axs axe ays aye azs aze o) blocks out (t + sx * u) =
            out (t + sx * u) ∨
        runBlocks (fun axs axe ays aye azs aze o =>
          md2Block lab sx sy false axs axe ays aye azs aze o) blocks out (t + sx * u) =
            dilateSpec2 lab sx sy false t u) ∧
      (∀ b ∈ blocks, ∀ t u, b.1 ≤ t → t < b.2.1 → b.2.2.1 ≤ u → u < b.2.2.2.1 →
        runBlocks (fun axs axe ays aye azs aze o =>
          md2Block lab sx sy false axs axe ays aye azs aze o) blocks out (t + sx * u) =
          dilateSpec2 lab sx sy false t u) := by
  intro blocks
  induction blocks with
  | nil =>
    intro out hWF hpre
    exact ⟨fun t u _ _ => Or.inl rfl, fun b hb => absurd hb (List.not_mem_nil b)⟩
  | cons b bs ih =>
    intro out hWF hpre
    obtain ⟨hbxe, hbye, hbys⟩ := hWF b (List.mem_cons_self b bs)
    obtain ⟨blA, blB⟩ := md2Block_spec lab sx sy b.1 b.2.1 b.2.2.1 b.2.2.2.1
      b.2.2.2.2.1 b.2.2.2.2.2 out hbxe hbye hbys hpre
    have hpre1 : ∀ t u, t < sx → u < sy →
        md2Block lab sx sy false b.1 b.2.1 b.2.2.1 b.2.2.2.1 b.2.2.2.2.1 b.2.2.2.2.2
          out (t + sx * u) = 0 ∨
        md2Block lab sx sy false b.1 b.2.1 b.2.2.1 b.2.2.2.1 b.2.2.2.2.1 b.2.2.2.2.2
          out (t + sx * u) = dilateSpec2 lab sx sy false t u := by
      intro t u htx huy
      rcases blB (t + sx * u) with hB | ⟨t2, u2, ht2, h1, h2, hu3, hu4, h3, h4⟩
      · rw [hB]; exact hpre t u htx huy
      · obtain ⟨he1, he2⟩ := enc2_inj htx h2 h3
        right
        rw [h4, ← he1, ← he2]
    obtain ⟨ihA, ihB⟩ := ih
      (md2Block lab sx sy false b.1 b.2.1 b.2.2.1 b.2.2.2.1 b.2.2.2.2.1 b.2.2.2.2.2 out)
      (fun b2 hb2 => hWF b2 (List.mem_cons_of_mem b hb2)) hpre1
    have hrun : runBlocks (fun axs axe ays aye azs aze o =>
        md2Block lab sx sy false axs axe ays aye azs aze o) (b :: bs) out =
        runBlocks (fun axs axe ays aye azs aze o =>
          md2Block lab sx sy false axs axe ays aye azs aze o) bs
          (md2Block lab sx sy false b.1 b.2.1 b.2.2.1 b.2.2.2.1 b.2.2.2.2.1
            b.2.2.2.2.2 out) := rfl
    rw [hrun]
    constructor
    · intro t u htx huy
      rcases ihA t u htx huy with hA | hA
      · rcases hpre1 t u htx huy with h0 | hsp
        · rcases blB (t + sx * u) with hB | ⟨t2, u2, ht2, h1, h2, hu3, hu4, h3, h4⟩
          · exact Or.inl (hA.trans hB)
          · obtain ⟨he1, he2⟩ := enc2_inj htx h2 h3
            right
            rw [hA, h4, ← he1, ← he2]
        · right
          rw [hA, hsp]
      · exact Or.inr hA
    · intro b2 hb2 t u ht1 ht2 hu1 hu2
      rcases List.mem_cons.mp hb2 with rfl | hmem
      · have htx : t < sx := by omega
        have huy : u < sy := by omega
        rcases ihA t u htx huy with hA | hA
        · rw [hA]
          exact blA t u ht1 ht2 hu1 hu2
        · exact hA
      · exact ihB b2 hmem t u ht1 ht2 hu1 hu2

/-- The 2D multilabel dilation entry point computes the per-voxel dilation
contract at every in-bounds voxel (`background_only = false`). -/
theorem multilabel_dilate2_spec (lab : Nat → Nat) (sx sy x y : Nat)
    (hx : x < sx) (hy : y < sy) :
    multilabel_dilate2 lab (fun _ => 0) sx sy false (x + sx * y) =
      dilateSpec2 lab sx sy false x y := by
  unfold multilabel_dilate2
  have hWF : ∀ b ∈ blockList sx sy 1 0, b.2.1 ≤ sx ∧ b.2.2.2.1 ≤ sy ∧ b.2.2.1 ≤ sy := by
    intro b hb
    unfold blockList at hb
    rcases List.mem_flatMap.mp hb with ⟨gz, hgz, hb2⟩
    rcases List.mem_flatMap.mp hb2 with ⟨gy, hgy, hb3⟩
    rcases List.mem_map.mp hb3 with ⟨gx, hgx, rfl⟩
    have hgy2 : gy < gridDim sy (blockSize 1) := List.mem_range.mp hgy
    unfold blockBounds blockSize at *
    unfold gridDim at hgy2
    simp only [if_neg (show ¬(1 < 1) by omega)] at *
    have hsub : u64sub sy 0 = sy := by unfold u64sub; simp
    have hsub2 : u64sub sx 0 = sx := by unfold u64sub; simp
    rw [hsub, hsub2]
    exact ⟨min_le_right _ _, min_le_right _ _, by omega⟩
  have hpre : ∀ t u, t < sx → u < sy → (fun _ => (0 : Nat)) (t + sx * u) = 0 ∨
      (fun _ => (0 : Nat)) (t + sx * u) = dilateSpec2 lab sx sy false t u :=
    fun t u _ _ => Or.inl rfl
  obtain ⟨_, hcov⟩ := runBlocks_md2_spec lab sx sy (blockList sx sy 1 0) (fun _ => 0)
    hWF hpre
  have hmem : blockBounds sx sy 1 0 (blockSize 1) (x / 512) (y / 512) 0 ∈
      blockList sx sy 1 0 := by
    unfold blockList
    refine List.mem_flatMap.mpr ⟨0, ?_, ?_⟩
    · refine List.mem_range.mpr ?_
      unfold gridDim blockSize
      simp only [if_neg (show ¬(1 < 1) by omega)]
      omega
    · refine List.mem_flatMap.mpr ⟨y / 512, ?_, ?_⟩
      · refine List.mem_range.mpr ?_
        unfold gridDim blockSize
        simp only [if_neg (show ¬(1 < 1) by omega)]
        omega
      · refine List.mem_map.mpr ⟨x / 512, ?_, rfl⟩
        refine List.mem_range.mpr ?_
        unfold gridDim blockSize
        simp only [if_neg (show ¬(1 < 1) by omega)]
        omega
  have hb := hcov _ hmem x y
  unfold blockBounds blockSize at hb
  simp only [if_neg (show ¬(1 < 1) by omega)] at hb
  have hsub2 : u64sub sx 0 = sx := by unfold u64sub; simp
  have hsub3 : u64sub sy 0 = sy := by unfold u64sub; simp
  rw [hsub2, hsub3] at hb
  exact hb (by omega) (by omega) (by omega) (by omega)

/-- The 3D pair-emit branch: when the sorted middle and right columns are
each uniform with a common value and together hold at least 14 labels,
that value is the dilation mode of both the current voxel and the next. -/
theorem md3_pair_spec (lab : Nat → Nat) (sx sy sz : Nat) (x y z : Nat)
    (L1 M1 R1 : List Nat)
    (hL : L1.Perm (colNb lab sx sy sz ((x : Int) - 1) y z))
    (hM : M1.Perm (colNb lab sx sy sz (x : Int) y z))
    (hR : R1.Perm (colNb lab sx sy sz ((x : Int) + 1) y z))
    (hc : 14 ≤ (sortL R1).length + (sortL M1).length ∧
      (sortL R1).getD 0 0 = (sortL R1).getD ((sortL R1).length - 1) 0 ∧
      (sortL M1).getD 0 0 = (sortL M1).getD ((sortL M1).length - 1) 0 ∧
      (sortL R1).getD 0 0 = (sortL M1).getD 0 0) :
    dilateSpec3 lab sx sy sz false x y z = (sortL R1).getD 0 0 ∧
      dilateSpec3 lab sx sy sz false (x + 1) y z = (sortL R1).getD 0 0 := by
  obtain ⟨hlen, hRu, hMu, hRM⟩ := hc
  have hR0 : ∀ w ∈ sortL R1, w ≠ 0 := fun w hw =>
    colNb_ne_zero (hR.mem_iff.mp ((sortL_perm R1).mem_iff.mp hw))
  have hM0 : ∀ w ∈ sortL M1, w ≠ 0 := fun w hw =>
    colNb_ne_zero (hM.mem_iff.mp ((sortL_perm M1).mem_iff.mp hw))
  have hRne : sortL R1 ≠ [] := by
    intro hnil
    have hv0 : (sortL R1).getD 0 0 = 0 := by rw [hnil]; rfl
    have hMne : sortL M1 ≠ [] := by
      intro hnil2
      rw [List.length_eq_zero.mpr hnil, List.length_eq_zero.mpr hnil2] at hlen
      omega
    rcases hx : sortL M1 with _ | ⟨a, t⟩
    · exact hMne hx
    · have ha : a ≠ 0 := hM0 a (hx ▸ List.mem_cons_self a t)
      have h2 : (sortL M1).getD 0 0 = a := by rw [hx]; rfl
      rw [hv0, h2] at hRM
      exact ha hRM.symm
  obtain ⟨hvR, hv0, hallR⟩ := sorted_uniform_head (sortL_sorted R1) hRne hRu hR0
  have hMne : sortL M1 ≠ [] := by
    intro hnil
    have h2 : (sortL M1).getD 0 0 = 0 := by rw [hnil]; rfl
    rw [h2] at hRM
    exact hv0 hRM
  have hallM : ∀ w ∈ sortL M1, w = (sortL R1).getD 0 0 := by
    intro w hw
    rw [sorted_head_eq_last (sortL_sorted M1) hMne hMu w hw, ← hRM]
  have hallP : ∀ w ∈ sortL M1 ++ sortL R1, w = (sortL R1).getD 0 0 := by
    intro w hw
    rcases List.mem_append.mp hw with h | h
    · exact hallM w h
    · exact hallR w h
  have hPne : sortL M1 ++ sortL R1 ≠ [] := by
    intro hnil
    exact hMne (List.append_eq_nil.mp hnil).1
  have hMB : (colNb lab sx sy sz (x : Int) y z).Perm (sortL M1) :=
    ((sortL_perm M1).trans hM).symm
  have hRB : (colNb lab sx sy sz ((x : Int) + 1) y z).Perm (sortL R1) :=
    ((sortL_perm R1).trans hR).symm
  constructor
  · rw [dilateSpec3_false]
    refine specMode_dom_uniform (P := sortL M1 ++ sortL R1) (Q := L1) ?_ hallP hPne ?_
    · show (nbhd3 lab sx sy sz x y z).Perm _
      unfold nbhd3
      rw [List.append_assoc]
      exact List.perm_append_comm.trans (List.Perm.append (List.Perm.append hMB hRB) hL.symm)
    · have h1 := hL.length_eq
      have h2 := colNb_length_le lab sx sy sz ((x : Int) - 1) y z
      rw [List.length_append]
      omega
  · rw [dilateSpec3_false]
    refine specMode_dom_uniform (P := sortL M1 ++ sortL R1)
      (Q := colNb lab sx sy sz ((x : Int) + 2) y z) ?_ hallP hPne ?_
    · rw [nbhd3_succ]
      exact List.Perm.append (List.Perm.append hMB hRB) (List.Perm.refl _)
    · have h1 := colNb_length_le lab sx sy sz ((x : Int) + 2) y z
      rw [List.length_append]
      omega

/-- The 3D all-uniform branch: a uniform sorted neighborhood of at least
23 labels dilates both the current voxel and the next to its value. -/
theorem md3_unif_spec (lab : Nat → Nat) (sx sy sz : Nat) (x y z : Nat)
    (L1 M1 R1 : List Nat)
    (hL : L1.Perm (colNb lab sx sy sz ((x : Int) - 1) y z))
    (hM : M1.Perm (colNb lab sx sy sz (x : Int) y z))
    (hR : R1.Perm (colNb lab sx sy sz ((x : Int) + 1) y z))
    (hlen : L1.length + M1.length + R1.length ≠ 0)
    (hhead : (sortL (L1 ++ sortL M1 ++ sortL R1)).getD 0 0 =
      (sortL (L1 ++ sortL M1 ++ sortL R1)).getD
        ((sortL (L1 ++ sortL M1 ++ sortL R1)).length - 1) 0) :
    dilateSpec3 lab sx sy sz false x y z =
      (sortL (L1 ++ sortL M1 ++ sortL R1)).getD 0 0 ∧
    (23 ≤ (sortL (L1 ++ sortL M1 ++ sortL R1)).length →
      dilateSpec3 lab sx sy sz false (x + 1) y z =
        (sortL (L1 ++ sortL M1 ++ sortL R1)).getD 0 0) := by
  have hnsp : (sortL (L1 ++ sortL M1 ++ sortL R1)).Perm (L1 ++ sortL M1 ++ sortL R1) :=
    sortL_perm _
  have hnsp2 : (sortL (L1 ++ sortL M1 ++ sortL R1)).Perm (L1 ++ M1 ++ R1) := by
    refine hnsp.trans ?_
    exact List.Perm.append (List.Perm.append (List.Perm.refl _) (sortL_perm M1)) (sortL_perm R1)
  have hnbhd : (sortL (L1 ++ sortL M1 ++ sortL R1)).Perm (nbhd3 lab sx sy sz x y z) := by
    refine hnsp2.trans ?_
    unfold nbhd3
    exact List.Perm.append (List.Perm.append hL hM) hR
  have hnsne : sortL (L1 ++ sortL M1 ++ sortL R1) ≠ [] := by
    intro hnil
    have h0 := hnsp2.length_eq
    rw [hnil] at h0
    simp only [List.length_nil, List.length_append] at h0
    omega
  have hns0 : ∀ w ∈ sortL (L1 ++ sortL M1 ++ sortL R1), w ≠ 0 := fun w hw =>
    nbhd3_ne_zero (hnbhd.mem_iff.mp hw)
  obtain ⟨hvmem, hv0, hall⟩ :=
    sorted_uniform_head (sortL_sorted _) hnsne hhead hns0
  constructor
  · rw [dilateSpec3_false]
    refine specMode_uniform ?_ ?_
    · intro hnil
      rw [hnil] at hnbhd
      exact hnsne hnbhd.eq_nil
    · intro w hw
      exact hall w (hnbhd.mem_iff.mpr hw)
  · intro h23
    have hL1len : L1.length ≤ 9 := by
      have h1 := hL.length_eq
      have h2 := colNb_length_le lab sx sy sz ((x : Int) - 1) y z
      omega
    have hPlen : 14 ≤ (sortL M1 ++ sortL R1).length := by
      have h0 := hnsp.length_eq
      simp only [List.length_append] at h0 ⊢
      omega
    have hallP : ∀ w ∈ sortL M1 ++ sortL R1,
        w = (sortL (L1 ++ sortL M1 ++ sortL R1)).getD 0 0 := by
      intro w hw
      refine hall w (hnsp.mem_iff.mpr ?_)
      rcases List.mem_append.mp hw with h | h
      · exact List.mem_append.mpr (Or.inl (List.mem_append.mpr (Or.inr h)))
      · exact List.mem_append.mpr (Or.inr h)
    rw [dilateSpec3_false]
    refine specMode_dom_uniform (P := sortL M1 ++ sortL R1)
      (Q := colNb lab sx sy sz ((x : Int) + 2) y z) ?_ hallP ?_ ?_
    · rw [nbhd3_succ]
      refine List.Perm.append (List.Perm.append ?_ ?_) (List.Perm.refl _)
      · exact ((sortL_perm M1).trans hM).symm
      · exact ((sortL_perm R1).trans hR).symm
    · intro hnil
      rw [hnil] at hPlen
      simp at hPlen
    · have h1 := colNb_length_le lab sx sy sz ((x : Int) + 2) y z
      omega

/-- The 3D mode branch: the scan-with-break computes the dilation mode of
the current voxel; a reported count of at least 23 also settles the next
voxel. -/
theorem md3_mode_spec (lab : Nat → Nat) (sx sy sz : Nat) (x y z : Nat)
    (L1 M1 R1 : List Nat)
    (hL : L1.Perm (colNb lab sx sy sz ((x : Int) - 1) y z))
    (hM : M1.Perm (colNb lab sx sy sz (x : Int) y z))
    (hR : R1.Perm (colNb lab sx sy sz ((x : Int) + 1) y z))
    (hlen : L1.length + M1.length + R1.length ≠ 0) :
    (modeScanBreak (sortL (L1 ++ sortL M1 ++ sortL R1))).1 =
      dilateSpec3 lab sx sy sz false x y z ∧
    (23 ≤ (modeScanBreak (sortL (L1 ++ sortL M1 ++ sortL R1))).2 →
      dilateSpec3 lab sx sy sz false (x + 1) y z =
        (modeScanBreak (sortL (L1 ++ sortL M1 ++ sortL R1))).1) := by
  have hnsp : (sortL (L1 ++ sortL M1 ++ sortL R1)).Perm (L1 ++ sortL M1 ++ sortL R1) :=
    sortL_perm _
  have hnsp2 : (sortL (L1 ++ sortL M1 ++ sortL R1)).Perm (L1 ++ M1 ++ R1) := by
    refine hnsp.trans ?_
    exact List.Perm.append (List.Perm.append (List.Perm.refl _) (sortL_perm M1)) (sortL_perm R1)
  have hnbhd : (sortL (L1 ++ sortL M1 ++ sortL R1)).Perm (nbhd3 lab sx sy sz x y z) := by
    refine hnsp2.trans ?_
    unfold nbhd3
    exact List.Perm.append (List.Perm.append hL hM) hR
  have hnsne : sortL (L1 ++ sortL M1 ++ sortL R1) ≠ [] := by
    intro hnil
    have h0 := hnsp2.length_eq
    rw [hnil] at h0
    simp only [List.length_nil, List.length_append] at h0
    omega
  obtain ⟨hm1, hm2⟩ := modeScanBreak_spec (sortL_sorted _) hnsne
  refine ⟨?_, ?_⟩
  · rw [hm1, dilateSpec3_false, specMode_perm hnbhd]
  · intro hct
    have hcount : 23 ≤ (sortL (L1 ++ sortL M1 ++ sortL R1)).count
        (modeScanBreak (sortL (L1 ++ sortL M1 ++ sortL R1))).1 := le_trans hct hm2
    rw [hnsp.count_eq, List.count_append, List.count_append] at hcount
    have hL1len : L1.length ≤ 9 := by
      have h1 := hL.length_eq
      have h2 := colNb_length_le lab sx sy sz ((x : Int) - 1) y z
      omega
    have hLc : L1.count (modeScanBreak (sortL (L1 ++ sortL M1 ++ sortL R1))).1 ≤ 9 :=
      le_trans (List.count_le_length _ _) hL1len
    have hMlen : (sortL M1).length ≤ 9 := by
      have h0 := (sortL_perm M1).length_eq
      have h1 := hM.length_eq
      have h2 := colNb_length_le lab sx sy sz (x : Int) y z
      omega
    have hRlen : (sortL R1).length ≤ 9 := by
      have h0 := (sortL_perm R1).length_eq
      have h1 := hR.length_eq
      have h2 := colNb_length_le lab sx sy sz ((x : Int) + 1) y z
      omega
    have hPc : 14 ≤ (sortL M1 ++ sortL R1).count
        (modeScanBreak (sortL (L1 ++ sortL M1 ++ sortL R1))).1 := by
      rw [List.count_append]
      omega
    rw [dilateSpec3_false]
    refine specMode_dom_count (P := sortL M1 ++ sortL R1)
      (Q := colNb lab sx sy sz ((x : Int) + 2) y z) ?_ hPc ?_
    · rw [nbhd3_succ]
      refine List.Perm.append (List.Perm.append ?_ ?_) (List.Perm.refl _)
      · exact ((sortL_perm M1).trans hM).symm
      · exact ((sortL_perm R1).trans hR).symm
    · have h1 := colNb_length_le lab sx sy sz ((x : Int) + 2) y z
      simp only [List.length_append]
      omega

/-- Behaviour of the 3D dilate row after a single store at the current
voxel with the correct dilated value. -/
theorem md3Row_store1 (lab : Nat → Nat) (sx sy sz zs xe y z : Nat) (f x : Nat)
    (hy : y < sy) (hx : x < xe) (hxe : xe ≤ sx) (hfuel : xe ≤ x + 1 + f)
    (IH : ∀ (x2 stale2 : Nat) (L2 M2 R2 : List Nat) (out2 : Nat → Nat),
      xe ≤ x2 + f → 1 ≤ stale2 →
      (stale2 = 1 → M2.Perm (colNb lab sx sy sz ((x2 : Int) - 1) y z) ∧
        R2.Perm (colNb lab sx sy sz (x2 : Int) y z)) →
      (stale2 = 2 → R2.Perm (colNb lab sx sy sz ((x2 : Int) - 1) y z)) →
      (zs < z → ∀ t, x2 ≤ t → t < xe →
        out2 (t + sx * (y + sy * (z - 1))) = dilateSpec3 lab sx sy sz false t y (z - 1)) →
      (∀ t, x2 ≤ t → t < xe → out2 (t + sx * (y + sy * z)) = 0 ∨
        out2 (t + sx * (y + sy * z)) = dilateSpec3 lab sx sy sz false t y z) →
      (∀ t, x2 ≤ t → t < xe →
        (mdRow lab sx sy sz false zs xe y z f x2 stale2 L2 M2 R2 out2).2
          (t + sx * (y + sy * z)) = dilateSpec3 lab sx sy sz false t y z) ∧
      (∀ i, (mdRow lab sx sy sz false zs xe y z f x2 stale2 L2 M2 R2 out2).2 i = out2 i ∨
        ∃ t, x2 ≤ t ∧ t ≤ xe ∧ t < sx ∧ i = t + sx * (y + sy * z) ∧
          (mdRow lab sx sy sz false zs xe y z f x2 stale2 L2 M2 R2 out2).2 i =
            dilateSpec3 lab sx sy sz false t y z))
    (LA MA RA : List Nat) (out : Nat → Nat) (v : Nat)
    (hMA : MA.Perm (colNb lab sx sy sz (x : Int) y z))
    (hRA : RA.Perm (colNb lab sx sy sz ((x : Int) + 1) y z))
    (hv : v = dilateSpec3 lab sx sy sz false x y z)
    (Hz : zs < z → ∀ t, x ≤ t → t < xe →
      out (t + sx * (y + sy * (z - 1))) = dilateSpec3 lab sx sy sz false t y (z - 1))
    (hpre : ∀ t, x ≤ t → t < xe → out (t + sx * (y + sy * z)) = 0 ∨
      out (t + sx * (y + sy * z)) = dilateSpec3 lab sx sy sz false t y z) :
    (∀ t, x ≤ t → t < xe →
      (mdRow lab sx sy sz false zs xe y z f (x + 1) 1 LA MA RA
        (upd out (x + sx * (y + sy * z)) v)).2 (t + sx * (y + sy * z)) =
        dilateSpec3 lab sx sy sz false t y z) ∧
    (∀ i, (mdRow lab sx sy sz false zs xe y z f (x + 1) 1 LA MA RA
        (upd out (x + sx * (y + sy * z)) v)).2 i = out i ∨
      ∃ t, x ≤ t ∧ t ≤ xe ∧ t < sx ∧ i = t + sx * (y + sy * z) ∧
        (mdRow lab sx sy sz false zs xe y z f (x + 1) 1 LA MA RA
          (upd out (x + sx * (y + sy * z)) v)).2 i =
          dilateSpec3 lab sx sy sz false t y z) := by
  have hc1 : ((x + 1 : Nat) : Int) - 1 = (x : Int) := by push_cast; ring
  have hc2 : ((x + 1 : Nat) : Int) = (x : Int) + 1 := by push_cast; ring
  obtain ⟨ihA, ihB⟩ := IH (x + 1) 1 LA MA RA (upd out (x + sx * (y + sy * z)) v)
    (by omega) (by omega)
    (fun _ => ⟨by rw [hc1]; exact hMA, by rw [hc2]; exact hRA⟩)
    (fun h2 => absurd h2 (by omega))
    (fun hzz t ht hlt => by
      rw [upd_ne _ _ _ _ (fun heq => by
        obtain ⟨e1, e2, e3⟩ := enc3_inj (z - 1) z
          (show t < sx by omega) (show x < sx by omega) hy hy heq
        omega)]
      exact Hz hzz t (by omega) hlt)
    (fun t ht hlt => by
      rw [upd_ne _ _ _ _ (by omega)]
      exact hpre t (by omega) hlt)
  constructor
  · intro t ht hlt
    by_cases hteq : t = x
    · rw [hteq]
      rcases ihB (x + sx * (y + sy * z)) with hB | ⟨t2, ht2, _, _, hteq2, hval⟩
      · rw [hB, upd_self, hv]
      · omega
    · exact ihA t (by omega) hlt
  · intro i
    rcases ihB i with hB | ⟨t2, ht2, h1, h2, h3, h4⟩
    · by_cases hi : i = x + sx * (y + sy * z)
      · refine Or.inr ⟨x, le_refl _, by omega, by omega, hi, ?_⟩
        rw [hB, hi, upd_self, hv]
      · rw [hB, upd_ne _ _ _ _ hi]
        exact Or.inl rfl
    · exact Or.inr ⟨t2, by omega, h1, h2, h3, h4⟩

/-- Behaviour of the 3D dilate row after a pair store at the current voxel
and its right neighbor. -/
theorem md3Row_store2 (lab : Nat → Nat) (sx sy sz zs xe y z : Nat) (f x : Nat)
    (hy : y < sy) (hx : x < xe) (hxe : xe ≤ sx) (hsxm : x < sx - 1)
    (hfuel : xe ≤ x + 1 + f)
    (IH : ∀ (x2 stale2 : Nat) (L2 M2 R2 : List Nat) (out2 : Nat → Nat),
      xe ≤ x2 + f → 1 ≤ stale2 →
      (stale2 = 1 → M2.Perm (colNb lab sx sy sz ((x2 : Int) - 1) y z) ∧
        R2.Perm (colNb lab sx sy sz (x2 : Int) y z)) →
      (stale2 = 2 → R2.Perm (colNb lab sx sy sz ((x2 : Int) - 1) y z)) →
      (zs < z → ∀ t, x2 ≤ t → t < xe →
        out2 (t + sx * (y + sy * (z - 1))) = dilateSpec3 lab sx sy sz false t y (z - 1)) →
      (∀ t, x2 ≤ t → t < xe → out2 (t + sx * (y + sy * z)) = 0 ∨
        out2 (t + sx * (y + sy * z)) = dilateSpec3 lab sx sy sz false t y z) →
      (∀ t, x2 ≤ t → t < xe →
        (mdRow lab sx sy sz false zs xe y z f x2 stale2 L2 M2 R2 out2).2
          (t + sx * (y + sy * z)) = dilateSpec3 lab sx sy sz false t y z) ∧
      (∀ i, (mdRow lab sx sy sz false zs xe y z f x2 stale2 L2 M2 R2 out2).2 i = out2 i ∨
        ∃ t, x2 ≤ t ∧ t ≤ xe ∧ t < sx ∧ i = t + sx * (y + sy * z) ∧
          (mdRow lab sx sy sz false zs xe y z f x2 stale2 L2 M2 R2 out2).2 i =
            dilateSpec3 lab sx sy sz false t y z))
    (LA MA RA : List Nat) (out : Nat → Nat) (v : Nat)
    (hRA : RA.Perm (colNb lab sx sy sz ((x : Int) + 1) y z))
    (hv : v = dilateSpec3 lab sx sy sz false x y z)
    (hv2 : dilateSpec3 lab sx sy sz false (x + 1) y z = v)
    (Hz : zs < z → ∀ t, x ≤ t → t < xe →
      out (t + sx * (y + sy * (z - 1))) = dilateSpec3 lab sx sy sz false t y (z - 1))
    (hpre : ∀ t, x ≤ t → t < xe → out (t + sx * (y + sy * z)) = 0 ∨
      out (t + sx * (y + sy * z)) = dilateSpec3 lab sx sy sz false t y z) :
    (∀ t, x ≤ t → t < xe →
      (mdRow lab sx sy sz false zs xe y z f (x + 2) 2 LA MA RA
        (upd (upd out (x + sx * (y + sy * z)) v) (x + sx * (y + sy * z) + 1) v)).2
        (t + sx * (y + sy * z)) = dilateSpec3 lab sx sy sz false t y z) ∧
    (∀ i, (mdRow lab sx sy sz false zs xe y z f (x + 2) 2 LA MA RA
        (upd (upd out (x + sx * (y + sy * z)) v) (x + sx * (y + sy * z) + 1) v)).2 i =
          out i ∨
      ∃ t, x ≤ t ∧ t ≤ xe ∧ t < sx ∧ i = t + sx * (y + sy * z) ∧
        (mdRow lab sx sy sz false zs xe y z f (x + 2) 2 LA MA RA
          (upd (upd out (x + sx * (y + sy * z)) v) (x + sx * (y + sy * z) + 1) v)).2 i =
          dilateSpec3 lab sx sy sz false t y z) := by
  have hc1 : ((x + 2 : Nat) : Int) - 1 = (x : Int) + 1 := by push_cast; ring
  have haddr : (x + 1) + sx * (y + sy * z) = x + sx * (y + sy * z) + 1 := by omega
  obtain ⟨ihA, ihB⟩ := IH (x + 2) 2 LA MA RA
    (upd (upd out (x + sx * (y + sy * z)) v) (x + sx * (y + sy * z) + 1) v)
    (by omega) (by omega)
    (fun h1 => absurd h1 (by omega))
    (fun _ => by rw [hc1]; exact hRA)
    (fun hzz t ht hlt => by
      rw [upd_ne _ _ _ _ (fun heq => by
        have heq2 : t + sx * (y + sy * (z - 1)) = (x + 1) + sx * (y + sy * z) := by omega
        obtain ⟨e1, e2, e3⟩ := enc3_inj (z - 1) z
          (show t < sx by omega) (show x + 1 < sx by omega) hy hy heq2
        omega)]
      rw [upd_ne _ _ _ _ (fun heq => by
        obtain ⟨e1, e2, e3⟩ := enc3_inj (z - 1) z
          (show t < sx by omega) (show x < sx by omega) hy hy heq
        omega)]
      exact Hz hzz t (by omega) hlt)
    (fun t ht hlt => by
      rw [upd_ne _ _ _ _ (by omega), upd_ne _ _ _ _ (by omega)]
      exact hpre t (by omega) hlt)
  have hself1 : (upd (upd out (x + sx * (y + sy * z)) v) (x + sx * (y + sy * z) + 1) v)
      (x + sx * (y + sy * z)) = v := by
    rw [upd_ne _ _ _ _ (by omega), upd_self]
  have hself2 : (upd (upd out (x + sx * (y + sy * z)) v) (x + sx * (y + sy * z) + 1) v)
      ((x + 1) + sx * (y + sy * z)) = v := by
    rw [haddr, upd_self]
  constructor
  · intro t ht hlt
    by_cases hteq : t = x
    · rw [hteq]
      rcases ihB (x + sx * (y + sy * z)) with hB | ⟨t2, ht2, _, _, hteq2, hval⟩
      · rw [hB, hself1, hv]
      · omega
    · by_cases hteq1 : t = x + 1
      · rw [hteq1]
        rcases ihB ((x + 1) + sx * (y + sy * z)) with hB | ⟨t2, ht2, _, _, hteq2, hval⟩
        · rw [hB, hself2, hv2]
        · omega
      · exact ihA t (by omega) hlt
  · intro i
    rcases ihB i with hB | ⟨t2, ht2, h1, h2, h3, h4⟩
    · by_cases hi1 : i = x + sx * (y + sy * z)
      · refine Or.inr ⟨x, le_refl _, by omega, by omega, hi1, ?_⟩
        rw [hB, hi1, hself1, hv]
      · by_cases hi2 : i = x + sx * (y + sy * z) + 1
        · have hself3 : (upd (upd out (x + sx * (y + sy * z)) v)
              (x + sx * (y + sy * z) + 1) v) (x + sx * (y + sy * z) + 1) = v :=
            upd_self _ _ _
          refine Or.inr ⟨x + 1, by omega, by omega, by omega, by omega, ?_⟩
          rw [hB, hi2, hself3, hv2]
        · rw [hB, upd_ne _ _ _ _ hi2, upd_ne _ _ _ _ hi1]
          exact Or.inl rfl
    · exact Or.inr ⟨t2, by omega, h1, h2, h3, h4⟩

/-- One resolved iteration of the 3D dilate row. -/
theorem md3Row_resolve (lab : Nat → Nat) (sx sy sz zs xe y z : Nat)
    (hy : y < sy) (hz : z < sz) (hxe : xe ≤ sx)
    (f x : Nat) (hx : x < xe) (hfuel : xe ≤ x + 1 + f)
    (IH : ∀ (x2 stale2 : Nat) (L2 M2 R2 : List Nat) (out2 : Nat → Nat),
      xe ≤ x2 + f → 1 ≤ stale2 →
      (stale2 = 1 → M2.Perm (colNb lab sx sy sz ((x2 : Int) - 1) y z) ∧
        R2.Perm (colNb lab sx sy sz (x2 : Int) y z)) →
      (stale2 = 2 → R2.Perm (colNb lab sx sy sz ((x2 : Int) - 1) y z)) →
      (zs < z → ∀ t, x2 ≤ t → t < xe →
        out2 (t + sx * (y + sy * (z - 1))) = dilateSpec3 lab sx sy sz false t y (z - 1)) →
      (∀ t, x2 ≤ t → t < xe → out2 (t + sx * (y + sy * z)) = 0 ∨
        out2 (t + sx * (y + sy * z)) = dilateSpec3 lab sx sy sz false t y z) →
      (∀ t, x2 ≤ t → t < xe →
        (mdRow lab sx sy sz false zs xe y z f x2 stale2 L2 M2 R2 out2).2
          (t + sx * (y + sy * z)) = dilateSpec3 lab sx sy sz false t y z) ∧
      (∀ i, (mdRow lab sx sy sz false zs xe y z f x2 stale2 L2 M2 R2 out2).2 i = out2 i ∨
        ∃ t, x2 ≤ t ∧ t ≤ xe ∧ t < sx ∧ i = t + sx * (y + sy * z) ∧
          (mdRow lab sx sy sz false zs xe y z f x2 stale2 L2 M2 R2 out2).2 i =
            dilateSpec3 lab sx sy sz false t y z))
    (L1 M1 R1 : List Nat) (out : Nat → Nat)
    (hL1 : L1.Perm (colNb lab sx sy sz ((x : Int) - 1) y z))
    (hM1 : M1.Perm (colNb lab sx sy sz (x : Int) y z))
    (hR1 : R1.Perm (colNb lab sx sy sz ((x : Int) + 1) y z))
    (Hz : zs < z → ∀ t, x ≤ t → t < xe →
      out (t + sx * (y + sy * (z - 1))) = dilateSpec3 lab sx sy sz false t y (z - 1))
    (hpre : ∀ t, x ≤ t → t < xe → out (t + sx * (y + sy * z)) = 0 ∨
      out (t + sx * (y + sy * z)) = dilateSpec3 lab sx sy sz false t y z)
    (res : (List Nat × List Nat × List Nat) × (Nat → Nat))
    (hres : res =
      if L1.length + M1.length + R1.length = 0 then
        mdRow lab sx sy sz false zs xe y z f (x + 1) 1 L1 M1 R1 out
      else
        if 14 ≤ (sortL R1).length + (sortL M1).length ∧
            (sortL R1).getD 0 0 = (sortL R1).getD ((sortL R1).length - 1) 0 ∧
            (sortL M1).getD 0 0 = (sortL M1).getD ((sortL M1).length - 1) 0 ∧
            (sortL R1).getD 0 0 = (sortL M1).getD 0 0 then
          if x < sx - 1 then
            mdRow lab sx sy sz false zs xe y z f (x + 2) 2 L1 (sortL M1) (sortL R1)
              (upd (upd out (x + sx * (y + sy * z)) ((sortL R1).getD 0 0))
                (x + sx * (y + sy * z) + 1) ((sortL R1).getD 0 0))
          else
            mdRow lab sx sy sz false zs xe y z f (x + 1) 1 L1 (sortL M1) (sortL R1)
              (upd out (x + sx * (y + sy * z)) ((sortL R1).getD 0 0))
        else
          if (sortL (L1 ++ sortL M1 ++ sortL R1)).getD 0 0 =
              (sortL (L1 ++ sortL M1 ++ sortL R1)).getD
                ((sortL (L1 ++ sortL M1 ++ sortL R1)).length - 1) 0 then
            if 23 ≤ (sortL (L1 ++ sortL M1 ++ sortL R1)).length ∧ x < sx - 1 then
              mdRow lab sx sy sz false zs xe y z f (x + 2) 2 L1 (sortL M1) (sortL R1)
                (upd (upd out (x + sx * (y + sy * z))
                    ((sortL (L1 ++ sortL M1 ++ sortL R1)).getD 0 0))
                  (x + sx * (y + sy * z) + 1)
                  ((sortL (L1 ++ sortL M1 ++ sortL R1)).getD 0 0))
            else
              mdRow lab sx sy sz false zs xe y z f (x + 1) 1 L1 (sortL M1) (sortL R1)
                (upd out (x + sx * (y + sy * z))
                  ((sortL (L1 ++ sortL M1 ++ sortL R1)).getD 0 0))
          else
            if 23 ≤ (modeScanBreak (sortL (L1 ++ sortL M1 ++ sortL R1))).2 ∧
                x < sx - 1 then
              mdRow lab sx sy sz false zs xe y z f (x + 2) 2 L1 (sortL M1) (sortL R1)
                (upd (upd out (x + sx * (y + sy * z))
                    (modeScanBreak (sortL (L1 ++ sortL M1 ++ sortL R1))).1)
                  (x + sx * (y + sy * z) + 1)
                  (modeScanBreak (sortL (L1 ++ sortL M1 ++ sortL R1))).1)
            else
              mdRow lab sx sy sz false zs xe y z f (x + 1) 1 L1 (sortL M1) (sortL R1)
                (upd out (x + sx * (y + sy * z))
                  (modeScanBreak (sortL (L1 ++ sortL M1 ++ sortL R1))).1)) :
    (∀ t, x ≤ t → t < xe →
      res.2 (t + sx * (y + sy * z)) = dilateSpec3 lab sx sy sz false t y z) ∧
    (∀ i, res.2 i = out i ∨
      ∃ t, x ≤ t ∧ t ≤ xe ∧ t < sx ∧ i = t + sx * (y + sy * z) ∧
        res.2 i = dilateSpec3 lab sx sy sz false t y z) := by
  subst hres
  have hc1 : ((x + 1 : Nat) : Int) - 1 = (x : Int) := by push_cast; ring
  have hc2 : ((x + 1 : Nat) : Int) = (x : Int) + 1 := by push_cast; ring
  by_cases hlen : L1.length + M1.length + R1.length = 0
  · rw [if_pos hlen]
    obtain ⟨ihA, ihB⟩ := IH (x + 1) 1 L1 M1 R1 out (by omega) (by omega)
      (fun _ => ⟨by rw [hc1]; exact hM1, by rw [hc2]; exact hR1⟩)
      (fun h2 => absurd h2 (by omega))
      (fun hzz t ht hlt => Hz hzz t (by omega) hlt)
      (fun t ht hlt => hpre t (by omega) hlt)
    have hspec0 : dilateSpec3 lab sx sy sz false x y z = 0 :=
      md3_empty_spec lab sx sy sz x y z L1 M1 R1 hL1 hM1 hR1 hlen
    constructor
    · intro t ht hlt
      by_cases hteq : t = x
      · rw [hteq]
        rcases ihB (x + sx * (y + sy * z)) with hB | ⟨t2, ht2, _, _, hteq2, hval⟩
        · rcases hpre x (le_refl _) (by omega) with h0 | hsp
          · rw [hB, h0, hspec0]
          · rw [hB, hsp]
        · omega
      · exact ihA t (by omega) hlt
    · intro i
      rcases ihB i with hB | ⟨t2, ht2, h1, h2, h3, h4⟩
      · exact Or.inl hB
      · exact Or.inr ⟨t2, by omega, h1, h2, h3, h4⟩
  · rw [if_neg hlen]
    by_cases hpair : 14 ≤ (sortL R1).length + (sortL M1).length ∧
        (sortL R1).getD 0 0 = (sortL R1).getD ((sortL R1).length - 1) 0 ∧
        (sortL M1).getD 0 0 = (sortL M1).getD ((sortL M1).length - 1) 0 ∧
        (sortL R1).getD 0 0 = (sortL M1).getD 0 0
    · rw [if_pos hpair]
      obtain ⟨hv1, hv2⟩ := md3_pair_spec lab sx sy sz x y z L1 M1 R1 hL1 hM1 hR1 hpair
      by_cases hsxm : x < sx - 1
      · rw [if_pos hsxm]
        exact md3Row_store2 lab sx sy sz zs xe y z f x hy hx hxe hsxm hfuel IH
          L1 (sortL M1) (sortL R1) out ((sortL R1).getD 0 0)
          ((sortL_perm R1).trans hR1) hv1.symm hv2 Hz hpre
      · rw [if_neg hsxm]
        exact md3Row_store1 lab sx sy sz zs xe y z f x hy hx hxe hfuel IH
          L1 (sortL M1) (sortL R1) out ((sortL R1).getD 0 0)
          ((sortL_perm M1).trans hM1) ((sortL_perm R1).trans hR1) hv1.symm Hz hpre
    · rw [if_neg hpair]
      by_cases hunif : (sortL (L1 ++ sortL M1 ++ sortL R1)).getD 0 0 =
          (sortL (L1 ++ sortL M1 ++ sortL R1)).getD
            ((sortL (L1 ++ sortL M1 ++ sortL R1)).length - 1) 0
      · rw [if_pos hunif]
        obtain ⟨hu1, hu2⟩ := md3_unif_spec lab sx sy sz x y z L1 M1 R1 hL1 hM1 hR1
          hlen hunif
        by_cases hctx : 23 ≤ (sortL (L1 ++ sortL M1 ++ sortL R1)).length ∧ x < sx - 1
        · rw [if_pos hctx]
          exact md3Row_store2 lab sx sy sz zs xe y z f x hy hx hxe hctx.2 hfuel IH
            L1 (sortL M1) (sortL R1) out ((sortL (L1 ++ sortL M1 ++ sortL R1)).getD 0 0)
            ((sortL_perm R1).trans hR1) hu1.symm (hu2 hctx.1) Hz hpre
        · rw [if_neg hctx]
          exact md3Row_store1 lab sx sy sz zs xe y z f x hy hx hxe hfuel IH
            L1 (sortL M1) (sortL R1) out ((sortL (L1 ++ sortL M1 ++ sortL R1)).getD 0 0)
            ((sortL_perm M1).trans hM1) ((sortL_perm R1).trans hR1) hu1.symm Hz hpre
      · rw [if_neg hunif]
        obtain ⟨hm1, hm2⟩ := md3_mode_spec lab sx sy sz x y z L1 M1 R1 hL1 hM1 hR1 hlen
        by_cases hctx : 23 ≤ (modeScanBreak (sortL (L1 ++ sortL M1 ++ sortL R1))).2 ∧
            x < sx - 1
        · rw [if_pos hctx]
          exact md3Row_store2 lab sx sy sz zs xe y z f x hy hx hxe hctx.2 hfuel IH
            L1 (sortL M1) (sortL R1) out
            (modeScanBreak (sortL (L1 ++ sortL M1 ++ sortL R1))).1
            ((sortL_perm R1).trans hR1) hm1 (hm2 hctx.1) Hz hpre
        · rw [if_neg hctx]
          exact md3Row_store1 lab sx sy sz zs xe y z f x hy hx hxe hfuel IH
            L1 (sortL M1) (sortL R1) out
            (modeScanBreak (sortL (L1 ++ sortL M1 ++ sortL R1))).1
            ((sortL_perm M1).trans hM1) ((sortL_perm R1).trans hR1) hm1 Hz hpre

/-- Full correctness of one 3D dilate row (`background_only = false`). -/
theorem mdRow_spec (lab : Nat → Nat) (sx sy sz zs xe y z : Nat)
    (hy : y < sy) (hz : z < sz) (hxe : xe ≤ sx) :
    ∀ (fuel x stale : Nat) (L M R : List Nat) (out : Nat → Nat),
      xe ≤ x + fuel → 1 ≤ stale →
      (stale = 1 → M.Perm (colNb lab sx sy sz ((x : Int) - 1) y z) ∧
        R.Perm (colNb lab sx sy sz (x : Int) y z)) →
      (stale = 2 → R.Perm (colNb lab sx sy sz ((x : Int) - 1) y z)) →
      (zs < z → ∀ t, x ≤ t → t < xe →
        out (t + sx * (y + sy * (z - 1))) = dilateSpec3 lab sx sy sz false t y (z - 1)) →
      (∀ t, x ≤ t → t < xe → out (t + sx * (y + sy * z)) = 0 ∨
        out (t + sx * (y + sy * z)) = dilateSpec3 lab sx sy sz false t y z) →
      (∀ t, x ≤ t → t < xe →
        (mdRow lab sx sy sz false zs xe y z fuel x stale L M R out).2
          (t + sx * (y + sy * z)) = dilateSpec3 lab sx sy sz false t y z) ∧
      (∀ i, (mdRow lab sx sy sz false zs xe y z fuel x stale L M R out).2 i = out i ∨
        ∃ t, x ≤ t ∧ t ≤ xe ∧ t < sx ∧ i = t + sx * (y + sy * z) ∧
          (mdRow lab sx sy sz false zs xe y z fuel x stale L M R out).2 i =
            dilateSpec3 lab sx sy sz false t y z) := by
  intro fuel
  induction fuel with
  | zero =>
    intro x stale L M R out hfuel hst hs1 hs2 Hz hpre
    exact ⟨fun t ht hlt => absurd hlt (by omega), fun i => Or.inl rfl⟩
  | succ f ih =>
    intro x stale L M R out hfuel hst hs1 hs2 Hz hpre
    by_cases hx : x < xe
    · rw [mdRow, if_pos hx]
      dsimp only []
      rw [if_neg (show ¬(false = true ∧ lab (x + sx * (y + sy * z)) ≠ 0) by simp)]
      by_cases hguard : zs < z ∧ out (x + sx * (y + sy * z) - sx * sy) = 0
      · rw [if_pos hguard]
        have hzz : 1 ≤ z := by omega
        have hspec0 : dilateSpec3 lab sx sy sz false x y (z - 1) = 0 := by
          have hv := Hz hguard.1 x (le_refl _) hx
          rw [addr_zm x sx sy y z hzz, hguard.2] at hv
          exact hv.symm
        have hnb : nbhd3 lab sx sy sz x y (z - 1) = [] :=
          (dilateSpec3_eq_zero_iff lab sx sy sz false x y (z - 1)
            (by omega) hy (by omega)).mp hspec0
        unfold nbhd3 at hnb
        rw [List.append_eq_nil, List.append_eq_nil] at hnb
        obtain ⟨⟨hcL, hcM⟩, hcR⟩ := hnb
        rw [fast_fill_eq_of_below_col_empty lab sx sy sz ((x : Int) - 1) y z hy hz hzz hcL,
          fast_fill_eq_of_below_col_empty lab sx sy sz (x : Int) y z hy hz hzz hcM,
          fast_fill_eq_of_below_col_empty lab sx sy sz ((x : Int) + 1) y z hy hz hzz hcR]
        rcases (show stale = 1 ∨ stale = 2 ∨ 3 ≤ stale by omega) with hst1 | hst2 | hst3
        · obtain ⟨hsM, hsR⟩ := hs1 hst1
          rw [if_pos hst1]
          dsimp only []
          rw [fill_eq_colNb lab sx sy sz ((x : Int) + 1) y z hy hz]
          exact md3Row_resolve lab sx sy sz zs xe y z hy hz hxe f x hx (by omega) ih
            M R (colNb lab sx sy sz ((x : Int) + 1) y z) out hsM hsR (List.Perm.refl _)
            Hz hpre _ rfl
        · rw [if_neg (show ¬(stale = 1) by omega), if_pos hst2]
          dsimp only []
          rw [fill_eq_colNb lab sx sy sz ((x : Int) + 1) y z hy hz,
            fill_eq_colNb lab sx sy sz (x : Int) y z hy hz]
          exact md3Row_resolve lab sx sy sz zs xe y z hy hz hxe f x hx (by omega) ih
            R (colNb lab sx sy sz (x : Int) y z) (colNb lab sx sy sz ((x : Int) + 1) y z)
            out (hs2 hst2) (List.Perm.refl _) (List.Perm.refl _) Hz hpre _ rfl
        · rw [if_neg (show ¬(stale = 1) by omega), if_neg (show ¬(stale = 2) by omega),
            if_pos hst3]
          dsimp only []
          rw [fill_eq_colNb lab sx sy sz ((x : Int) + 1) y z hy hz,
            fill_eq_colNb lab sx sy sz (x : Int) y z hy hz,
            fill_eq_colNb lab sx sy sz ((x : Int) - 1) y z hy hz]
          exact md3Row_resolve lab sx sy sz zs xe y z hy hz hxe f x hx (by omega) ih
            (colNb lab sx sy sz ((x : Int) - 1) y z) (colNb lab sx sy sz (x : Int) y z)
            (colNb lab sx sy sz ((x : Int) + 1) y z) out
            (List.Perm.refl _) (List.Perm.refl _) (List.Perm.refl _) Hz hpre _ rfl
      · rw [if_neg hguard]
        rcases (show stale = 1 ∨ stale = 2 ∨ 3 ≤ stale by omega) with hst1 | hst2 | hst3
        · obtain ⟨hsM, hsR⟩ := hs1 hst1
          rw [if_pos hst1]
          dsimp only []
          rw [fill_eq_colNb lab sx sy sz ((x : Int) + 1) y z hy hz]
          exact md3Row_resolve lab sx sy sz zs xe y z hy hz hxe f x hx (by omega) ih
            M R (colNb lab sx sy sz ((x : Int) + 1) y z) out hsM hsR (List.Perm.refl _)
            Hz hpre _ rfl
        · rw [if_neg (show ¬(stale = 1) by omega), if_pos hst2]
          dsimp only []
          rw [fill_eq_colNb lab sx sy sz ((x : Int) + 1) y z hy hz,
            fill_eq_colNb lab sx sy sz (x : Int) y z hy hz]
          exact md3Row_resolve lab sx sy sz zs xe y z hy hz hxe f x hx (by omega) ih
            R (colNb lab sx sy sz (x : Int) y z) (colNb lab sx sy sz ((x : Int) + 1) y z)
            out (hs2 hst2) (List.Perm.refl _) (List.Perm.refl _) Hz hpre _ rfl
        · rw [if_neg (show ¬(stale = 1) by omega), if_neg (show ¬(stale = 2) by omega),
            if_pos hst3]
          dsimp only []
          rw [fill_eq_colNb lab sx sy sz ((x : Int) + 1) y z hy hz,
            fill_eq_colNb lab sx sy sz (x : Int) y z hy hz,
            fill_eq_colNb lab sx sy sz ((x : Int) - 1) y z hy hz]
          exact md3Row_resolve lab sx sy sz zs xe y z hy hz hxe f x hx (by omega) ih
            (colNb lab sx sy sz ((x : Int) - 1) y z) (colNb lab sx sy sz (x : Int) y z)
            (colNb lab sx sy sz ((x : Int) + 1) y z) out
            (List.Perm.refl _) (List.Perm.refl _) (List.Perm.refl _) Hz hpre _ rfl
    · rw [mdRow, if_neg hx]
      exact ⟨fun t ht hlt => absurd hlt (by omega), fun i => Or.inl rfl⟩

/-- Correctness of the 3D dilate `y` loop at a fixed `z` slice. -/
theorem mdYLoop_spec (lab : Nat → Nat) (sx sy sz zs xs xe z : Nat)
    (hz : z < sz) (hxe : xe ≤ sx) :
    ∀ (fy y : Nat) (st : (List Nat × List Nat × List Nat) × (Nat → Nat)),
      y + fy ≤ sy →
      (zs < z → ∀ t u, xs ≤ t → t < xe → y ≤ u → u < y + fy →
        st.2 (t + sx * (u + sy * (z - 1))) =
          dilateSpec3 lab sx sy sz false t u (z - 1)) →
      (∀ t u, t < sx → u < sy → st.2 (t + sx * (u + sy * z)) = 0 ∨
        st.2 (t + sx * (u + sy * z)) = dilateSpec3 lab sx sy sz false t u z) →
      (∀ t u, xs ≤ t → t < xe → y ≤ u → u < y + fy →
        (mdYLoop lab sx sy sz false zs xs xe z fy y st).2 (t + sx * (u + sy * z)) =
          dilateSpec3 lab sx sy sz false t u z) ∧
      (∀ i, (mdYLoop lab sx sy sz false zs xs xe z fy y st).2 i = st.2 i ∨
        ∃ t u, xs ≤ t ∧ t ≤ xe ∧ t < sx ∧ y ≤ u ∧ u < y + fy ∧
          i = t + sx * (u + sy * z) ∧
          (mdYLoop lab sx sy sz false zs xs xe z fy y st).2 i =
            dilateSpec3 lab sx sy sz false t u z) := by
  intro fy
  induction fy with
  | zero =>
    intro y st hbound hHz hpre
    exact ⟨fun t u _ _ _ h => absurd h (by omega), fun i => Or.inl rfl⟩
  | succ f ih =>
    intro y st hbound hHz hpre
    simp only [mdYLoop]
    obtain ⟨rowA, rowB⟩ := mdRow_spec lab sx sy sz zs xe y z (by omega) hz hxe
      (xe - xs) xs 3 st.1.1 st.1.2.1 st.1.2.2 st.2 (by omega) (by omega)
      (fun h1 => absurd h1 (by omega)) (fun h2 => absurd h2 (by omega))
      (fun hzz t ht hlt => hHz hzz t y ht hlt (le_refl _) (by omega))
      (fun t ht hlt => hpre t y (by omega) (by omega))
    obtain ⟨ihA, ihB⟩ := ih (y + 1)
      (mdRow lab sx sy sz false zs xe y z (xe - xs) xs 3 st.1.1 st.1.2.1 st.1.2.2 st.2)
      (by omega)
      (fun hzz t u ht hlt huy hu2 => by
        rcases rowB (t + sx * (u + sy * (z - 1))) with hB | ⟨t2, ht2, h1, h2, h3, h4⟩
        · rw [hB]
          exact hHz hzz t u ht hlt (by omega) (by omega)
        · obtain ⟨e1, e2, e3⟩ := enc3_inj (z - 1) z (show t < sx by omega) h2
            (show u < sy by omega) (by omega) h3
          omega)
      (fun t u htx huy => by
        rcases rowB (t + sx * (u + sy * z)) with hB | ⟨t2, ht2, h1, h2, h3, h4⟩
        · rw [hB]
          exact hpre t u htx huy
        · obtain ⟨e1, e2, e3⟩ := enc3_inj z z htx h2 huy (by omega) h3
          right
          rw [h4, ← e1, ← e2]
        )
    constructor
    · intro t u htx hlt huy hu2
      by_cases hueq : u = y
      · rw [hueq]
        rcases ihB (t + sx * (y + sy * z)) with hB | ⟨t2, u2, ht2, h1, h2, hu3, hu4, h3, h4⟩
        · rw [hB]
          exact rowA t htx hlt
        · obtain ⟨e1, e2, e3⟩ := enc3_inj z z (by omega) h2 (by omega) (by omega) h3
          omega
      · exact ihA t u htx hlt (by omega) (by omega)
    · intro i
      rcases ihB i with hB | ⟨t2, u2, ht2, h1, h2, hu3, hu4, h3, h4⟩
      · rcases rowB i with hB2 | ⟨t2, ht2, h1, h2, h3, h4⟩
        · exact Or.inl (hB.trans hB2)
        · exact Or.inr ⟨t2, y, ht2, h1, h2, le_refl _, by omega, h3, hB.trans h4⟩
      · exact Or.inr ⟨t2, u2, ht2, h1, h2, by omega, by omega, h3, h4⟩

/-- Correctness of the 3D dilate `z` loop. -/
theorem mdZLoop_spec (lab : Nat → Nat) (sx sy sz zs xs xe ys ye : Nat)
    (hxe : xe ≤ sx) (hye : ye ≤ sy) (hys : ys ≤ sy) :
    ∀ (fz z : Nat) (st : (List Nat × List Nat × List Nat) × (Nat → Nat)),
      z + fz ≤ sz →
      (zs < z → ∀ t u, xs ≤ t → t < xe → ys ≤ u → u < ye →
        st.2 (t + sx * (u + sy * (z - 1))) =
          dilateSpec3 lab sx sy sz false t u (z - 1)) →
      (∀ t u w, t < sx → u < sy → w < sz → st.2 (t + sx * (u + sy * w)) = 0 ∨
        st.2 (t + sx * (u + sy * w)) = dilateSpec3 lab sx sy sz false t u w) →
      (∀ t u w, xs ≤ t → t < xe → ys ≤ u → u < ye → z ≤ w → w < z + fz →
        (mdZLoop lab sx sy sz false zs xs xe ys ye fz z st).2 (t + sx * (u + sy * w)) =
          dilateSpec3 lab sx sy sz false t u w) ∧
      (∀ i, (mdZLoop lab sx sy sz false zs xs xe ys ye fz z st).2 i = st.2 i ∨
        ∃ t u w, xs ≤ t ∧ t ≤ xe ∧ t < sx ∧ ys ≤ u ∧ u < ye ∧ z ≤ w ∧ w < z + fz ∧
          i = t + sx * (u + sy * w) ∧
          (mdZLoop lab sx sy sz false zs xs xe ys ye fz z st).2 i =
            dilateSpec3 lab sx sy sz false t u w) := by
  intro fz
  induction fz with
  | zero =>
    intro z st hbound hHz hpre
    exact ⟨fun t u w _ _ _ _ _ h => absurd h (by omega), fun i => Or.inl rfl⟩
  | succ f ih =>
    intro z st hbound hHz hpre
    simp only [mdZLoop]
    obtain ⟨ylA, ylB⟩ := mdYLoop_spec lab sx sy sz zs xs xe z (by omega) hxe
      (ye - ys) ys st (by omega)
      (fun hzz t u ht hlt huy hu2 => hHz hzz t u ht hlt huy (by omega))
      (fun t u htx huy => hpre t u z htx huy (by omega))
    obtain ⟨ihA, ihB⟩ := ih (z + 1)
      (mdYLoop lab sx sy sz false zs xs xe z (ye - ys) ys st)
      (by omega)
      (fun hzz t u ht hlt huy hu2 => by
        have hzsimp : z + 1 - 1 = z := by omega
        rw [hzsimp]
        exact ylA t u ht hlt huy (by omega))
      (fun t u w htx huy hwz => by
        rcases ylB (t + sx * (u + sy * w)) with hB | ⟨t2, u2, ht2, h1, h2, hu3, hu4, h3, h4⟩
        · rw [hB]
          exact hpre t u w htx huy hwz
        · obtain ⟨e1, e2, e3⟩ := enc3_inj w z htx h2 huy (by omega) h3
          right
          rw [h4, ← e1, ← e2, e3]
        )
    constructor
    · intro t u w htx hlt huy hu2 hwz hw2
      by_cases hweq : w = z
      · rw [hweq]
        rcases ihB (t + sx * (u + sy * z)) with hB |
          ⟨t2, u2, w2, ht2, h1, h2, hu3, hu4, hw3, hw4, h3, h4⟩
        · rw [hB]
          exact ylA t u htx hlt huy (by omega)
        · obtain ⟨e1, e2, e3⟩ := enc3_inj z w2 (by omega) h2 (by omega) (by omega) h3
          omega
      · exact ihA t u w htx hlt huy hu2 (by omega) (by omega)
    · intro i
      rcases ihB i with hB | ⟨t2, u2, w2, ht2, h1, h2, hu3, hu4, hw3, hw4, h3, h4⟩
      · rcases ylB i with hB2 | ⟨t2, u2, ht2, h1, h2, hu3, hu4, h3, h4⟩
        · exact Or.inl (hB.trans hB2)
        · exact Or.inr ⟨t2, u2, z, ht2, h1, h2, hu3, by omega, le_refl _, by omega,
            h3, hB.trans h4⟩
      · exact Or.inr ⟨t2, u2, w2, ht2, h1, h2, hu3, hu4, by omega, by omega, h3, h4⟩

/-- Correctness of the 3D dilate `process_block`. -/
theorem mdBlock_spec (lab : Nat → Nat) (sx sy sz : Nat)
    (xs xe ys ye zs ze : Nat) (out : Nat → Nat)
    (hxe : xe ≤ sx) (hye : ye ≤ sy) (hys : ys ≤ sy) (hze : ze ≤ sz) (hzs : zs ≤ sz)
    (hpre : ∀ t u w, t < sx → u < sy → w < sz → out (t + sx * (u + sy * w)) = 0 ∨
      out (t + sx * (u + sy * w)) = dilateSpec3 lab sx sy sz false t u w) :
    (∀ t u w, xs ≤ t → t < xe → ys ≤ u → u < ye → zs ≤ w → w < ze →
      mdBlock lab sx sy sz false xs xe ys ye zs ze out (t + sx * (u + sy * w)) =
        dilateSpec3 lab sx sy sz false t u w) ∧
    (∀ i, mdBlock lab sx sy sz false xs xe ys ye zs ze out i = out i ∨
      ∃ t u w, xs ≤ t ∧ t ≤ xe ∧ t < sx ∧ ys ≤ u ∧ u < ye ∧ zs ≤ w ∧ w < ze ∧
        i = t + sx * (u + sy * w) ∧
        mdBlock lab sx sy sz false xs xe ys ye zs ze out i =
          dilateSpec3 lab sx sy sz false t u w) := by
  obtain ⟨lA, lB⟩ := mdZLoop_spec lab sx sy sz zs xs xe ys ye hxe hye hys
    (ze - zs) zs (([], [], []), out) (by omega)
    (fun hzz => absurd hzz (lt_irrefl _))
    hpre
  constructor
  · intro t u w htx hlt huy hu2 hwz hw2
    exact lA t u w htx hlt huy hu2 hwz (by omega)
  · intro i
    rcases lB i with hB | ⟨t2, u2, w2, ht2, h1, h2, hu3, hu4, hw3, hw4, h3, h4⟩
    · exact Or.inl hB
    · exact Or.inr ⟨t2, u2, w2, ht2, h1, h2, hu3, hu4, hw3, by omega, h3, h4⟩

/-- Correctness of the block fold for 3D dilation. -/
theorem runBlocks_md3_spec (lab : Nat → Nat) (sx sy sz : Nat) :
    ∀ (blocks : List (Nat × Nat × Nat × Nat × Nat × Nat)) (out : Nat → Nat),
      (∀ b ∈ blocks, b.2.1 ≤ sx ∧ b.2.2.2.1 ≤ sy ∧ b.2.2.1 ≤ sy ∧
        b.2.2.2.2.2 ≤ sz ∧ b.2.2.2.2.1 ≤ sz) →
      (∀ t u w, t < sx → u < sy → w < sz → out (t + sx * (u + sy * w)) = 0 ∨
        out (t + sx * (u + sy * w)) = dilateSpec3 lab sx sy sz false t u w) →
      (∀ t u w, t < sx → u < sy → w < sz →
        runBlocks (fun axs axe ays aye azs aze o =>
          mdBlock lab sx sy sz false axs axe ays aye azs aze o) blocks out
            (t + sx * (u + sy * w)) = out (t + sx * (u + sy * w)) ∨
        runBlocks (fun axs axe ays aye azs aze o =>
          mdBlock lab sx sy sz false axs axe ays aye azs aze o) blocks out
            (t + sx * (u + sy * w)) = dilateSpec3 lab sx sy sz false t u w) ∧
      (∀ b ∈ blocks, ∀ t u w, b.1 ≤ t → t < b.2.1 → b.2.2.1 ≤ u → u < b.2.2.2.1 →
        b.2.2.2.2.1 ≤ w → w < b.2.2.2.2.2 →
        runBlocks (fun axs axe ays aye azs aze o =>
          mdBlock lab sx sy sz false axs axe ays aye azs aze o) blocks out
          (t + sx * (u + sy * w)) = dilateSpec3 lab sx sy sz false t u w) := by
  intro blocks
  induction blocks with
  | nil =>
    intro out hWF hpre
    exact ⟨fun t u w _ _ _ => Or.inl rfl, fun b hb => absurd hb (List.not_mem_nil b)⟩
  | cons b bs ih =>
    intro out hWF hpre
    obtain ⟨hbxe, hbye, hbys, hbze, hbzs⟩ := hWF b (List.mem_cons_self b bs)
    obtain ⟨blA, blB⟩ := mdBlock_spec lab sx sy sz b.1 b.2.1 b.2.2.1 b.2.2.2.1
      b.2.2.2.2.1 b.2.2.2.2.2 out hbxe hbye hbys hbze hbzs hpre
    have hpre1 : ∀ t u w, t < sx → u < sy → w < sz →
        mdBlock lab sx sy sz false b.1 b.2.1 b.2.2.1 b.2.2.2.1 b.2.2.2.2.1 b.2.2.2.2.2
          out (t + sx * (u + sy * w)) = 0 ∨
        mdBlock lab sx sy sz false b.1 b.2.1 b.2.2.1 b.2.2.2.1 b.2.2.2.2.1 b.2.2.2.2.2
          out (t + sx * (u + sy * w)) = dilateSpec3 lab sx sy sz false t u w := by
      intro t u w htx huy hwz
      rcases blB (t + sx * (u + sy * w)) with hB |
        ⟨t2, u2, w2, ht2, h1, h2, hu3, hu4, hw3, hw4, h3, h4⟩
      · rw [hB]; exact hpre t u w htx huy hwz
      · obtain ⟨e1, e2, e3⟩ := enc3_inj w w2 htx h2 huy (by omega) h3
        right
        rw [h4, ← e1, ← e2, ← e3]
    obtain ⟨ihA, ihB⟩ := ih
      (mdBlock lab sx sy sz false b.1 b.2.1 b.2.2.1 b.2.2.2.1 b.2.2.2.2.1
        b.2.2.2.2.2 out)
      (fun b2 hb2 => hWF b2 (List.mem_cons_of_mem b hb2)) hpre1
    have hrun : runBlocks (fun axs axe ays aye azs aze o =>
        mdBlock lab sx sy sz false axs axe ays aye azs aze o) (b :: bs) out =
        runBlocks (fun axs axe ays aye azs aze o =>
          mdBlock lab sx sy sz false axs axe ays aye azs aze o) bs
          (mdBlock lab sx sy sz false b.1 b.2.1 b.2.2.1 b.2.2.2.1 b.2.2.2.2.1
            b.2.2.2.2.2 out) := rfl
    rw [hrun]
    constructor
    · intro t u w htx huy hwz
      rcases ihA t u w htx huy hwz with hA | hA
      · rcases blB (t + sx * (u + sy * w)) with hB |
          ⟨t2, u2, w2, ht2, h1, h2, hu3, hu4, hw3, hw4, h3, h4⟩
        · exact Or.inl (hA.trans hB)
        · obtain ⟨e1, e2, e3⟩ := enc3_inj w w2 htx h2 huy (by omega) h3
          right
          rw [hA, h4, ← e1, ← e2, ← e3]
      · exact Or.inr hA
    · intro b2 hb2 t u w ht1 ht2 hu1 hu2 hw1 hw2
      rcases List.mem_cons.mp hb2 with rfl | hmem
      · have htx : t < sx := by omega
        have huy : u < sy := by omega
        have hwz : w < sz := by omega
        rcases ihA t u w htx huy hwz with hA | hA
        · rw [hA]
          exact blA t u w ht1 ht2 hu1 hu2 hw1 hw2
        · exact hA
      · exact ihB b2 hmem t u w ht1 ht2 hu1 hu2 hw1 hw2

/-- The block grid covers every in-bounds coordinate. -/
theorem grid_cover {s bs x2 : Nat} (hbs : 0 < bs) (hx : x2 < s) :
    x2 / bs < gridDim s bs ∧ (x2 / bs) * bs ≤ x2 ∧ x2 < (x2 / bs + 1) * bs := by
  have hdm := Nat.div_add_mod x2 bs
  have hmod : x2 % bs < bs := Nat.mod_lt _ hbs
  have hc : (x2 / bs) * bs = bs * (x2 / bs) := Nat.mul_comm _ _
  have hsm : (x2 / bs + 1) * bs = (x2 / bs) * bs + bs := Nat.succ_mul _ _
  refine ⟨?_, by omega, by omega⟩
  unfold gridDim
  have hsplus : s + bs - 1 = (s - 1) + bs := by omega
  rw [hsplus]
  have h2 : ((s - 1) + bs) / bs = (s - 1) / bs + 1 := Nat.add_div_right _ hbs
  have h3 : x2 / bs ≤ (s - 1) / bs := Nat.div_le_div_right (by omega)
  have h4 : x2 / bs < ((s - 1) + bs) / bs := by rw [h2]; omega
  exact lt_of_lt_of_le h4 (le_max_left _ _)

/-- A block's starting corner never exceeds the volume extent. -/
theorem grid_start_le {s bs g : Nat} (hbs : 0 < bs) (hg : g < gridDim s bs) :
    g * bs ≤ s := by
  unfold gridDim at hg
  by_cases hz : g = 0
  · subst hz; simp
  · have hg1 : 1 ≤ g := by omega
    have hlt : g < (s + bs - 1) / bs := by
      rcases Nat.lt_or_ge g ((s + bs - 1) / bs) with h | h
      · exact h
      · have hmax : max ((s + bs - 1) / bs) 1 ≤ g := max_le h hg1
        omega
    have h2 : (g + 1) * bs ≤ s + bs - 1 := (Nat.le_div_iff_mul_le hbs).mp hlt
    have hsm : (g + 1) * bs = g * bs + bs := Nat.succ_mul _ _
    omega

/-- Grid cells enumerate into the driver's block list. -/
theorem blockBounds_mem (sx sy sz offset : Nat) (gx gy gz : Nat)
    (hgx : gx < gridDim sx (blockSize sz)) (hgy : gy < gridDim sy (blockSize sz))
    (hgz : gz < gridDim sz (blockSize sz)) :
    blockBounds sx sy sz offset (blockSize sz) gx gy gz ∈ blockList sx sy sz offset := by
  unfold blockList
  exact List.mem_flatMap.mpr ⟨gz, List.mem_range.mpr hgz,
    List.mem_flatMap.mpr ⟨gy, List.mem_range.mpr hgy,
      List.mem_map.mpr ⟨gx, List.mem_range.mpr hgx, rfl⟩⟩⟩

theorem blockSize_pos (sz : Nat) : 0 < blockSize sz := by
  unfold blockSize
  split <;> omega

/-- The 3D multilabel dilation entry point computes the per-voxel dilation
contract at every in-bounds voxel (`background_only = false`). -/
theorem multilabel_dilate3_spec (lab : Nat → Nat) (sx sy sz x y z : Nat)
    (hx : x < sx) (hy : y < sy) (hz : z < sz) :
    multilabel_dilate3 lab (fun _ => 0) sx sy sz false (x + sx * (y + sy * z)) =
      dilateSpec3 lab sx sy sz false x y z := by
  unfold multilabel_dilate3
  have hbs : 0 < blockSize sz := blockSize_pos sz
  have hsub : ∀ s : Nat, u64sub s 0 = s := by
    intro s
    unfold u64sub
    simp
  have hWF : ∀ b ∈ blockList sx sy sz 0, b.2.1 ≤ sx ∧ b.2.2.2.1 ≤ sy ∧ b.2.2.1 ≤ sy ∧
      b.2.2.2.2.2 ≤ sz ∧ b.2.2.2.2.1 ≤ sz := by
    intro b hb
    unfold blockList at hb
    rcases List.mem_flatMap.mp hb with ⟨gz, hgz, hb2⟩
    rcases List.mem_flatMap.mp hb2 with ⟨gy, hgy, hb3⟩
    rcases List.mem_map.mp hb3 with ⟨gx, hgx, rfl⟩
    have hgy2 := grid_start_le hbs (List.mem_range.mp hgy)
    have hgz2 := grid_start_le hbs (List.mem_range.mp hgz)
    simp only [blockBounds]
    rw [hsub, hsub, hsub]
    exact ⟨min_le_right _ _, min_le_right _ _, by omega, min_le_right _ _, by omega⟩
  have hpre : ∀ t u w, t < sx → u < sy → w < sz →
      (fun _ => (0 : Nat)) (t + sx * (u + sy * w)) = 0 ∨
      (fun _ => (0 : Nat)) (t + sx * (u + sy * w)) =
        dilateSpec3 lab sx sy sz false t u w :=
    fun t u w _ _ _ => Or.inl rfl
  obtain ⟨_, hcov⟩ := runBlocks_md3_spec lab sx sy sz (blockList sx sy sz 0)
    (fun _ => 0) hWF hpre
  obtain ⟨hgx, hgx1, hgx2⟩ := grid_cover hbs hx
  obtain ⟨hgy, hgy1, hgy2⟩ := grid_cover hbs hy
  obtain ⟨hgz, hgz1, hgz2⟩ := grid_cover hbs hz
  have hmem := blockBounds_mem sx sy sz 0 (x / blockSize sz) (y / blockSize sz)
    (z / blockSize sz) hgx hgy hgz
  have hb := hcov _ hmem x y z
  simp only [blockBounds] at hb
  rw [hsub, hsub, hsub] at hb
  exact hb (by omega) (by omega) (by omega) (by omega) (by omega) (by omega)

/-- A stencil cell contributes no nonzero label exactly when its in-bounds
value (if any) is zero. -/
theorem cellNb_nil_iff (lab : Nat → Nat) (sx sy sz : Nat) (xi yi zi : Int) :
    cellNb lab sx sy sz xi yi zi = [] ↔
      ∀ v ∈ cellVal lab sx sy sz xi yi zi, v = 0 := by
  unfold cellNb cellVal
  by_cases hb : 0 ≤ xi ∧ xi < (sx : Int) ∧ 0 ≤ yi ∧ yi < (sy : Int) ∧ 0 ≤ zi ∧
      zi < (sz : Int)
  · rw [if_pos hb]
    by_cases hl : lab (xi.toNat + sx * (yi.toNat + sy * zi.toNat)) ≠ 0
    · rw [if_pos ⟨hb.1, hb.2.1, hb.2.2.1, hb.2.2.2.1, hb.2.2.2.2.1, hb.2.2.2.2.2, hl⟩]
      simp [hl]
    · rw [if_neg (fun hc => hl hc.2.2.2.2.2.2)]
      push_neg at hl
      simp [hl]
  · rw [if_neg (fun hc => hb ⟨hc.1, hc.2.1, hc.2.2.1, hc.2.2.2.1, hc.2.2.2.2.1,
      hc.2.2.2.2.2.1⟩), if_neg hb]
    simp

theorem cellNb2_nil_iff (lab : Nat → Nat) (sx sy : Nat) (xi yi : Int) :
    cellNb2 lab sx sy xi yi = [] ↔ ∀ v ∈ cellVal2 lab sx sy xi yi, v = 0 := by
  unfold cellNb2 cellVal2
  by_cases hb : 0 ≤ xi ∧ xi < (sx : Int) ∧ 0 ≤ yi ∧ yi < (sy : Int)
  · rw [if_pos hb]
    by_cases hl : lab (xi.toNat + sx * yi.toNat) ≠ 0
    · rw [if_pos ⟨hb.1, hb.2.1, hb.2.2.1, hb.2.2.2, hl⟩]
      simp [hl]
    · rw [if_neg (fun hc => hl hc.2.2.2.2)]
      push_neg at hl
      simp [hl]
  · rw [if_neg (fun hc => hb ⟨hc.1, hc.2.1, hc.2.2.1, hc.2.2.2.1⟩), if_neg hb]
    simp

/-- A stencil column gathers no nonzero label exactly when all of its
in-bounds cells are zero. -/
theorem colNb_nil_iff (lab : Nat → Nat) (sx sy sz : Nat) (xi : Int) (y z : Nat) :
    colNb lab sx sy sz xi y z = [] ↔ ∀ v ∈ colVal lab sx sy sz xi y z, v = 0 := by
  unfold colNb colVal
  simp only [List.append_eq_nil, List.forall_mem_append]
  exact and_congr (and_congr (and_congr (and_congr (and_congr (and_congr (and_congr
    (and_congr (cellNb_nil_iff lab sx sy sz xi y z)
      (cellNb_nil_iff lab sx sy sz xi ((y : Int) - 1) z))
      (cellNb_nil_iff lab sx sy sz xi ((y : Int) + 1) z))
      (cellNb_nil_iff lab sx sy sz xi y ((z : Int) - 1)))
      (cellNb_nil_iff lab sx sy sz xi y ((z : Int) + 1)))
      (cellNb_nil_iff lab sx sy sz xi ((y : Int) - 1) ((z : Int) - 1)))
      (cellNb_nil_iff lab sx sy sz xi ((y : Int) + 1) ((z : Int) - 1)))
      (cellNb_nil_iff lab sx sy sz xi ((y : Int) - 1) ((z : Int) + 1)))
      (cellNb_nil_iff lab sx sy sz xi ((y : Int) + 1) ((z : Int) + 1))

theorem colNb2_nil_iff (lab : Nat → Nat) (sx sy : Nat) (xi : Int) (y : Nat) :
    colNb2 lab sx sy xi y = [] ↔ ∀ v ∈ colVal2 lab sx sy xi y, v = 0 := by
  unfold colNb2 colVal2
  simp only [List.append_eq_nil, List.forall_mem_append]
  exact and_congr (and_congr (cellNb2_nil_iff lab sx sy xi y)
    (cellNb2_nil_iff lab sx sy xi ((y : Int) - 1)))
    (cellNb2_nil_iff lab sx sy xi ((y : Int) + 1))

/-- A voxel's neighborhood list of nonzero labels is empty exactly when
every in-bounds cell of its 3×3×3 stencil is zero. -/
theorem nbhd3_nil_iff (lab : Nat → Nat) (sx sy sz : Nat) (x y z : Nat) :
    nbhd3 lab sx sy sz x y z = [] ↔ ∀ v ∈ nbhdVals3 lab sx sy sz x y z, v = 0 := by
  unfold nbhd3 nbhdVals3
  simp only [List.append_eq_nil, List.forall_mem_append]
  exact and_congr (and_congr (colNb_nil_iff lab sx sy sz ((x : Int) - 1) y z)
    (colNb_nil_iff lab sx sy sz (x : Int) y z))
    (colNb_nil_iff lab sx sy sz ((x : Int) + 1) y z)

theorem nbhd2_nil_iff (lab : Nat → Nat) (sx sy : Nat) (x y : Nat) :
    nbhd2 lab sx sy x y = [] ↔ ∀ v ∈ nbhdVals2 lab sx sy x y, v = 0 := by
  unfold nbhd2 nbhdVals2
  simp only [List.append_eq_nil, List.forall_mem_append]
  exact and_congr (and_congr (colNb2_nil_iff lab sx sy ((x : Int) - 1) y)
    (colNb2_nil_iff lab sx sy (x : Int) y))
    (colNb2_nil_iff lab sx sy ((x : Int) + 1) y)

/-- At a strictly interior `(y,z)` with an in-range column `c`, the 9-cell
column of values is the explicit list of the nine labels around the column
center. -/
theorem colVal_interior (lab : Nat → Nat) (sx sy sz c y z : Nat)
    (hcs : c < sx) (hy1 : 1 ≤ y) (hy2 : y + 1 < sy) (hz1 : 1 ≤ z) (hz2 : z + 1 < sz) :
    colVal lab sx sy sz (c : Int) y z =
      [lab (c + sx * (y + sy * z)),
       lab (c + sx * (y + sy * z) - sx),
       lab (c + sx * (y + sy * z) + sx),
       lab (c + sx * (y + sy * z) - sx * sy),
       lab (c + sx * (y + sy * z) + sx * sy),
       lab (c + sx * (y + sy * z) - sx - sx * sy),
       lab (c + sx * (y + sy * z) + sx - sx * sy),
       lab (c + sx * (y + sy * z) - sx + sx * sy),
       lab (c + sx * (y + sy * z) + sx + sx * sy)] := by
  have e1 : cellVal lab sx sy sz (c : Int) (y : Int) (z : Int) =
      [lab (c + sx * (y + sy * z))] := by
    unfold cellVal
    rw [if_pos (by refine ⟨by omega, by omega, by omega, by omega, by omega, by omega⟩)]
    rw [Int.toNat_natCast, Int.toNat_natCast, Int.toNat_natCast]
  have e2 : cellVal lab sx sy sz (c : Int) ((y : Int) - 1) (z : Int) =
      [lab (c + sx * (y + sy * z) - sx)] := by
    unfold cellVal
    rw [if_pos (by refine ⟨by omega, by omega, by omega, by omega, by omega, by omega⟩)]
    have t1 : ((y : Int) - 1).toNat = y - 1 := by omega
    rw [Int.toNat_natCast, Int.toNat_natCast, t1, addr_ym c sx sy y z hy1]
  have e3 : cellVal lab sx sy sz (c : Int) ((y : Int) + 1) (z : Int) =
      [lab (c + sx * (y + sy * z) + sx)] := by
    unfold cellVal
    rw [if_pos (by refine ⟨by omega, by omega, by omega, by omega, by omega, by omega⟩)]
    have t1 : ((y : Int) + 1).toNat = y + 1 := by omega
    rw [Int.toNat_natCast, Int.toNat_natCast, t1, addr_yp c sx sy y z]
  have e4 : cellVal lab sx sy sz (c : Int) (y : Int) ((z : Int) - 1) =
      [lab (c + sx * (y + sy * z) - sx * sy)] := by
    unfold cellVal
    rw [if_pos (by refine ⟨by omega, by omega, by omega, by omega, by omega, by omega⟩)]
    have t1 : ((z : Int) - 1).toNat = z - 1 := by omega
    rw [Int.toNat_natCast, Int.toNat_natCast, t1, addr_zm c sx sy y z hz1]
  have e5 : cellVal lab sx sy sz (c : Int) (y : Int) ((z : Int) + 1) =
      [lab (c + sx * (y + sy * z) + sx * sy)] := by
    unfold cellVal
    rw [if_pos (by refine ⟨by omega, by omega, by omega, by omega, by omega, by omega⟩)]
    have t1 : ((z : Int) + 1).toNat = z + 1 := by omega
    rw [Int.toNat_natCast, Int.toNat_natCast, t1, addr_zp c sx sy y z]
  have e6 : cellVal lab sx sy sz (c : Int) ((y : Int) - 1) ((z : Int) - 1) =
      [lab (c + sx * (y + sy * z) - sx - sx * sy)] := by
    unfold cellVal
    rw [if_pos (by refine ⟨by omega, by omega, by omega, by omega, by omega, by omega⟩)]
    have t1 : ((y : Int) - 1).toNat = y - 1 := by omega
    have t2 : ((z : Int) - 1).toNat = z - 1 := by omega
    rw [Int.toNat_natCast, t1, t2, addr_ymzm c sx sy y z hy1 hz1]
  have e7 : cellVal lab sx sy sz (c : Int) ((y : Int) + 1) ((z : Int) - 1) =
      [lab (c + sx * (y + sy * z) + sx - sx * sy)] := by
    unfold cellVal
    rw [if_pos (by refine ⟨by omega, by omega, by omega, by omega, by omega, by omega⟩)]
    have t1 : ((y : Int) + 1).toNat = y + 1 := by omega
    have t2 : ((z : Int) - 1).toNat = z - 1 := by omega
    rw [Int.toNat_natCast, t1, t2, addr_ypzm c sx sy y z hz1]
  have e8 : cellVal lab sx sy sz (c : Int) ((y : Int) - 1) ((z : Int) + 1) =
      [lab (c + sx * (y + sy * z) - sx + sx * sy)] := by
    unfold cellVal
    rw [if_pos (by refine ⟨by omega, by omega, by omega, by omega, by omega, by omega⟩)]
    have t1 : ((y : Int) - 1).toNat = y - 1 := by omega
    have t2 : ((z : Int) + 1).toNat = z + 1 := by omega
    rw [Int.toNat_natCast, t1, t2, addr_ymzp c sx sy y z hy1]
  have e9 : cellVal lab sx sy sz (c : Int) ((y : Int) + 1) ((z : Int) + 1) =
      [lab (c + sx * (y + sy * z) + sx + sx * sy)] := by
    unfold cellVal
    rw [if_pos (by refine ⟨by omega, by omega, by omega, by omega, by omega, by omega⟩)]
    have t1 : ((y : Int) + 1).toNat = y + 1 := by omega
    have t2 : ((z : Int) + 1).toNat = z + 1 := by omega
    rw [Int.toNat_natCast, t1, t2, addr_ypzp c sx sy y z]
  unfold colVal
  rw [e1, e2, e3, e4, e5, e6, e7, e8, e9]
  rfl

/-- A column with a nonzero `is_pure` result lies inside the `x` extent. -/
theorem is_pure_bounds (lab : Nat → Nat) (sx sy sz : Nat) (xi : Int) (y z : Nat)
    (h : is_pure lab sx sy sz xi y z ≠ 0) : 0 ≤ xi ∧ xi < (sx : Int) := by
  by_cases hb : xi < 0 ∨ (sx : Int) ≤ xi
  · exfalso
    apply h
    unfold is_pure
    rw [if_pos hb]
  · push_neg at hb
    exact ⟨by omega, by omega⟩

/-- A nonzero `is_pure` result is the label at the column center. -/
theorem is_pure_ne_zero_val (lab : Nat → Nat) (sx sy sz : Nat) (xi : Int) (y z : Nat)
    (h : is_pure lab sx sy sz xi y z ≠ 0) :
    is_pure lab sx sy sz xi y z = lab (xi.toNat + sx * (y + sy * z)) := by
  unfold is_pure at h ⊢
  by_cases hb : xi < 0 ∨ (sx : Int) ≤ xi
  · rw [if_pos hb] at h
    exact absurd rfl h
  · rw [if_neg hb] at h ⊢
    dsimp only [] at h ⊢
    split at h
    · rename_i hc
      rw [if_pos hc]
    · exact absurd rfl h

/-- What a nonzero `is_pure` at a natural column index entails: the `(y,z)`
coordinate is strictly interior, the column center is nonzero Nat, and the
whole 9-cell column carries the center's label. -/
theorem is_pure_parts (lab : Nat → Nat) (sx sy sz c y z : Nat)
    (h : is_pure lab sx sy sz (c : Int) y z ≠ 0) :
    c < sx ∧ 1 ≤ y ∧ y + 1 < sy ∧ 1 ≤ z ∧ z + 1 < sz ∧
    lab (c + sx * (y + sy * z)) ≠ 0 ∧
    is_pure lab sx sy sz (c : Int) y z = lab (c + sx * (y + sy * z)) ∧
    ∀ v ∈ colVal lab sx sy sz (c : Int) y z, v = lab (c + sx * (y + sy * z)) := by
  by_cases hcs : c < sx
  · have hb : ¬((c : Int) < 0 ∨ (sx : Int) ≤ (c : Int)) := by
      push_neg
      exact ⟨by omega, by omega⟩
    unfold is_pure at h ⊢
    rw [if_neg hb] at h ⊢
    dsimp only [] at h ⊢
    simp only [Int.toNat_natCast] at h ⊢
    split at h
    · rename_i hcond
      obtain ⟨k1, k2, k3, k4, k5, k6, k7, k8, k9⟩ := hcond
      rw [if_pos ⟨k1, k2, k3, k4, k5, k6, k7, k8, k9⟩]
      refine ⟨hcs, by omega, by omega, by omega, by omega, k1, rfl, ?_⟩
      rw [colVal_interior lab sx sy sz c y z hcs (by omega) (by omega) (by omega) (by omega)]
      intro v hv
      simp only [List.mem_cons, List.not_mem_nil, or_false] at hv
      rcases hv with rfl | rfl | rfl | rfl | rfl | rfl | rfl | rfl | rfl
      · rfl
      · exact k2.2
      · exact k3.2
      · exact k4.2
      · exact k5.2
      · exact k6.2.2
      · exact k7.2.2
      · exact k8.2.2
      · exact k9.2.2
    · exact absurd rfl h
  · exfalso
    apply h
    unfold is_pure
    rw [if_pos (Or.inr (by omega))]

/-- Converse: a uniformly-labelled interior column is pure. -/
theorem is_pure_of_uniform (lab : Nat → Nat) (sx sy sz c y z : Nat)
    (hcs : c < sx) (hy1 : 1 ≤ y) (hy2 : y + 1 < sy) (hz1 : 1 ≤ z) (hz2 : z + 1 < sz)
    (hnz : lab (c + sx * (y + sy * z)) ≠ 0)
    (hall : ∀ v ∈ colVal lab sx sy sz (c : Int) y z, v = lab (c + sx * (y + sy * z))) :
    is_pure lab sx sy sz (c : Int) y z = lab (c + sx * (y + sy * z)) := by
  rw [colVal_interior lab sx sy sz c y z hcs hy1 hy2 hz1 hz2] at hall
  simp only [List.mem_cons, List.not_mem_nil, or_false, forall_eq_or_imp,
    forall_eq] at hall
  obtain ⟨h1, h2, h3, h4, h5, h6, h7, h8, h9⟩ := hall
  have hb : ¬((c : Int) < 0 ∨ (sx : Int) ≤ (c : Int)) := by
    push_neg
    exact ⟨by omega, by omega⟩
  unfold is_pure
  rw [if_neg hb]
  dsimp only []
  simp only [Int.toNat_natCast]
  rw [if_pos ⟨hnz, ⟨by omega, h2⟩, ⟨by omega, h3⟩, ⟨by omega, h4⟩, ⟨by omega, h5⟩,
    ⟨by omega, by omega, h6⟩, ⟨by omega, by omega, h7⟩, ⟨by omega, by omega, h8⟩,
    ⟨by omega, by omega, h9⟩⟩]

/-- A surviving eroded voxel keeps its own label. -/
theorem erodeSpec3_ne_zero_val (lab : Nat → Nat) (sx sy sz x y z : Nat)
    (h : erodeSpec3 lab sx sy sz x y z ≠ 0) :
    erodeSpec3 lab sx sy sz x y z = lab (x + sx * (y + sy * z)) := by
  unfold erodeSpec3 at h ⊢
  dsimp only [] at h ⊢
  split at h
  · rename_i hc
    rw [if_pos hc]
  · exact absurd rfl h

/-- A surviving eroded voxel is strictly interior, nonzero, and all three
stencil columns are pure with the voxel's label. -/
theorem erodeSpec3_pures (lab : Nat → Nat) (sx sy sz x y z : Nat)
    (h : erodeSpec3 lab sx sy sz x y z ≠ 0) :
    1 ≤ x ∧ x + 1 < sx ∧ 1 ≤ y ∧ y + 1 < sy ∧ 1 ≤ z ∧ z + 1 < sz ∧
    lab (x + sx * (y + sy * z)) ≠ 0 ∧
    is_pure lab sx sy sz ((x : Int) - 1) y z = lab (x + sx * (y + sy * z)) ∧
    is_pure lab sx sy sz (x : Int) y z = lab (x + sx * (y + sy * z)) ∧
    is_pure lab sx sy sz ((x : Int) + 1) y z = lab (x + sx * (y + sy * z)) := by
  unfold erodeSpec3 at h
  dsimp only [] at h
  split at h
  · rename_i hcond
    obtain ⟨k1, k2, k3, k4, k5, k6, k7, k8⟩ := hcond
    have hall : ∀ v ∈ nbhdVals3 lab sx sy sz x y z, v = lab (x + sx * (y + sy * z)) := by
      intro v hv
      exact of_decide_eq_true (List.all_eq_true.mp k8 v hv)
    unfold nbhdVals3 at hall
    rw [List.forall_mem_append, List.forall_mem_append] at hall
    obtain ⟨⟨hL, hM⟩, hR⟩ := hall
    have hcastL : ((x : Int) - 1) = ((x - 1 : Nat) : Int) := by omega
    have hcastR : ((x : Int) + 1) = ((x + 1 : Nat) : Int) := by omega
    rw [hcastL] at hL
    rw [hcastR] at hR
    have hpm : is_pure lab sx sy sz (x : Int) y z = lab (x + sx * (y + sy * z)) :=
      is_pure_of_uniform lab sx sy sz x y z (by omega) (by omega) (by omega) (by omega)
        (by omega) k1 hM
    have hBL : lab ((x - 1) + sx * (y + sy * z)) = lab (x + sx * (y + sy * z)) := by
      apply hL
      rw [colVal_interior lab sx sy sz (x - 1) y z (by omega) (by omega) (by omega)
        (by omega) (by omega)]
      exact List.mem_cons_self _ _
    have hLall : ∀ v ∈ colVal lab sx sy sz ((x - 1 : Nat) : Int) y z,
        v = lab ((x - 1) + sx * (y + sy * z)) :=
      fun v hv => (hL v hv).trans hBL.symm
    have hpl0 : is_pure lab sx sy sz ((x - 1 : Nat) : Int) y z =
        lab ((x - 1) + sx * (y + sy * z)) :=
      is_pure_of_uniform lab sx sy sz (x - 1) y z (by omega) (by omega) (by omega)
        (by omega) (by omega) (by rw [hBL]; exact k1) hLall
    have hBR : lab ((x + 1) + sx * (y + sy * z)) = lab (x + sx * (y + sy * z)) := by
      apply hR
      rw [colVal_interior lab sx sy sz (x + 1) y z (by omega) (by omega) (by omega)
        (by omega) (by omega)]
      exact List.mem_cons_self _ _
    have hRall : ∀ v ∈ colVal lab sx sy sz ((x + 1 : Nat) : Int) y z,
        v = lab ((x + 1) + sx * (y + sy * z)) :=
      fun v hv => (hR v hv).trans hBR.symm
    have hpr0 : is_pure lab sx sy sz ((x + 1 : Nat) : Int) y z =
        lab ((x + 1) + sx * (y + sy * z)) :=
      is_pure_of_uniform lab sx sy sz (x + 1) y z (by omega) (by omega) (by omega)
        (by omega) (by omega) (by rw [hBR]; exact k1) hRall
    refine ⟨k2, k3, k4, k5, k6, k7, k1, ?_, hpm, ?_⟩
    · rw [hcastL, hpl0, hBL]
    · rw [hcastR, hpr0, hBR]
  · exact absurd rfl h

/-- Converse: three pure stencil columns sharing the (nonzero) center label
make the voxel survive erosion. -/
theorem erode_pures_spec3 (lab : Nat → Nat) (sx sy sz x y z : Nat)
    (hx1 : 1 ≤ x) (hx2 : x + 1 < sx)
    (h1 : is_pure lab sx sy sz ((x : Int) - 1) y z = lab (x + sx * (y + sy * z)))
    (h2 : is_pure lab sx sy sz (x : Int) y z = lab (x + sx * (y + sy * z)))
    (h3 : is_pure lab sx sy sz ((x : Int) + 1) y z = lab (x + sx * (y + sy * z)))
    (hnz : lab (x + sx * (y + sy * z)) ≠ 0) :
    erodeSpec3 lab sx sy sz x y z = lab (x + sx * (y + sy * z)) := by
  obtain ⟨-, hy1, hy2, hz1, hz2, -, -, hMall⟩ :=
    is_pure_parts lab sx sy sz x y z (by rw [h2]; exact hnz)
  have hcastL : ((x : Int) - 1) = ((x - 1 : Nat) : Int) := by omega
  have hcastR : ((x : Int) + 1) = ((x + 1 : Nat) : Int) := by omega
  rw [hcastL] at h1
  rw [hcastR] at h3
  obtain ⟨-, -, -, -, -, -, hLval, hLall⟩ :=
    is_pure_parts lab sx sy sz (x - 1) y z (by rw [h1]; exact hnz)
  obtain ⟨-, -, -, -, -, -, hRval, hRall⟩ :=
    is_pure_parts lab sx sy sz (x + 1) y z (by rw [h3]; exact hnz)
  have hBL : lab ((x - 1) + sx * (y + sy * z)) = lab (x + sx * (y + sy * z)) := by
    rw [← hLval, h1]
  have hBR : lab ((x + 1) + sx * (y + sy * z)) = lab (x + sx * (y + sy * z)) := by
    rw [← hRval, h3]
  have hall : ∀ v ∈ nbhdVals3 lab sx sy sz x y z, v = lab (x + sx * (y + sy * z)) := by
    unfold nbhdVals3
    rw [List.forall_mem_append, List.forall_mem_append]
    refine ⟨⟨?_, hMall⟩, ?_⟩
    · rw [hcastL]
      exact fun v hv => (hLall v hv).trans hBL
    · rw [hcastR]
      exact fun v hv => (hRall v hv).trans hBR
  have hallb : (nbhdVals3 lab sx sy sz x y z).all
      (fun v => decide (v = lab (x + sx * (y + sy * z)))) = true :=
    List.all_eq_true.mpr fun v hv => decide_eq_true (hall v hv)
  unfold erodeSpec3
  dsimp only []
  rw [if_pos ⟨hnz, hx1, hx2, hy1, hy2, hz1, hz2, hallb⟩]

/-- If any of the three stencil columns of `x` is impure, the voxel erodes
to zero. -/
theorem erodeSpec3_zero_of_col (lab : Nat → Nat) (sx sy sz x y z : Nat) (c : Int)
    (hc : c = (x : Int) - 1 ∨ c = (x : Int) ∨ c = (x : Int) + 1)
    (h : is_pure lab sx sy sz c y z = 0) :
    erodeSpec3 lab sx sy sz x y z = 0 := by
  by_contra hne
  obtain ⟨-, -, -, -, -, -, hnz, hpl, hpm, hpr⟩ := erodeSpec3_pures lab sx sy sz x y z hne
  rcases hc with rfl | rfl | rfl
  · rw [h] at hpl
    exact hnz hpl.symm
  · rw [h] at hpm
    exact hnz hpm.symm
  · rw [h] at hpr
    exact hnz hpr.symm

/-- A zero voxel erodes to zero. -/
theorem erodeSpec3_zero_of_lab (lab : Nat → Nat) (sx sy sz x y z : Nat)
    (h : lab (x + sx * (y + sy * z)) = 0) :
    erodeSpec3 lab sx sy sz x y z = 0 := by
  unfold erodeSpec3
  dsimp only []
  rw [if_neg (fun hcond => hcond.1 h)]

/-- A column whose center is zero is impure. -/
theorem is_pure_zero_of_lab (lab : Nat → Nat) (sx sy sz c y z : Nat)
    (h : lab (c + sx * (y + sy * z)) = 0) :
    is_pure lab sx sy sz (c : Int) y z = 0 := by
  unfold is_pure
  by_cases hb : (c : Int) < 0 ∨ (sx : Int) ≤ (c : Int)
  · rw [if_pos hb]
  · rw [if_neg hb]
    dsimp only []
    simp only [Int.toNat_natCast]
    rw [if_neg (fun hcond => hcond.1 h)]

/-- A border voxel erodes to zero. -/
theorem erodeSpec3_zero_of_border (lab : Nat → Nat) (sx sy sz x y z : Nat)
    (h : ¬(1 ≤ x ∧ x + 1 < sx ∧ 1 ≤ y ∧ y + 1 < sy ∧ 1 ≤ z ∧ z + 1 < sz)) :
    erodeSpec3 lab sx sy sz x y z = 0 := by
  unfold erodeSpec3
  dsimp only []
  rw [if_neg (fun hc => h ⟨hc.2.1, hc.2.2.1, hc.2.2.2.1, hc.2.2.2.2.1, hc.2.2.2.2.2.1,
    hc.2.2.2.2.2.2.1⟩)]

/-- When the column below (at `z-1`) is uniformly the nonzero label `L`,
the cross-`z` fast purity check agrees with the full purity check: the
`dz ∈ {-1,0}` slabs it skips are covered by the uniform column below. -/
theorem fast_z_eq_of_col_uniform (lab : Nat → Nat) (sx sy sz c y z L : Nat)
    (hcs : c < sx) (hy1 : 1 ≤ y) (hy2 : y + 1 < sy) (hz2 : 2 ≤ z) (hz3 : z < sz)
    (hL : L ≠ 0)
    (hall : ∀ v ∈ colVal lab sx sy sz (c : Int) y (z - 1), v = L) :
    is_pure_fast_z lab sx sy sz (c : Int) y z = is_pure lab sx sy sz (c : Int) y z := by
  rw [colVal_interior lab sx sy sz c y (z - 1) hcs hy1 hy2 (by omega) (by omega)] at hall
  simp only [List.mem_cons, List.not_mem_nil, or_false, forall_eq_or_imp,
    forall_eq] at hall
  obtain ⟨h1, h2, h3, h4, h5, h6, h7, h8, h9⟩ := hall
  have e0 : c + sx * (y + sy * (z - 1)) = c + sx * (y + sy * z) - sx * sy :=
    addr_zm c sx sy y z (by omega)
  have hsys : sy * 1 ≤ sy * z := Nat.mul_le_mul_left sy (by omega)
  have hm1 : sx * (1 + sy) ≤ sx * (y + sy * z) := Nat.mul_le_mul_left sx (by omega)
  have hm2 : sx * (1 + sy) = sx + sx * sy := by ring
  have hA : sx + sx * sy ≤ c + sx * (y + sy * z) := by omega
  have b5 : lab (c + sx * (y + sy * z)) = L := by
    have he : c + sx * (y + sy * (z - 1)) + sx * sy = c + sx * (y + sy * z) := by omega
    rw [← he]
    exact h5
  have b8 : lab (c + sx * (y + sy * z) - sx) = L := by
    have he : c + sx * (y + sy * (z - 1)) - sx + sx * sy =
        c + sx * (y + sy * z) - sx := by omega
    rw [← he]
    exact h8
  have b9 : lab (c + sx * (y + sy * z) + sx) = L := by
    have he : c + sx * (y + sy * (z - 1)) + sx + sx * sy =
        c + sx * (y + sy * z) + sx := by omega
    rw [← he]
    exact h9
  have b1 : lab (c + sx * (y + sy * z) - sx * sy) = L := by
    rw [← e0]
    exact h1
  have b2 : lab (c + sx * (y + sy * z) - sx - sx * sy) = L := by
    have he : c + sx * (y + sy * (z - 1)) - sx =
        c + sx * (y + sy * z) - sx - sx * sy := by omega
    rw [← he]
    exact h2
  have b3 : lab (c + sx * (y + sy * z) + sx - sx * sy) = L := by
    have he : c + sx * (y + sy * (z - 1)) + sx =
        c + sx * (y + sy * z) + sx - sx * sy := by omega
    rw [← he]
    exact h3
  have hb : ¬((c : Int) < 0 ∨ (sx : Int) ≤ (c : Int)) := by
    push_neg
    exact ⟨by omega, by omega⟩
  unfold is_pure_fast_z is_pure
  rw [if_neg hb, if_neg hb]
  dsimp only []
  simp only [Int.toNat_natCast]
  refine if_congr ?_ rfl rfl
  constructor
  · rintro ⟨f5, f8, f9⟩
    exact ⟨by rw [b5]; exact hL, ⟨by omega, by rw [b8, b5]⟩, ⟨by omega, by rw [b9, b5]⟩,
      ⟨by omega, by rw [b1, b5]⟩, f5, ⟨by omega, by omega, by rw [b2, b5]⟩,
      ⟨by omega, by omega, by rw [b3, b5]⟩, f8, f9⟩
  · rintro ⟨-, -, -, -, f5, -, -, f8, f9⟩
    exact ⟨f5, f8, f9⟩

/-- When the column to the left in `y` (at `y-1`) is uniformly the nonzero
label `L`, the cross-`y` fast purity check agrees with the full check. -/
theorem fast_y_eq_of_col_uniform (lab : Nat → Nat) (sx sy sz c y z L : Nat)
    (hcs : c < sx) (hy2 : 2 ≤ y) (hy3 : y < sy) (hz1 : 1 ≤ z) (hz2 : z + 1 < sz)
    (hL : L ≠ 0)
    (hall : ∀ v ∈ colVal lab sx sy sz (c : Int) (y - 1) z, v = L) :
    is_pure_fast_y lab sx sy sz (c : Int) y z = is_pure lab sx sy sz (c : Int) y z := by
  rw [colVal_interior lab sx sy sz c (y - 1) z hcs (by omega) (by omega) hz1 hz2] at hall
  simp only [List.mem_cons, List.not_mem_nil, or_false, forall_eq_or_imp,
    forall_eq] at hall
  obtain ⟨h1, h2, h3, h4, h5, h6, h7, h8, h9⟩ := hall
  have e0 : c + sx * ((y - 1) + sy * z) = c + sx * (y + sy * z) - sx :=
    addr_ym c sx sy y z (by omega)
  have hm1 : sx * 1 ≤ sx * (y + sy * z) := Nat.mul_le_mul_left sx (by omega)
  have hA : sx ≤ c + sx * (y + sy * z) := by omega
  have b3 : lab (c + sx * (y + sy * z)) = L := by
    have he : c + sx * ((y - 1) + sy * z) + sx = c + sx * (y + sy * z) := by omega
    rw [← he]
    exact h3
  have b1 : lab (c + sx * (y + sy * z) - sx) = L := by
    rw [← e0]
    exact h1
  have b7 : lab (c + sx * (y + sy * z) - sx * sy) = L := by
    have he : c + sx * ((y - 1) + sy * z) + sx - sx * sy =
        c + sx * (y + sy * z) - sx * sy := by omega
    rw [← he]
    exact h7
  have b9 : lab (c + sx * (y + sy * z) + sx * sy) = L := by
    have he : c + sx * ((y - 1) + sy * z) + sx + sx * sy =
        c + sx * (y + sy * z) + sx * sy := by omega
    rw [← he]
    exact h9
  have b4 : lab (c + sx * (y + sy * z) - sx - sx * sy) = L := by
    have he : c + sx * ((y - 1) + sy * z) - sx * sy =
        c + sx * (y + sy * z) - sx - sx * sy := by omega
    rw [← he]
    exact h4
  have b5 : lab (c + sx * (y + sy * z) - sx + sx * sy) = L := by
    have he : c + sx * ((y - 1) + sy * z) + sx * sy =
        c + sx * (y + sy * z) - sx + sx * sy := by omega
    rw [← he]
    exact h5
  have hb : ¬((c : Int) < 0 ∨ (sx : Int) ≤ (c : Int)) := by
    push_neg
    exact ⟨by omega, by omega⟩
  unfold is_pure_fast_y is_pure
  rw [if_neg hb, if_neg hb]
  dsimp only []
  simp only [Int.toNat_natCast]
  refine if_congr ?_ rfl rfl
  constructor
  · rintro ⟨f3, f7, f9⟩
    exact ⟨by rw [b3]; exact hL, ⟨by omega, by rw [b1, b3]⟩, f3,
      ⟨by omega, by rw [b7, b3]⟩, ⟨by omega, by rw [b9, b3]⟩,
      ⟨by omega, by omega, by rw [b4, b3]⟩, f7,
      ⟨by omega, by omega, by rw [b5, b3]⟩, f9⟩
  · rintro ⟨-, -, f3, -, -, -, f7, -, f9⟩
    exact ⟨f3, f7, f9⟩

/-- Soundness of the cross-`z` fast path: when the voxel directly below
`(x,y,z)` survived erosion with value `labels[loc]`, the fast purity check
equals the full one on all three stencil columns of `x`. -/
theorem is_pure_fast_z_sound (lab : Nat → Nat) (sx sy sz x y z : Nat) (ci : Int)
    (hci : ci = (x : Int) - 1 ∨ ci = (x : Int) ∨ ci = (x : Int) + 1)
    (hz1 : 1 ≤ z)
    (hsur : erodeSpec3 lab sx sy sz x y (z - 1) = lab (x + sx * (y + sy * z)))
    (hnz : lab (x + sx * (y + sy * z)) ≠ 0) :
    is_pure_fast_z lab sx sy sz ci y z = is_pure lab sx sy sz ci y z := by
  have hsne : erodeSpec3 lab sx sy sz x y (z - 1) ≠ 0 := by
    rw [hsur]
    exact hnz
  obtain ⟨hx1, hx2, hy1, hy2, hzz1, hzz2, hlnz, hpl, hpm, hpr⟩ :=
    erodeSpec3_pures lab sx sy sz x y (z - 1) hsne
  have hval := erodeSpec3_ne_zero_val lab sx sy sz x y (z - 1) hsne
  have hLA : lab (x + sx * (y + sy * (z - 1))) = lab (x + sx * (y + sy * z)) := by
    rw [← hval, hsur]
  have hcastL : ((x : Int) - 1) = ((x - 1 : Nat) : Int) := by omega
  have hcastR : ((x : Int) + 1) = ((x + 1 : Nat) : Int) := by omega
  rw [hcastL] at hpl
  rw [hcastR] at hpr
  obtain ⟨-, -, -, -, -, -, hLval, hLcol⟩ :=
    is_pure_parts lab sx sy sz (x - 1) y (z - 1) (by rw [hpl, hLA]; exact hnz)
  obtain ⟨-, -, -, -, -, -, hMval, hMcol⟩ :=
    is_pure_parts lab sx sy sz x y (z - 1) (by rw [hpm, hLA]; exact hnz)
  obtain ⟨-, -, -, -, -, -, hRval, hRcol⟩ :=
    is_pure_parts lab sx sy sz (x + 1) y (z - 1) (by rw [hpr, hLA]; exact hnz)
  have hallL : ∀ v ∈ colVal lab sx sy sz ((x - 1 : Nat) : Int) y (z - 1),
      v = lab (x + sx * (y + sy * z)) :=
    fun v hv => (hLcol v hv).trans (by rw [← hLval, hpl, hLA])
  have hallM : ∀ v ∈ colVal lab sx sy sz (x : Int) y (z - 1),
      v = lab (x + sx * (y + sy * z)) :=
    fun v hv => (hMcol v hv).trans (by rw [← hMval, hpm, hLA])
  have hallR : ∀ v ∈ colVal lab sx sy sz ((x + 1 : Nat) : Int) y (z - 1),
      v = lab (x + sx * (y + sy * z)) :=
    fun v hv => (hRcol v hv).trans (by rw [← hRval, hpr, hLA])
  rcases hci with rfl | rfl | rfl
  · rw [hcastL]
    exact fast_z_eq_of_col_uniform lab sx sy sz (x - 1) y z
      (lab (x + sx * (y + sy * z))) (by omega) hy1 hy2 (by omega) (by omega) hnz hallL
  · exact fast_z_eq_of_col_uniform lab sx sy sz x y z
      (lab (x + sx * (y + sy * z))) (by omega) hy1 hy2 (by omega) (by omega) hnz hallM
  · rw [hcastR]
    exact fast_z_eq_of_col_uniform lab sx sy sz (x + 1) y z
      (lab (x + sx * (y + sy * z))) (by omega) hy1 hy2 (by omega) (by omega) hnz hallR

/-- Soundness of the cross-`y` fast path: when the voxel one row back in
`y` survived erosion with value `labels[loc]`, the fast purity check
equals the full one on all three stencil columns of `x`. -/
theorem is_pure_fast_y_sound (lab : Nat → Nat) (sx sy sz x y z : Nat) (ci : Int)
    (hci : ci = (x : Int) - 1 ∨ ci = (x : Int) ∨ ci = (x : Int) + 1)
    (hy1 : 1 ≤ y)
    (hsur : erodeSpec3 lab sx sy sz x (y - 1) z = lab (x + sx * (y + sy * z)))
    (hnz : lab (x + sx * (y + sy * z)) ≠ 0) :
    is_pure_fast_y lab sx sy sz ci y z = is_pure lab sx sy sz ci y z := by
  have hsne : erodeSpec3 lab sx sy sz x (y - 1) z ≠ 0 := by
    rw [hsur]
    exact hnz
  obtain ⟨hx1, hx2, hyy1, hyy2, hz1, hz2, hlnz, hpl, hpm, hpr⟩ :=
    erodeSpec3_pures lab sx sy sz x (y - 1) z hsne
  have hval := erodeSpec3_ne_zero_val lab sx sy sz x (y - 1) z hsne
  have hLA : lab (x + sx * ((y - 1) + sy * z)) = lab (x + sx * (y + sy * z)) := by
    rw [← hval, hsur]
  have hcastL : ((x : Int) - 1) = ((x - 1 : Nat) : Int) := by omega
  have hcastR : ((x : Int) + 1) = ((x + 1 : Nat) : Int) := by omega
  rw [hcastL] at hpl
  rw [hcastR] at hpr
  obtain ⟨-, -, -, -, -, -, hLval, hLcol⟩ :=
    is_pure_parts lab sx sy sz (x - 1) (y - 1) z (by rw [hpl, hLA]; exact hnz)
  obtain ⟨-, -, -, -, -, -, hMval, hMcol⟩ :=
    is_pure_parts lab sx sy sz x (y - 1) z (by rw [hpm, hLA]; exact hnz)
  obtain ⟨-, -, -, -, -, -, hRval, hRcol⟩ :=
    is_pure_parts lab sx sy sz (x + 1) (y - 1) z (by rw [hpr, hLA]; exact hnz)
  have hallL : ∀ v ∈ colVal lab sx sy sz ((x - 1 : Nat) : Int) (y - 1) z,
      v = lab (x + sx * (y + sy * z)) :=
    fun v hv => (hLcol v hv).trans (by rw [← hLval, hpl, hLA])
  have hallM : ∀ v ∈ colVal lab sx sy sz (x : Int) (y - 1) z,
      v = lab (x + sx * (y + sy * z)) :=
    fun v hv => (hMcol v hv).trans (by rw [← hMval, hpm, hLA])
  have hallR : ∀ v ∈ colVal lab sx sy sz ((x + 1 : Nat) : Int) (y - 1) z,
      v = lab (x + sx * (y + sy * z)) :=
    fun v hv => (hRcol v hv).trans (by rw [← hRval, hpr, hLA])
  rcases hci with rfl | rfl | rfl
  · rw [hcastL]
    exact fast_y_eq_of_col_uniform lab sx sy sz (x - 1) y z
      (lab (x + sx * (y + sy * z))) (by omega) (by omega) (by omega) hz1 hz2 hnz hallL
  · exact fast_y_eq_of_col_uniform lab sx sy sz x y z
      (lab (x + sx * (y + sy * z))) (by omega) (by omega) (by omega) hz1 hz2 hnz hallM
  · rw [hcastR]
    exact fast_y_eq_of_col_uniform lab sx sy sz (x + 1) y z
      (lab (x + sx * (y + sy * z))) (by omega) (by omega) (by omega) hz1 hz2 hnz hallR

/-- Stepping the erode row past `k ≥ 2` skipped voxels whose erosion is
zero, with a fresh stale state `≥ 3`, preserves the row contract. -/
theorem meRow_skip (lab : Nat → Nat) (sx sy sz zs ys xe y z : Nat)
    (f x k st2 pl2 pm2 pr2 : Nat) (out : Nat → Nat)
    (hx : x < xe) (hfuel : xe ≤ x + 1 + f) (hk : 2 ≤ k) (hst2 : 3 ≤ st2)
    (hs : ∀ j, j < k → erodeSpec3 lab sx sy sz (x + j) y z = 0)
    (IH : ∀ (x2 stale2 pl3 pm3 pr3 : Nat) (out2 : Nat → Nat),
      xe ≤ x2 + f → 1 ≤ stale2 →
      (stale2 = 1 → pm3 = is_pure lab sx sy sz ((x2 : Int) - 1) y z ∧
        pr3 = is_pure lab sx sy sz (x2 : Int) y z) →
      (stale2 = 2 → pr3 = is_pure lab sx sy sz ((x2 : Int) - 1) y z) →
      (zs < z → ∀ t, x2 ≤ t → t < xe →
        out2 (t + sx * (y + sy * (z - 1))) = erodeSpec3 lab sx sy sz t y (z - 1)) →
      (ys < y → ∀ t, x2 ≤ t → t < xe →
        out2 (t + sx * ((y - 1) + sy * z)) = erodeSpec3 lab sx sy sz t (y - 1) z) →
      (∀ t, x2 ≤ t → t < xe → out2 (t + sx * (y + sy * z)) = 0 ∨
        out2 (t + sx * (y + sy * z)) = erodeSpec3 lab sx sy sz t y z) →
      (∀ t, x2 ≤ t → t < xe →
        (meRow lab sx sy sz zs ys xe y z f x2 stale2 pl3 pm3 pr3 out2).2
          (t + sx * (y + sy * z)) = erodeSpec3 lab sx sy sz t y z) ∧
      (∀ i, (meRow lab sx sy sz zs ys xe y z f x2 stale2 pl3 pm3 pr3 out2).2 i = out2 i ∨
        ∃ t, x2 ≤ t ∧ t < xe ∧ i = t + sx * (y + sy * z) ∧
          (meRow lab sx sy sz zs ys xe y z f x2 stale2 pl3 pm3 pr3 out2).2 i =
            erodeSpec3 lab sx sy sz t y z))
    (Hz : zs < z → ∀ t, x ≤ t → t < xe →
      out (t + sx * (y + sy * (z - 1))) = erodeSpec3 lab sx sy sz t y (z - 1))
    (Hy : ys < y → ∀ t, x ≤ t → t < xe →
      out (t + sx * ((y - 1) + sy * z)) = erodeSpec3 lab sx sy sz t (y - 1) z)
    (hpre : ∀ t, x ≤ t → t < xe → out (t + sx * (y + sy * z)) = 0 ∨
      out (t + sx * (y + sy * z)) = erodeSpec3 lab sx sy sz t y z) :
    (∀ t, x ≤ t → t < xe →
      (meRow lab sx sy sz zs ys xe y z f (x + k) st2 pl2 pm2 pr2 out).2
        (t + sx * (y + sy * z)) = erodeSpec3 lab sx sy sz t y z) ∧
    (∀ i, (meRow lab sx sy sz zs ys xe y z f (x + k) st2 pl2 pm2 pr2 out).2 i = out i ∨
      ∃ t, x ≤ t ∧ t < xe ∧ i = t + sx * (y + sy * z) ∧
        (meRow lab sx sy sz zs ys xe y z f (x + k) st2 pl2 pm2 pr2 out).2 i =
          erodeSpec3 lab sx sy sz t y z) := by
  obtain ⟨ihA, ihB⟩ := IH (x + k) st2 pl2 pm2 pr2 out (by omega) (by omega)
    (fun h1 => absurd h1 (by omega)) (fun h2 => absurd h2 (by omega))
    (fun hzz t ht hlt => Hz hzz t (by omega) hlt)
    (fun hyy t ht hlt => Hy hyy t (by omega) hlt)
    (fun t ht hlt => hpre t (by omega) hlt)
  constructor
  · intro t ht hlt
    by_cases htk : x + k ≤ t
    · exact ihA t htk hlt
    · have hspec0 : erodeSpec3 lab sx sy sz t y z = 0 := by
        have hh := hs (t - x) (by omega)
        rwa [show x + (t - x) = t by omega] at hh
      rcases ihB (t + sx * (y + sy * z)) with hB | ⟨t2, ht2, hlt2, heq, hval⟩
      · rcases hpre t ht hlt with h0 | hsp
        · rw [hB, h0, hspec0]
        · rw [hB, hsp]
      · omega
  · intro i
    rcases ihB i with hB | ⟨t2, ht2, hlt2, heq, hval⟩
    · exact Or.inl hB
    · exact Or.inr ⟨t2, by omega, hlt2, heq, hval⟩

/-- Stepping the erode row past two voxels whose erosion is zero with
stale state 2 (a fresh right-hand purity in `pr`). -/
theorem meRow_skip2 (lab : Nat → Nat) (sx sy sz zs ys xe y z : Nat)
    (f x pl2 pm2 pr2 : Nat) (out : Nat → Nat)
    (hx : x < xe) (hfuel : xe ≤ x + 1 + f)
    (hpr2 : pr2 = is_pure lab sx sy sz ((x : Int) + 1) y z)
    (hs0 : erodeSpec3 lab sx sy sz x y z = 0)
    (hs1 : erodeSpec3 lab sx sy sz (x + 1) y z = 0)
    (IH : ∀ (x2 stale2 pl3 pm3 pr3 : Nat) (out2 : Nat → Nat),
      xe ≤ x2 + f → 1 ≤ stale2 →
      (stale2 = 1 → pm3 = is_pure lab sx sy sz ((x2 : Int) - 1) y z ∧
        pr3 = is_pure lab sx sy sz (x2 : Int) y z) →
      (stale2 = 2 → pr3 = is_pure lab sx sy sz ((x2 : Int) - 1) y z) →
      (zs < z → ∀ t, x2 ≤ t → t < xe →
        out2 (t + sx * (y + sy * (z - 1))) = erodeSpec3 lab sx sy sz t y (z - 1)) →
      (ys < y → ∀ t, x2 ≤ t → t < xe →
        out2 (t + sx * ((y - 1) + sy * z)) = erodeSpec3 lab sx sy sz t (y - 1) z) →
      (∀ t, x2 ≤ t → t < xe → out2 (t + sx * (y + sy * z)) = 0 ∨
        out2 (t + sx * (y + sy * z)) = erodeSpec3 lab sx sy sz t y z) →
      (∀ t, x2 ≤ t → t < xe →
        (meRow lab sx sy sz zs ys xe y z f x2 stale2 pl3 pm3 pr3 out2).2
          (t + sx * (y + sy * z)) = erodeSpec3 lab sx sy sz t y z) ∧
      (∀ i, (meRow lab sx sy sz zs ys xe y z f x2 stale2 pl3 pm3 pr3 out2).2 i = out2 i ∨
        ∃ t, x2 ≤ t ∧ t < xe ∧ i = t + sx * (y + sy * z) ∧
          (meRow lab sx sy sz zs ys xe y z f x2 stale2 pl3 pm3 pr3 out2).2 i =
            erodeSpec3 lab sx sy sz t y z))
    (Hz : zs < z → ∀ t, x ≤ t → t < xe →
      out (t + sx * (y + sy * (z - 1))) = erodeSpec3 lab sx sy sz t y (z - 1))
    (Hy : ys < y → ∀ t, x ≤ t → t < xe →
      out (t + sx * ((y - 1) + sy * z)) = erodeSpec3 lab sx sy sz t (y - 1) z)
    (hpre : ∀ t, x ≤ t → t < xe → out (t + sx * (y + sy * z)) = 0 ∨
      out (t + sx * (y + sy * z)) = erodeSpec3 lab sx sy sz t y z) :
    (∀ t, x ≤ t → t < xe →
      (meRow lab sx sy sz zs ys xe y z f (x + 2) 2 pl2 pm2 pr2 out).2
        (t + sx * (y + sy * z)) = erodeSpec3 lab sx sy sz t y z) ∧
    (∀ i, (meRow lab sx sy sz zs ys xe y z f (x + 2) 2 pl2 pm2 pr2 out).2 i = out i ∨
      ∃ t, x ≤ t ∧ t < xe ∧ i = t + sx * (y + sy * z) ∧
        (meRow lab sx sy sz zs ys xe y z f (x + 2) 2 pl2 pm2 pr2 out).2 i =
          erodeSpec3 lab sx sy sz t y z) := by
  have hcast : ((x + 2 : Nat) : Int) - 1 = (x : Int) + 1 := by omega
  obtain ⟨ihA, ihB⟩ := IH (x + 2) 2 pl2 pm2 pr2 out (by omega) (by omega)
    (fun h1 => absurd h1 (by omega))
    (fun _ => by rw [hcast]; exact hpr2)
    (fun hzz t ht hlt => Hz hzz t (by omega) hlt)
    (fun hyy t ht hlt => Hy hyy t (by omega) hlt)
    (fun t ht hlt => hpre t (by omega) hlt)
  constructor
  · intro t ht hlt
    by_cases htk : x + 2 ≤ t
    · exact ihA t htk hlt
    · have hspec0 : erodeSpec3 lab sx sy sz t y z = 0 := by
        rcases (show t = x ∨ t = x + 1 by omega) with rfl | rfl
        · exact hs0
        · exact hs1
      rcases ihB (t + sx * (y + sy * z)) with hB | ⟨t2, ht2, hlt2, heq, hval⟩
      · rcases hpre t ht hlt with h0 | hsp
        · rw [hB, h0, hspec0]
        · rw [hB, hsp]
      · omega
  · intro i
    rcases ihB i with hB | ⟨t2, ht2, hlt2, heq, hval⟩
    · exact Or.inl hB
    · exact Or.inr ⟨t2, by omega, hlt2, heq, hval⟩

/-- Advancing the erode row by one voxel without a store when that voxel
erodes to zero. -/
theorem meRow_nowrite (lab : Nat → Nat) (sx sy sz zs ys xe y z : Nat)
    (f x pl2 pm2 pr2 : Nat) (out : Nat → Nat)
    (hx : x < xe) (hfuel : xe ≤ x + 1 + f)
    (hpm2 : pm2 = is_pure lab sx sy sz (x : Int) y z)
    (hpr2 : pr2 = is_pure lab sx sy sz ((x : Int) + 1) y z)
    (hs0 : erodeSpec3 lab sx sy sz x y z = 0)
    (IH : ∀ (x2 stale2 pl3 pm3 pr3 : Nat) (out2 : Nat → Nat),
      xe ≤ x2 + f → 1 ≤ stale2 →
      (stale2 = 1 → pm3 = is_pure lab sx sy sz ((x2 : Int) - 1) y z ∧
        pr3 = is_pure lab sx sy sz (x2 : Int) y z) →
      (stale2 = 2 → pr3 = is_pure lab sx sy sz ((x2 : Int) - 1) y z) →
      (zs < z → ∀ t, x2 ≤ t → t < xe →
        out2 (t + sx * (y + sy * (z - 1))) = erodeSpec3 lab sx sy sz t y (z - 1)) →
      (ys < y → ∀ t, x2 ≤ t → t < xe →
        out2 (t + sx * ((y - 1) + sy * z)) = erodeSpec3 lab sx sy sz t (y - 1) z) →
      (∀ t, x2 ≤ t → t < xe → out2 (t + sx * (y + sy * z)) = 0 ∨
        out2 (t + sx * (y + sy * z)) = erodeSpec3 lab sx sy sz t y z) →
      (∀ t, x2 ≤ t → t < xe →
        (meRow lab sx sy sz zs ys xe y z f x2 stale2 pl3 pm3 pr3 out2).2
          (t + sx * (y + sy * z)) = erodeSpec3 lab sx sy sz t y z) ∧
      (∀ i, (meRow lab sx sy sz zs ys xe y z f x2 stale2 pl3 pm3 pr3 out2).2 i = out2 i ∨
        ∃ t, x2 ≤ t ∧ t < xe ∧ i = t + sx * (y + sy * z) ∧
          (meRow lab sx sy sz zs ys xe y z f x2 stale2 pl3 pm3 pr3 out2).2 i =
            erodeSpec3 lab sx sy sz t y z))
    (Hz : zs < z → ∀ t, x ≤ t → t < xe →
      out (t + sx * (y + sy * (z - 1))) = erodeSpec3 lab sx sy sz t y (z - 1))
    (Hy : ys < y → ∀ t, x ≤ t → t < xe →
      out (t + sx * ((y - 1) + sy * z)) = erodeSpec3 lab sx sy sz t (y - 1) z)
    (hpre : ∀ t, x ≤ t → t < xe → out (t + sx * (y + sy * z)) = 0 ∨
      out (t + sx * (y + sy * z)) = erodeSpec3 lab sx sy sz t y z) :
    (∀ t, x ≤ t → t < xe →
      (meRow lab sx sy sz zs ys xe y z f (x + 1) 1 pl2 pm2 pr2 out).2
        (t + sx * (y + sy * z)) = erodeSpec3 lab sx sy sz t y z) ∧
    (∀ i, (meRow lab sx sy sz zs ys xe y z f (x + 1) 1 pl2 pm2 pr2 out).2 i = out i ∨
      ∃ t, x ≤ t ∧ t < xe ∧ i = t + sx * (y + sy * z) ∧
        (meRow lab sx sy sz zs ys xe y z f (x + 1) 1 pl2 pm2 pr2 out).2 i =
          erodeSpec3 lab sx sy sz t y z) := by
  have hcast1 : ((x + 1 : Nat) : Int) - 1 = (x : Int) := by omega
  have hcast2 : ((x + 1 : Nat) : Int) = (x : Int) + 1 := by omega
  obtain ⟨ihA, ihB⟩ := IH (x + 1) 1 pl2 pm2 pr2 out (by omega) (by omega)
    (fun _ => ⟨by rw [hcast1]; exact hpm2, by rw [hcast2]; exact hpr2⟩)
    (fun h2 => absurd h2 (by omega))
    (fun hzz t ht hlt => Hz hzz t (by omega) hlt)
    (fun hyy t ht hlt => Hy hyy t (by omega) hlt)
    (fun t ht hlt => hpre t (by omega) hlt)
  constructor
  · intro t ht hlt
    by_cases htk : x + 1 ≤ t
    · exact ihA t htk hlt
    · have hteq : t = x := by omega
      subst hteq
      rcases ihB (t + sx * (y + sy * z)) with hB | ⟨t2, ht2, hlt2, heq, hval⟩
      · rcases hpre t (le_refl _) hlt with h0 | hsp
        · rw [hB, h0, hs0]
        · rw [hB, hsp]
      · omega
  · intro i
    rcases ihB i with hB | ⟨t2, ht2, hlt2, heq, hval⟩
    · exact Or.inl hB
    · exact Or.inr ⟨t2, by omega, hlt2, heq, hval⟩

/-- Storing the surviving label at `x` and advancing by one. -/
theorem meRow_write (lab : Nat → Nat) (sx sy sz zs ys xe y z : Nat)
    (f x pl2 pm2 pr2 : Nat) (out : Nat → Nat)
    (hy : y < sy) (hxe : xe ≤ sx)
    (hx : x < xe) (hfuel : xe ≤ x + 1 + f)
    (hpm2 : pm2 = is_pure lab sx sy sz (x : Int) y z)
    (hpr2 : pr2 = is_pure lab sx sy sz ((x : Int) + 1) y z)
    (hw : erodeSpec3 lab sx sy sz x y z = lab (x + sx * (y + sy * z)))
    (IH : ∀ (x2 stale2 pl3 pm3 pr3 : Nat) (out2 : Nat → Nat),
      xe ≤ x2 + f → 1 ≤ stale2 →
      (stale2 = 1 → pm3 = is_pure lab sx sy sz ((x2 : Int) - 1) y z ∧
        pr3 = is_pure lab sx sy sz (x2 : Int) y z) →
      (stale2 = 2 → pr3 = is_pure lab sx sy sz ((x2 : Int) - 1) y z) →
      (zs < z → ∀ t, x2 ≤ t → t < xe →
        out2 (t + sx * (y + sy * (z - 1))) = erodeSpec3 lab sx sy sz t y (z - 1)) →
      (ys < y → ∀ t, x2 ≤ t → t < xe →
        out2 (t + sx * ((y - 1) + sy * z)) = erodeSpec3 lab sx sy sz t (y - 1) z) →
      (∀ t, x2 ≤ t → t < xe → out2 (t + sx * (y + sy * z)) = 0 ∨
        out2 (t + sx * (y + sy * z)) = erodeSpec3 lab sx sy sz t y z) →
      (∀ t, x2 ≤ t → t < xe →
        (meRow lab sx sy sz zs ys xe y z f x2 stale2 pl3 pm3 pr3 out2).2
          (t + sx * (y + sy * z)) = erodeSpec3 lab sx sy sz t y z) ∧
      (∀ i, (meRow lab sx sy sz zs ys xe y z f x2 stale2 pl3 pm3 pr3 out2).2 i = out2 i ∨
        ∃ t, x2 ≤ t ∧ t < xe ∧ i = t + sx * (y + sy * z) ∧
          (meRow lab sx sy sz zs ys xe y z f x2 stale2 pl3 pm3 pr3 out2).2 i =
            erodeSpec3 lab sx sy sz t y z))
    (Hz : zs < z → ∀ t, x ≤ t → t < xe →
      out (t + sx * (y + sy * (z - 1))) = erodeSpec3 lab sx sy sz t y (z - 1))
    (Hy : ys < y → ∀ t, x ≤ t → t < xe →
      out (t + sx * ((y - 1) + sy * z)) = erodeSpec3 lab sx sy sz t (y - 1) z)
    (hpre : ∀ t, x ≤ t → t < xe → out (t + sx * (y + sy * z)) = 0 ∨
      out (t + sx * (y + sy * z)) = erodeSpec3 lab sx sy sz t y z) :
    (∀ t, x ≤ t → t < xe →
      (meRow lab sx sy sz zs ys xe y z f (x + 1) 1 pl2 pm2 pr2
        (upd out (x + sx * (y + sy * z)) (lab (x + sx * (y + sy * z))))).2
        (t + sx * (y + sy * z)) = erodeSpec3 lab sx sy sz t y z) ∧
    (∀ i, (meRow lab sx sy sz zs ys xe y z f (x + 1) 1 pl2 pm2 pr2
        (upd out (x + sx * (y + sy * z)) (lab (x + sx * (y + sy * z))))).2 i = out i ∨
      ∃ t, x ≤ t ∧ t < xe ∧ i = t + sx * (y + sy * z) ∧
        (meRow lab sx sy sz zs ys xe y z f (x + 1) 1 pl2 pm2 pr2
          (upd out (x + sx * (y + sy * z)) (lab (x + sx * (y + sy * z))))).2 i =
          erodeSpec3 lab sx sy sz t y z) := by
  have hcast1 : ((x + 1 : Nat) : Int) - 1 = (x : Int) := by omega
  have hcast2 : ((x + 1 : Nat) : Int) = (x : Int) + 1 := by omega
  obtain ⟨ihA, ihB⟩ := IH (x + 1) 1 pl2 pm2 pr2
    (upd out (x + sx * (y + sy * z)) (lab (x + sx * (y + sy * z))))
    (by omega) (by omega)
    (fun _ => ⟨by rw [hcast1]; exact hpm2, by rw [hcast2]; exact hpr2⟩)
    (fun h2 => absurd h2 (by omega))
    (fun hzz t ht hlt => by
      have hne : t + sx * (y + sy * (z - 1)) ≠ x + sx * (y + sy * z) := by
        intro hcontra
        obtain ⟨e1, e2, e3⟩ := enc3_inj (z - 1) z (show t < sx by omega)
          (show x < sx by omega) hy hy hcontra
        omega
      rw [upd_ne _ _ _ _ hne]
      exact Hz hzz t (by omega) hlt)
    (fun hyy t ht hlt => by
      have hne : t + sx * ((y - 1) + sy * z) ≠ x + sx * (y + sy * z) := by
        intro hcontra
        obtain ⟨e1, e2, e3⟩ := enc3_inj z z (show t < sx by omega)
          (show x < sx by omega) (show y - 1 < sy by omega) hy hcontra
        omega
      rw [upd_ne _ _ _ _ hne]
      exact Hy hyy t (by omega) hlt)
    (fun t ht hlt => by
      rw [upd_ne _ _ _ _ (by omega)]
      exact hpre t (by omega) hlt)
  constructor
  · intro t ht hlt
    by_cases htk : x + 1 ≤ t
    · exact ihA t htk hlt
    · have hteq : t = x := by omega
      subst hteq
      rcases ihB (t + sx * (y + sy * z)) with hB | ⟨t2, ht2, hlt2, heq, hval⟩
      · rw [hB, upd_self, hw]
      · omega
  · intro i
    rcases ihB i with hB | ⟨t2, ht2, hlt2, heq, hval⟩
    · by_cases hieq : i = x + sx * (y + sy * z)
      · subst hieq
        exact Or.inr ⟨x, le_refl _, hx, rfl, by rw [hB, upd_self, hw]⟩
      · exact Or.inl (hB.trans (upd_ne _ _ _ _ hieq))
    · exact Or.inr ⟨t2, by omega, hlt2, heq, hval⟩

/-- Dispatching one erode iteration through `meTail` when the three purity
values of the stencil columns of `x` are known. -/
theorem meRow_tail (lab : Nat → Nat) (sx sy sz zs ys xe y z : Nat)
    (f x PL PM PR : Nat) (out : Nat → Nat)
    (hy : y < sy) (hxe : xe ≤ sx)
    (hx : x < xe) (hfuel : xe ≤ x + 1 + f)
    (hlab : lab (x + sx * (y + sy * z)) ≠ 0)
    (hPL : PL = is_pure lab sx sy sz ((x : Int) - 1) y z)
    (hPM : PM = is_pure lab sx sy sz (x : Int) y z)
    (hPR : PR = is_pure lab sx sy sz ((x : Int) + 1) y z)
    (IH : ∀ (x2 stale2 pl3 pm3 pr3 : Nat) (out2 : Nat → Nat),
      xe ≤ x2 + f → 1 ≤ stale2 →
      (stale2 = 1 → pm3 = is_pure lab sx sy sz ((x2 : Int) - 1) y z ∧
        pr3 = is_pure lab sx sy sz (x2 : Int) y z) →
      (stale2 = 2 → pr3 = is_pure lab sx sy sz ((x2 : Int) - 1) y z) →
      (zs < z → ∀ t, x2 ≤ t → t < xe →
        out2 (t + sx * (y + sy * (z - 1))) = erodeSpec3 lab sx sy sz t y (z - 1)) →
      (ys < y → ∀ t, x2 ≤ t → t < xe →
        out2 (t + sx * ((y - 1) + sy * z)) = erodeSpec3 lab sx sy sz t (y - 1) z) →
      (∀ t, x2 ≤ t → t < xe → out2 (t + sx * (y + sy * z)) = 0 ∨
        out2 (t + sx * (y + sy * z)) = erodeSpec3 lab sx sy sz t y z) →
      (∀ t, x2 ≤ t → t < xe →
        (meRow lab sx sy sz zs ys xe y z f x2 stale2 pl3 pm3 pr3 out2).2
          (t + sx * (y + sy * z)) = erodeSpec3 lab sx sy sz t y z) ∧
      (∀ i, (meRow lab sx sy sz zs ys xe y z f x2 stale2 pl3 pm3 pr3 out2).2 i = out2 i ∨
        ∃ t, x2 ≤ t ∧ t < xe ∧ i = t + sx * (y + sy * z) ∧
          (meRow lab sx sy sz zs ys xe y z f x2 stale2 pl3 pm3 pr3 out2).2 i =
            erodeSpec3 lab sx sy sz t y z))
    (Hz : zs < z → ∀ t, x ≤ t → t < xe →
      out (t + sx * (y + sy * (z - 1))) = erodeSpec3 lab sx sy sz t y (z - 1))
    (Hy : ys < y → ∀ t, x ≤ t → t < xe →
      out (t + sx * ((y - 1) + sy * z)) = erodeSpec3 lab sx sy sz t (y - 1) z)
    (hpre : ∀ t, x ≤ t → t < xe → out (t + sx * (y + sy * z)) = 0 ∨
      out (t + sx * (y + sy * z)) = erodeSpec3 lab sx sy sz t y z) :
    (∀ t, x ≤ t → t < xe →
      (meRow lab sx sy sz zs ys xe y z f
        (x + (meTail lab (x + sx * (y + sy * z)) PL PM PR out).2.1)
        (meTail lab (x + sx * (y + sy * z)) PL PM PR out).2.2 PL PM PR
        (meTail lab (x + sx * (y + sy * z)) PL PM PR out).1).2
        (t + sx * (y + sy * z)) = erodeSpec3 lab sx sy sz t y z) ∧
    (∀ i, (meRow lab sx sy sz zs ys xe y z f
        (x + (meTail lab (x + sx * (y + sy * z)) PL PM PR out).2.1)
        (meTail lab (x + sx * (y + sy * z)) PL PM PR out).2.2 PL PM PR
        (meTail lab (x + sx * (y + sy * z)) PL PM PR out).1).2 i = out i ∨
      ∃ t, x ≤ t ∧ t < xe ∧ i = t + sx * (y + sy * z) ∧
        (meRow lab sx sy sz zs ys xe y z f
          (x + (meTail lab (x + sx * (y + sy * z)) PL PM PR out).2.1)
          (meTail lab (x + sx * (y + sy * z)) PL PM PR out).2.2 PL PM PR
          (meTail lab (x + sx * (y + sy * z)) PL PM PR out).1).2 i =
          erodeSpec3 lab sx sy sz t y z) := by
  by_cases hPR0 : PR = 0
  · have hT : meTail lab (x + sx * (y + sy * z)) PL PM PR out = (out, 3, 3) := by
      unfold meTail
      rw [if_pos hPR0]
    rw [hT]
    have hp0 : is_pure lab sx sy sz ((x : Int) + 1) y z = 0 := by
      rw [← hPR]
      exact hPR0
    have hs : ∀ j, j < 3 → erodeSpec3 lab sx sy sz (x + j) y z = 0 := by
      intro j hj
      rcases (show j = 0 ∨ j = 1 ∨ j = 2 by omega) with rfl | rfl | rfl
      · rw [Nat.add_zero]
        exact erodeSpec3_zero_of_col lab sx sy sz x y z ((x : Int) + 1)
          (Or.inr (Or.inr rfl)) hp0
      · exact erodeSpec3_zero_of_col lab sx sy sz (x + 1) y z ((x : Int) + 1)
          (Or.inr (Or.inl (by omega))) hp0
      · exact erodeSpec3_zero_of_col lab sx sy sz (x + 2) y z ((x : Int) + 1)
          (Or.inl (by omega)) hp0
    exact meRow_skip lab sx sy sz zs ys xe y z f x 3 3 PL PM PR out hx hfuel
      (by omega) (by omega) hs IH Hz Hy hpre
  · by_cases hPM0 : PM = 0
    · have hT : meTail lab (x + sx * (y + sy * z)) PL PM PR out = (out, 2, 2) := by
        unfold meTail
        rw [if_neg hPR0, if_pos hPM0]
      rw [hT]
      have hp0 : is_pure lab sx sy sz (x : Int) y z = 0 := by
        rw [← hPM]
        exact hPM0
      have hs0 := erodeSpec3_zero_of_col lab sx sy sz x y z ((x : Int))
        (Or.inr (Or.inl rfl)) hp0
      have hs1 := erodeSpec3_zero_of_col lab sx sy sz (x + 1) y z ((x : Int))
        (Or.inl (by omega)) hp0
      exact meRow_skip2 lab sx sy sz zs ys xe y z f x PL PM PR out hx hfuel
        hPR hs0 hs1 IH Hz Hy hpre
    · by_cases hcond : PL = PM ∧ PM = PR
      · have hT : meTail lab (x + sx * (y + sy * z)) PL PM PR out =
            (upd out (x + sx * (y + sy * z)) (lab (x + sx * (y + sy * z))), 1, 1) := by
          unfold meTail
          rw [if_neg hPR0, if_neg hPM0, if_pos hcond]
        rw [hT]
        have hMne : is_pure lab sx sy sz (x : Int) y z ≠ 0 := by
          rw [← hPM]
          exact hPM0
        have hRne : is_pure lab sx sy sz ((x : Int) + 1) y z ≠ 0 := by
          rw [← hPR]
          exact hPR0
        have hbr := is_pure_bounds lab sx sy sz ((x : Int) + 1) y z hRne
        have hLne : is_pure lab sx sy sz ((x : Int) - 1) y z ≠ 0 := by
          rw [← hPL, hcond.1]
          exact hPM0
        have hbl := is_pure_bounds lab sx sy sz ((x : Int) - 1) y z hLne
        have hx1 : 1 ≤ x := by omega
        have hx2 : x + 1 < sx := by omega
        have hMval := is_pure_ne_zero_val lab sx sy sz (x : Int) y z hMne
        rw [Int.toNat_natCast] at hMval
        have h1 : is_pure lab sx sy sz ((x : Int) - 1) y z =
            lab (x + sx * (y + sy * z)) := by
          rw [← hPL, hcond.1, hPM]
          exact hMval
        have h3 : is_pure lab sx sy sz ((x : Int) + 1) y z =
            lab (x + sx * (y + sy * z)) := by
          rw [← hPR, ← hcond.2, hPM]
          exact hMval
        have hw := erode_pures_spec3 lab sx sy sz x y z hx1 hx2 h1 hMval h3 hlab
        exact meRow_write lab sx sy sz zs ys xe y z f x PL PM PR out hy hxe hx hfuel
          hPM hPR hw IH Hz Hy hpre
      · have hT : meTail lab (x + sx * (y + sy * z)) PL PM PR out = (out, 1, 1) := by
          unfold meTail
          rw [if_neg hPR0, if_neg hPM0, if_neg hcond]
        rw [hT]
        have hs0 : erodeSpec3 lab sx sy sz x y z = 0 := by
          by_contra hne
          obtain ⟨-, -, -, -, -, -, -, hpl, hpm, hpr⟩ :=
            erodeSpec3_pures lab sx sy sz x y z hne
          exact hcond ⟨by rw [hPL, hPM, hpl, hpm], by rw [hPM, hPR, hpm, hpr]⟩
        exact meRow_nowrite lab sx sy sz zs ys xe y z f x PL PM PR out hx hfuel
          hPM hPR hs0 IH Hz Hy hpre

/-- A zero right-hand purity at `x+1` kills the erosion of `x`, `x+1` and
`x+2`. -/
theorem erode_skip3_specs (lab : Nat → Nat) (sx sy sz x y z : Nat)
    (hp0 : is_pure lab sx sy sz ((x : Int) + 1) y z = 0) :
    ∀ j, j < 3 → erodeSpec3 lab sx sy sz (x + j) y z = 0 := by
  intro j hj
  rcases (show j = 0 ∨ j = 1 ∨ j = 2 by omega) with rfl | rfl | rfl
  · rw [Nat.add_zero]
    exact erodeSpec3_zero_of_col lab sx sy sz x y z ((x : Int) + 1)
      (Or.inr (Or.inr rfl)) hp0
  · exact erodeSpec3_zero_of_col lab sx sy sz (x + 1) y z ((x : Int) + 1)
      (Or.inr (Or.inl (by omega))) hp0
  · exact erodeSpec3_zero_of_col lab sx sy sz (x + 2) y z ((x : Int) + 1)
      (Or.inl (by omega)) hp0

/-- One resolved iteration of the 3D erode row: all purity calls already
replaced by the full `is_pure`. -/
theorem meRow_resolve (lab : Nat → Nat) (sx sy sz zs ys xe y z : Nat)
    (hy : y < sy) (hxe : xe ≤ sx)
    (f x stale pl pm pr : Nat) (out : Nat → Nat)
    (hx : x < xe) (hfuel : xe ≤ x + 1 + f) (hst : 1 ≤ stale)
    (hs1 : stale = 1 → pm = is_pure lab sx sy sz ((x : Int) - 1) y z ∧
      pr = is_pure lab sx sy sz (x : Int) y z)
    (hs2 : stale = 2 → pr = is_pure lab sx sy sz ((x : Int) - 1) y z)
    (hlab : lab (x + sx * (y + sy * z)) ≠ 0)
    (IH : ∀ (x2 stale2 pl3 pm3 pr3 : Nat) (out2 : Nat → Nat),
      xe ≤ x2 + f → 1 ≤ stale2 →
      (stale2 = 1 → pm3 = is_pure lab sx sy sz ((x2 : Int) - 1) y z ∧
        pr3 = is_pure lab sx sy sz (x2 : Int) y z) →
      (stale2 = 2 → pr3 = is_pure lab sx sy sz ((x2 : Int) - 1) y z) →
      (zs < z → ∀ t, x2 ≤ t → t < xe →
        out2 (t + sx * (y + sy * (z - 1))) = erodeSpec3 lab sx sy sz t y (z - 1)) →
      (ys < y → ∀ t, x2 ≤ t → t < xe →
        out2 (t + sx * ((y - 1) + sy * z)) = erodeSpec3 lab sx sy sz t (y - 1) z) →
      (∀ t, x2 ≤ t → t < xe → out2 (t + sx * (y + sy * z)) = 0 ∨
        out2 (t + sx * (y + sy * z)) = erodeSpec3 lab sx sy sz t y z) →
      (∀ t, x2 ≤ t → t < xe →
        (meRow lab sx sy sz zs ys xe y z f x2 stale2 pl3 pm3 pr3 out2).2
          (t + sx * (y + sy * z)) = erodeSpec3 lab sx sy sz t y z) ∧
      (∀ i, (meRow lab sx sy sz zs ys xe y z f x2 stale2 pl3 pm3 pr3 out2).2 i = out2 i ∨
        ∃ t, x2 ≤ t ∧ t < xe ∧ i = t + sx * (y + sy * z) ∧
          (meRow lab sx sy sz zs ys xe y z f x2 stale2 pl3 pm3 pr3 out2).2 i =
            erodeSpec3 lab sx sy sz t y z))
    (Hz : zs < z → ∀ t, x ≤ t → t < xe →
      out (t + sx * (y + sy * (z - 1))) = erodeSpec3 lab sx sy sz t y (z - 1))
    (Hy : ys < y → ∀ t, x ≤ t → t < xe →
      out (t + sx * ((y - 1) + sy * z)) = erodeSpec3 lab sx sy sz t (y - 1) z)
    (hpre : ∀ t, x ≤ t → t < xe → out (t + sx * (y + sy * z)) = 0 ∨
      out (t + sx * (y + sy * z)) = erodeSpec3 lab sx sy sz t y z)
    (res : (Nat × Nat × Nat) × (Nat → Nat))
    (hres : res =
      if stale = 1 then
        meRow lab sx sy sz zs ys xe y z f
          (x + (meTail lab (x + sx * (y + sy * z)) pm pr
            (is_pure lab sx sy sz ((x : Int) + 1) y z) out).2.1)
          (meTail lab (x + sx * (y + sy * z)) pm pr
            (is_pure lab sx sy sz ((x : Int) + 1) y z) out).2.2
          pm pr (is_pure lab sx sy sz ((x : Int) + 1) y z)
          (meTail lab (x + sx * (y + sy * z)) pm pr
            (is_pure lab sx sy sz ((x : Int) + 1) y z) out).1
      else if 3 ≤ stale then
        if is_pure lab sx sy sz ((x : Int) + 1) y z = 0 then
          meRow lab sx sy sz zs ys xe y z f (x + 3) 3 pl pm
            (is_pure lab sx sy sz ((x : Int) + 1) y z) out
        else if is_pure lab sx sy sz (x : Int) y z = 0 then
          meRow lab sx sy sz zs ys xe y z f (x + 2) 2 pl
            (is_pure lab sx sy sz (x : Int) y z)
            (is_pure lab sx sy sz ((x : Int) + 1) y z) out
        else
          meRow lab sx sy sz zs ys xe y z f
            (x + (meTail lab (x + sx * (y + sy * z))
              (is_pure lab sx sy sz ((x : Int) - 1) y z)
              (is_pure lab sx sy sz (x : Int) y z)
              (is_pure lab sx sy sz ((x : Int) + 1) y z) out).2.1)
            (meTail lab (x + sx * (y + sy * z))
              (is_pure lab sx sy sz ((x : Int) - 1) y z)
              (is_pure lab sx sy sz (x : Int) y z)
              (is_pure lab sx sy sz ((x : Int) + 1) y z) out).2.2
            (is_pure lab sx sy sz ((x : Int) - 1) y z)
            (is_pure lab sx sy sz (x : Int) y z)
            (is_pure lab sx sy sz ((x : Int) + 1) y z)
            (meTail lab (x + sx * (y + sy * z))
              (is_pure lab sx sy sz ((x : Int) - 1) y z)
              (is_pure lab sx sy sz (x : Int) y z)
              (is_pure lab sx sy sz ((x : Int) + 1) y z) out).1
      else if stale = 2 then
        if is_pure lab sx sy sz ((x : Int) + 1) y z = 0 then
          meRow lab sx sy sz zs ys xe y z f (x + 3) 3 pr pm
            (is_pure lab sx sy sz ((x : Int) + 1) y z) out
        else
          meRow lab sx sy sz zs ys xe y z f
            (x + (meTail lab (x + sx * (y + sy * z)) pr
              (is_pure lab sx sy sz (x : Int) y z)
              (is_pure lab sx sy sz ((x : Int) + 1) y z) out).2.1)
            (meTail lab (x + sx * (y + sy * z)) pr
              (is_pure lab sx sy sz (x : Int) y z)
              (is_pure lab sx sy sz ((x : Int) + 1) y z) out).2.2
            pr (is_pure lab sx sy sz (x : Int) y z)
            (is_pure lab sx sy sz ((x : Int) + 1) y z)
            (meTail lab (x + sx * (y + sy * z)) pr
              (is_pure lab sx sy sz (x : Int) y z)
              (is_pure lab sx sy sz ((x : Int) + 1) y z) out).1
      else
        meRow lab sx sy sz zs ys xe y z f
          (x + (meTail lab (x + sx * (y + sy * z)) pl pm pr out).2.1)
          (meTail lab (x + sx * (y + sy * z)) pl pm pr out).2.2 pl pm pr
          (meTail lab (x + sx * (y + sy * z)) pl pm pr out).1) :
    (∀ t, x ≤ t → t < xe →
      res.2 (t + sx * (y + sy * z)) = erodeSpec3 lab sx sy sz t y z) ∧
    (∀ i, res.2 i = out i ∨
      ∃ t, x ≤ t ∧ t < xe ∧ i = t + sx * (y + sy * z) ∧
        res.2 i = erodeSpec3 lab sx sy sz t y z) := by
  subst hres
  rcases (show stale = 1 ∨ stale = 2 ∨ 3 ≤ stale by omega) with hst1 | hst2 | hst3
  · obtain ⟨hsm, hsr⟩ := hs1 hst1
    rw [if_pos hst1]
    exact meRow_tail lab sx sy sz zs ys xe y z f x pm pr
      (is_pure lab sx sy sz ((x : Int) + 1) y z) out hy hxe hx hfuel hlab hsm hsr rfl
      IH Hz Hy hpre
  · rw [if_neg (show ¬(stale = 1) by omega), if_neg (show ¬(3 ≤ stale) by omega),
      if_pos hst2]
    by_cases hp10 : is_pure lab sx sy sz ((x : Int) + 1) y z = 0
    · rw [if_pos hp10]
      exact meRow_skip lab sx sy sz zs ys xe y z f x 3 3 pr pm
        (is_pure lab sx sy sz ((x : Int) + 1) y z) out hx hfuel (by omega) (by omega)
        (erode_skip3_specs lab sx sy sz x y z hp10) IH Hz Hy hpre
    · rw [if_neg hp10]
      exact meRow_tail lab sx sy sz zs ys xe y z f x pr
        (is_pure lab sx sy sz (x : Int) y z)
        (is_pure lab sx sy sz ((x : Int) + 1) y z) out hy hxe hx hfuel hlab
        (hs2 hst2) rfl rfl IH Hz Hy hpre
  · rw [if_neg (show ¬(stale = 1) by omega), if_pos hst3]
    by_cases hp10 : is_pure lab sx sy sz ((x : Int) + 1) y z = 0
    · rw [if_pos hp10]
      exact meRow_skip lab sx sy sz zs ys xe y z f x 3 3 pl pm
        (is_pure lab sx sy sz ((x : Int) + 1) y z) out hx hfuel (by omega) (by omega)
        (erode_skip3_specs lab sx sy sz x y z hp10) IH Hz Hy hpre
    · rw [if_neg hp10]
      by_cases hpm0 : is_pure lab sx sy sz (x : Int) y z = 0
      · rw [if_pos hpm0]
        have hz0 := erodeSpec3_zero_of_col lab sx sy sz x y z ((x : Int))
          (Or.inr (Or.inl rfl)) hpm0
        have hz1 := erodeSpec3_zero_of_col lab sx sy sz (x + 1) y z ((x : Int))
          (Or.inl (by omega)) hpm0
        exact meRow_skip2 lab sx sy sz zs ys xe y z f x pl
          (is_pure lab sx sy sz (x : Int) y z)
          (is_pure lab sx sy sz ((x : Int) + 1) y z) out hx hfuel rfl hz0 hz1
          IH Hz Hy hpre
      · rw [if_neg hpm0]
        exact meRow_tail lab sx sy sz zs ys xe y z f x
          (is_pure lab sx sy sz ((x : Int) - 1) y z)
          (is_pure lab sx sy sz (x : Int) y z)
          (is_pure lab sx sy sz ((x : Int) + 1) y z) out hy hxe hx hfuel hlab
          rfl rfl rfl IH Hz Hy hpre

/-- Full correctness of one 3D erode row. -/
theorem meRow_spec (lab : Nat → Nat) (sx sy sz zs ys xe y z : Nat)
    (hy : y < sy) (hz : z < sz) (hxe : xe ≤ sx) :
    ∀ (fuel x stale pl pm pr : Nat) (out : Nat → Nat),
      xe ≤ x + fuel → 1 ≤ stale →
      (stale = 1 → pm = is_pure lab sx sy sz ((x : Int) - 1) y z ∧
        pr = is_pure lab sx sy sz (x : Int) y z) →
      (stale = 2 → pr = is_pure lab sx sy sz ((x : Int) - 1) y z) →
      (zs < z → ∀ t, x ≤ t → t < xe →
        out (t + sx * (y + sy * (z - 1))) = erodeSpec3 lab sx sy sz t y (z - 1)) →
      (ys < y → ∀ t, x ≤ t → t < xe →
        out (t + sx * ((y - 1) + sy * z)) = erodeSpec3 lab sx sy sz t (y - 1) z) →
      (∀ t, x ≤ t → t < xe → out (t + sx * (y + sy * z)) = 0 ∨
        out (t + sx * (y + sy * z)) = erodeSpec3 lab sx sy sz t y z) →
      (∀ t, x ≤ t → t < xe →
        (meRow lab sx sy sz zs ys xe y z fuel x stale pl pm pr out).2
          (t + sx * (y + sy * z)) = erodeSpec3 lab sx sy sz t y z) ∧
      (∀ i, (meRow lab sx sy sz zs ys xe y z fuel x stale pl pm pr out).2 i = out i ∨
        ∃ t, x ≤ t ∧ t < xe ∧ i = t + sx * (y + sy * z) ∧
          (meRow lab sx sy sz zs ys xe y z fuel x stale pl pm pr out).2 i =
            erodeSpec3 lab sx sy sz t y z) := by
  intro fuel
  induction fuel with
  | zero =>
    intro x stale pl pm pr out hfuel hst hs1 hs2 Hz Hy hpre
    exact ⟨fun t ht hlt => absurd hlt (by omega), fun i => Or.inl rfl⟩
  | succ f ih =>
    intro x stale pl pm pr out hfuel hst hs1 hs2 Hz Hy hpre
    by_cases hx : x < xe
    · rw [meRow, if_pos hx]
      dsimp only []
      by_cases hlab0 : lab (x + sx * (y + sy * z)) = 0
      · rw [if_pos hlab0]
        have hp0 : is_pure lab sx sy sz (x : Int) y z = 0 :=
          is_pure_zero_of_lab lab sx sy sz x y z hlab0
        have hs : ∀ j, j < 2 → erodeSpec3 lab sx sy sz (x + j) y z = 0 := by
          intro j hj
          rcases (show j = 0 ∨ j = 1 by omega) with rfl | rfl
          · rw [Nat.add_zero]
            exact erodeSpec3_zero_of_lab lab sx sy sz x y z hlab0
          · exact erodeSpec3_zero_of_col lab sx sy sz (x + 1) y z ((x : Int))
              (Or.inl (by omega)) hp0
        exact meRow_skip lab sx sy sz zs ys xe y z f x 2 (stale + 2) pl pm pr out
          hx (by omega) (by omega) (by omega) hs ih Hz Hy hpre
      · rw [if_neg hlab0]
        by_cases hg1 : zs < z ∧
            out (x + sx * (y + sy * z) - sx * sy) = lab (x + sx * (y + sy * z))
        · rw [if_pos hg1]
          have hzz1 : 1 ≤ z := by omega
          have hsur : erodeSpec3 lab sx sy sz x y (z - 1) =
              lab (x + sx * (y + sy * z)) := by
            have hv := Hz hg1.1 x (le_refl _) hx
            rw [addr_zm x sx sy y z hzz1] at hv
            rw [← hv]
            exact hg1.2
          rw [is_pure_fast_z_sound lab sx sy sz x y z ((x : Int) + 1)
              (Or.inr (Or.inr rfl)) hzz1 hsur hlab0,
            is_pure_fast_z_sound lab sx sy sz x y z ((x : Int))
              (Or.inr (Or.inl rfl)) hzz1 hsur hlab0,
            is_pure_fast_z_sound lab sx sy sz x y z ((x : Int) - 1)
              (Or.inl rfl) hzz1 hsur hlab0]
          exact meRow_resolve lab sx sy sz zs ys xe y z hy hxe f x stale pl pm pr out
            hx (by omega) hst hs1 hs2 hlab0 ih Hz Hy hpre _ rfl
        · rw [if_neg hg1]
          by_cases hg2 : ys < y ∧
              out (x + sx * (y + sy * z) - sx) = lab (x + sx * (y + sy * z))
          · rw [if_pos hg2]
            have hyy1 : 1 ≤ y := by omega
            have hsur : erodeSpec3 lab sx sy sz x (y - 1) z =
                lab (x + sx * (y + sy * z)) := by
              have hv := Hy hg2.1 x (le_refl _) hx
              rw [addr_ym x sx sy y z hyy1] at hv
              rw [← hv]
              exact hg2.2
            rw [is_pure_fast_y_sound lab sx sy sz x y z ((x : Int) + 1)
                (Or.inr (Or.inr rfl)) hyy1 hsur hlab0,
              is_pure_fast_y_sound lab sx sy sz x y z ((x : Int))
                (Or.inr (Or.inl rfl)) hyy1 hsur hlab0,
              is_pure_fast_y_sound lab sx sy sz x y z ((x : Int) - 1)
                (Or.inl rfl) hyy1 hsur hlab0]
            exact meRow_resolve lab sx sy sz zs ys xe y z hy hxe f x stale pl pm pr out
              hx (by omega) hst hs1 hs2 hlab0 ih Hz Hy hpre _ rfl
          · rw [if_neg hg2]
            exact meRow_resolve lab sx sy sz zs ys xe y z hy hxe f x stale pl pm pr out
              hx (by omega) hst hs1 hs2 hlab0 ih Hz Hy hpre _ rfl
    · rw [meRow, if_neg hx]
      exact ⟨fun t ht hlt => absurd hlt (by omega), fun i => Or.inl rfl⟩

/-- Correctness of the 3D erode `y` loop at a fixed `z` slice. -/
theorem meYLoop_spec (lab : Nat → Nat) (sx sy sz zs ys xs xe z : Nat)
    (hz : z < sz) (hxe : xe ≤ sx) :
    ∀ (fy y : Nat) (st : (Nat × Nat × Nat) × (Nat → Nat)),
      y + fy ≤ sy → ys ≤ y →
      (∀ u, ys ≤ u → u < y → ∀ t, xs ≤ t → t < xe →
        st.2 (t + sx * (u + sy * z)) = erodeSpec3 lab sx sy sz t u z) →
      (zs < z → ∀ u, ys ≤ u → u < y + fy → ∀ t, xs ≤ t → t < xe →
        st.2 (t + sx * (u + sy * (z - 1))) = erodeSpec3 lab sx sy sz t u (z - 1)) →
      (∀ u, y ≤ u → u < y + fy → ∀ t, xs ≤ t → t < xe →
        st.2 (t + sx * (u + sy * z)) = 0 ∨
        st.2 (t + sx * (u + sy * z)) = erodeSpec3 lab sx sy sz t u z) →
      (∀ u, ys ≤ u → u < y + fy → ∀ t, xs ≤ t → t < xe →
        (meYLoop lab sx sy sz zs ys xs xe z fy y st).2 (t + sx * (u + sy * z)) =
          erodeSpec3 lab sx sy sz t u z) ∧
      (∀ i, (meYLoop lab sx sy sz zs ys xs xe z fy y st).2 i = st.2 i ∨
        ∃ t u, xs ≤ t ∧ t < xe ∧ y ≤ u ∧ u < y + fy ∧ i = t + sx * (u + sy * z) ∧
          (meYLoop lab sx sy sz zs ys xs xe z fy y st).2 i =
            erodeSpec3 lab sx sy sz t u z) := by
  intro fy
  induction fy with
  | zero =>
    intro y st hbound hysy hAcc hHz hpre
    exact ⟨fun u hu1 hu2 t ht hlt => hAcc u hu1 (by omega) t ht hlt,
      fun i => Or.inl rfl⟩
  | succ f ih =>
    intro y st hbound hysy hAcc hHz hpre
    simp only [meYLoop]
    obtain ⟨rowA, rowB⟩ := meRow_spec lab sx sy sz zs ys xe y z (by omega) hz hxe
      (xe - xs) xs 3 st.1.1 st.1.2.1 st.1.2.2 st.2 (by omega) (by omega)
      (fun h1 => absurd h1 (by omega)) (fun h2 => absurd h2 (by omega))
      (fun hzz t ht hlt => hHz hzz y hysy (by omega) t ht hlt)
      (fun hyy t ht hlt => hAcc (y - 1) (by omega) (by omega) t ht hlt)
      (fun t ht hlt => hpre y (le_refl _) (by omega) t ht hlt)
    obtain ⟨ihA, ihB⟩ := ih (y + 1)
      (meRow lab sx sy sz zs ys xe y z (xe - xs) xs 3 st.1.1 st.1.2.1 st.1.2.2 st.2)
      (by omega) (by omega)
      (fun u hu1 hu2 t ht hlt => by
        by_cases huy : u = y
        · subst huy
          exact rowA t ht hlt
        · rcases rowB (t + sx * (u + sy * z)) with hB | ⟨t2, ht2, hlt2, heq, hval⟩
          · rw [hB]
            exact hAcc u hu1 (by omega) t ht hlt
          · obtain ⟨e1, e2, e3⟩ := enc3_inj z z (show t < sx by omega)
              (show t2 < sx by omega) (show u < sy by omega) (show y < sy by omega) heq
            omega)
      (fun hzz u hu1 hu2 t ht hlt => by
        rcases rowB (t + sx * (u + sy * (z - 1))) with hB | ⟨t2, ht2, hlt2, heq, hval⟩
        · rw [hB]
          exact hHz hzz u hu1 (by omega) t ht hlt
        · obtain ⟨e1, e2, e3⟩ := enc3_inj (z - 1) z (show t < sx by omega)
            (show t2 < sx by omega) (show u < sy by omega) (show y < sy by omega) heq
          omega)
      (fun u hu1 hu2 t ht hlt => by
        rcases rowB (t + sx * (u + sy * z)) with hB | ⟨t2, ht2, hlt2, heq, hval⟩
        · rw [hB]
          exact hpre u (by omega) (by omega) t ht hlt
        · obtain ⟨e1, e2, e3⟩ := enc3_inj z z (show t < sx by omega)
            (show t2 < sx by omega) (show u < sy by omega) (show y < sy by omega) heq
          omega)
    constructor
    · intro u hu1 hu2 t ht hlt
      exact ihA u hu1 (by omega) t ht hlt
    · intro i
      rcases ihB i with hB | ⟨t2, u2, ht2, hlt2, hu3, hu4, heq, hval⟩
      · rcases rowB i with hB2 | ⟨t2, ht2, hlt2, heq, hval⟩
        · exact Or.inl (hB.trans hB2)
        · exact Or.inr ⟨t2, y, ht2, hlt2, le_refl _, by omega, heq, hB.trans hval⟩
      · exact Or.inr ⟨t2, u2, ht2, hlt2, by omega, by omega, heq, hval⟩

/-- Correctness of the 3D erode `z` loop. -/
theorem meZLoop_spec (lab : Nat → Nat) (sx sy sz zs ys xs xe ye : Nat)
    (hxe : xe ≤ sx) (hye : ye ≤ sy) (hys : ys ≤ sy) :
    ∀ (fz z : Nat) (st : (Nat × Nat × Nat) × (Nat → Nat)),
      z + fz ≤ sz → zs ≤ z →
      (∀ w, zs ≤ w → w < z → ∀ u, ys ≤ u → u < ys + (ye - ys) → ∀ t, xs ≤ t → t < xe →
        st.2 (t + sx * (u + sy * w)) = erodeSpec3 lab sx sy sz t u w) →
      (∀ w, z ≤ w → w < z + fz → ∀ u, ys ≤ u → u < ys + (ye - ys) → ∀ t, xs ≤ t →
        t < xe →
        st.2 (t + sx * (u + sy * w)) = 0 ∨
        st.2 (t + sx * (u + sy * w)) = erodeSpec3 lab sx sy sz t u w) →
      (∀ w, zs ≤ w → w < z + fz → ∀ u, ys ≤ u → u < ys + (ye - ys) → ∀ t, xs ≤ t →
        t < xe →
        (meZLoop lab sx sy sz zs ys xs xe ye fz z st).2 (t + sx * (u + sy * w)) =
          erodeSpec3 lab sx sy sz t u w) ∧
      (∀ i, (meZLoop lab sx sy sz zs ys xs xe ye fz z st).2 i = st.2 i ∨
        ∃ t u w, xs ≤ t ∧ t < xe ∧ ys ≤ u ∧ u < ys + (ye - ys) ∧ z ≤ w ∧ w < z + fz ∧
          i = t + sx * (u + sy * w) ∧
          (meZLoop lab sx sy sz zs ys xs xe ye fz z st).2 i =
            erodeSpec3 lab sx sy sz t u w) := by
  intro fz
  induction fz with
  | zero =>
    intro z st hbound hzsz hAcc hpre
    exact ⟨fun w hw1 hw2 u hu1 hu2 t ht hlt => hAcc w hw1 (by omega) u hu1 hu2 t ht hlt,
      fun i => Or.inl rfl⟩
  | succ f ih =>
    intro z st hbound hzsz hAcc hpre
    simp only [meZLoop]
    obtain ⟨ylA, ylB⟩ := meYLoop_spec lab sx sy sz zs ys xs xe z (by omega) hxe
      (ye - ys) ys st (by omega) (le_refl _)
      (fun u hu1 hu2 t ht hlt => absurd hu2 (by omega))
      (fun hzz u hu1 hu2 t ht hlt => hAcc (z - 1) (by omega) (by omega) u hu1 hu2 t ht hlt)
      (fun u hu1 hu2 t ht hlt => hpre z (le_refl _) (by omega) u hu1 hu2 t ht hlt)
    obtain ⟨ihA, ihB⟩ := ih (z + 1)
      (meYLoop lab sx sy sz zs ys xs xe z (ye - ys) ys st)
      (by omega) (by omega)
      (fun w hw1 hw2 u hu1 hu2 t ht hlt => by
        by_cases hwz : w = z
        · subst hwz
          exact ylA u hu1 hu2 t ht hlt
        · rcases ylB (t + sx * (u + sy * w)) with hB |
            ⟨t2, u2, ht2, hlt2, hu3, hu4, heq, hval⟩
          · rw [hB]
            exact hAcc w hw1 (by omega) u hu1 hu2 t ht hlt
          · obtain ⟨e1, e2, e3⟩ := enc3_inj w z (show t < sx by omega)
              (show t2 < sx by omega) (show u < sy by omega) (show u2 < sy by omega) heq
            omega)
      (fun w hw1 hw2 u hu1 hu2 t ht hlt => by
        rcases ylB (t + sx * (u + sy * w)) with hB |
          ⟨t2, u2, ht2, hlt2, hu3, hu4, heq, hval⟩
        · rw [hB]
          exact hpre w (by omega) (by omega) u hu1 hu2 t ht hlt
        · obtain ⟨e1, e2, e3⟩ := enc3_inj w z (show t < sx by omega)
            (show t2 < sx by omega) (show u < sy by omega) (show u2 < sy by omega) heq
          omega)
    constructor
    · intro w hw1 hw2 u hu1 hu2 t ht hlt
      exact ihA w hw1 (by omega) u hu1 hu2 t ht hlt
    · intro i
      rcases ihB i with hB | ⟨t2, u2, w2, ht2, hlt2, hu3, hu4, hw3, hw4, heq, hval⟩
      · rcases ylB i with hB2 | ⟨t2, u2, ht2, hlt2, hu3, hu4, heq, hval⟩
        · exact Or.inl (hB.trans hB2)
        · exact Or.inr ⟨t2, u2, z, ht2, hlt2, hu3, hu4, le_refl _, by omega, heq,
            hB.trans hval⟩
      · exact Or.inr ⟨t2, u2, w2, ht2, hlt2, hu3, hu4, by omega, by omega, heq, hval⟩

/-- Correctness of the 3D erode `process_block`. -/
theorem meBlock_spec (lab : Nat → Nat) (sx sy sz : Nat)
    (xs xe ys ye zs ze : Nat) (out : Nat → Nat)
    (hxe : xe ≤ sx) (hye : ye ≤ sy) (hys : ys ≤ sy) (hze : ze ≤ sz) (hzs : zs ≤ sz)
    (hpre : ∀ t u w, t < sx → u < sy → w < sz → out (t + sx * (u + sy * w)) = 0 ∨
      out (t + sx * (u + sy * w)) = erodeSpec3 lab sx sy sz t u w) :
    (∀ t u w, xs ≤ t → t < xe → ys ≤ u → u < ye → zs ≤ w → w < ze →
      meBlock lab sx sy sz xs xe ys ye zs ze out (t + sx * (u + sy * w)) =
        erodeSpec3 lab sx sy sz t u w) ∧
    (∀ i, meBlock lab sx sy sz xs xe ys ye zs ze out i = out i ∨
      ∃ t u w, xs ≤ t ∧ t < xe ∧ ys ≤ u ∧ u < ye ∧ zs ≤ w ∧ w < ze ∧
        i = t + sx * (u + sy * w) ∧
        meBlock lab sx sy sz xs xe ys ye zs ze out i =
          erodeSpec3 lab sx sy sz t u w) := by
  obtain ⟨lA, lB⟩ := meZLoop_spec lab sx sy sz zs ys xs xe ye hxe hye hys
    (ze - zs) zs ((0, 0, 0), out) (by omega) (le_refl _)
    (fun w hw1 hw2 => absurd hw2 (by omega))
    (fun w hw1 hw2 u hu1 hu2 t ht hlt =>
      hpre t u w (by omega) (by omega) (by omega))
  constructor
  · intro t u w htx hlt huy hu2 hwz hw2
    exact lA w hwz (by omega) u huy (by omega) t htx hlt
  · intro i
    rcases lB i with hB | ⟨t2, u2, w2, ht2, hlt2, hu3, hu4, hw3, hw4, heq, hval⟩
    · exact Or.inl hB
    · exact Or.inr ⟨t2, u2, w2, ht2, hlt2, hu3, by omega, hw3, by omega, heq, hval⟩

/-- Correctness of the block fold for 3D erosion. -/
theorem runBlocks_me3_spec (lab : Nat → Nat) (sx sy sz : Nat) :
    ∀ (blocks : List (Nat × Nat × Nat × Nat × Nat × Nat)) (out : Nat → Nat),
      (∀ b ∈ blocks, b.2.1 ≤ sx ∧ b.2.2.2.1 ≤ sy ∧ b.2.2.1 ≤ sy ∧
        b.2.2.2.2.2 ≤ sz ∧ b.2.2.2.2.1 ≤ sz) →
      (∀ t u w, t < sx → u < sy → w < sz → out (t + sx * (u + sy * w)) = 0 ∨
        out (t + sx * (u + sy * w)) = erodeSpec3 lab sx sy sz t u w) →
      (∀ t u w, t < sx → u < sy → w < sz →
        runBlocks (fun axs axe ays aye azs aze o =>
          meBlock lab sx sy sz axs axe ays aye azs aze o) blocks out
            (t + sx * (u + sy * w)) = out (t + sx * (u + sy * w)) ∨
        runBlocks (fun axs axe ays aye azs aze o =>
          meBlock lab sx sy sz axs axe ays aye azs aze o) blocks out
            (t + sx * (u + sy * w)) = erodeSpec3 lab sx sy sz t u w) ∧
      (∀ b ∈ blocks, ∀ t u w, b.1 ≤ t → t < b.2.1 → b.2.2.1 ≤ u → u < b.2.2.2.1 →
        b.2.2.2.2.1 ≤ w → w < b.2.2.2.2.2 →
        runBlocks (fun axs axe ays aye azs aze o =>
          meBlock lab sx sy sz axs axe ays aye azs aze o) blocks out
          (t + sx * (u + sy * w)) = erodeSpec3 lab sx sy sz t u w) := by
  intro blocks
  induction blocks with
  | nil =>
    intro out hWF hpre
    exact ⟨fun t u w _ _ _ => Or.inl rfl, fun b hb => absurd hb (List.not_mem_nil b)⟩
  | cons b bs ih =>
    intro out hWF hpre
    obtain ⟨hbxe, hbye, hbys, hbze, hbzs⟩ := hWF b (List.mem_cons_self b bs)
    obtain ⟨blA, blB⟩ := meBlock_spec lab sx sy sz b.1 b.2.1 b.2.2.1 b.2.2.2.1
      b.2.2.2.2.1 b.2.2.2.2.2 out hbxe hbye hbys hbze hbzs hpre
    have hpre1 : ∀ t u w, t < sx → u < sy → w < sz →
        meBlock lab sx sy sz b.1 b.2.1 b.2.2.1 b.2.2.2.1 b.2.2.2.2.1 b.2.2.2.2.2
          out (t + sx * (u + sy * w)) = 0 ∨
        meBlock lab sx sy sz b.1 b.2.1 b.2.2.1 b.2.2.2.1 b.2.2.2.2.1 b.2.2.2.2.2
          out (t + sx * (u + sy * w)) = erodeSpec3 lab sx sy sz t u w := by
      intro t u w htx huy hwz
      rcases blB (t + sx * (u + sy * w)) with hB |
        ⟨t2, u2, w2, ht2, hlt2, hu3, hu4, hw3, hw4, heq, hval⟩
      · rw [hB]
        exact hpre t u w htx huy hwz
      · obtain ⟨e1, e2, e3⟩ := enc3_inj w w2 htx (show t2 < sx by omega) huy
          (show u2 < sy by omega) heq
        right
        rw [hval, ← e1, ← e2, ← e3]
    obtain ⟨ihA, ihB⟩ := ih
      (meBlock lab sx sy sz b.1 b.2.1 b.2.2.1 b.2.2.2.1 b.2.2.2.2.1
        b.2.2.2.2.2 out)
      (fun b2 hb2 => hWF b2 (List.mem_cons_of_mem b hb2)) hpre1
    have hrun : runBlocks (fun axs axe ays aye azs aze o =>
        meBlock lab sx sy sz axs axe ays aye azs aze o) (b :: bs) out =
        runBlocks (fun axs axe ays aye azs aze o =>
          meBlock lab sx sy sz axs axe ays aye azs aze o) bs
          (meBlock lab sx sy sz b.1 b.2.1 b.2.2.1 b.2.2.2.1 b.2.2.2.2.1
            b.2.2.2.2.2 out) := rfl
    rw [hrun]
    constructor
    · intro t u w htx huy hwz
      rcases ihA t u w htx huy hwz with hA | hA
      · rcases blB (t + sx * (u + sy * w)) with hB |
          ⟨t2, u2, w2, ht2, hlt2, hu3, hu4, hw3, hw4, heq, hval⟩
        · exact Or.inl (hA.trans hB)
        · obtain ⟨e1, e2, e3⟩ := enc3_inj w w2 htx (show t2 < sx by omega) huy
            (show u2 < sy by omega) heq
          right
          rw [hA, hval, ← e1, ← e2, ← e3]
      · exact Or.inr hA
    · intro b2 hb2 t u w ht1 ht2 hu1 hu2 hw1 hw2
      rcases List.mem_cons.mp hb2 with rfl | hmem
      · have htx : t < sx := by omega
        have huy : u < sy := by omega
        have hwz : w < sz := by omega
        rcases ihA t u w htx huy hwz with hA | hA
        · rw [hA]
          exact blA t u w ht1 ht2 hu1 hu2 hw1 hw2
        · exact hA
      · exact ihB b2 hmem t u w ht1 ht2 hu1 hu2 hw1 hw2

/-- The wrapping driver subtraction at `offset = 1` on a nonempty extent. -/
theorem u64sub_one (s : Nat) (h : 1 ≤ s) : u64sub s 1 = s - 1 := by
  unfold u64sub
  rw [if_pos h]

/-- The 3D multilabel erosion entry point computes the border-trimmed
per-voxel erosion contract at every in-bounds voxel. -/
theorem multilabel_erode3_spec (lab : Nat → Nat) (sx sy sz x y z : Nat)
    (hx : x < sx) (hy : y < sy) (hz : z < sz) :
    multilabel_erode3 lab (fun _ => 0) sx sy sz (x + sx * (y + sy * z)) =
      erodeSpec3 lab sx sy sz x y z := by
  unfold multilabel_erode3
  have hbs : 0 < blockSize sz := blockSize_pos sz
  have hsx1 : 1 ≤ sx := by omega
  have hsy1 : 1 ≤ sy := by omega
  have hsz1 : 1 ≤ sz := by omega
  have hWF : ∀ b ∈ blockList sx sy sz 1, b.2.1 ≤ sx ∧ b.2.2.2.1 ≤ sy ∧ b.2.2.1 ≤ sy ∧
      b.2.2.2.2.2 ≤ sz ∧ b.2.2.2.2.1 ≤ sz := by
    intro b hb
    unfold blockList at hb
    rcases List.mem_flatMap.mp hb with ⟨gz, hgz, hb2⟩
    rcases List.mem_flatMap.mp hb2 with ⟨gy, hgy, hb3⟩
    rcases List.mem_map.mp hb3 with ⟨gx, hgx, rfl⟩
    have hgy2 := grid_start_le hbs (List.mem_range.mp hgy)
    have hgz2 := grid_start_le hbs (List.mem_range.mp hgz)
    simp only [blockBounds]
    rw [u64sub_one sx hsx1, u64sub_one sy hsy1, u64sub_one sz hsz1]
    have hm1 := min_le_right ((gx + 1) * blockSize sz) (sx - 1)
    have hm2 := min_le_right ((gy + 1) * blockSize sz) (sy - 1)
    have hm3 := min_le_right ((gz + 1) * blockSize sz) (sz - 1)
    exact ⟨by omega, by omega, by omega, by omega, by omega⟩
  have hpre : ∀ t u w, t < sx → u < sy → w < sz →
      (fun _ => (0 : Nat)) (t + sx * (u + sy * w)) = 0 ∨
      (fun _ => (0 : Nat)) (t + sx * (u + sy * w)) = erodeSpec3 lab sx sy sz t u w :=
    fun t u w _ _ _ => Or.inl rfl
  obtain ⟨hI, hcov⟩ := runBlocks_me3_spec lab sx sy sz (blockList sx sy sz 1)
    (fun _ => 0) hWF hpre
  by_cases hint : 1 ≤ x ∧ x + 1 < sx ∧ 1 ≤ y ∧ y + 1 < sy ∧ 1 ≤ z ∧ z + 1 < sz
  · obtain ⟨hgx, hgx1, hgx2⟩ := grid_cover hbs hx
    obtain ⟨hgy, hgy1, hgy2⟩ := grid_cover hbs hy
    obtain ⟨hgz, hgz1, hgz2⟩ := grid_cover hbs hz
    have hmem := blockBounds_mem sx sy sz 1 (x / blockSize sz) (y / blockSize sz)
      (z / blockSize sz) hgx hgy hgz
    have hb := hcov _ hmem x y z
    simp only [blockBounds] at hb
    rw [u64sub_one sx hsx1, u64sub_one sy hsy1, u64sub_one sz hsz1] at hb
    exact hb (by omega) (by omega) (by omega) (by omega) (by omega) (by omega)
  · rcases hI x y z hx hy hz with h0 | hsp
    · rw [h0, erodeSpec3_zero_of_border lab sx sy sz x y z hint]
    · exact hsp

/-- At a strictly interior `y` with an in-range column `c`, the 3-cell 2D
column of values is the explicit list of the three labels around the
column center. -/
theorem colVal2_interior (lab : Nat → Nat) (sx sy c y : Nat)
    (hcs : c < sx) (hy1 : 1 ≤ y) (hy2 : y + 1 < sy) :
    colVal2 lab sx sy (c : Int) y =
      [lab (c + sx * y), lab (c + sx * y - sx), lab (c + sx * y + sx)] := by
  have e1 : cellVal2 lab sx sy (c : Int) (y : Int) = [lab (c + sx * y)] := by
    unfold cellVal2
    rw [if_pos (by refine ⟨by omega, by omega, by omega, by omega⟩)]
    rw [Int.toNat_natCast, Int.toNat_natCast]
  have e2 : cellVal2 lab sx sy (c : Int) ((y : Int) - 1) =
      [lab (c + sx * y - sx)] := by
    unfold cellVal2
    rw [if_pos (by refine ⟨by omega, by omega, by omega, by omega⟩)]
    have t1 : ((y : Int) - 1).toNat = y - 1 := by omega
    rw [Int.toNat_natCast, t1, addr_ym2 c sx y hy1]
  have e3 : cellVal2 lab sx sy (c : Int) ((y : Int) + 1) =
      [lab (c + sx * y + sx)] := by
    unfold cellVal2
    rw [if_pos (by refine ⟨by omega, by omega, by omega, by omega⟩)]
    have t1 : ((y : Int) + 1).toNat = y + 1 := by omega
    rw [Int.toNat_natCast, t1, addr_yp2 c sx y]
  unfold colVal2
  rw [e1, e2, e3]
  rfl

/-- A 2D column with a nonzero `is_pure` result lies inside the `x`
extent. -/
theorem is_pure2_bounds (lab : Nat → Nat) (sx sy : Nat) (xi : Int) (y : Nat)
    (h : is_pure2 lab sx sy xi y ≠ 0) : 0 ≤ xi ∧ xi < (sx : Int) := by
  by_cases hb : xi < 0 ∨ (sx : Int) ≤ xi
  · exfalso
    apply h
    unfold is_pure2
    rw [if_pos hb]
  · push_neg at hb
    exact ⟨by omega, by omega⟩

/-- A nonzero 2D `is_pure` result is the label at the column center. -/
theorem is_pure2_ne_zero_val (lab : Nat → Nat) (sx sy : Nat) (xi : Int) (y : Nat)
    (h : is_pure2 lab sx sy xi y ≠ 0) :
    is_pure2 lab sx sy xi y = lab (xi.toNat + sx * y) := by
  unfold is_pure2 at h ⊢
  by_cases hb : xi < 0 ∨ (sx : Int) ≤ xi
  · rw [if_pos hb] at h
    exact absurd rfl h
  · rw [if_neg hb] at h ⊢
    dsimp only [] at h ⊢
    split at h
    · rename_i hc
      rw [if_pos hc]
    · exact absurd rfl h

/-- What a nonzero 2D `is_pure` at a natural column index entails. -/
theorem is_pure2_parts (lab : Nat → Nat) (sx sy c y : Nat)
    (h : is_pure2 lab sx sy (c : Int) y ≠ 0) :
    c < sx ∧ 1 ≤ y ∧ y + 1 < sy ∧
    lab (c + sx * y) ≠ 0 ∧
    is_pure2 lab sx sy (c : Int) y = lab (c + sx * y) ∧
    ∀ v ∈ colVal2 lab sx sy (c : Int) y, v = lab (c + sx * y) := by
  by_cases hcs : c < sx
  · have hb : ¬((c : Int) < 0 ∨ (sx : Int) ≤ (c : Int)) := by
      push_neg
      exact ⟨by omega, by omega⟩
    unfold is_pure2 at h ⊢
    rw [if_neg hb] at h ⊢
    dsimp only [] at h ⊢
    simp only [Int.toNat_natCast] at h ⊢
    split at h
    · rename_i hcond
      obtain ⟨k1, k2, k3⟩ := hcond
      rw [if_pos ⟨k1, k2, k3⟩]
      refine ⟨hcs, by omega, by omega, k1, rfl, ?_⟩
      rw [colVal2_interior lab sx sy c y hcs (by omega) (by omega)]
      intro v hv
      simp only [List.mem_cons, List.not_mem_nil, or_false] at hv
      rcases hv with rfl | rfl | rfl
      · rfl
      · exact k2.2
      · exact k3.2
    · exact absurd rfl h
  · exfalso
    apply h
    unfold is_pure2
    rw [if_pos (Or.inr (by omega))]

/-- Converse: a uniformly-labelled interior 2D column is pure. -/
theorem is_pure2_of_uniform (lab : Nat → Nat) (sx sy c y : Nat)
    (hcs : c < sx) (hy1 : 1 ≤ y) (hy2 : y + 1 < sy)
    (hnz : lab (c + sx * y) ≠ 0)
    (hall : ∀ v ∈ colVal2 lab sx sy (c : Int) y, v = lab (c + sx * y)) :
    is_pure2 lab sx sy (c : Int) y = lab (c + sx * y) := by
  rw [colVal2_interior lab sx sy c y hcs hy1 hy2] at hall
  simp only [List.mem_cons, List.not_mem_nil, or_false, forall_eq_or_imp,
    forall_eq] at hall
  obtain ⟨h1, h2, h3⟩ := hall
  have hb : ¬((c : Int) < 0 ∨ (sx : Int) ≤ (c : Int)) := by
    push_neg
    exact ⟨by omega, by omega⟩
  unfold is_pure2
  rw [if_neg hb]
  dsimp only []
  simp only [Int.toNat_natCast]
  rw [if_pos ⟨hnz, ⟨by omega, h2⟩, ⟨by omega, h3⟩⟩]

/-- A surviving 2D eroded voxel keeps its own label. -/
theorem erodeSpec2_ne_zero_val (lab : Nat → Nat) (sx sy x y : Nat)
    (h : erodeSpec2 lab sx sy x y ≠ 0) :
    erodeSpec2 lab sx sy x y = lab (x + sx * y) := by
  unfold erodeSpec2 at h ⊢
  dsimp only [] at h ⊢
  split at h
  · rename_i hc
    rw [if_pos hc]
  · exact absurd rfl h

/-- A surviving 2D eroded voxel is strictly interior, nonzero, and all
three stencil columns are pure with the voxel's label. -/
theorem erodeSpec2_pures (lab : Nat → Nat) (sx sy x y : Nat)
    (h : erodeSpec2 lab sx sy x y ≠ 0) :
    1 ≤ x ∧ x + 1 < sx ∧ 1 ≤ y ∧ y + 1 < sy ∧
    lab (x + sx * y) ≠ 0 ∧
    is_pure2 lab sx sy ((x : Int) - 1) y = lab (x + sx * y) ∧
    is_pure2 lab sx sy (x : Int) y = lab (x + sx * y) ∧
    is_pure2 lab sx sy ((x : Int) + 1) y = lab (x + sx * y) := by
  unfold erodeSpec2 at h
  dsimp only [] at h
  split at h
  · rename_i hcond
    obtain ⟨k1, k2, k3, k4, k5, k6⟩ := hcond
    have hall : ∀ v ∈ nbhdVals2 lab sx sy x y, v = lab (x + sx * y) := by
      intro v hv
      exact of_decide_eq_true (List.all_eq_true.mp k6 v hv)
    unfold nbhdVals2 at hall
    rw [List.forall_mem_append, List.forall_mem_append] at hall
    obtain ⟨⟨hL, hM⟩, hR⟩ := hall
    have hcastL : ((x : Int) - 1) = ((x - 1 : Nat) : Int) := by omega
    have hcastR : ((x : Int) + 1) = ((x + 1 : Nat) : Int) := by omega
    rw [hcastL] at hL
    rw [hcastR] at hR
    have hpm : is_pure2 lab sx sy (x : Int) y = lab (x + sx * y) :=
      is_pure2_of_uniform lab sx sy x y (by omega) (by omega) (by omega) k1 hM
    have hBL : lab ((x - 1) + sx * y) = lab (x + sx * y) := by
      apply hL
      rw [colVal2_interior lab sx sy (x - 1) y (by omega) (by omega) (by omega)]
      exact List.mem_cons_self _ _
    have hLall : ∀ v ∈ colVal2 lab sx sy ((x - 1 : Nat) : Int) y,
        v = lab ((x - 1) + sx * y) :=
      fun v hv => (hL v hv).trans hBL.symm
    have hpl0 : is_pure2 lab sx sy ((x - 1 : Nat) : Int) y =
        lab ((x - 1) + sx * y) :=
      is_pure2_of_uniform lab sx sy (x - 1) y (by omega) (by omega) (by omega)
        (by rw [hBL]; exact k1) hLall
    have hBR : lab ((x + 1) + sx * y) = lab (x + sx * y) := by
      apply hR
      rw [colVal2_interior lab sx sy (x + 1) y (by omega) (by omega) (by omega)]
      exact List.mem_cons_self _ _
    have hRall : ∀ v ∈ colVal2 lab sx sy ((x + 1 : Nat) : Int) y,
        v = lab ((x + 1) + sx * y) :=
      fun v hv => (hR v hv).trans hBR.symm
    have hpr0 : is_pure2 lab sx sy ((x + 1 : Nat) : Int) y =
        lab ((x + 1) + sx * y) :=
      is_pure2_of_uniform lab sx sy (x + 1) y (by omega) (by omega) (by omega)
        (by rw [hBR]; exact k1) hRall
    refine ⟨k2, k3, k4, k5, k1, ?_, hpm, ?_⟩
    · rw [hcastL, hpl0, hBL]
    · rw [hcastR, hpr0, hBR]
  · exact absurd rfl h

/-- Converse: three pure 2D stencil columns sharing the (nonzero) center
label make the voxel survive erosion. -/
theorem erode_pures_spec2 (lab : Nat → Nat) (sx sy x y : Nat)
    (hx1 : 1 ≤ x) (hx2 : x + 1 < sx)
    (h1 : is_pure2 lab sx sy ((x : Int) - 1) y = lab (x + sx * y))
    (h2 : is_pure2 lab sx sy (x : Int) y = lab (x + sx * y))
    (h3 : is_pure2 lab sx sy ((x : Int) + 1) y = lab (x + sx * y))
    (hnz : lab (x + sx * y) ≠ 0) :
    erodeSpec2 lab sx sy x y = lab (x + sx * y) := by
  obtain ⟨-, hy1, hy2, -, -, hMall⟩ :=
    is_pure2_parts lab sx sy x y (by rw [h2]; exact hnz)
  have hcastL : ((x : Int) - 1) = ((x - 1 : Nat) : Int) := by omega
  have hcastR : ((x : Int) + 1) = ((x + 1 : Nat) : Int) := by omega
  rw [hcastL] at h1
  rw [hcastR] at h3
  obtain ⟨-, -, -, -, hLval, hLall⟩ :=
    is_pure2_parts lab sx sy (x - 1) y (by rw [h1]; exact hnz)
  obtain ⟨-, -, -, -, hRval, hRall⟩ :=
    is_pure2_parts lab sx sy (x + 1) y (by rw [h3]; exact hnz)
  have hBL : lab ((x - 1) + sx * y) = lab (x + sx * y) := by
    rw [← hLval, h1]
  have hBR : lab ((x + 1) + sx * y) = lab (x + sx * y) := by
    rw [← hRval, h3]
  have hall : ∀ v ∈ nbhdVals2 lab sx sy x y, v = lab (x + sx * y) := by
    unfold nbhdVals2
    rw [List.forall_mem_append, List.forall_mem_append]
    refine ⟨⟨?_, hMall⟩, ?_⟩
    · rw [hcastL]
      exact fun v hv => (hLall v hv).trans hBL
    · rw [hcastR]
      exact fun v hv => (hRall v hv).trans hBR
  have hallb : (nbhdVals2 lab sx sy x y).all
      (fun v => decide (v = lab (x + sx * y))) = true :=
    List.all_eq_true.mpr fun v hv => decide_eq_true (hall v hv)
  unfold erodeSpec2
  dsimp only []
  rw [if_pos ⟨hnz, hx1, hx2, hy1, hy2, hallb⟩]

/-- If any of the three 2D stencil columns of `x` is impure, the voxel
erodes to zero. -/
theorem erodeSpec2_zero_of_col (lab : Nat → Nat) (sx sy x y : Nat) (c : Int)
    (hc : c = (x : Int) - 1 ∨ c = (x : Int) ∨ c = (x : Int) + 1)
    (h : is_pure2 lab sx sy c y = 0) :
    erodeSpec2 lab sx sy x y = 0 := by
  by_contra hne
  obtain ⟨-, -, -, -, hnz, hpl, hpm, hpr⟩ := erodeSpec2_pures lab sx sy x y hne
  rcases hc with rfl | rfl | rfl
  · rw [h] at hpl
    exact hnz hpl.symm
  · rw [h] at hpm
    exact hnz hpm.symm
  · rw [h] at hpr
    exact hnz hpr.symm

/-- A zero 2D voxel erodes to zero. -/
theorem erodeSpec2_zero_of_lab (lab : Nat → Nat) (sx sy x y : Nat)
    (h : lab (x + sx * y) = 0) :
    erodeSpec2 lab sx sy x y = 0 := by
  unfold erodeSpec2
  dsimp only []
  rw [if_neg (fun hcond => hcond.1 h)]

/-- A 2D column whose center is zero is impure. -/
theorem is_pure2_zero_of_lab (lab : Nat → Nat) (sx sy c y : Nat)
    (h : lab (c + sx * y) = 0) :
    is_pure2 lab sx sy (c : Int) y = 0 := by
  unfold is_pure2
  by_cases hb : (c : Int) < 0 ∨ (sx : Int) ≤ (c : Int)
  · rw [if_pos hb]
  · rw [if_neg hb]
    dsimp only []
    simp only [Int.toNat_natCast]
    rw [if_neg (fun hcond => hcond.1 h)]

/-- A 2D border voxel erodes to zero. -/
theorem erodeSpec2_zero_of_border (lab : Nat → Nat) (sx sy x y : Nat)
    (h : ¬(1 ≤ x ∧ x + 1 < sx ∧ 1 ≤ y ∧ y + 1 < sy)) :
    erodeSpec2 lab sx sy x y = 0 := by
  unfold erodeSpec2
  dsimp only []
  rw [if_neg (fun hc => h ⟨hc.2.1, hc.2.2.1, hc.2.2.2.1, hc.2.2.2.2.1⟩)]

/-- A zero right-hand 2D purity at `x+1` kills the erosion of `x`, `x+1`
and `x+2`. -/
theorem erode_skip3_specs2 (lab : Nat → Nat) (sx sy x y : Nat)
    (hp0 : is_pure2 lab sx sy ((x : Int) + 1) y = 0) :
    ∀ j, j < 3 → erodeSpec2 lab sx sy (x + j) y = 0 := by
  intro j hj
  rcases (show j = 0 ∨ j = 1 ∨ j = 2 by omega) with rfl | rfl | rfl
  · rw [Nat.add_zero]
    exact erodeSpec2_zero_of_col lab sx sy x y ((x : Int) + 1)
      (Or.inr (Or.inr rfl)) hp0
  · exact erodeSpec2_zero_of_col lab sx sy (x + 1) y ((x : Int) + 1)
      (Or.inr (Or.inl (by omega))) hp0
  · exact erodeSpec2_zero_of_col lab sx sy (x + 2) y ((x : Int) + 1)
      (Or.inl (by omega)) hp0

/-- Stepping the 2D erode row past `k ≥ 2` skipped voxels whose erosion is
zero, with a fresh stale state `≥ 3`. -/
theorem me2Row_skip (lab : Nat → Nat) (sx sy xe y : Nat)
    (f x k st2 pl2 pm2 pr2 : Nat) (out : Nat → Nat)
    (hx : x < xe) (hfuel : xe ≤ x + 1 + f) (hk : 2 ≤ k) (hst2 : 3 ≤ st2)
    (hs : ∀ j, j < k → erodeSpec2 lab sx sy (x + j) y = 0)
    (IH : ∀ (x2 stale2 pl3 pm3 pr3 : Nat) (out2 : Nat → Nat),
      xe ≤ x2 + f → 1 ≤ stale2 →
      (stale2 = 1 → pm3 = is_pure2 lab sx sy ((x2 : Int) - 1) y ∧
        pr3 = is_pure2 lab sx sy (x2 : Int) y) →
      (stale2 = 2 → pr3 = is_pure2 lab sx sy ((x2 : Int) - 1) y) →
      (∀ t, x2 ≤ t → t < xe → out2 (t + sx * y) = 0 ∨
        out2 (t + sx * y) = erodeSpec2 lab sx sy t y) →
      (∀ t, x2 ≤ t → t < xe →
        (me2Row lab sx sy xe y f x2 stale2 pl3 pm3 pr3 out2).2 (t + sx * y) =
          erodeSpec2 lab sx sy t y) ∧
      (∀ i, (me2Row lab sx sy xe y f x2 stale2 pl3 pm3 pr3 out2).2 i = out2 i ∨
        ∃ t, x2 ≤ t ∧ t < xe ∧ i = t + sx * y ∧
          (me2Row lab sx sy xe y f x2 stale2 pl3 pm3 pr3 out2).2 i =
            erodeSpec2 lab sx sy t y))
    (hpre : ∀ t, x ≤ t → t < xe → out (t + sx * y) = 0 ∨
      out (t + sx * y) = erodeSpec2 lab sx sy t y) :
    (∀ t, x ≤ t → t < xe →
      (me2Row lab sx sy xe y f (x + k) st2 pl2 pm2 pr2 out).2 (t + sx * y) =
        erodeSpec2 lab sx sy t y) ∧
    (∀ i, (me2Row lab sx sy xe y f (x + k) st2 pl2 pm2 pr2 out).2 i = out i ∨
      ∃ t, x ≤ t ∧ t < xe ∧ i = t + sx * y ∧
        (me2Row lab sx sy xe y f (x + k) st2 pl2 pm2 pr2 out).2 i =
          erodeSpec2 lab sx sy t y) := by
  obtain ⟨ihA, ihB⟩ := IH (x + k) st2 pl2 pm2 pr2 out (by omega) (by omega)
    (fun h1 => absurd h1 (by omega)) (fun h2 => absurd h2 (by omega))
    (fun t ht hlt => hpre t (by omega) hlt)
  constructor
  · intro t ht hlt
    by_cases htk : x + k ≤ t
    · exact ihA t htk hlt
    · have hspec0 : erodeSpec2 lab sx sy t y = 0 := by
        have hh := hs (t - x) (by omega)
        rwa [show x + (t - x) = t by omega] at hh
      rcases ihB (t + sx * y) with hB | ⟨t2, ht2, hlt2, heq, hval⟩
      · rcases hpre t ht hlt with h0 | hsp
        · rw [hB, h0, hspec0]
        · rw [hB, hsp]
      · omega
  · intro i
    rcases ihB i with hB | ⟨t2, ht2, hlt2, heq, hval⟩
    · exact Or.inl hB
    · exact Or.inr ⟨t2, by omega, hlt2, heq, hval⟩

/-- Stepping the 2D erode row past two zero-eroding voxels with stale 2. -/
theorem me2Row_skip2 (lab : Nat → Nat) (sx sy xe y : Nat)
    (f x pl2 pm2 pr2 : Nat) (out : Nat → Nat)
    (hx : x < xe) (hfuel : xe ≤ x + 1 + f)
    (hpr2 : pr2 = is_pure2 lab sx sy ((x : Int) + 1) y)
    (hs0 : erodeSpec2 lab sx sy x y = 0)
    (hs1 : erodeSpec2 lab sx sy (x + 1) y = 0)
    (IH : ∀ (x2 stale2 pl3 pm3 pr3 : Nat) (out2 : Nat → Nat),
      xe ≤ x2 + f → 1 ≤ stale2 →
      (stale2 = 1 → pm3 = is_pure2 lab sx sy ((x2 : Int) - 1) y ∧
        pr3 = is_pure2 lab sx sy (x2 : Int) y) →
      (stale2 = 2 → pr3 = is_pure2 lab sx sy ((x2 : Int) - 1) y) →
      (∀ t, x2 ≤ t → t < xe → out2 (t + sx * y) = 0 ∨
        out2 (t + sx * y) = erodeSpec2 lab sx sy t y) →
      (∀ t, x2 ≤ t → t < xe →
        (me2Row lab sx sy xe y f x2 stale2 pl3 pm3 pr3 out2).2 (t + sx * y) =
          erodeSpec2 lab sx sy t y) ∧
      (∀ i, (me2Row lab sx sy xe y f x2 stale2 pl3 pm3 pr3 out2).2 i = out2 i ∨
        ∃ t, x2 ≤ t ∧ t < xe ∧ i = t + sx * y ∧
          (me2Row lab sx sy xe y f x2 stale2 pl3 pm3 pr3 out2).2 i =
            erodeSpec2 lab sx sy t y))
    (hpre : ∀ t, x ≤ t → t < xe → out (t + sx * y) = 0 ∨
      out (t + sx * y) = erodeSpec2 lab sx sy t y) :
    (∀ t, x ≤ t → t < xe →
      (me2Row lab sx sy xe y f (x + 2) 2 pl2 pm2 pr2 out).2 (t + sx * y) =
        erodeSpec2 lab sx sy t y) ∧
    (∀ i, (me2Row lab sx sy xe y f (x + 2) 2 pl2 pm2 pr2 out).2 i = out i ∨
      ∃ t, x ≤ t ∧ t < xe ∧ i = t + sx * y ∧
        (me2Row lab sx sy xe y f (x + 2) 2 pl2 pm2 pr2 out).2 i =
          erodeSpec2 lab sx sy t y) := by
  have hcast : ((x + 2 : Nat) : Int) - 1 = (x : Int) + 1 := by omega
  obtain ⟨ihA, ihB⟩ := IH (x + 2) 2 pl2 pm2 pr2 out (by omega) (by omega)
    (fun h1 => absurd h1 (by omega))
    (fun _ => by rw [hcast]; exact hpr2)
    (fun t ht hlt => hpre t (by omega) hlt)
  constructor
  · intro t ht hlt
    by_cases htk : x + 2 ≤ t
    · exact ihA t htk hlt
    · have hspec0 : erodeSpec2 lab sx sy t y = 0 := by
        rcases (show t = x ∨ t = x + 1 by omega) with rfl | rfl
        · exact hs0
        · exact hs1
      rcases ihB (t + sx * y) with hB | ⟨t2, ht2, hlt2, heq, hval⟩
      · rcases hpre t ht hlt with h0 | hsp
        · rw [hB, h0, hspec0]
        · rw [hB, hsp]
      · omega
  · intro i
    rcases ihB i with hB | ⟨t2, ht2, hlt2, heq, hval⟩
    · exact Or.inl hB
    · exact Or.inr ⟨t2, by omega, hlt2, heq, hval⟩

/-- Advancing the 2D erode row by one voxel without a store. -/
theorem me2Row_nowrite (lab : Nat → Nat) (sx sy xe y : Nat)
    (f x pl2 pm2 pr2 : Nat) (out : Nat → Nat)
    (hx : x < xe) (hfuel : xe ≤ x + 1 + f)
    (hpm2 : pm2 = is_pure2 lab sx sy (x : Int) y)
    (hpr2 : pr2 = is_pure2 lab sx sy ((x : Int) + 1) y)
    (hs0 : erodeSpec2 lab sx sy x y = 0)
    (IH : ∀ (x2 stale2 pl3 pm3 pr3 : Nat) (out2 : Nat → Nat),
      xe ≤ x2 + f → 1 ≤ stale2 →
      (stale2 = 1 → pm3 = is_pure2 lab sx sy ((x2 : Int) - 1) y ∧
        pr3 = is_pure2 lab sx sy (x2 : Int) y) →
      (stale2 = 2 → pr3 = is_pure2 lab sx sy ((x2 : Int) - 1) y) →
      (∀ t, x2 ≤ t → t < xe → out2 (t + sx * y) = 0 ∨
        out2 (t + sx * y) = erodeSpec2 lab sx sy t y) →
      (∀ t, x2 ≤ t → t < xe →
        (me2Row lab sx sy xe y f x2 stale2 pl3 pm3 pr3 out2).2 (t + sx * y) =
          erodeSpec2 lab sx sy t y) ∧
      (∀ i, (me2Row lab sx sy xe y f x2 stale2 pl3 pm3 pr3 out2).2 i = out2 i ∨
        ∃ t, x2 ≤ t ∧ t < xe ∧ i = t + sx * y ∧
          (me2Row lab sx sy xe y f x2 stale2 pl3 pm3 pr3 out2).2 i =
            erodeSpec2 lab sx sy t y))
    (hpre : ∀ t, x ≤ t → t < xe → out (t + sx * y) = 0 ∨
      out (t + sx * y) = erodeSpec2 lab sx sy t y) :
    (∀ t, x ≤ t → t < xe →
      (me2Row lab sx sy xe y f (x + 1) 1 pl2 pm2 pr2 out).2 (t + sx * y) =
        erodeSpec2 lab sx sy t y) ∧
    (∀ i, (me2Row lab sx sy xe y f (x + 1) 1 pl2 pm2 pr2 out).2 i = out i ∨
      ∃ t, x ≤ t ∧ t < xe ∧ i = t + sx * y ∧
        (me2Row lab sx sy xe y f (x + 1) 1 pl2 pm2 pr2 out).2 i =
          erodeSpec2 lab sx sy t y) := by
  have hcast1 : ((x + 1 : Nat) : Int) - 1 = (x : Int) := by omega
  have hcast2 : ((x + 1 : Nat) : Int) = (x : Int) + 1 := by omega
  obtain ⟨ihA, ihB⟩ := IH (x + 1) 1 pl2 pm2 pr2 out (by omega) (by omega)
    (fun _ => ⟨by rw [hcast1]; exact hpm2, by rw [hcast2]; exact hpr2⟩)
    (fun h2 => absurd h2 (by omega))
    (fun t ht hlt => hpre t (by omega) hlt)
  constructor
  · intro t ht hlt
    by_cases htk : x + 1 ≤ t
    · exact ihA t htk hlt
    · have hteq : t = x := by omega
      subst hteq
      rcases ihB (t + sx * y) with hB | ⟨t2, ht2, hlt2, heq, hval⟩
      · rcases hpre t (le_refl _) hlt with h0 | hsp
        · rw [hB, h0, hs0]
        · rw [hB, hsp]
      · omega
  · intro i
    rcases ihB i with hB | ⟨t2, ht2, hlt2, heq, hval⟩
    · exact Or.inl hB
    · exact Or.inr ⟨t2, by omega, hlt2, heq, hval⟩

/-- Storing the surviving label at `x` and advancing by one (2D). -/
theorem me2Row_write (lab : Nat → Nat) (sx sy xe y : Nat)
    (f x pl2 pm2 pr2 : Nat) (out : Nat → Nat)
    (hx : x < xe) (hfuel : xe ≤ x + 1 + f)
    (hpm2 : pm2 = is_pure2 lab sx sy (x : Int) y)
    (hpr2 : pr2 = is_pure2 lab sx sy ((x : Int) + 1) y)
    (hw : erodeSpec2 lab sx sy x y = lab (x + sx * y))
    (IH : ∀ (x2 stale2 pl3 pm3 pr3 : Nat) (out2 : Nat → Nat),
      xe ≤ x2 + f → 1 ≤ stale2 →
      (stale2 = 1 → pm3 = is_pure2 lab sx sy ((x2 : Int) - 1) y ∧
        pr3 = is_pure2 lab sx sy (x2 : Int) y) →
      (stale2 = 2 → pr3 = is_pure2 lab sx sy ((x2 : Int) - 1) y) →
      (∀ t, x2 ≤ t → t < xe → out2 (t + sx * y) = 0 ∨
        out2 (t + sx * y) = erodeSpec2 lab sx sy t y) →
      (∀ t, x2 ≤ t → t < xe →
        (me2Row lab sx sy xe y f x2 stale2 pl3 pm3 pr3 out2).2 (t + sx * y) =
          erodeSpec2 lab sx sy t y) ∧
      (∀ i, (me2Row lab sx sy xe y f x2 stale2 pl3 pm3 pr3 out2).2 i = out2 i ∨
        ∃ t, x2 ≤ t ∧ t < xe ∧ i = t + sx * y ∧
          (me2Row lab sx sy xe y f x2 stale2 pl3 pm3 pr3 out2).2 i =
            erodeSpec2 lab sx sy t y))
    (hpre : ∀ t, x ≤ t → t < xe → out (t + sx * y) = 0 ∨
      out (t + sx * y) = erodeSpec2 lab sx sy t y) :
    (∀ t, x ≤ t → t < xe →
      (me2Row lab sx sy xe y f (x + 1) 1 pl2 pm2 pr2
        (upd out (x + sx * y) (lab (x + sx * y)))).2 (t + sx * y) =
        erodeSpec2 lab sx sy t y) ∧
    (∀ i, (me2Row lab sx sy xe y f (x + 1) 1 pl2 pm2 pr2
        (upd out (x + sx * y) (lab (x + sx * y)))).2 i = out i ∨
      ∃ t, x ≤ t ∧ t < xe ∧ i = t + sx * y ∧
        (me2Row lab sx sy xe y f (x + 1) 1 pl2 pm2 pr2
          (upd out (x + sx * y) (lab (x + sx * y)))).2 i =
          erodeSpec2 lab sx sy t y) := by
  have hcast1 : ((x + 1 : Nat) : Int) - 1 = (x : Int) := by omega
  have hcast2 : ((x + 1 : Nat) : Int) = (x : Int) + 1 := by omega
  obtain ⟨ihA, ihB⟩ := IH (x + 1) 1 pl2 pm2 pr2
    (upd out (x + sx * y) (lab (x + sx * y))) (by omega) (by omega)
    (fun _ => ⟨by rw [hcast1]; exact hpm2, by rw [hcast2]; exact hpr2⟩)
    (fun h2 => absurd h2 (by omega))
    (fun t ht hlt => by
      rw [upd_ne _ _ _ _ (by omega)]
      exact hpre t (by omega) hlt)
  constructor
  · intro t ht hlt
    by_cases htk : x + 1 ≤ t
    · exact ihA t htk hlt
    · have hteq : t = x := by omega
      subst hteq
      rcases ihB (t + sx * y) with hB | ⟨t2, ht2, hlt2, heq, hval⟩
      · rw [hB, upd_self, hw]
      · omega
  · intro i
    rcases ihB i with hB | ⟨t2, ht2, hlt2, heq, hval⟩
    · by_cases hieq : i = x + sx * y
      · subst hieq
        exact Or.inr ⟨x, le_refl _, hx, rfl, by rw [hB, upd_self, hw]⟩
      · exact Or.inl (hB.trans (upd_ne _ _ _ _ hieq))
    · exact Or.inr ⟨t2, by omega, hlt2, heq, hval⟩

/-- Dispatching one 2D erode iteration through `meTail`. -/
theorem me2Row_tail (lab : Nat → Nat) (sx sy xe y : Nat)
    (f x PL PM PR : Nat) (out : Nat → Nat)
    (hx : x < xe) (hfuel : xe ≤ x + 1 + f)
    (hlab : lab (x + sx * y) ≠ 0)
    (hPL : PL = is_pure2 lab sx sy ((x : Int) - 1) y)
    (hPM : PM = is_pure2 lab sx sy (x : Int) y)
    (hPR : PR = is_pure2 lab sx sy ((x : Int) + 1) y)
    (IH : ∀ (x2 stale2 pl3 pm3 pr3 : Nat) (out2 : Nat → Nat),
      xe ≤ x2 + f → 1 ≤ stale2 →
      (stale2 = 1 → pm3 = is_pure2 lab sx sy ((x2 : Int) - 1) y ∧
        pr3 = is_pure2 lab sx sy (x2 : Int) y) →
      (stale2 = 2 → pr3 = is_pure2 lab sx sy ((x2 : Int) - 1) y) →
      (∀ t, x2 ≤ t → t < xe → out2 (t + sx * y) = 0 ∨
        out2 (t + sx * y) = erodeSpec2 lab sx sy t y) →
      (∀ t, x2 ≤ t → t < xe →
        (me2Row lab sx sy xe y f x2 stale2 pl3 pm3 pr3 out2).2 (t + sx * y) =
          erodeSpec2 lab sx sy t y) ∧
      (∀ i, (me2Row lab sx sy xe y f x2 stale2 pl3 pm3 pr3 out2).2 i = out2 i ∨
        ∃ t, x2 ≤ t ∧ t < xe ∧ i = t + sx * y ∧
          (me2Row lab sx sy xe y f x2 stale2 pl3 pm3 pr3 out2).2 i =
            erodeSpec2 lab sx sy t y))
    (hpre : ∀ t, x ≤ t → t < xe → out (t + sx * y) = 0 ∨
      out (t + sx * y) = erodeSpec2 lab sx sy t y) :
    (∀ t, x ≤ t → t < xe →
      (me2Row lab sx sy xe y f
        (x + (meTail lab (x + sx * y) PL PM PR out).2.1)
        (meTail lab (x + sx * y) PL PM PR out).2.2 PL PM PR
        (meTail lab (x + sx * y) PL PM PR out).1).2 (t + sx * y) =
        erodeSpec2 lab sx sy t y) ∧
    (∀ i, (me2Row lab sx sy xe y f
        (x + (meTail lab (x + sx * y) PL PM PR out).2.1)
        (meTail lab (x + sx * y) PL PM PR out).2.2 PL PM PR
        (meTail lab (x + sx * y) PL PM PR out).1).2 i = out i ∨
      ∃ t, x ≤ t ∧ t < xe ∧ i = t + sx * y ∧
        (me2Row lab sx sy xe y f
          (x + (meTail lab (x + sx * y) PL PM PR out).2.1)
          (meTail lab (x + sx * y) PL PM PR out).2.2 PL PM PR
          (meTail lab (x + sx * y) PL PM PR out).1).2 i =
          erodeSpec2 lab sx sy t y) := by
  by_cases hPR0 : PR = 0
  · have hT : meTail lab (x + sx * y) PL PM PR out = (out, 3, 3) := by
      unfold meTail
      rw [if_pos hPR0]
    rw [hT]
    have hp0 : is_pure2 lab sx sy ((x : Int) + 1) y = 0 := by
      rw [← hPR]
      exact hPR0
    exact me2Row_skip lab sx sy xe y f x 3 3 PL PM PR out hx hfuel (by omega) (by omega)
      (erode_skip3_specs2 lab sx sy x y hp0) IH hpre
  · by_cases hPM0 : PM = 0
    · have hT : meTail lab (x + sx * y) PL PM PR out = (out, 2, 2) := by
        unfold meTail
        rw [if_neg hPR0, if_pos hPM0]
      rw [hT]
      have hp0 : is_pure2 lab sx sy (x : Int) y = 0 := by
        rw [← hPM]
        exact hPM0
      have hz0 := erodeSpec2_zero_of_col lab sx sy x y ((x : Int))
        (Or.inr (Or.inl rfl)) hp0
      have hz1 := erodeSpec2_zero_of_col lab sx sy (x + 1) y ((x : Int))
        (Or.inl (by omega)) hp0
      exact me2Row_skip2 lab sx sy xe y f x PL PM PR out hx hfuel hPR hz0 hz1 IH hpre
    · by_cases hcond : PL = PM ∧ PM = PR
      · have hT : meTail lab (x + sx * y) PL PM PR out =
            (upd out (x + sx * y) (lab (x + sx * y)), 1, 1) := by
          unfold meTail
          rw [if_neg hPR0, if_neg hPM0, if_pos hcond]
        rw [hT]
        have hMne : is_pure2 lab sx sy (x : Int) y ≠ 0 := by
          rw [← hPM]
          exact hPM0
        have hRne : is_pure2 lab sx sy ((x : Int) + 1) y ≠ 0 := by
          rw [← hPR]
          exact hPR0
        have hbr := is_pure2_bounds lab sx sy ((x : Int) + 1) y hRne
        have hLne : is_pure2 lab sx sy ((x : Int) - 1) y ≠ 0 := by
          rw [← hPL, hcond.1]
          exact hPM0
        have hbl := is_pure2_bounds lab sx sy ((x : Int) - 1) y hLne
        have hx1 : 1 ≤ x := by omega
        have hx2 : x + 1 < sx := by omega
        have hMval := is_pure2_ne_zero_val lab sx sy (x : Int) y hMne
        rw [Int.toNat_natCast] at hMval
        have h1 : is_pure2 lab sx sy ((x : Int) - 1) y = lab (x + sx * y) := by
          rw [← hPL, hcond.1, hPM]
          exact hMval
        have h3 : is_pure2 lab sx sy ((x : Int) + 1) y = lab (x + sx * y) := by
          rw [← hPR, ← hcond.2, hPM]
          exact hMval
        have hw := erode_pures_spec2 lab sx sy x y hx1 hx2 h1 hMval h3 hlab
        exact me2Row_write lab sx sy xe y f x PL PM PR out hx hfuel hPM hPR hw IH hpre
      · have hT : meTail lab (x + sx * y) PL PM PR out = (out, 1, 1) := by
          unfold meTail
          rw [if_neg hPR0, if_neg hPM0, if_neg hcond]
        rw [hT]
        have hs0 : erodeSpec2 lab sx sy x y = 0 := by
          by_contra hne
          obtain ⟨-, -, -, -, -, hpl, hpm, hpr⟩ := erodeSpec2_pures lab sx sy x y hne
          exact hcond ⟨by rw [hPL, hPM, hpl, hpm], by rw [hPM, hPR, hpm, hpr]⟩
        exact me2Row_nowrite lab sx sy xe y f x PL PM PR out hx hfuel hPM hPR hs0 IH hpre

/-- One resolved iteration of the 2D erode row. -/
theorem me2Row_resolve (lab : Nat → Nat) (sx sy xe y : Nat)
    (f x stale pl pm pr : Nat) (out : Nat → Nat)
    (hx : x < xe) (hfuel : xe ≤ x + 1 + f) (hst : 1 ≤ stale)
    (hs1 : stale = 1 → pm = is_pure2 lab sx sy ((x : Int) - 1) y ∧
      pr = is_pure2 lab sx sy (x : Int) y)
    (hs2 : stale = 2 → pr = is_pure2 lab sx sy ((x : Int) - 1) y)
    (hlab : lab (x + sx * y) ≠ 0)
    (IH : ∀ (x2 stale2 pl3 pm3 pr3 : Nat) (out2 : Nat → Nat),
      xe ≤ x2 + f → 1 ≤ stale2 →
      (stale2 = 1 → pm3 = is_pure2 lab sx sy ((x2 : Int) - 1) y ∧
        pr3 = is_pure2 lab sx sy (x2 : Int) y) →
      (stale2 = 2 → pr3 = is_pure2 lab sx sy ((x2 : Int) - 1) y) →
      (∀ t, x2 ≤ t → t < xe → out2 (t + sx * y) = 0 ∨
        out2 (t + sx * y) = erodeSpec2 lab sx sy t y) →
      (∀ t, x2 ≤ t → t < xe →
        (me2Row lab sx sy xe y f x2 stale2 pl3 pm3 pr3 out2).2 (t + sx * y) =
          erodeSpec2 lab sx sy t y) ∧
      (∀ i, (me2Row lab sx sy xe y f x2 stale2 pl3 pm3 pr3 out2).2 i = out2 i ∨
        ∃ t, x2 ≤ t ∧ t < xe ∧ i = t + sx * y ∧
          (me2Row lab sx sy xe y f x2 stale2 pl3 pm3 pr3 out2).2 i =
            erodeSpec2 lab sx sy t y))
    (hpre : ∀ t, x ≤ t → t < xe → out (t + sx * y) = 0 ∨
      out (t + sx * y) = erodeSpec2 lab sx sy t y)
    (res : (Nat × Nat × Nat) × (Nat → Nat))
    (hres : res =
      if stale = 1 then
        me2Row lab sx sy xe y f
          (x + (meTail lab (x + sx * y) pm pr
            (is_pure2 lab sx sy ((x : Int) + 1) y) out).2.1)
          (meTail lab (x + sx * y) pm pr
            (is_pure2 lab sx sy ((x : Int) + 1) y) out).2.2
          pm pr (is_pure2 lab sx sy ((x : Int) + 1) y)
          (meTail lab (x + sx * y) pm pr
            (is_pure2 lab sx sy ((x : Int) + 1) y) out).1
      else if 3 ≤ stale then
        if is_pure2 lab sx sy ((x : Int) + 1) y = 0 then
          me2Row lab sx sy xe y f (x + 3) 3 pl pm
            (is_pure2 lab sx sy ((x : Int) + 1) y) out
        else if is_pure2 lab sx sy (x : Int) y = 0 then
          me2Row lab sx sy xe y f (x + 2) 2 pl
            (is_pure2 lab sx sy (x : Int) y)
            (is_pure2 lab sx sy ((x : Int) + 1) y) out
        else
          me2Row lab sx sy xe y f
            (x + (meTail lab (x + sx * y)
              (is_pure2 lab sx sy ((x : Int) - 1) y)
              (is_pure2 lab sx sy (x : Int) y)
              (is_pure2 lab sx sy ((x : Int) + 1) y) out).2.1)
            (meTail lab (x + sx * y)
              (is_pure2 lab sx sy ((x : Int) - 1) y)
              (is_pure2 lab sx sy (x : Int) y)
              (is_pure2 lab sx sy ((x : Int) + 1) y) out).2.2
            (is_pure2 lab sx sy ((x : Int) - 1) y)
            (is_pure2 lab sx sy (x : Int) y)
            (is_pure2 lab sx sy ((x : Int) + 1) y)
            (meTail lab (x + sx * y)
              (is_pure2 lab sx sy ((x : Int) - 1) y)
              (is_pure2 lab sx sy (x : Int) y)
              (is_pure2 lab sx sy ((x : Int) + 1) y) out).1
      else if stale = 2 then
        if is_pure2 lab sx sy ((x : Int) + 1) y = 0 then
          me2Row lab sx sy xe y f (x + 3) 3 pr pm
            (is_pure2 lab sx sy ((x : Int) + 1) y) out
        else
          me2Row lab sx sy xe y f
            (x + (meTail lab (x + sx * y) pr
              (is_pure2 lab sx sy (x : Int) y)
              (is_pure2 lab sx sy ((x : Int) + 1) y) out).2.1)
            (meTail lab (x + sx * y) pr
              (is_pure2 lab sx sy (x : Int) y)
              (is_pure2 lab sx sy ((x : Int) + 1) y) out).2.2
            pr (is_pure2 lab sx sy (x : Int) y)
            (is_pure2 lab sx sy ((x : Int) + 1) y)
            (meTail lab (x + sx * y) pr
              (is_pure2 lab sx sy (x : Int) y)
              (is_pure2 lab sx sy ((x : Int) + 1) y) out).1
      else
        me2Row lab sx sy xe y f
          (x + (meTail lab (x + sx * y) pl pm pr out).2.1)
          (meTail lab (x + sx * y) pl pm pr out).2.2 pl pm pr
          (meTail lab (x + sx * y) pl pm pr out).1) :
    (∀ t, x ≤ t → t < xe →
      res.2 (t + sx * y) = erodeSpec2 lab sx sy t y) ∧
    (∀ i, res.2 i = out i ∨
      ∃ t, x ≤ t ∧ t < xe ∧ i = t + sx * y ∧
        res.2 i = erodeSpec2 lab sx sy t y) := by
  subst hres
  rcases (show stale = 1 ∨ stale = 2 ∨ 3 ≤ stale by omega) with hst1 | hst2 | hst3
  · obtain ⟨hsm, hsr⟩ := hs1 hst1
    rw [if_pos hst1]
    exact me2Row_tail lab sx sy xe y f x pm pr
      (is_pure2 lab sx sy ((x : Int) + 1) y) out hx hfuel hlab hsm hsr rfl IH hpre
  · rw [if_neg (show ¬(stale = 1) by omega), if_neg (show ¬(3 ≤ stale) by omega),
      if_pos hst2]
    by_cases hp10 : is_pure2 lab sx sy ((x : Int) + 1) y = 0
    · rw [if_pos hp10]
      exact me2Row_skip lab sx sy xe y f x 3 3 pr pm
        (is_pure2 lab sx sy ((x : Int) + 1) y) out hx hfuel (by omega) (by omega)
        (erode_skip3_specs2 lab sx sy x y hp10) IH hpre
    · rw [if_neg hp10]
      exact me2Row_tail lab sx sy xe y f x pr
        (is_pure2 lab sx sy (x : Int) y)
        (is_pure2 lab sx sy ((x : Int) + 1) y) out hx hfuel hlab
        (hs2 hst2) rfl rfl IH hpre
  · rw [if_neg (show ¬(stale = 1) by omega), if_pos hst3]
    by_cases hp10 : is_pure2 lab sx sy ((x : Int) + 1) y = 0
    · rw [if_pos hp10]
      exact me2Row_skip lab sx sy xe y f x 3 3 pl pm
        (is_pure2 lab sx sy ((x : Int) + 1) y) out hx hfuel (by omega) (by omega)
        (erode_skip3_specs2 lab sx sy x y hp10) IH hpre
    · rw [if_neg hp10]
      by_cases hpm0 : is_pure2 lab sx sy (x : Int) y = 0
      · rw [if_pos hpm0]
        have hz0 := erodeSpec2_zero_of_col lab sx sy x y ((x : Int))
          (Or.inr (Or.inl rfl)) hpm0
        have hz1 := erodeSpec2_zero_of_col lab sx sy (x + 1) y ((x : Int))
          (Or.inl (by omega)) hpm0
        exact me2Row_skip2 lab sx sy xe y f x pl
          (is_pure2 lab sx sy (x : Int) y)
          (is_pure2 lab sx sy ((x : Int) + 1) y) out hx hfuel rfl hz0 hz1 IH hpre
      · rw [if_neg hpm0]
        exact me2Row_tail lab sx sy xe y f x
          (is_pure2 lab sx sy ((x : Int) - 1) y)
          (is_pure2 lab sx sy (x : Int) y)
          (is_pure2 lab sx sy ((x : Int) + 1) y) out hx hfuel hlab
          rfl rfl rfl IH hpre

/-- Full correctness of one 2D erode row. -/
theorem me2Row_spec (lab : Nat → Nat) (sx sy xe y : Nat)
    (hy : y < sy) (hxe : xe ≤ sx) :
    ∀ (fuel x stale pl pm pr : Nat) (out : Nat → Nat),
      xe ≤ x + fuel → 1 ≤ stale →
      (stale = 1 → pm = is_pure2 lab sx sy ((x : Int) - 1) y ∧
        pr = is_pure2 lab sx sy (x : Int) y) →
      (stale = 2 → pr = is_pure2 lab sx sy ((x : Int) - 1) y) →
      (∀ t, x ≤ t → t < xe → out (t + sx * y) = 0 ∨
        out (t + sx * y) = erodeSpec2 lab sx sy t y) →
      (∀ t, x ≤ t → t < xe →
        (me2Row lab sx sy xe y fuel x stale pl pm pr out).2 (t + sx * y) =
          erodeSpec2 lab sx sy t y) ∧
      (∀ i, (me2Row lab sx sy xe y fuel x stale pl pm pr out).2 i = out i ∨
        ∃ t, x ≤ t ∧ t < xe ∧ i = t + sx * y ∧
          (me2Row lab sx sy xe y fuel x stale pl pm pr out).2 i =
            erodeSpec2 lab sx sy t y) := by
  intro fuel
  induction fuel with
  | zero =>
    intro x stale pl pm pr out hfuel hst hs1 hs2 hpre
    exact ⟨fun t ht hlt => absurd hlt (by omega), fun i => Or.inl rfl⟩
  | succ f ih =>
    intro x stale pl pm pr out hfuel hst hs1 hs2 hpre
    by_cases hx : x < xe
    · rw [me2Row, if_pos hx]
      dsimp only []
      by_cases hlab0 : lab (x + sx * y) = 0
      · rw [if_pos hlab0]
        have hp0 : is_pure2 lab sx sy (x : Int) y = 0 :=
          is_pure2_zero_of_lab lab sx sy x y hlab0
        have hs : ∀ j, j < 2 → erodeSpec2 lab sx sy (x + j) y = 0 := by
          intro j hj
          rcases (show j = 0 ∨ j = 1 by omega) with rfl | rfl
          · rw [Nat.add_zero]
            exact erodeSpec2_zero_of_lab lab sx sy x y hlab0
          · exact erodeSpec2_zero_of_col lab sx sy (x + 1) y ((x : Int))
              (Or.inl (by omega)) hp0
        exact me2Row_skip lab sx sy xe y f x 2 (stale + 2) pl pm pr out
          hx (by omega) (by omega) (by omega) hs ih hpre
      · rw [if_neg hlab0]
        exact me2Row_resolve lab sx sy xe y f x stale pl pm pr out
          hx (by omega) hst hs1 hs2 hlab0 ih hpre _ rfl
    · rw [me2Row, if_neg hx]
      exact ⟨fun t ht hlt => absurd hlt (by omega), fun i => Or.inl rfl⟩

/-- Correctness of the 2D erode `y` loop. -/
theorem me2YLoop_spec (lab : Nat → Nat) (sx sy xs xe : Nat) (hxe : xe ≤ sx) :
    ∀ (fy y : Nat) (st : (Nat × Nat × Nat) × (Nat → Nat)),
      y + fy ≤ sy →
      (∀ t u, xs ≤ t → t < xe → y ≤ u → u < y + fy →
        st.2 (t + sx * u) = 0 ∨ st.2 (t + sx * u) = erodeSpec2 lab sx sy t u) →
      (∀ t u, xs ≤ t → t < xe → y ≤ u → u < y + fy →
        (me2YLoop lab sx sy xs xe fy y st).2 (t + sx * u) =
          erodeSpec2 lab sx sy t u) ∧
      (∀ i, (me2YLoop lab sx sy xs xe fy y st).2 i = st.2 i ∨
        ∃ t u, xs ≤ t ∧ t < xe ∧ y ≤ u ∧ u < y + fy ∧ i = t + sx * u ∧
          (me2YLoop lab sx sy xs xe fy y st).2 i = erodeSpec2 lab sx sy t u) := by
  intro fy
  induction fy with
  | zero =>
    intro y st hbound hpre
    exact ⟨fun t u _ _ _ h => absurd h (by omega), fun i => Or.inl rfl⟩
  | succ f ih =>
    intro y st hbound hpre
    simp only [me2YLoop]
    obtain ⟨rowA, rowB⟩ := me2Row_spec lab sx sy xe y (by omega) hxe
      (xe - xs) xs 3 st.1.1 st.1.2.1 st.1.2.2 st.2 (by omega) (by omega)
      (fun h1 => absurd h1 (by omega)) (fun h2 => absurd h2 (by omega))
      (fun t ht hlt => hpre t y ht hlt (le_refl _) (by omega))
    obtain ⟨ihA, ihB⟩ := ih (y + 1)
      (me2Row lab sx sy xe y (xe - xs) xs 3 st.1.1 st.1.2.1 st.1.2.2 st.2)
      (by omega)
      (fun t u ht hlt hu1 hu2 => by
        rcases rowB (t + sx * u) with hB | ⟨t2, ht2, hlt2, heq, hval⟩
        · rw [hB]
          exact hpre t u ht hlt (by omega) (by omega)
        · obtain ⟨e1, e2⟩ := enc2_inj (show t < sx by omega)
            (show t2 < sx by omega) heq
          omega)
    constructor
    · intro t u ht hlt hu1 hu2
      by_cases huy : u = y
      · subst huy
        rcases ihB (t + sx * u) with hB | ⟨t2, u2, ht2, hlt2, hu3, hu4, heq, hval⟩
        · rw [hB]
          exact rowA t ht hlt
        · obtain ⟨e1, e2⟩ := enc2_inj (show t < sx by omega)
            (show t2 < sx by omega) heq
          omega
      · exact ihA t u ht hlt (by omega) (by omega)
    · intro i
      rcases ihB i with hB | ⟨t2, u2, ht2, hlt2, hu3, hu4, heq, hval⟩
      · rcases rowB i with hB2 | ⟨t2, ht2, hlt2, heq, hval⟩
        · exact Or.inl (hB.trans hB2)
        · exact Or.inr ⟨t2, y, ht2, hlt2, le_refl _, by omega, heq, hB.trans hval⟩
      · exact Or.inr ⟨t2, u2, ht2, hlt2, by omega, by omega, heq, hval⟩

/-- Correctness of the 2D erode `process_block`. -/
theorem me2Block_spec (lab : Nat → Nat) (sx sy : Nat)
    (xs xe ys ye zs ze : Nat) (out : Nat → Nat)
    (hxe : xe ≤ sx) (hye : ye ≤ sy) (hys : ys ≤ sy)
    (hpre : ∀ t u, t < sx → u < sy → out (t + sx * u) = 0 ∨
      out (t + sx * u) = erodeSpec2 lab sx sy t u) :
    (∀ t u, xs ≤ t → t < xe → ys ≤ u → u < ye →
      me2Block lab sx sy xs xe ys ye zs ze out (t + sx * u) =
        erodeSpec2 lab sx sy t u) ∧
    (∀ i, me2Block lab sx sy xs xe ys ye zs ze out i = out i ∨
      ∃ t u, xs ≤ t ∧ t < xe ∧ ys ≤ u ∧ u < ye ∧ i = t + sx * u ∧
        me2Block lab sx sy xs xe ys ye zs ze out i = erodeSpec2 lab sx sy t u) := by
  obtain ⟨lA, lB⟩ := me2YLoop_spec lab sx sy xs xe hxe (ye - ys) ys
    ((0, 0, 0), out) (by omega)
    (fun t u ht hlt hu1 hu2 => hpre t u (by omega) (by omega))
  constructor
  · intro t u ht hlt hu1 hu2
    exact lA t u ht hlt hu1 (by omega)
  · intro i
    rcases lB i with hB | ⟨t2, u2, ht2, hlt2, hu3, hu4, heq, hval⟩
    · exact Or.inl hB
    · exact Or.inr ⟨t2, u2, ht2, hlt2, hu3, by omega, heq, hval⟩

/-- Correctness of the block fold for 2D erosion. -/
theorem runBlocks_me2_spec (lab : Nat → Nat) (sx sy : Nat) :
    ∀ (blocks : List (Nat × Nat × Nat × Nat × Nat × Nat)) (out : Nat → Nat),
      (∀ b ∈ blocks, b.2.1 ≤ sx ∧ b.2.2.2.1 ≤ sy ∧ b.2.2.1 ≤ sy) →
      (∀ t u, t < sx → u < sy → out (t + sx * u) = 0 ∨
        out (t + sx * u) = erodeSpec2 lab sx sy t u) →
      (∀ t u, t < sx → u < sy →
        runBlocks (fun axs axe ays aye azs aze o =>
          me2Block lab sx sy axs axe ays aye azs aze o) blocks out (t + sx * u) =
            out (t + sx * u) ∨
        runBlocks (fun axs axe ays aye azs aze o =>
          me2Block lab sx sy axs axe ays aye azs aze o) blocks out (t + sx * u) =
            erodeSpec2 lab sx sy t u) ∧
      (∀ b ∈ blocks, ∀ t u, b.1 ≤ t → t < b.2.1 → b.2.2.1 ≤ u → u < b.2.2.2.1 →
        runBlocks (fun axs axe ays aye azs aze o =>
          me2Block lab sx sy axs axe ays aye azs aze o) blocks out (t + sx * u) =
          erodeSpec2 lab sx sy t u) := by
  intro blocks
  induction blocks with
  | nil =>
    intro out hWF hpre
    exact ⟨fun t u _ _ => Or.inl rfl, fun b hb => absurd hb (List.not_mem_nil b)⟩
  | cons b bs ih =>
    intro out hWF hpre
    obtain ⟨hbxe, hbye, hbys⟩ := hWF b (List.mem_cons_self b bs)
    obtain ⟨blA, blB⟩ := me2Block_spec lab sx sy b.1 b.2.1 b.2.2.1 b.2.2.2.1
      b.2.2.2.2.1 b.2.2.2.2.2 out hbxe hbye hbys hpre
    have hpre1 : ∀ t u, t < sx → u < sy →
        me2Block lab sx sy b.1 b.2.1 b.2.2.1 b.2.2.2.1 b.2.2.2.2.1 b.2.2.2.2.2
          out (t + sx * u) = 0 ∨
        me2Block lab sx sy b.1 b.2.1 b.2.2.1 b.2.2.2.1 b.2.2.2.2.1 b.2.2.2.2.2
          out (t + sx * u) = erodeSpec2 lab sx sy t u := by
      intro t u htx huy
      rcases blB (t + sx * u) with hB | ⟨t2, u2, ht2, hlt2, hu3, hu4, heq, hval⟩
      · rw [hB]
        exact hpre t u htx huy
      · obtain ⟨e1, e2⟩ := enc2_inj htx (show t2 < sx by omega) heq
        right
        rw [hval, ← e1, ← e2]
    obtain ⟨ihA, ihB⟩ := ih
      (me2Block lab sx sy b.1 b.2.1 b.2.2.1 b.2.2.2.1 b.2.2.2.2.1 b.2.2.2.2.2 out)
      (fun b2 hb2 => hWF b2 (List.mem_cons_of_mem b hb2)) hpre1
    have hrun : runBlocks (fun axs axe ays aye azs aze o =>
        me2Block lab sx sy axs axe ays aye azs aze o) (b :: bs) out =
        runBlocks (fun axs axe ays aye azs aze o =>
          me2Block lab sx sy axs axe ays aye azs aze o) bs
          (me2Block lab sx sy b.1 b.2.1 b.2.2.1 b.2.2.2.1 b.2.2.2.2.1
            b.2.2.2.2.2 out) := rfl
    rw [hrun]
    constructor
    · intro t u htx huy
      rcases ihA t u htx huy with hA | hA
      · rcases blB (t + sx * u) with hB | ⟨t2, u2, ht2, hlt2, hu3, hu4, heq, hval⟩
        · exact Or.inl (hA.trans hB)
        · obtain ⟨e1, e2⟩ := enc2_inj htx (show t2 < sx by omega) heq
          right
          rw [hA, hval, ← e1, ← e2]
      · exact Or.inr hA
    · intro b2 hb2 t u ht1 ht2 hu1 hu2
      rcases List.mem_cons.mp hb2 with rfl | hmem
      · have htx : t < sx := by omega
        have huy : u < sy := by omega
        rcases ihA t u htx huy with hA | hA
        · rw [hA]
          exact blA t u ht1 ht2 hu1 hu2
        · exact hA
      · exact ihB b2 hmem t u ht1 ht2 hu1 hu2

/-- The 2D multilabel erosion entry point computes the border-trimmed
per-voxel erosion contract at every in-bounds voxel. -/
theorem multilabel_erode2_spec (lab : Nat → Nat) (sx sy x y : Nat)
    (hx : x < sx) (hy : y < sy) :
    multilabel_erode2 lab (fun _ => 0) sx sy (x + sx * y) =
      erodeSpec2 lab sx sy x y := by
  unfold multilabel_erode2
  have hbs : 0 < blockSize 1 := blockSize_pos 1
  have hsx1 : 1 ≤ sx := by omega
  have hsy1 : 1 ≤ sy := by omega
  have hWF : ∀ b ∈ blockList sx sy 1 1, b.2.1 ≤ sx ∧ b.2.2.2.1 ≤ sy ∧
      b.2.2.1 ≤ sy := by
    intro b hb
    unfold blockList at hb
    rcases List.mem_flatMap.mp hb with ⟨gz, hgz, hb2⟩
    rcases List.mem_flatMap.mp hb2 with ⟨gy, hgy, hb3⟩
    rcases List.mem_map.mp hb3 with ⟨gx, hgx, rfl⟩
    have hgy2 := grid_start_le hbs (List.mem_range.mp hgy)
    simp only [blockBounds]
    rw [u64sub_one sx hsx1, u64sub_one sy hsy1]
    have hm1 := min_le_right ((gx + 1) * blockSize 1) (sx - 1)
    have hm2 := min_le_right ((gy + 1) * blockSize 1) (sy - 1)
    exact ⟨by omega, by omega, by omega⟩
  have hpre : ∀ t u, t < sx → u < sy → (fun _ => (0 : Nat)) (t + sx * u) = 0 ∨
      (fun _ => (0 : Nat)) (t + sx * u) = erodeSpec2 lab sx sy t u :=
    fun t u _ _ => Or.inl rfl
  obtain ⟨hI, hcov⟩ := runBlocks_me2_spec lab sx sy (blockList sx sy 1 1)
    (fun _ => 0) hWF hpre
  by_cases hint : 1 ≤ x ∧ x + 1 < sx ∧ 1 ≤ y ∧ y + 1 < sy
  · obtain ⟨hgx, hgx1, hgx2⟩ := grid_cover hbs hx
    obtain ⟨hgy, hgy1, hgy2⟩ := grid_cover hbs hy
    have hgz : 0 < gridDim 1 (blockSize 1) := by
      have h := (grid_cover hbs (show (0 : Nat) < 1 by omega)).1
      simpa using h
    have hmem := blockBounds_mem sx sy 1 1 (x / blockSize 1) (y / blockSize 1) 0
      hgx hgy hgz
    have hb := hcov _ hmem x y
    simp only [blockBounds] at hb
    rw [u64sub_one sx hsx1, u64sub_one sy hsy1] at hb
    exact hb (by omega) (by omega) (by omega) (by omega)
  · rcases hI x y hx hy with h0 | hsp
    · rw [h0, erodeSpec2_zero_of_border lab sx sy x y hint]
    · exact hsp

end Fastmorph

namespace FastmorphClaims

open Fastmorph FastmorphTests

/-- C1: evidence of the code bug.  On the 3×3×3 volume `lab27bg` with
`background_only = true`, the engine stores the mode 5 at index 14 (voxel
`(2,1,1)`) although that voxel carries the nonzero label 3: the mode
lookahead (`ct >= 23`) emits `output[loc+1] = mode_label` and skips the
next voxel without ever applying the `background_only` copy, so the
claimed "copying a nonzero voxel unchanged when background_only=true" is
violated. -/
theorem claim_C1_bug_eval :
    multilabel_dilate3 lab27bg zeros 3 3 3 true 14 = 5 ∧ lab27bg 14 = 3 ∧
      (14 : Nat) = 2 + 3 * (1 + 3 * 1) := by decide

set_option maxRecDepth 100000 in
/-- C5: evidence of the code bug.  On the 65×3×3 volume `labC5bg` with
`background_only = true`, the boundary voxel `(64,1,1)` (index 324)
receives 3 when the blocks execute in the driver's enqueue order (the
second block's copy lands last) but 5 when they execute in the opposite
order (the first block's cross-boundary mode-lookahead store lands last).
In the threaded driver the two stores race, so the output depends on the
schedule and hence on the worker count. -/
theorem claim_C5_bug_eval :
    multilabel_dilate3 labC5bg zeros 65 3 3 true 324 = 3 ∧
      runBlocks (fun axs axe ays aye azs aze o =>
          mdBlock labC5bg 65 3 3 true axs axe ays aye azs aze o)
        ((blockList 65 3 3 0).reverse) zeros 324 = 5 ∧
      ((blockList 65 3 3 0).reverse).Perm (blockList 65 3 3 0) :=
  ⟨by decide, by decide, List.reverse_perm _⟩

/-- C2: evidence of the code bug.  For the 1×1×1 u8 volume `[255]` the 3D
grayscale dilation's sentinel skip (`labels[loc] == MAX_LABEL` advances
without storing) leaves the pre-zeroed output at 0, although the
neighborhood maximum — and the sentinel the spec says the voxel receives —
is 255. -/
theorem claim_C2_bug_eval :
    grey_dilate3 lab255 zeros 1 1 1 0 255 0 = 0 ∧ lab255 0 = 255 ∧
      nbhdMax3 lab255 1 1 1 0 0 0 = 255 := by decide

/-- C3 counterexample: on the 3×3×3 volume uniformly filled with 5, the
corner voxel `(0,0,0)` is nonzero and every in-bounds stencil neighbor
equals 5, yet erosion leaves the corner 0 (the border shell is trimmed),
refuting the claimed iff. -/
theorem claim_C3_counterexample :
    multilabel_erode3 lab5s zeros 3 3 3 0 = 0 ∧ lab5s 0 = 5 ∧
      (nbhdVals3 lab5s 3 3 3 0 0 0).all (fun v => v = 5) = true := by decide

set_option maxRecDepth 10000 in
/-- C4 counterexample: for the 65×3×3 volume `labWide` the driver's first
dilate block is `[0,64)×[0,3)×[0,3)`, yet processing that block alone on a
pre-zeroed buffer stores label 1 at index `64 + 65·(1 + 3·1)`, which
encodes `x = 64 = xe` — a pair-emit store outside the block's own output
region. -/
theorem claim_C4_counterexample :
    blockList 65 3 3 0 = [(0, 64, 0, 3, 0, 3), (64, 65, 0, 3, 0, 3)] ∧
      mdBlock labWide 65 3 3 false 0 64 0 3 0 3 zeros (64 + 65 * (1 + 3 * 1)) = 1 ∧
      zeros (64 + 65 * (1 + 3 * 1)) = 0 := by
  refine ⟨by decide, ?_, rfl⟩
  decide

/-- C6: evidence of the code bug in `dilate_helper`.  On the 3×1×1 volume
`[1,2,2]` the engine returns `[1,2,2]` (the sorted neighborhood of voxel 1
is `[1,2,2]`, whose mode is 2), but `dilate_helper` returns `[1,1,2]`: its
scan omits the final-run comparison, so the trailing run of 2s is never
considered and the non-mode label 1 is reported. -/
theorem claim_C6_bug_eval :
    (List.range 3).map (multilabel_dilate3 lab122 zeros 3 1 1 false) = [1, 2, 2] ∧
      (List.range 3).map (dilate_helper lab122 zeros 3 1 1 false) = [1, 1, 2] ∧
      specMode [1, 2, 2] = 2 := by decide

/-- C7 counterexample: multilabel dilation of the 3×1×1 volume `[1,2,0]`
with `background_only = false` does not return `[1,1,1]`. -/
theorem claim_C7_counterexample :
    (List.range 3).map (multilabel_dilate3 lab120 zeros 3 1 1 false) ≠ [1, 1, 1] := by
  decide

/-- C7 (amended): the output is `[1,1,2]`, matching the per-voxel contract:
voxels 0 and 1 see the multiset `{1,2}` where the tie resolves to the
first-seen label 1, but voxel 2's neighborhood is only `{2}` (voxel 0 lies
outside its 3-voxel window), so it receives 2. -/
theorem claim_C7_amended_eval :
    (List.range 3).map (multilabel_dilate3 lab120 zeros 3 1 1 false) = [1, 1, 2] ∧
      (List.range 3).map (fun x => dilateSpec3 lab120 3 1 1 false x 0 0) = [1, 1, 2] ∧
      nbhd3 lab120 3 1 1 2 0 0 = [2] := by decide

/-- C8 counterexample: multilabel erosion of the 5×1×1 volume
`[0,1,1,1,0]` does not return `[0,0,1,0,0]`: every voxel of a 5×1×1
volume lies on the y (and z) border, so the border-trimming erosion
returns all zeros. -/
theorem claim_C8_counterexample :
    (List.range 5).map (multilabel_erode3 lab01110 zeros 5 1 1) ≠ [0, 0, 1, 0, 0] := by
  decide

/-- C8 (amended): on `[0,1,1,1,0]` (5×1×1) erosion returns all zeros,
while dilation, grayscale dilation and grayscale erosion (u8) return the
claimed `[1,1,1,1,1]`, `[1,1,1,1,1]` and `[0,0,1,0,0]`. -/
theorem claim_C8_amended_eval :
    (List.range 5).map (multilabel_erode3 lab01110 zeros 5 1 1) = [0, 0, 0, 0, 0] ∧
      (List.range 5).map (multilabel_dilate3 lab01110 zeros 5 1 1 false) = [1, 1, 1, 1, 1] ∧
      (List.range 5).map (grey_dilate3 lab01110 zeros 5 1 1 0 255) = [1, 1, 1, 1, 1] ∧
      (List.range 5).map (grey_erode3 lab01110 zeros 5 1 1 0 255) = [0, 0, 1, 0, 0] := by
  decide

/-- C9: evidence of the code bug.  For `sx = 0` the erosion driver's
`sx - offset` underflows (`u64sub 0 1 = 2^64 - 1`), so instead of an empty
traversal the driver enqueues the nonempty block `[1,64)×[1,2)×[1,2)` for
a 0×3×3 volume: work is enqueued and the erode rows read `labels`,
contrary to the claimed no-work guarantee. -/
theorem claim_C9_bug_eval :
    blockList 0 3 3 1 = [(1, 64, 1, 2, 1, 2)] ∧ u64sub 0 1 = 2 ^ 64 - 1 ∧ (1 : Nat) < 64 := by
  refine ⟨by decide, by decide, by decide⟩

/-- C10: with `background_only = false`, a voxel of the dilated output is
zero exactly when every in-bounds voxel of its 3×3×3 (3×3 in 2D)
neighborhood is zero; in particular the output is nonzero wherever some
neighborhood voxel is nonzero, which is what makes the cross-z fast-path
guard `output[loc - sxy] == 0` a sound test for an all-zero lower
neighborhood. -/
theorem claim_C10_zero_iff :
    (∀ (lab : Nat → Nat) (sx sy sz x y z : Nat), x < sx → y < sy → z < sz →
      (multilabel_dilate3 lab (fun _ => 0) sx sy sz false (x + sx * (y + sy * z)) = 0 ↔
        ∀ v ∈ nbhdVals3 lab sx sy sz x y z, v = 0)) ∧
    (∀ (lab : Nat → Nat) (sx sy x y : Nat), x < sx → y < sy →
      (multilabel_dilate2 lab (fun _ => 0) sx sy false (x + sx * y) = 0 ↔
        ∀ v ∈ nbhdVals2 lab sx sy x y, v = 0)) := by
  constructor
  · intro lab sx sy sz x y z hx hy hz
    rw [multilabel_dilate3_spec lab sx sy sz x y z hx hy hz,
      dilateSpec3_eq_zero_iff lab sx sy sz false x y z hx hy hz]
    exact nbhd3_nil_iff lab sx sy sz x y z
  · intro lab sx sy x y hx hy
    rw [multilabel_dilate2_spec lab sx sy x y hx hy,
      dilateSpec2_eq_zero_iff lab sx sy false x y hx hy]
    exact nbhd2_nil_iff lab sx sy x y

theorem claim_C10_witness :
    (2 : Nat) < 3 ∧
    (multilabel_dilate3 FastmorphTests.lab120 (fun _ => 0) 3 1 1 false
        (2 + 3 * (0 + 1 * 0)) = 0 ↔
      ∀ v ∈ nbhdVals3 FastmorphTests.lab120 3 1 1 2 0 0, v = 0) ∧
    (multilabel_dilate2 FastmorphTests.lab120 (fun _ => 0) 3 1 false (0 + 3 * 0) = 0 ↔
      ∀ v ∈ nbhdVals2 FastmorphTests.lab120 3 1 0 0, v = 0) :=
  ⟨by decide,
   claim_C10_zero_iff.1 FastmorphTests.lab120 3 1 1 2 0 0 (by decide) (by decide)
     (by decide),
   claim_C10_zero_iff.2 FastmorphTests.lab120 3 1 0 0 (by decide) (by decide)⟩

/-- C4 (amended): with a well-formed `x` range (`xe ≤ sx`), the 3D dilate
`process_block` never writes outside the extended region `mdExt`: its rows
with the `x` range widened by one voxel past `xe` (the pair-emit overhang)
but never past `sx`.  Every index outside that region keeps its previous
value. -/
theorem claim_C4_amended : ∀ (lab : Nat → Nat) (sx sy sz : Nat) (bg : Bool)
    (xs xe ys ye zs ze : Nat) (out : Nat → Nat) (i : Nat),
    xe ≤ sx → ¬ mdExt sx sy xs xe ys ye zs ze i →
    mdBlock lab sx sy sz bg xs xe ys ye zs ze out i = out i :=
  fun lab sx sy sz bg xs xe ys ye zs ze out i hxe hni =>
    mdBlock_frame lab sx sy sz bg xs xe ys ye zs ze out i hxe hni

theorem claim_C4_amended_witness :
    (3 : Nat) ≤ 3 ∧ ¬ mdExt 3 3 0 3 0 3 0 3 27 ∧
      mdBlock (fun _ => 1) 3 3 3 false 0 3 0 3 0 3 (fun _ => 7) 27 = 7 := by
  have hni : ¬ mdExt 3 3 0 3 0 3 0 3 27 := by
    rintro ⟨x2, y2, z2, h1, h2, h3, h4, h5, h6, h7⟩
    omega
  exact ⟨by omega, hni,
    claim_C4_amended (fun _ => 1) 3 3 3 false 0 3 0 3 0 3 (fun _ => 7) 27 (by omega) hni⟩

/-- C3 (amended): multilabel erosion computes the border-trimmed contract
at every in-bounds voxel of a zero-initialized output: the voxel keeps its
label iff it is nonzero, strictly interior (whole 3×3×3 / 3×3 stencil
in-bounds), and every stencil cell carries its label; otherwise — border
voxels included — the output is zero. -/
theorem claim_C3_amended :
    (∀ (lab : Nat → Nat) (sx sy sz x y z : Nat), x < sx → y < sy → z < sz →
      multilabel_erode3 lab (fun _ => 0) sx sy sz (x + sx * (y + sy * z)) =
        erodeSpec3 lab sx sy sz x y z) ∧
    (∀ (lab : Nat → Nat) (sx sy x y : Nat), x < sx → y < sy →
      multilabel_erode2 lab (fun _ => 0) sx sy (x + sx * y) =
        erodeSpec2 lab sx sy x y) :=
  ⟨fun lab sx sy sz x y z hx hy hz =>
      multilabel_erode3_spec lab sx sy sz x y z hx hy hz,
   fun lab sx sy x y hx hy => multilabel_erode2_spec lab sx sy x y hx hy⟩

theorem claim_C3_amended_witness :
    (1 : Nat) < 3 ∧
    multilabel_erode3 (fun _ => 5) (fun _ => 0) 3 3 3 (1 + 3 * (1 + 3 * 1)) =
      erodeSpec3 (fun _ => 5) 3 3 3 1 1 1 ∧
    multilabel_erode2 (fun _ => 5) (fun _ => 0) 3 3 (1 + 3 * 1) =
      erodeSpec2 (fun _ => 5) 3 3 1 1 :=
  ⟨by decide,
   claim_C3_amended.1 (fun _ => 5) 3 3 3 1 1 1 (by decide) (by decide) (by decide),
   claim_C3_amended.2 (fun _ => 5) 3 3 1 1 (by decide) (by decide)⟩

end FastmorphClaims
